import Mathlib

/-!
# Golden Fish: Medieval Labyrinth — level generator (`levels.js`)

A shallow embedding of the maze generation pipeline of `levels.js` and the
properties of it that the specification states.

Conventions of the embedding.

* A JavaScript grid (an array of `height` rows, each an array of `width`
  entries, made by `createGrid` and afterwards only changed by element writes)
  is a `Grid`: its rows as a list of lists together with the two dimensions.
  A read outside the grid gives the default value (JavaScript `undefined`, which
  is falsy) and a write outside the grid changes nothing.
* A closure with mutable captured state (`seededRandom`) is a state value that
  is passed explicitly; `RandomSource.sample` is one call of the closure.
* A `while` loop is a function that recurses on a fuel counter and returns the
  state it has reached when the loop condition fails or the fuel is used up.
  The fuel given by each caller is proved to suffice.
* JavaScript numbers that hold integers are `Nat` or `Int`. Numbers that hold
  fractions are `F64`, binary64 values with round-to-nearest-even.
-/

namespace Labyrinth

/-! ## Binary64 arithmetic -/

/-- A binary64 value: `fin m e` is the number `m * 2 ^ e`, `inf neg` an infinity,
`nan` not-a-number. The two zeros are not distinguished (the program never
divides by a computed value, so the sign of a zero is not observable). -/
inductive F64 where
  | fin (m : Int) (e : Int)
  | inf (neg : Bool)
  | nan
deriving Repr, DecidableEq

namespace F64

/-- Number of binary digits of `n`, counted by halving at most `fuel` times. -/
def bitLengthAux : Nat → Nat → Nat
  | 0, _ => 0
  | fuel + 1, n => if n = 0 then 0 else bitLengthAux fuel (n / 2) + 1

/-- Number of binary digits of `n`. -/
def bitLength (n : Nat) : Nat := bitLengthAux n n

/-- The binary64 value nearest to the exact number `m * 2 ^ e`, ties to even:
53 significant bits, least exponent `-1074`, overflow to an infinity. -/
def round (m : Int) (e : Int) : F64 :=
  let a := m.natAbs
  if a = 0 then fin 0 0 else
  let q : Int := max (e + (bitLength a : Int) - 53) (-1074)
  let s := (q - e).toNat
  let r := a / 2 ^ s
  let rest := a % 2 ^ s
  let r1 := if 2 ^ s < 2 * rest ∨ (2 * rest = 2 ^ s ∧ r % 2 = 1) then r + 1 else r
  let q1 : Int := e + (s : Int)
  if 1024 < (bitLength r1 : Int) + q1 then inf (decide (m < 0))
  else fin (if m < 0 then -(r1 : Int) else (r1 : Int)) q1

/-- The integer `n` as a binary64 value. -/
def ofInt (n : Int) : F64 := round n 0

/-- The integer `n` as a binary64 value. -/
def ofNat (n : Nat) : F64 := round (n : Int) 0

/-- The quotient `p / q` of two naturals as computed by the division of two
binary64 integers (exact quotient, rounded once); also the value of a decimal
literal `p / 10 ^ k`. -/
def ofRat (p q : Nat) : F64 :=
  if q = 0 then (if p = 0 then nan else inf false) else
  let s := 64 + bitLength q
  let n := p * 2 ^ s / q
  let sticky := if p * 2 ^ s % q = 0 then 0 else 1
  round ((2 * n + sticky : Nat) : Int) (-((s : Int) + 1))

/-- Unary minus. -/
def neg : F64 → F64
  | fin m e => fin (-m) e
  | inf b => inf (!b)
  | nan => nan

/-- Binary64 addition. -/
def add : F64 → F64 → F64
  | fin m1 e1, fin m2 e2 =>
    let e := min e1 e2
    round (m1 * ((2 ^ (e1 - e).toNat : Nat) : Int) + m2 * ((2 ^ (e2 - e).toNat : Nat) : Int)) e
  | fin _ _, inf b => inf b
  | inf a, fin _ _ => inf a
  | inf a, inf b => if a = b then inf a else nan
  | nan, _ => nan
  | _, nan => nan

/-- Binary64 subtraction. -/
def sub (a b : F64) : F64 := add a (neg b)

/-- Binary64 multiplication. -/
def mul : F64 → F64 → F64
  | fin m1 e1, fin m2 e2 => round (m1 * m2) (e1 + e2)
  | fin m _, inf b => if m = 0 then nan else inf (xor (decide (m < 0)) b)
  | inf a, fin m _ => if m = 0 then nan else inf (xor a (decide (m < 0)))
  | inf a, inf b => inf (xor a b)
  | nan, _ => nan
  | _, nan => nan

/-- The comparison `a < b` of JavaScript (false when either side is NaN). -/
def lt : F64 → F64 → Bool
  | fin m1 e1, fin m2 e2 =>
    let e := min e1 e2
    decide (m1 * ((2 ^ (e1 - e).toNat : Nat) : Int) < m2 * ((2 ^ (e2 - e).toNat : Nat) : Int))
  | fin _ _, inf b => !b
  | inf a, fin _ _ => a
  | inf a, inf b => a && !b
  | nan, _ => false
  | _, nan => false

/-- The comparison `a <= b` of JavaScript (false when either side is NaN). -/
def le : F64 → F64 → Bool
  | fin m1 e1, fin m2 e2 =>
    let e := min e1 e2
    decide (m1 * ((2 ^ (e1 - e).toNat : Nat) : Int) ≤ m2 * ((2 ^ (e2 - e).toNat : Nat) : Int))
  | fin _ _, inf b => !b
  | inf a, fin _ _ => a
  | inf a, inf b => a || !b
  | nan, _ => false
  | _, nan => false

/-- The value of `Math.floor` on a finite number (`0` stands for the NaN that
`Math.floor` gives on a non-finite argument). -/
def floor : F64 → Int
  | fin m e =>
    if 0 ≤ e then m * ((2 ^ e.toNat : Nat) : Int) else m / ((2 ^ (-e).toNat : Nat) : Int)
  | _ => 0

/-- The value of `Math.round` on a finite number: the integer nearest to it, a
half rounded up (`0` stands for the results on non-finite arguments). -/
def roundHalfUp : F64 → Int
  | fin m e =>
    if 0 ≤ e then m * ((2 ^ e.toNat : Nat) : Int)
    else (2 * m + ((2 ^ (-e).toNat : Nat) : Int)) / ((2 ^ ((-e).toNat + 1) : Nat) : Int)
  | _ => 0

/-- The value of `Math.sqrt` on a natural number: the square root rounded once. -/
def sqrtNat (s : Nat) : F64 :=
  let k : Nat := 64
  let r := Nat.sqrt (s * 4 ^ k)
  let sticky := if r * r = s * 4 ^ k then 0 else 1
  round ((2 * r + sticky : Nat) : Int) (-((k : Int) + 1))

/-- The value `k / 4294967296` of a 32-bit sample. -/
def ofSample (k : Nat) : F64 := round (k : Int) (-32)

end F64

/-- The functions `Math.cos` and `Math.sin`. ECMAScript leaves their values
implementation-approximated, so they are parameters of the embedding. -/
structure Trig where
  cos : F64 → F64
  sin : F64 → F64

/-! ## The deterministic sequence generator -/

/-- A source of samples: one call returns the numerator `k < 2 ^ 32` of the
sample `k / 2 ^ 32`, a number in `[0, 1)`, and the state of the source after
the call. -/
class RandomSource (σ : Type) where
  sample : σ → Nat × σ
  sample_lt : ∀ s, (sample s).1 < 4294967296

/-- The captured variable `t` of the closure returned by `seededRandom`. It
is a JavaScript number that always holds a non-negative integer. -/
structure Rng where
  t : Nat
deriving Repr, DecidableEq

/-- The function `Math.imul` on the unsigned representatives of its arguments. -/
def imul (a b : Nat) : Nat := (a % 4294967296) * (b % 4294967296) % 4294967296

/-- The sum of two non-negative integer-valued JavaScript numbers: exact below
`2 ^ 53`, rounded to the nearest binary64 value above. -/
def numberAdd (a b : Nat) : Nat :=
  if a + b < 9007199254740992 then a + b
  else match F64.round ((a + b : Nat) : Int) 0 with
    | F64.fin m e => m.toNat * 2 ^ e.toNat
    | _ => 0

/-- The function `seededRandom`: `t = seed >>> 0`. -/
def seededRandom (seed : Nat) : Rng := ⟨seed % 4294967296⟩

/-- One call of the closure returned by `seededRandom`. The bitwise operators
work on the value modulo `2 ^ 32`. -/
def Rng.next (g : Rng) : Nat × Rng :=
  let t := numberAdd g.t 0x6d2b79f5
  let t32 := t % 4294967296
  let r := imul (t32 ^^^ (t32 >>> 15)) (1 ||| t32)
  let r := r ^^^ ((r + imul (r ^^^ (r >>> 7)) (61 ||| r)) % 4294967296)
  ((r ^^^ (r >>> 14)) % 4294967296, ⟨t⟩)

instance : RandomSource Rng :=
  ⟨Rng.next, fun _ => Nat.mod_lt _ (by decide)⟩

/-- The value of `Math.floor(rng() * m)` for the sample `k / 2 ^ 32` and an
integer `m`. The product is exact in binary64 while `k * |m| < 2 ^ 53`, that
is for every `|m| < 2 ^ 21`; `m` is a grid dimension or a room size. -/
def scaleSample (k : Nat) (m : Int) : Int := (k : Int) * m / 4294967296

/-- The test `rng() > p / q` for the sample `k / 2 ^ 32` and the decimal
literal `p / q`. -/
def sampleAbove (k : Nat) (p q : Nat) : Bool := F64.lt (F64.ofRat p q) (F64.ofSample k)

/-! ## Grids -/

/-- A rectangular array of arrays: `rows[y][x]` is the entry of column `x` in
row `y`. -/
structure Grid (α : Type) where
  width : Nat
  height : Nat
  rows : List (List α)
  hrows : rows.length = height
  hcols : ∀ r ∈ rows, r.length = width

/-- The function `createGrid`. -/
def createGrid {α : Type} (width height : Nat) (fillValue : α) : Grid α :=
  ⟨width, height, List.replicate height (List.replicate width fillValue),
    List.length_replicate _ _,
    fun r hr => by rw [List.eq_of_mem_replicate hr]; exact List.length_replicate _ _⟩

/-- The read `grid[y][x]`; the default value outside the grid. -/
def Grid.get {α : Type} [Inhabited α] (g : Grid α) (x y : Int) : α :=
  if 0 ≤ x ∧ 0 ≤ y then (g.rows.getD y.toNat []).getD x.toNat default else default

/-- The write `grid[y][x] = v`; no change outside the grid. -/
def Grid.set {α : Type} (g : Grid α) (x y : Int) (v : α) : Grid α :=
  if h : 0 ≤ x ∧ 0 ≤ y ∧ y.toNat < g.rows.length then
    ⟨g.width, g.height, g.rows.set y.toNat ((g.rows.get ⟨y.toNat, h.2.2⟩).set x.toNat v),
      by rw [List.length_set]; exact g.hrows,
      fun r hr => by
        rcases List.mem_or_eq_of_mem_set hr with h1 | h1
        · exact g.hcols r h1
        · rw [h1, List.length_set]; exact g.hcols _ (List.get_mem _ _ _)⟩
  else g

/-- The position `(x, y)` is an entry of the grid. -/
def Grid.Has {α : Type} (g : Grid α) (x y : Int) : Prop :=
  0 ≤ x ∧ x < (g.width : Int) ∧ 0 ≤ y ∧ y < (g.height : Int)

instance {α : Type} (g : Grid α) (x y : Int) : Decidable (g.Has x y) := by
  unfold Grid.Has; infer_instance

/-- A grid position `{ x, y }`. -/
structure Cell where
  x : Int
  y : Int
deriving Repr, DecidableEq

/-- An entry of `DIRS`. -/
structure Dir where
  dx : Int
  dy : Int
  code : Char
deriving Repr, DecidableEq

/-- The constant `DIRS`: right, left, down, up. -/
def DIRS : List Dir := [⟨1, 0, 'R'⟩, ⟨-1, 0, 'L'⟩, ⟨0, 1, 'D'⟩, ⟨0, -1, 'U'⟩]

/-- The constant `CELL_SIZE`. -/
def CELL_SIZE : Nat := 20

/-- The loop `for (let i = lo; i < hi; i += 1) body`, on the loop state. -/
def forRange {β : Type} (lo hi : Nat) (body : Int → β → β) (init : β) : β :=
  (List.range' lo (hi - lo)).foldl (fun s (i : Nat) => body (i : Int) s) init

/-! ## Weighted choice -/

/-- The loop of `pickWeighted`: the first item at which the ticket, after
its weight has been subtracted, is at most zero; `none` when the loop ends
without returning. -/
def pickWeightedLoop {ι : Type} (weight : ι → F64) : List ι → F64 → Option ι
  | [], _ => none
  | item :: rest, ticket =>
    let ticket := F64.sub ticket (weight item)
    if F64.le ticket (F64.ofNat 0) then some item else pickWeightedLoop weight rest ticket

/-- The function `pickWeighted`. The result is `none` for JavaScript's
`undefined`, which is what the last line returns for an empty array. -/
def pickWeighted {ι σ : Type} [RandomSource σ] (weight : ι → F64) (items : List ι) (rng : σ) :
    Option ι × σ :=
  let sum := items.foldl (fun s item => F64.add s (weight item)) (F64.ofNat 0)
  let r := RandomSource.sample rng
  let ticket := F64.mul (F64.ofSample r.1) sum
  match pickWeightedLoop weight items ticket with
  | some item => (some item, r.2)
  | none => (items.getLast?, r.2)

/-! ## The spanning-tree carver -/

/-- The three shaping weights passed to the carver. -/
structure Profile where
  biasX : F64
  biasY : F64
  straightness : F64

/-- An entry of the carver's stack: a lattice node and the direction by which
it was entered (`none` for `null`). -/
structure Node where
  x : Int
  y : Int
  dir : Option Dir
deriving Repr, DecidableEq

/-- An entry of the carver's `options` array. -/
structure CarveOption where
  nx : Int
  ny : Int
  dir : Dir
  weight : F64
deriving Repr, DecidableEq

/-- The variables of the loop of `carvePerfectMaze`. The top of the stack
(the last element of the JavaScript array) is the head of the list. -/
structure CarveState (σ : Type) where
  grid : Grid Bool
  visited : Grid Bool
  stack : List Node
  rng : σ

/-- The weight of direction `dir` at the node `current`: the bias of its axis,
multiplied by `straightness` when `dir` is the direction that led to `current`. -/
def carveWeight (profile : Profile) (current : Node) (dir : Dir) : F64 :=
  let weight := if dir.dx ≠ 0 then profile.biasX else profile.biasY
  match current.dir with
  | some d => if d.code = dir.code then F64.mul weight profile.straightness else weight
  | none => weight

/-- The `options` array built by the `DIRS.forEach` of the carver. -/
def carveOptions (visited : Grid Bool) (nodesW nodesH : Nat) (profile : Profile)
    (current : Node) : List CarveOption :=
  DIRS.filterMap fun dir =>
    let nx := current.x + dir.dx
    let ny := current.y + dir.dy
    if nx < 0 ∨ ny < 0 ∨ nx ≥ nodesW ∨ ny ≥ nodesH then none
    else if visited.get nx ny then none
    else some ⟨nx, ny, dir, carveWeight profile current dir⟩

/-- The body of the carver's loop after an option has been chosen. -/
def carveAdvance {σ : Type} (st : CarveState σ) (current : Node) (chosen : CarveOption)
    (rng : σ) : CarveState σ :=
  let cx := 1 + current.x * 2
  let cy := 1 + current.y * 2
  let tx := 1 + chosen.nx * 2
  let ty := 1 + chosen.ny * 2
  let grid := st.grid.set (cx + Int.sign (tx - cx)) (cy + Int.sign (ty - cy)) true
  let grid := grid.set tx ty true
  ⟨grid, st.visited.set chosen.nx chosen.ny true,
    ⟨chosen.nx, chosen.ny, some chosen.dir⟩ :: st.stack, rng⟩

/-- The loop `while (stack.length > 0)` of `carvePerfectMaze`. Reading a field
of `undefined` throws, which ends the loop. -/
def carveLoop {σ : Type} [RandomSource σ] (nodesW nodesH : Nat) (profile : Profile) :
    Nat → CarveState σ → CarveState σ
  | 0, st => st
  | fuel + 1, st =>
    match st.stack with
    | [] => st
    | current :: rest =>
      let options := carveOptions st.visited nodesW nodesH profile current
      if options.isEmpty then
        carveLoop nodesW nodesH profile fuel ⟨st.grid, st.visited, rest, st.rng⟩
      else
        match pickWeighted CarveOption.weight options st.rng with
        | (some chosen, rng) =>
          carveLoop nodesW nodesH profile fuel (carveAdvance st current chosen rng)
        | (none, _) => st

/-- The state of the carver when its loop is entered. On a grid with a side
below three the lattice has no node and the JavaScript statement
`visited[0][0] = true` throws; the embedding, in which a write outside a grid
changes nothing, is the code on grids with both sides at least three. -/
def carveInit {σ : Type} (gridWidth gridHeight : Nat) (rng : σ) : CarveState σ :=
  let grid := createGrid gridWidth gridHeight false
  let nodesW := (gridWidth - 1) / 2
  let nodesH := (gridHeight - 1) / 2
  let visited := createGrid nodesW nodesH false
  ⟨grid.set 1 1 true, visited.set 0 0 true, [⟨0, 0, none⟩], rng⟩

/-- The carver on a given sample source. Every iteration of the loop either
marks a lattice node or pops the stack, so twice the number of nodes bounds
the number of iterations. -/
def carveWith {σ : Type} [RandomSource σ] (gridWidth gridHeight : Nat) (rng : σ)
    (profile : Profile) : Grid Bool × σ :=
  let nodesW := (gridWidth - 1) / 2
  let nodesH := (gridHeight - 1) / 2
  let st := carveLoop nodesW nodesH profile (2 * (nodesW * nodesH))
    (carveInit gridWidth gridHeight rng)
  (st.grid, st.rng)

/-- The function `carvePerfectMaze`: the result is `{ open, rng }`. -/
def carvePerfectMaze (gridWidth gridHeight : Nat) (seed : Nat) (profile : Profile) :
    Grid Bool × Rng :=
  carveWith gridWidth gridHeight (seededRandom seed) profile

/-! ## Loop injector and terrain sculptors -/

/-- The function `addLoops`. -/
def addLoops {σ : Type} [RandomSource σ] (grid : Grid Bool) (rng : σ) (amount : Int) :
    Grid Bool × σ :=
  let width : Int := grid.width
  let height : Int := grid.height
  forRange 0 amount.toNat (fun _ (s : Grid Bool × σ) =>
    let r1 := RandomSource.sample s.2
    let x := 1 + scaleSample r1.1 (width - 2)
    let r2 := RandomSource.sample r1.2
    let y := 1 + scaleSample r2.1 (height - 2)
    if s.1.get x y then (s.1, r2.2)
    else
      let horizontalBridge := s.1.get (x - 1) y && s.1.get (x + 1) y
      let verticalBridge := s.1.get x (y - 1) && s.1.get x (y + 1)
      if horizontalBridge || verticalBridge then (s.1.set x y true, r2.2) else (s.1, r2.2))
    (grid, rng)

/-- The function `carveRoom`. -/
def carveRoom (grid : Grid Bool) (x y width height : Int) : Grid Bool :=
  forRange 0 height.toNat (fun j g =>
    forRange 0 width.toNat (fun i g =>
      let yy := y + j
      let xx := x + i
      if yy > 0 ∧ xx > 0 ∧ yy < (grid.height : Int) - 1 ∧ xx < (grid.width : Int) - 1 then
        g.set xx yy true
      else g) g) grid

/-- The function `addChambers`. -/
def addChambers {σ : Type} [RandomSource σ] (grid : Grid Bool) (rng : σ)
    (amount minSize maxSize : Int) : Grid Bool × σ :=
  let width : Int := grid.width
  let height : Int := grid.height
  forRange 0 amount.toNat (fun _ (s : Grid Bool × σ) =>
    let r1 := RandomSource.sample s.2
    let roomW := minSize + scaleSample r1.1 (maxSize - minSize + 1)
    let r2 := RandomSource.sample r1.2
    let roomH := minSize + scaleSample r2.1 (maxSize - minSize + 1)
    let r3 := RandomSource.sample r2.2
    let x := 2 + scaleSample r3.1 (max 1 (width - roomW - 3))
    let r4 := RandomSource.sample r3.2
    let y := 2 + scaleSample r4.1 (max 1 (height - roomH - 3))
    (carveRoom s.1 x y roomW roomH, r4.2))
    (grid, rng)

/-- The function `addRuneCross`. -/
def addRuneCross {σ : Type} [RandomSource σ] (grid : Grid Bool) (rng : σ) : Grid Bool × σ :=
  let midX : Int := (grid.width / 2 : Nat)
  let midY : Int := (grid.height / 2 : Nat)
  let s := forRange 2 (grid.width - 2) (fun x (s : Grid Bool × σ) =>
    let r := RandomSource.sample s.2
    if sampleAbove r.1 18 100 then (s.1.set x midY true, r.2) else (s.1, r.2)) (grid, rng)
  forRange 2 (grid.height - 2) (fun y (s : Grid Bool × σ) =>
    let r := RandomSource.sample s.2
    if sampleAbove r.1 18 100 then (s.1.set midX y true, r.2) else (s.1, r.2)) s

/-- The function `addSerpentCuts`. The loop state of a band is the grid, the
sample source and the row `y` of the walk. -/
def addSerpentCuts {σ : Type} [RandomSource σ] (grid : Grid Bool) (rng : σ) (bands : Nat) :
    Grid Bool × σ :=
  let height : Int := grid.height
  forRange 0 bands (fun band (s : Grid Bool × σ) =>
    let baseY := 2 + F64.floor (F64.mul (F64.ofInt (height - 4))
      (F64.ofRat (band + 1).toNat (bands + 1)))
    let r := forRange 2 (grid.width - 2) (fun x (r : Grid Bool × σ × Int) =>
      let r1 := RandomSource.sample r.2.1
      let g := if sampleAbove r1.1 22 100 then r.1.set x r.2.2 true else r.1
      let r2 := RandomSource.sample r1.2
      if sampleAbove r2.1 66 100 then
        let r3 := RandomSource.sample r2.2
        let y := r.2.2 + (if sampleAbove r3.1 5 10 then 1 else -1)
        (g, r3.2, max 2 (min (height - 3) y))
      else (g, r2.2, r.2.2)) (s.1, s.2, baseY)
    (r.1, r.2.1))
    (grid, rng)

/-- The constant `Math.PI * 2`. -/
def twoPi : F64 := F64.fin 884279719003555 (-47)

/-- The values that the variable `angle` of the ring loop takes while
`angle < Math.PI * 2`, starting from `angle`. -/
def ringAngles : Nat → F64 → List F64
  | 0, _ => []
  | fuel + 1, angle =>
    if F64.lt angle twoPi then angle :: ringAngles fuel (F64.add angle (F64.ofRat 3 100))
    else []

/-- The test `blockedSector` of ring `idx` at `angle`. -/
def blockedSector (idx : Nat) (angle : F64) : Bool :=
  if idx = 0 then F64.lt (F64.ofRat 8 10) angle && F64.lt angle (F64.ofRat 17 10)
  else if idx = 1 then F64.lt (F64.ofRat 33 10) angle && F64.lt angle (F64.ofRat 41 10)
  else F64.lt (F64.ofRat 52 10) angle && F64.lt angle (F64.ofRat 58 10)

/-- The first loop nest of `addCircularRelics`: every cell strictly inside the
border whose distance from the centre exceeds `maxR` is closed. -/
def relicArena (grid : Grid Bool) (maxR : F64) : Grid Bool :=
  let cx : Int := (grid.width / 2 : Nat)
  let cy : Int := (grid.height / 2 : Nat)
  forRange 1 (grid.height - 1) (fun y g =>
    forRange 1 (grid.width - 1) (fun x g =>
      let dx := x - cx
      let dy := y - cy
      let dist := F64.sqrtNat (dx * dx + dy * dy).toNat
      if F64.lt maxR dist then g.set x y false else g) g) grid

/-- The body of the angle loop of `addCircularRelics` for ring `idx` of the
given radius. -/
def relicStamp {σ : Type} [RandomSource σ] (trig : Trig) (w h : Nat) (radius : F64)
    (idx : Nat) (s : Grid Bool × σ) (angle : F64) : Grid Bool × σ :=
  let width : Int := w
  let height : Int := h
  let cx : Int := (w / 2 : Nat)
  let cy : Int := (h / 2 : Nat)
  if blockedSector idx angle then s
  else
    let x := F64.roundHalfUp (F64.add (F64.ofInt cx) (F64.mul (trig.cos angle) radius))
    let y := F64.roundHalfUp (F64.add (F64.ofInt cy) (F64.mul (trig.sin angle) radius))
    if x > 1 ∧ y > 1 ∧ x < width - 2 ∧ y < height - 2 then
      let r := RandomSource.sample s.2
      if sampleAbove r.1 8 100 then (s.1.set x y true, r.2) else (s.1, r.2)
    else s

/-- The constant `maxR` of `addCircularRelics`. -/
def relicMaxR (grid : Grid Bool) : F64 :=
  F64.mul (F64.ofNat (min grid.width grid.height)) (F64.ofRat 42 100)

/-- The array `[0.72, 0.55, 0.37]` with the index of each entry. -/
def relicRings : List (F64 × Nat) :=
  [(F64.ofRat 72 100, 0), (F64.ofRat 55 100, 1), (F64.ofRat 37 100, 2)]

/-- The function `addCircularRelics`. The angle loop runs 210 times, so fuel
256 lets it end by its own test. -/
def addCircularRelics {σ : Type} [RandomSource σ] (trig : Trig) (grid : Grid Bool) (rng : σ) :
    Grid Bool × σ :=
  relicRings.foldl
    (fun (s : Grid Bool × σ) (ring : F64 × Nat) =>
      (ringAngles 256 (F64.ofNat 0)).foldl
        (relicStamp trig grid.width grid.height (F64.mul (relicMaxR grid) ring.1) ring.2) s)
    (relicArena grid (relicMaxR grid), rng)

/-- The function `normalizeBorders`. -/
def normalizeBorders (grid : Grid Bool) : Grid Bool :=
  let width : Int := grid.width
  let height : Int := grid.height
  let g := forRange 0 grid.width (fun x g => (g.set x 0 false).set x (height - 1) false) grid
  let g := forRange 0 grid.height (fun y g => (g.set 0 y false).set (width - 1) y false) g
  g.set 1 1 true

/-! ## Connectivity: breadth-first search, pruning, goal selection -/

/-- The variables of the loop of `bfs`. -/
structure BfsState where
  dist : Grid Int
  prev : Grid (Option Cell)
  queue : List Cell
  head : Nat

/-- One pass of the body of the `for` loop of `bfs` over `DIRS`, for the
direction `dir` and the dequeued cell `current`. -/
def bfsVisit (grid : Grid Bool) (current : Cell) (st : BfsState) (dir : Dir) : BfsState :=
  let nextX := current.x + dir.dx
  let nextY := current.y + dir.dy
  if nextX < 1 ∨ nextY < 1 ∨ nextX ≥ (grid.width : Int) - 1 ∨ nextY ≥ (grid.height : Int) - 1 then
    st
  else if (!grid.get nextX nextY) || st.dist.get nextX nextY != -1 then st
  else
    ⟨st.dist.set nextX nextY (st.dist.get current.x current.y + 1),
      st.prev.set nextX nextY (some ⟨current.x, current.y⟩),
      st.queue ++ [⟨nextX, nextY⟩], st.head⟩

/-- The loop `while (head < queue.length)` of `bfs`. -/
def bfsLoop (grid : Grid Bool) : Nat → BfsState → BfsState
  | 0, st => st
  | fuel + 1, st =>
    match st.queue[st.head]? with
    | none => st
    | some current =>
      bfsLoop grid fuel (DIRS.foldl (bfsVisit grid current)
        ⟨st.dist, st.prev, st.queue, st.head + 1⟩)

/-- The state of `bfs` when its loop is entered. -/
def bfsInit (grid : Grid Bool) (start : Cell) : BfsState :=
  ⟨(createGrid grid.width grid.height (-1)).set start.x start.y 0,
    createGrid grid.width grid.height none, [⟨start.x, start.y⟩], 0⟩

/-- The function `bfs`: the result is `{ dist, prev }`. A cell enters the
queue when its distance is set, which happens once, so the number of cells
(and one more for the start) bounds the number of iterations. -/
def bfs (grid : Grid Bool) (start : Cell) : Grid Int × Grid (Option Cell) :=
  let st := bfsLoop grid (grid.width * grid.height + 1) (bfsInit grid start)
  (st.dist, st.prev)

/-- The function `pruneUnreachableFromStart`. -/
def pruneUnreachableFromStart (grid : Grid Bool) (dist : Grid Int) : Grid Bool :=
  forRange 1 (grid.height - 1) (fun y g =>
    forRange 1 (grid.width - 1) (fun x g =>
      if g.get x y && decide (dist.get x y < 0) then g.set x y false else g) g) grid

/-- The record `best` of `findGoalNearRight`. -/
structure Goal where
  x : Int
  y : Int
  score : F64
  distance : Int
deriving Repr, DecidableEq

/-- The body of the loop of `findGoalNearRight` for row `y`. -/
def goalScan (grid : Grid Bool) (dist : Grid Int) (y : Int) (best : Option Goal) : Option Goal :=
  let width : Int := grid.width
  let height : Int := grid.height
  if !grid.get (width - 2) y then best
  else
    let d := dist.get (width - 2) y
    if d < 0 then best
    else
      let centerPenalty := F64.mul (F64.round (Int.natAbs (2 * y - height)) (-1)) (F64.ofRat 35 100)
      let score := F64.sub (F64.ofInt d) centerPenalty
      match best with
      | none => some ⟨width - 2, y, score, d⟩
      | some b => if F64.lt b.score score then some ⟨width - 2, y, score, d⟩ else some b

/-- The function `findGoalNearRight`; `none` is `null`. -/
def findGoalNearRight (grid : Grid Bool) (dist : Grid Int) : Option Goal :=
  forRange 1 (grid.height - 1) (goalScan grid dist) none

/-! ## Path analysis -/

/-- The loop `while (cursor)` of `reconstructPath`; `path` is the array built
so far. -/
def reconstructLoop (prev : Grid (Option Cell)) (start : Cell) :
    Nat → Option Cell → List Cell → List Cell
  | 0, _, path => path
  | _ + 1, none, path => path
  | fuel + 1, some cursor, path =>
    let path := path ++ [cursor]
    if cursor.x = start.x ∧ cursor.y = start.y then path
    else reconstructLoop prev start fuel (prev.get cursor.x cursor.y) path

/-- The function `reconstructPath`. On the predecessor grid of `bfs` the walk
visits a cell at most once, so the number of cells bounds its length. -/
def reconstructPath (prev : Grid (Option Cell)) (start : Cell) (goal : Cell) : List Cell :=
  (reconstructLoop prev start (prev.width * prev.height + 1) (some ⟨goal.x, goal.y⟩) []).reverse

/-- The result of `analyzePath`. -/
structure Metrics where
  length : Nat
  turns : Nat
  rightDownOnly : Bool
  rightDownOneTurn : Bool
deriving Repr, DecidableEq

/-- The array `dirs` of `analyzePath`: the code of each step, nothing for a
step that is not a unit step. -/
def pathDirs : List Cell → List Char
  | a :: b :: rest =>
    let dx := b.x - a.x
    let dy := b.y - a.y
    let tail := pathDirs (b :: rest)
    if dx = 1 then 'R' :: tail
    else if dx = -1 then 'L' :: tail
    else if dy = 1 then 'D' :: tail
    else if dy = -1 then 'U' :: tail
    else tail
  | _ => []

/-- The number of positions of `dirs` whose code differs from the one before. -/
def countTurns : List Char → Nat
  | a :: b :: rest => (if b ≠ a then 1 else 0) + countTurns (b :: rest)
  | _ => 0

/-- The function `analyzePath`. -/
def analyzePath (path : List Cell) : Metrics :=
  if path.length < 2 then ⟨path.length, 0, true, true⟩
  else
    let dirs := pathDirs path
    let turns := countTurns dirs
    let onlyRD := dirs.all fun dir => dir = 'R' || dir = 'D'
    ⟨path.length, turns, onlyRD, onlyRD && decide (turns ≤ 1)⟩

/-- The function `openExit`. -/
def openExit (grid : Grid Bool) (goalY : Int) : Grid Bool :=
  grid.set ((grid.width : Int) - 1) goalY true

/-! ## Wall compaction -/

/-- A wall rectangle `{ x, y, width, height }` in pixels. -/
structure Rect where
  x : Int
  y : Int
  width : Int
  height : Int
deriving Repr, DecidableEq

/-- The inner loop `while (x < open[0].length && !open[y][x]) x += 1`: the
value of `x` when it ends. -/
def wallRunEnd (grid : Grid Bool) (y : Int) : Nat → Int → Int
  | 0, x => x
  | fuel + 1, x =>
    if x < (grid.width : Int) ∧ !grid.get x y then wallRunEnd grid y fuel (x + 1) else x

/-- The loop `while (x < open[0].length)` of `buildWallsFromOpen` on row `y`,
from column `x`, appending to `walls`. Every iteration moves `x` to the right,
so the width bounds the number of iterations of either loop. -/
def wallRow (grid : Grid Bool) (cellSize : Int) (y : Int) : Nat → Int → List Rect → List Rect
  | 0, _, walls => walls
  | fuel + 1, x, walls =>
    if x < (grid.width : Int) then
      if grid.get x y then wallRow grid cellSize y fuel (x + 1) walls
      else
        let startX := x
        let x := wallRunEnd grid y grid.width x
        wallRow grid cellSize y fuel x
          (walls ++ [⟨startX * cellSize, y * cellSize, (x - startX) * cellSize, cellSize⟩])
    else walls

/-- The function `buildWallsFromOpen`. -/
def buildWallsFromOpen (grid : Grid Bool) (cellSize : Int) : List Rect :=
  forRange 0 grid.height (fun y walls => wallRow grid cellSize y grid.width 0 walls) []

/-! ## Profiles and the orchestrator -/

/-- The function `applySingleProfile`. An unknown name changes nothing. -/
def applySingleProfile {σ : Type} [RandomSource σ] (trig : Trig) (grid : Grid Bool) (rng : σ)
    (profileName : String) : Grid Bool × σ :=
  if profileName = "citadel" then addChambers grid rng 3 3 4
  else if profileName = "crypt" then
    let s := addRuneCross grid rng
    addChambers s.1 s.2 2 2 3
  else if profileName = "serpent" then addSerpentCuts grid rng 3
  else if profileName = "fortress" then
    let s := addChambers grid rng 5 3 5
    addRuneCross s.1 s.2
  else if profileName = "rings" then
    let s := addCircularRelics trig grid rng
    addSerpentCuts s.1 s.2 2
  else (grid, rng)

/-- The field `profile` of a level config: one name or an array of names. -/
inductive ProfileSpec where
  | single (name : String)
  | many (names : List String)
deriving Repr, DecidableEq

/-- A level config, an entry of `LEVEL_DEFS`. -/
structure Config where
  id : Nat
  name : String
  difficulty : String
  size : Nat
  seed : Nat
  loopCount : Int
  minPathLength : Int
  minTurns : Int
  biasX : F64
  biasY : F64
  straightness : F64
  profile : ProfileSpec

/-- The function `applyProfileFeatures`. -/
def applyProfileFeatures {σ : Type} [RandomSource σ] (trig : Trig) (grid : Grid Bool) (rng : σ)
    (profile : Config) : Grid Bool × σ :=
  let profileList := match profile.profile with
    | ProfileSpec.many names => names
    | ProfileSpec.single name => [name]
  profileList.foldl (fun (s : Grid Bool × σ) profileName =>
    applySingleProfile trig s.1 s.2 profileName) (grid, rng)

/-- The result of `generateQualifiedLayout`: `{ open, start, goal }`. -/
structure Layout where
  grid : Grid Bool
  start : Cell
  goal : Cell

/-- The grid side `gridSize` of a config. -/
def gridSize (config : Config) : Nat := config.size / CELL_SIZE

/-- The four statements that follow the sculptors in an attempt and in the
fallback alike: `normalizeBorders`, the first `bfs`, the pruning, the second
`bfs`. The result is the pruned grid and the `{ dist, prev }` of the second
search. -/
def sealAndSearch (grid : Grid Bool) : Grid Bool × Grid Int × Grid (Option Cell) :=
  let start : Cell := ⟨1, 1⟩
  let grid := normalizeBorders grid
  let firstScan := bfs grid start
  let grid := pruneUnreachableFromStart grid firstScan.1
  (grid, bfs grid start)

/-- The grid of attempt `attempt` after carving, loops, sculptors, border
normalisation and pruning, and the second search on it. -/
def attemptSearch (trig : Trig) (config : Config) (attempt : Nat) :
    Grid Bool × Grid Int × Grid (Option Cell) :=
  let attemptProfile : Profile := ⟨config.biasX, config.biasY, config.straightness⟩
  let seed := config.seed + attempt * 97
  let base := carvePerfectMaze (gridSize config) (gridSize config) seed attemptProfile
  let s := addLoops base.1 base.2 (config.loopCount + (attempt / 20 : Nat))
  let s := applyProfileFeatures trig s.1 s.2 config
  sealAndSearch s.1

/-- The body of the attempt loop of `generateQualifiedLayout`: the layout it
returns, or `none` when it ends in `continue`. -/
def attemptLayout (trig : Trig) (config : Config) (attempt : Nat) : Option Layout :=
  let start : Cell := ⟨1, 1⟩
  let r := attemptSearch trig config attempt
  match findGoalNearRight r.1 r.2.1 with
  | none => none
  | some goal =>
    let path := reconstructPath r.2.2 start ⟨goal.x, goal.y⟩
    let metrics := analyzePath path
    if (metrics.length : Int) < config.minPathLength then none
    else if (metrics.turns : Int) < config.minTurns then none
    else if metrics.rightDownOneTurn then none
    else some ⟨openExit r.1 goal.y, start, ⟨goal.x, goal.y⟩⟩

/-- The pruned fallback grid and the search on it. -/
def fallbackSearch (config : Config) : Grid Bool × Grid Int × Grid (Option Cell) :=
  let base := carvePerfectMaze (gridSize config) (gridSize config) (config.seed + 991)
    ⟨config.biasX, config.biasY, config.straightness⟩
  let s := addLoops base.1 base.2 (config.loopCount + 8)
  sealAndSearch s.1

/-- The record `farthest` of the fallback: the first interior cell, in row
order, of greatest distance. -/
def farthestCell (n : Nat) (dist : Grid Int) : Cell × Int :=
  forRange 1 (n - 1) (fun y far =>
    forRange 1 (n - 1) (fun x (far : Cell × Int) =>
      let d := dist.get x y
      if d > far.2 then (⟨x, y⟩, d) else far) far) (⟨1, 1⟩, 0)

/-- The part of `generateQualifiedLayout` after the attempt loop. -/
def fallbackLayout (config : Config) : Layout :=
  let r := fallbackSearch config
  match findGoalNearRight r.1 r.2.1 with
  | some fallbackGoal => ⟨openExit r.1 fallbackGoal.y, ⟨1, 1⟩, ⟨fallbackGoal.x, fallbackGoal.y⟩⟩
  | none =>
    let farthest := (farthestCell (gridSize config) r.2.1).1
    let grid := forRange farthest.x.toNat (gridSize config - 1)
      (fun x g => g.set x farthest.y true) r.1
    ⟨openExit grid farthest.y, ⟨1, 1⟩, ⟨(gridSize config : Int) - 2, farthest.y⟩⟩

/-- The function `generateQualifiedLayout`: the layout of the first of the
attempts `0, ..., 279` that returns one, else the fallback. The embedding is
the code on configs of grid side at least three, where the carver does not
throw, with a seed below `2 ^ 32`, for which the sums `config.seed + attempt * 97`
and `config.seed + 991` are exact in binary64. -/
def generateQualifiedLayout (trig : Trig) (config : Config) : Layout :=
  match (List.range 280).findSome? (attemptLayout trig config) with
  | some layout => layout
  | none => fallbackLayout config

/-- The `start` record of a level: centre and radius in pixels. -/
structure StartPoint where
  x : Int
  y : Int
  radius : Int
deriving Repr, DecidableEq

/-- The result of `buildLevel`. -/
structure Level where
  id : Nat
  name : String
  difficulty : String
  size : Nat
  cellSize : Nat
  walls : List Rect
  start : StartPoint
  goal : Rect
deriving Repr, DecidableEq

/-- The function `buildLevel`. -/
def buildLevel (trig : Trig) (config : Config) : Level :=
  let generated := generateQualifiedLayout trig config
  ⟨config.id, config.name, config.difficulty, config.size, CELL_SIZE,
    buildWallsFromOpen generated.grid CELL_SIZE,
    ⟨generated.start.x * CELL_SIZE + CELL_SIZE / 2,
      generated.start.y * CELL_SIZE + CELL_SIZE / 2, 8⟩,
    ⟨generated.goal.x * CELL_SIZE, generated.goal.y * CELL_SIZE, CELL_SIZE, CELL_SIZE⟩⟩

/-- The first entry of `BASE_LEVEL_DEFS`. -/
def levelEmberKeep : Config :=
  ⟨1, "Easy I - Ember Keep", "Easy", 400, 1401, 22, 62, 9,
    F64.ofRat 12 10, F64.ofRat 108 100, F64.ofRat 11 10, ProfileSpec.single "citadel"⟩


/-! ## Specification vocabulary -/

/-- The position `(x, y)` lies strictly inside the border of the grid. -/
def Grid.Interior {α : Type} (g : Grid α) (x y : Int) : Prop :=
  1 ≤ x ∧ x < (g.width : Int) - 1 ∧ 1 ≤ y ∧ y < (g.height : Int) - 1

instance {α : Type} (g : Grid α) (x y : Int) : Decidable (g.Interior x y) := by
  unfold Grid.Interior; infer_instance

/-- The position `(x, y)` lies on row `0`, row `height - 1`, column `0` or
column `width - 1` of the grid. -/
def Grid.Border {α : Type} (g : Grid α) (x y : Int) : Prop :=
  g.Has x y ∧ (x = 0 ∨ x = (g.width : Int) - 1 ∨ y = 0 ∨ y = (g.height : Int) - 1)

/-- The entry of a grid at a cell. -/
def Grid.cell {α : Type} [Inhabited α] (g : Grid α) (c : Cell) : α := g.get c.x c.y

/-- The cell is open and strictly inside the border. -/
def Walkable (g : Grid Bool) (c : Cell) : Prop :=
  g.Interior c.x c.y ∧ g.get c.x c.y = true

/-- The cell `b` is one unit step (right, left, down or up) from `a`. -/
def Adjacent (a b : Cell) : Prop :=
  ∃ d ∈ DIRS, b.x = a.x + d.dx ∧ b.y = a.y + d.dy

/-- `Reach g start n c`: there is a walk of `n` unit steps from `start` to `c`
each of whose steps enters an open cell strictly inside the border. The start
cell itself is not tested, as in `bfs`. -/
inductive Reach (g : Grid Bool) (start : Cell) : Nat → Cell → Prop
  | start : Reach g start 0 start
  | step {n : Nat} {a b : Cell} : Reach g start n a → Adjacent a b → Walkable g b →
      Reach g start (n + 1) b

/-- Consecutive cells of the list are one unit step apart. -/
def StepChain : List Cell → Prop
  | a :: b :: rest => Adjacent a b ∧ StepChain (b :: rest)
  | _ => True

/-- The list is a path of open cells strictly inside the border from `a` to
`b`: it begins with `a`, ends with `b`, all its cells are open and interior,
and consecutive cells are one unit step apart. -/
def OpenPath (g : Grid Bool) (a b : Cell) (p : List Cell) : Prop :=
  p.head? = some a ∧ p.getLast? = some b ∧ (∀ c ∈ p, Walkable g c) ∧ StepChain p

/-- The invariant of the loop of `bfs` when the first `p` entries of the
queue have been expanded. -/
structure BfsInv (g : Grid Bool) (s : Cell) (dist : Grid Int) (prev : Grid (Option Cell))
    (queue : List Cell) (p : Nat) : Prop where
  distW : dist.width = g.width
  distH : dist.height = g.height
  prevW : prev.width = g.width
  prevH : prev.height = g.height
  start0 : dist.get s.x s.y = 0
  ple : p ≤ queue.length
  inQueue : ∀ c : Cell, g.Has c.x c.y → dist.get c.x c.y ≠ -1 → c ∈ queue
  sound : ∀ c ∈ queue, g.Has c.x c.y ∧ ∃ n : Nat, dist.get c.x c.y = n ∧ Reach g s n c
  sorted : ∀ (i j : Nat) (a b : Cell), i ≤ j → queue[i]? = some a → queue[j]? = some b →
    dist.get a.x a.y ≤ dist.get b.x b.y
  bound : ∀ a : Cell, queue[p]? = some a → ∀ c ∈ queue, dist.get c.x c.y ≤ dist.get a.x a.y + 1
  processed : ∀ (i : Nat) (a : Cell), i < p → queue[i]? = some a →
    ∀ b : Cell, Adjacent a b → Walkable g b →
      dist.get b.x b.y ≠ -1 ∧ dist.get b.x b.y ≤ dist.get a.x a.y + 1
  nodup : queue.Nodup
  prevStart : prev.get s.x s.y = none
  prevSome : ∀ c ∈ queue, c ≠ s → ∃ u : Cell, prev.get c.x c.y = some u ∧ u ∈ queue ∧
    Adjacent u c ∧ dist.get u.x u.y + 1 = dist.get c.x c.y
  prevNone : ∀ c : Cell, dist.get c.x c.y = -1 → prev.get c.x c.y = none
  small : ∀ c ∈ queue, dist.get c.x c.y < (queue.length : Int)

/-- The relation between the distance grid and queue of `bfs` before and
after some visits: set distances stay, the queue grows at its end. -/
structure BfsExt (dist dist1 : Grid Int) (queue queue1 : List Cell) : Prop where
  keep : ∀ c : Cell, dist.get c.x c.y ≠ -1 → dist1.get c.x c.y = dist.get c.x c.y
  grow : ∃ l, queue1 = queue ++ l

/-- The row `y` is a candidate of `findGoalNearRight`: its cell on column
`width - 2` is open and has a distance that is not negative. -/
def GoalRow (g : Grid Bool) (dist : Grid Int) (y : Int) : Prop :=
  g.get ((g.width : Int) - 2) y = true ∧ 0 ≤ dist.get ((g.width : Int) - 2) y

/-- What every returned layout satisfies on a grid of side `n`: the start is
`(1, 1)`, the goal lies on column `n - 2` strictly inside the border, goal
cell and exit cell are open, the rest of the outer ring is closed, and every
open interior cell is the end of a walk from the start. -/
structure GoodLayout (n : Nat) (l : Layout) : Prop where
  width : l.grid.width = n
  height : l.grid.height = n
  start : l.start = ⟨1, 1⟩
  goalX : l.goal.x = (n : Int) - 2
  goalY : 1 ≤ l.goal.y ∧ l.goal.y ≤ (n : Int) - 2
  goalOpen : l.grid.get ((n : Int) - 2) l.goal.y = true
  exitOpen : l.grid.get ((n : Int) - 1) l.goal.y = true
  border : ∀ x y : Int, l.grid.Border x y → ¬ (x = (n : Int) - 1 ∧ y = l.goal.y) →
    l.grid.get x y = false
  startOpen : l.grid.get 1 1 = true
  connected : ∀ c : Cell, Walkable l.grid c → ∃ k, Reach l.grid ⟨1, 1⟩ k c

/-- The acceptance test of attempt `attempt`: a goal exists, the reconstructed
path has at least `minPathLength` cells and at least `minTurns` turns, and
`rightDownOneTurn` is false. -/
def Accepted (trig : Trig) (config : Config) (attempt : Nat) : Prop :=
  ∃ goal : Goal,
    findGoalNearRight (attemptSearch trig config attempt).1
      (attemptSearch trig config attempt).2.1 = some goal ∧
    config.minPathLength ≤ ((analyzePath (reconstructPath (attemptSearch trig config attempt).2.2
      ⟨1, 1⟩ ⟨goal.x, goal.y⟩)).length : Int) ∧
    config.minTurns ≤ ((analyzePath (reconstructPath (attemptSearch trig config attempt).2.2
      ⟨1, 1⟩ ⟨goal.x, goal.y⟩)).turns : Int) ∧
    (analyzePath (reconstructPath (attemptSearch trig config attempt).2.2
      ⟨1, 1⟩ ⟨goal.x, goal.y⟩)).rightDownOneTurn = false

/-- The number of lattice nodes that are not marked in `visited`. -/
def unvisitedCount (visited : Grid Bool) : Nat :=
  ((Finset.Ico (0 : Int) visited.width ×ˢ Finset.Ico (0 : Int) visited.height).filter
    (fun q => visited.get q.1 q.2 = false)).card

/-- No cell of column `width - 2` or further right is open. -/
def RightClosed (g : Grid Bool) : Prop :=
  ∀ x y : Int, (g.width : Int) - 2 ≤ x → g.get x y = false

/-- A stand-in for the `Math.cos` and `Math.sin` of a host, for running the
generator on a concrete config: the values at angle zero. -/
def flatTrig : Trig := ⟨fun _ => F64.ofNat 1, fun _ => F64.ofNat 0⟩

/-- A grid of width four and height three whose only open cell is `(2, 1)`;
its other interior cell `(1, 1)` is closed. -/
def closedStartGrid : Grid Bool := (createGrid 4 3 false).set 2 1 true

/-- The rows of a grid drawn as strings: `.` is an open cell, any other
character a closed one. -/
def gridRows (rows : List String) : List (List Bool) :=
  rows.map fun r => r.toList.map fun ch => decide (ch = '.')

/-- The grid with the given rows (the filled grid when the rows do not have
the given dimensions). -/
def Grid.ofRows {α : Type} (width height : Nat) (rows : List (List α)) (fill : α) : Grid α :=
  if h : rows.length = height ∧ ∀ r ∈ rows, r.length = width then
    ⟨width, height, rows, h.1, h.2⟩
  else createGrid width height fill

/-- The fallback grid of the first level after `carvePerfectMaze`. -/
def emberKeepCarved : List String :=
  ["####################", "#.#.......#.......##", "#.###.###.#.#####.##",
    "#...#.#...#.#...#.##", "###.#.#.#####.#.#.##", "#...#.#.#.....#...##",
    "#.###.#.#.#######.##", "#.....#...#.......##", "###########.########",
    "#...#...#...#.....##", "#.#.#.###.###.###.##", "#.#.#.#...#.....#.##",
    "#.#.#.#.###.###.#.##", "#.#...#...#.#...#.##", "#.#######.#.#.###.##",
    "#...#.....#.#.#.#.##", "#.#.#.#######.#.#.##", "#.#...........#...##",
    "####################", "####################"]

/-- The fallback grid of the first level after `addLoops`; border
normalisation and pruning leave it unchanged. -/
def emberKeepLooped : List String :=
  ["####################", "#.#.......#.......##", "#.###.###...#####.##",
    "#...#.#...#.#...#.##", "###.#.#.#####.#.#.##", "#...#.#.#.....#...##",
    "#.###.#.#.#######.##", "#.....#...#.......##", "###.#######.########",
    "#...#...#...#.....##", "#.#.#.###.###..##.##", "#.#.#.#...#.....#.##",
    "#...#.#.###.###.#.##", "#.#...#...#.#...#.##", "#.#.####..#.#.###.##",
    "#...#.....#.#.#.#.##", "#.#.#..####.#.#.#.##", "#.#...........#...##",
    "####################", "####################"]

/-- The grid that the fallback returns for the first level: the corridor of
row 15 from the farthest cell `(15, 15)` and the exit `(19, 15)` are open. -/
def emberKeepFinal : List String :=
  ["####################", "#.#.......#.......##", "#.###.###...#####.##",
    "#...#.#...#.#...#.##", "###.#.#.#####.#.#.##", "#...#.#.#.....#...##",
    "#.###.#.#.#######.##", "#.....#...#.......##", "###.#######.########",
    "#...#...#...#.....##", "#.#.#.###.###..##.##", "#.#.#.#...#.....#.##",
    "#...#.#.###.###.#.##", "#.#...#...#.#...#.##", "#.#.####..#.#.###.##",
    "#...#.....#.#.#.....", "#.#.#..####.#.#.#.##", "#.#...........#...##",
    "####################", "####################"]


/-! ## Vocabulary for the components -/

/-- The cell reached from `c` by following the predecessor links of `prev`
`k` times; `none` when a link is missing on the way. -/
def followPrev (prev : Grid (Option Cell)) : Nat → Cell → Option Cell
  | 0, c => some c
  | k + 1, c =>
    match prev.get c.x c.y with
    | some u => followPrev prev k u
    | none => none

/-- The direction code of the step from `a` to `b`: the code of the entry of
`DIRS` that leads from `a` to `b`, `none` when `b` is not one unit step from
`a`. -/
def stepCode (a b : Cell) : Option Char :=
  (DIRS.find? fun d => decide (b.x = a.x + d.dx ∧ b.y = a.y + d.dy)).map Dir.code

/-- The number of positions `i >= 1` of the list at which the entry differs
from the entry at position `i - 1`. -/
def changeCount (codes : List Char) : Nat :=
  ((Finset.range codes.length).filter fun i => 1 ≤ i ∧ codes[i]? ≠ codes[i - 1]?).card

/-- The rectangle covers the cell `(x, y)`: it lies on the pixel row of the
cell, is one cell high, and the left edge of the cell lies within its width. -/
def Covers (cellSize : Int) (r : Rect) (x y : Int) : Prop :=
  r.y = y * cellSize ∧ r.height = cellSize ∧ r.x ≤ x * cellSize ∧ x * cellSize < r.x + r.width

instance (cellSize : Int) (r : Rect) (x y : Int) : Decidable (Covers cellSize r x y) := by
  unfold Covers; infer_instance

/-- The two rectangles have a point in common that is interior to both. -/
def Overlap (r s : Rect) : Prop :=
  r.x < s.x + s.width ∧ s.x < r.x + r.width ∧ r.y < s.y + s.height ∧ s.y < r.y + r.height

/-- The columns `a, ..., b - 1` of row `y`. -/
structure Run where
  y : Int
  a : Int
  b : Int
deriving Repr, DecidableEq

/-- The columns `a, ..., b - 1` of row `y` are a maximal run of closed cells:
they are closed cells of the grid, the cell left of column `a` is open or
outside the grid, and so is the cell at column `b`. -/
def MaxRun (g : Grid Bool) (y a b : Int) : Prop :=
  0 ≤ a ∧ a < b ∧ b ≤ (g.width : Int) ∧ (∀ x : Int, a ≤ x → x < b → g.get x y = false) ∧
    (a = 0 ∨ g.get (a - 1) y = true) ∧ (b = (g.width : Int) ∨ g.get b y = true)

/-- The rectangle that `buildWallsFromOpen` emits for a run. -/
def runRect (cellSize : Int) (r : Run) : Rect :=
  ⟨r.a * cellSize, r.y * cellSize, (r.b - r.a) * cellSize, cellSize⟩

/-- The position of a binary64 value on the rational line extended by the two
infinities; NaN, which has no position, is sent to the bottom. -/
def F64.key : F64 → WithBot (WithTop ℚ)
  | F64.fin m e => (((m : ℚ) * (2 : ℚ) ^ e : ℚ) : WithTop ℚ)
  | F64.inf false => ((⊤ : WithTop ℚ) : WithBot (WithTop ℚ))
  | F64.inf true => ⊥
  | F64.nan => ⊥

/-- The score that `findGoalNearRight` computes for row `y`:
`d - Math.abs(y - height / 2) * 0.35` for the distance `d` of the cell of
column `width - 2`. -/
def goalScore (g : Grid Bool) (dist : Grid Int) (y : Int) : F64 :=
  F64.sub (F64.ofInt (dist.get ((g.width : Int) - 2) y))
    (F64.mul (F64.round (Int.natAbs (2 * y - (g.height : Int))) (-1)) (F64.ofRat 35 100))

/-- The ticket of `pickWeighted` for the sample `k / 2 ^ 32`: the sample times
the sum of the weights, added to zero in list order. -/
def drawTicket {ι : Type} (weight : ι → F64) (items : List ι) (k : Nat) : F64 :=
  F64.mul (F64.ofSample k) (items.foldl (fun s item => F64.add s (weight item)) (F64.ofNat 0))

/-- The ticket after the weights of the first `n` items have been subtracted
from it one at a time, each difference rounded. -/
def ticketAfter {ι : Type} (weight : ι → F64) (items : List ι) (ticket : F64) (n : Nat) : F64 :=
  (items.take n).foldl (fun t item => F64.sub t (weight item)) ticket

/-- The sum of the first `n` weights, added to zero in list order, each sum
rounded. -/
def weightPrefix {ι : Type} (weight : ι → F64) (items : List ι) (n : Nat) : F64 :=
  (items.take n).foldl (fun s item => F64.add s (weight item)) (F64.ofNat 0)

/-- The rational number that a finite binary64 value stands for (`0` for the
values that are not finite). -/
def F64.toRat : F64 → ℚ
  | F64.fin m e => (m : ℚ) * (2 : ℚ) ^ e
  | _ => 0

/-- A sample source that returns the sample `k / 2 ^ 32` at every call. -/
structure FixedSample where
  k : Nat
  hk : k < 4294967296

instance : RandomSource FixedSample :=
  ⟨fun s => (s.k, s), fun s => s.hk⟩

/-- Three weights on which subtracting one weight at a time and subtracting
the sum of the weights round differently: `2 ^ -53`, `1` and `1 + 2 ^ -51`. -/
def tieWeights : List F64 := [F64.fin 1 (-53), F64.fin 1 0, F64.fin 2251799813685249 (-51)]

/-! ## Vocabulary for trees, the sample sequence and the fallback -/

/-- The list is a simple path of open cells from `a` to `b`: it begins with
`a`, ends with `b`, its cells are open cells of the grid, consecutive cells
are one unit step apart, and no cell occurs twice. -/
def SimplePath (g : Grid Bool) (a b : Cell) (p : List Cell) : Prop :=
  p.head? = some a ∧ p.getLast? = some b ∧ (∀ c ∈ p, g.cell c = true) ∧ StepChain p ∧ p.Nodup

/-- Between any two open cells of the grid there is exactly one simple path of
open cells. -/
def UniquePaths (g : Grid Bool) : Prop :=
  ∀ a b : Cell, g.cell a = true → g.cell b = true → ∃! p : List Cell, SimplePath g a b p

/-- The number of open cells of the grid. -/
def openCount (g : Grid Bool) : Nat :=
  ((Finset.Ico (0 : Int) g.width ×ˢ Finset.Ico (0 : Int) g.height).filter
    (fun q => g.get q.1 q.2 = true)).card

/-- The shape of a grid under construction by the carver: an open cell has an
odd coordinate, an open cell with an even coordinate lies between two open
cells of its row or column, and the open cells form a tree. -/
structure MazeShape (g : Grid Bool) : Prop where
  parity : ∀ x y : Int, g.get x y = true → x % 2 = 1 ∨ y % 2 = 1
  passH : ∀ x y : Int, g.get x y = true → x % 2 = 0 →
    g.get (x - 1) y = true ∧ g.get (x + 1) y = true
  passV : ∀ x y : Int, g.get x y = true → y % 2 = 0 →
    g.get x (y - 1) = true ∧ g.get x (y + 1) = true
  tree : UniquePaths g

/-- The state of the generator after `n` calls. -/
def Rng.after (g : Rng) : Nat → Rng
  | 0 => g
  | n + 1 => (Rng.next (Rng.after g n)).2

/-- The numerator `k` of the value `k / 2 ^ 32` that call number `n + 1` of
the generator `seededRandom seed` returns. -/
def seededSample (seed n : Nat) : Nat := (Rng.next (Rng.after (seededRandom seed) n)).1

/-- The mixing of the generator: two rounds of xor-shift and multiplication on
a 32-bit value and a final xor-shift, folded to 32 bits. -/
def mix32 (t32 : Nat) : Nat :=
  let r := imul (t32 ^^^ (t32 >>> 15)) (1 ||| t32)
  let r := r ^^^ ((r + imul (r ^^^ (r >>> 7)) (61 ||| r)) % 4294967296)
  (r ^^^ (r >>> 14)) % 4294967296

/-- One call of the reference generator, which keeps its state as an unsigned
32-bit integer: the state advances by `0x6d2b79f5` modulo `2 ^ 32` and the
output is the mixing of the new state. -/
def wrapNext (s : Nat) : Nat × Nat :=
  let t := (s + 0x6d2b79f5) % 4294967296
  (mix32 t, t)

/-- The state of the reference generator after `n` calls. -/
def wrapAfter (seed : Nat) : Nat → Nat
  | 0 => seed % 4294967296
  | n + 1 => (wrapNext (wrapAfter seed n)).2

/-- The numerator that call number `n + 1` of the reference generator returns. -/
def wrapSample (seed n : Nat) : Nat := (wrapNext (wrapAfter seed n)).1

/-- A config of grid side three with the least thresholds: one cell of path
and no turn. -/
def levelTiny : Config :=
  ⟨0, "Tiny", "Easy", 60, 7, 0, 1, 0,
    F64.ofRat 12 10, F64.ofRat 108 100, F64.ofRat 11 10, ProfileSpec.single "citadel"⟩

/-- The first entry of `BASE_LEVEL_DEFS` with another profile and the least
thresholds. -/
def levelEmberKeepPlain : Config :=
  ⟨1, "Easy I - Ember Keep", "Easy", 400, 1401, 22, 1, 0,
    F64.ofRat 12 10, F64.ofRat 108 100, F64.ofRat 11 10, ProfileSpec.single "rings"⟩

/-- The cell `(x, y)` bridges two open cells: its left and right neighbours
are both open, or its upper and lower neighbours are both open. -/
def Bridges (g : Grid Bool) (x y : Int) : Prop :=
  (g.get (x - 1) y = true ∧ g.get (x + 1) y = true) ∨
    (g.get x (y - 1) = true ∧ g.get x (y + 1) = true)

/-- One attempt of the loop injector turns `g` into `g1`: the sampled cell
lies strictly inside the border, so that the cell and its four neighbours are
entries of the grid; a cell that is open or bridges nothing leaves the grid as
it is, and a closed cell that bridges two open cells is opened. -/
def BridgeStep (g g1 : Grid Bool) : Prop :=
  ∃ x y : Int, g.Interior x y ∧
    ((g.get x y = true ∧ g1 = g) ∨
      (g.get x y = false ∧ ¬ Bridges g x y ∧ g1 = g) ∨
      (g.get x y = false ∧ Bridges g x y ∧ g1 = g.set x y true))

/-- The two interior neighbours `(2, 1)` and `(1, 2)` of the start cell are
closed. -/
def StartSealed (g : Grid Bool) : Prop := g.get 2 1 = false ∧ g.get 1 2 = false

/-- The array `profileList` of `applyProfileFeatures`: the names of the field
`profile` of a config, a single name as a list of one. -/
def profileList (config : Config) : List String :=
  match config.profile with
  | ProfileSpec.many names => names
  | ProfileSpec.single name => [name]

/-- The ninth entry of `BASE_LEVEL_DEFS`. -/
def levelCrownOfRelics : Config :=
  ⟨9, "Hard III - Crown of Relics", "Hard", 900, 7207, 144, 210, 37,
    F64.ofRat 11 10, F64.ofRat 118 100, F64.ofRat 115 100, ProfileSpec.single "rings"⟩

/-- The grid of attempt `attempt` after carving, loops and sculptors, before
`normalizeBorders`, with the sample source. -/
def attemptSculpted (trig : Trig) (config : Config) (attempt : Nat) : Grid Bool × Rng :=
  let attemptProfile : Profile := ⟨config.biasX, config.biasY, config.straightness⟩
  let seed := config.seed + attempt * 97
  let base := carvePerfectMaze (gridSize config) (gridSize config) seed attemptProfile
  let s := addLoops base.1 base.2 (config.loopCount + (attempt / 20 : Nat))
  applyProfileFeatures trig s.1 s.2 config

/-- The invariant of the loop of `carvePerfectMaze` on a grid of `w` by `h`
cells with a lattice of `nodesW` by `nodesH` nodes: a node is marked exactly
when its fine cell is open; every open cell lies in the rows and columns
`1, ..., 2 * nodes - 1`; the open cells have the shape of a tree; every node on
the stack is a marked node of the lattice; every marked node is on the stack
or has all its lattice neighbours marked; the origin is marked; and the open
cells number twice the marked nodes less one. -/
structure CarveInv {σ : Type} (w h nodesW nodesH : Nat) (st : CarveState σ) : Prop where
  gridW : st.grid.width = w
  gridH : st.grid.height = h
  visW : st.visited.width = nodesW
  visH : st.visited.height = nodesH
  node : ∀ i j : Int, 0 ≤ i → i < (nodesW : Int) → 0 ≤ j → j < (nodesH : Int) →
    (st.visited.get i j = true ↔ st.grid.get (1 + i * 2) (1 + j * 2) = true)
  range : ∀ x y : Int, st.grid.get x y = true →
    1 ≤ x ∧ x ≤ 2 * (nodesW : Int) - 1 ∧ 1 ≤ y ∧ y ≤ 2 * (nodesH : Int) - 1
  shape : MazeShape st.grid
  stack : ∀ nd ∈ st.stack,
    (0 ≤ nd.x ∧ nd.x < (nodesW : Int) ∧ 0 ≤ nd.y ∧ nd.y < (nodesH : Int)) ∧
      st.visited.get nd.x nd.y = true
  finished : ∀ i j : Int, st.visited.get i j = true →
    (∃ nd ∈ st.stack, nd.x = i ∧ nd.y = j) ∨
    (∀ d ∈ DIRS, 0 ≤ i + d.dx → i + d.dx < (nodesW : Int) → 0 ≤ j + d.dy →
      j + d.dy < (nodesH : Int) → st.visited.get (i + d.dx) (j + d.dy) = true)
  origin : st.visited.get 0 0 = true
  count : openCount st.grid + 2 * unvisitedCount st.visited + 1 = 2 * (nodesW * nodesH)

/-! ## Concrete inputs -/

/-- A config of grid side seven with the biases of the first level: its
attempt `0` is rejected and its attempt `1` is accepted. -/
def levelSmall : Config :=
  ⟨0, "Small", "Easy", 140, 7, 2, 9, 2,
    F64.ofRat 12 10, F64.ofRat 108 100, F64.ofRat 11 10, ProfileSpec.single "citadel"⟩

/-- The config `levelSmall` with a `minPathLength` of fifty, more than the
forty-nine cells of its grid. -/
def levelSmallLong : Config :=
  ⟨0, "Small", "Easy", 140, 7, 2, 50, 2,
    F64.ofRat 12 10, F64.ofRat 108 100, F64.ofRat 11 10, ProfileSpec.single "citadel"⟩

/-- A grid of side five with the open cells `(1, 1)`, `(2, 1)`, `(2, 2)`, which
are joined to `(1, 1)`, and `(1, 3)`, `(3, 3)`, which are not. -/
def islandGrid : Grid Bool :=
  ((((createGrid 5 5 false).set 1 1 true).set 2 1 true).set 2 2 true).set 1 3 true |>.set 3 3 true

/-- A grid of width three and height forty-five whose column `width - 2` is
open in the rows `22` and `43`. -/
def tieGrid : Grid Bool := ((createGrid 3 45 false).set 1 22 true).set 1 43 true

/-- A distance grid for `tieGrid`: distance `1` in row `22`, distance `8` in
row `43`, unset elsewhere. -/
def tieDist : Grid Int := ((createGrid 3 45 (-1)).set 1 22 1).set 1 43 8

/-! ## Grid lemmas -/

theorem list_getD_set {α : Type} (l : List α) (i j : Nat) (v d : α) :
    (l.set i v).getD j d = if i = j ∧ i < l.length then v else l.getD j d := by
  induction l generalizing i j with
  | nil => simp
  | cons a l ih =>
    cases i with
    | zero =>
      cases j with
      | zero => simp
      | succ j => simp
    | succ i =>
      cases j with
      | zero => simp
      | succ j => simpa [List.getD_eq_getElem?_getD] using ih i j

theorem list_getD_of_lt {α : Type} (l : List α) (i : Nat) (d : α) (h : i < l.length) :
    l.getD i d = l.get ⟨i, h⟩ := by
  induction l generalizing i with
  | nil => simp at h
  | cons a l ih =>
    cases i with
    | zero => simp
    | succ i => simpa using ih i (by simpa using h)

theorem list_getD_of_ge {α : Type} (l : List α) (i : Nat) (d : α) (h : l.length ≤ i) :
    l.getD i d = d := by
  induction l generalizing i with
  | nil => simp
  | cons a l ih =>
    cases i with
    | zero => simp at h
    | succ i => simpa using ih i (by simpa using h)

theorem list_getD_replicate {α : Type} (n i : Nat) (v d : α) :
    (List.replicate n v).getD i d = if i < n then v else d := by
  induction n generalizing i with
  | zero => simp
  | succ n ih =>
    cases i with
    | zero => simp [List.replicate]
    | succ i => simpa [List.replicate, List.getD_eq_getElem?_getD] using ih i

theorem Grid.row_length {α : Type} (g : Grid α) (y : Nat) (h : y < g.height) :
    (g.rows.getD y []).length = g.width := by
  have hl : y < g.rows.length := by rw [g.hrows]; exact h
  rw [list_getD_of_lt _ _ _ hl]
  exact g.hcols _ (List.get_mem _ _ _)

theorem Grid.set_width {α : Type} (g : Grid α) (x y : Int) (v : α) :
    (g.set x y v).width = g.width := by
  unfold Grid.set; split <;> rfl

theorem Grid.set_height {α : Type} (g : Grid α) (x y : Int) (v : α) :
    (g.set x y v).height = g.height := by
  unfold Grid.set; split <;> rfl

theorem Grid.get_outside {α : Type} [Inhabited α] (g : Grid α) (x y : Int) (h : ¬ g.Has x y) :
    g.get x y = default := by
  unfold Grid.get
  unfold Grid.Has at h
  by_cases h1 : 0 ≤ x ∧ 0 ≤ y
  · rw [if_pos h1]
    by_cases hy : y.toNat < g.height
    · have := g.row_length y.toNat hy
      exact list_getD_of_ge _ _ _ (by omega)
    · rw [list_getD_of_ge g.rows y.toNat [] (by rw [g.hrows]; omega)]
      rfl
  · rw [if_neg h1]

theorem Grid.get_set {α : Type} [Inhabited α] (g : Grid α) (x y x1 y1 : Int) (v : α) :
    (g.set x y v).get x1 y1 = if x1 = x ∧ y1 = y ∧ g.Has x y then v else g.get x1 y1 := by
  by_cases hs : 0 ≤ x ∧ 0 ≤ y ∧ y.toNat < g.rows.length
  · have hset : (g.set x y v).rows
        = g.rows.set y.toNat ((g.rows.getD y.toNat []).set x.toNat v) := by
      unfold Grid.set; rw [dif_pos hs, list_getD_of_lt _ _ _ hs.2.2]
    obtain ⟨hx, hy, hlt⟩ := hs
    have hyh : y.toNat < g.height := by rw [← g.hrows]; exact hlt
    have hrow := g.row_length y.toNat hyh
    unfold Grid.get
    rw [hset]
    by_cases h1 : 0 ≤ x1 ∧ 0 ≤ y1
    · rw [if_pos h1, if_pos h1, list_getD_set]
      by_cases hyy : y.toNat = y1.toNat
      · rw [if_pos ⟨hyy, hlt⟩, list_getD_set, ← hyy]
        by_cases hxx : x.toNat = x1.toNat ∧ x.toNat < (g.rows.getD y.toNat []).length
        · rw [if_pos hxx, if_pos]
          unfold Grid.Has; omega
        · rw [if_neg hxx, if_neg]
          unfold Grid.Has; omega
      · rw [if_neg (fun h => hyy h.1), if_neg]
        omega
    · rw [if_neg h1, if_neg h1, if_neg]
      unfold Grid.Has; omega
  · have hset : g.set x y v = g := by unfold Grid.set; rw [dif_neg hs]
    rw [hset, if_neg]
    unfold Grid.Has
    have := g.hrows
    omega

theorem createGrid_get {α : Type} [Inhabited α] (w h : Nat) (v : α) (x y : Int) :
    (createGrid w h v).get x y = if (createGrid w h v).Has x y then v else default := by
  by_cases hh : (createGrid w h v).Has x y
  · rw [if_pos hh]
    have hw : (createGrid w h v).width = w := rfl
    have hhh : (createGrid w h v).height = h := rfl
    unfold Grid.Has at hh
    rw [hw, hhh] at hh
    unfold Grid.get createGrid
    rw [if_pos ⟨hh.1, hh.2.2.1⟩]
    simp only [list_getD_replicate]
    rw [if_pos (by omega), list_getD_replicate, if_pos (by omega)]
  · rw [if_neg hh]; exact Grid.get_outside _ _ _ hh


/-! ## Breadth-first search -/

theorem cell_eq_iff (c : Cell) (x y : Int) : c = ⟨x, y⟩ ↔ c.x = x ∧ c.y = y := by
  cases c; simp

theorem Grid.has_of_interior {α : Type} (g : Grid α) (x y : Int) (h : g.Interior x y) :
    g.Has x y := by
  unfold Grid.Interior at h; unfold Grid.Has; omega

theorem mem_of_getElem? {α : Type} (l : List α) (i : Nat) (a : α) (h : l[i]? = some a) :
    a ∈ l := by
  rw [List.getElem?_eq_some] at h
  obtain ⟨hi, rfl⟩ := h
  exact List.getElem_mem _

theorem bfsVisit_cases (g : Grid Bool) (cur : Cell) (st : BfsState) (d : Dir) :
    (bfsVisit g cur st d = st ∧
      (Walkable g ⟨cur.x + d.dx, cur.y + d.dy⟩ →
        st.dist.get (cur.x + d.dx) (cur.y + d.dy) ≠ -1)) ∨
    (Walkable g ⟨cur.x + d.dx, cur.y + d.dy⟩ ∧
      st.dist.get (cur.x + d.dx) (cur.y + d.dy) = -1 ∧
      bfsVisit g cur st d =
        ⟨st.dist.set (cur.x + d.dx) (cur.y + d.dy) (st.dist.get cur.x cur.y + 1),
          st.prev.set (cur.x + d.dx) (cur.y + d.dy) (some cur),
          st.queue ++ [⟨cur.x + d.dx, cur.y + d.dy⟩], st.head⟩) := by
  unfold bfsVisit Walkable Grid.Interior
  simp only []
  by_cases h1 : cur.x + d.dx < 1 ∨ cur.y + d.dy < 1 ∨ cur.x + d.dx ≥ (g.width : Int) - 1 ∨
      cur.y + d.dy ≥ (g.height : Int) - 1
  · left
    rw [if_pos h1]
    refine ⟨rfl, fun hw => ?_⟩
    omega
  · rw [if_neg h1]
    by_cases h2 : g.get (cur.x + d.dx) (cur.y + d.dy) = true
    · by_cases h3 : st.dist.get (cur.x + d.dx) (cur.y + d.dy) = -1
      · right
        refine ⟨⟨by omega, h2⟩, h3, ?_⟩
        simp [h2, h3]
      · left
        simp [h2, h3]
    · left
      simp [h2]

theorem BfsInv.enqueue {g : Grid Bool} {s : Cell} {dist : Grid Int} {prev : Grid (Option Cell)}
    {queue : List Cell} {p : Nat} (hinv : BfsInv g s dist prev queue p) {cur : Cell}
    (hcur : queue[p]? = some cur) (b : Cell) (hadj : Adjacent cur b) (hw : Walkable g b)
    (hD : dist.get b.x b.y = -1) :
    BfsInv g s (dist.set b.x b.y (dist.get cur.x cur.y + 1)) (prev.set b.x b.y (some cur))
      (queue ++ [b]) p := by
  have hcurmem : cur ∈ queue := mem_of_getElem? _ _ _ hcur
  have hplt : p < queue.length := by
    rw [List.getElem?_eq_some] at hcur; exact hcur.1
  obtain ⟨hcurHas, ncur, hncur, hreach⟩ := hinv.sound cur hcurmem
  have hbHas : g.Has b.x b.y := g.has_of_interior _ _ hw.1
  have hbHasD : dist.Has b.x b.y := by
    unfold Grid.Has at *; rw [hinv.distW, hinv.distH]; exact hbHas
  have hbHasP : prev.Has b.x b.y := by
    unfold Grid.Has at *; rw [hinv.prevW, hinv.prevH]; exact hbHas
  have hDset : ∀ c : Cell, (dist.set b.x b.y (dist.get cur.x cur.y + 1)).get c.x c.y
      = if c = b then dist.get cur.x cur.y + 1 else dist.get c.x c.y := by
    intro c
    rw [Grid.get_set]
    by_cases hc : c = b
    · subst hc; rw [if_pos ⟨rfl, rfl, hbHasD⟩, if_pos rfl]
    · rw [if_neg hc, if_neg]
      intro h; apply hc; cases c; cases b; simp at *; exact ⟨h.1, h.2.1⟩
  have hPset : ∀ c : Cell, (prev.set b.x b.y (some cur)).get c.x c.y
      = if c = b then some cur else prev.get c.x c.y := by
    intro c
    rw [Grid.get_set]
    by_cases hc : c = b
    · subst hc; rw [if_pos ⟨rfl, rfl, hbHasP⟩, if_pos rfl]
    · rw [if_neg hc, if_neg]
      intro h; apply hc; cases c; cases b; simp at *; exact ⟨h.1, h.2.1⟩
  have hold : ∀ c ∈ queue, c ≠ b := by
    intro c hc hcb
    obtain ⟨_, n, hn, _⟩ := hinv.sound c hc
    rw [hcb, hD] at hn; omega
  have holdD : ∀ c ∈ queue, (dist.set b.x b.y (dist.get cur.x cur.y + 1)).get c.x c.y
      = dist.get c.x c.y := by
    intro c hc; rw [hDset, if_neg (hold c hc)]
  have hnewD : (dist.set b.x b.y (dist.get cur.x cur.y + 1)).get b.x b.y
      = dist.get cur.x cur.y + 1 := by rw [hDset, if_pos rfl]
  have hkeep : ∀ c : Cell, dist.get c.x c.y ≠ -1 →
      (dist.set b.x b.y (dist.get cur.x cur.y + 1)).get c.x c.y = dist.get c.x c.y := by
    intro c hc; rw [hDset, if_neg]; intro h; rw [h] at hc; exact hc hD
  have hsb : s ≠ b := by
    intro h; have := hinv.start0; rw [h, hD] at this; omega
  have hget : ∀ (i : Nat) (a : Cell), (queue ++ [b])[i]? = some a →
      (i < queue.length ∧ queue[i]? = some a) ∨ (i = queue.length ∧ a = b) := by
    intro i a h
    by_cases hi : i < queue.length
    · left; rw [List.getElem?_append_left hi] at h; exact ⟨hi, h⟩
    · right
      rw [List.getElem?_append_right (by omega)] at h
      have : i - queue.length = 0 := by
        by_contra hne
        rw [List.getElem?_eq_none (by simp; omega)] at h
        exact absurd h (by simp)
      rw [this] at h
      simp at h
      exact ⟨by omega, h.symm⟩
  refine
    { distW := by rw [Grid.set_width]; exact hinv.distW
      distH := by rw [Grid.set_height]; exact hinv.distH
      prevW := by rw [Grid.set_width]; exact hinv.prevW
      prevH := by rw [Grid.set_height]; exact hinv.prevH
      start0 := by rw [hDset, if_neg hsb]; exact hinv.start0
      ple := by rw [List.length_append]; have := hinv.ple; omega
      inQueue := ?_
      sound := ?_
      sorted := ?_
      bound := ?_
      processed := ?_
      nodup := ?_
      prevStart := by rw [hPset, if_neg hsb]; exact hinv.prevStart
      prevSome := ?_
      prevNone := ?_
      small := ?_ }
  · intro c hc hne
    rw [hDset] at hne
    by_cases hcb : c = b
    · rw [hcb]; exact List.mem_append_right _ (List.mem_singleton_self b)
    · rw [if_neg hcb] at hne
      exact List.mem_append_left _ (hinv.inQueue c hc hne)
  · intro c hc
    rcases List.mem_append.mp hc with h | h
    · obtain ⟨h1, n, hn, hr⟩ := hinv.sound c h
      exact ⟨h1, n, by rw [holdD c h]; exact hn, hr⟩
    · rw [List.mem_singleton] at h
      subst h
      refine ⟨hbHas, ncur + 1, ?_, Reach.step hreach hadj hw⟩
      rw [hnewD, hncur]; push_cast; rfl
  · intro i j a c hij ha hc
    rcases hget j c hc with ⟨hj, hc1⟩ | ⟨hj, hc1⟩
    · rcases hget i a ha with ⟨hi, ha1⟩ | ⟨hi, _⟩
      · rw [holdD a (mem_of_getElem? _ _ _ ha1), holdD c (mem_of_getElem? _ _ _ hc1)]
        exact hinv.sorted i j a c hij ha1 hc1
      · omega
    · subst hc1
      rcases hget i a ha with ⟨hi, ha1⟩ | ⟨hi, ha1⟩
      · rw [holdD a (mem_of_getElem? _ _ _ ha1), hnewD]
        exact hinv.bound cur hcur a (mem_of_getElem? _ _ _ ha1)
      · subst ha1; exact le_refl _
  · intro a ha c hc
    rcases hget p a ha with ⟨_, ha1⟩ | ⟨hp, _⟩
    · rw [hcur] at ha1
      have hac : cur = a := Option.some.inj ha1
      subst hac
      rw [holdD cur hcurmem]
      rcases List.mem_append.mp hc with h | h
      · rw [holdD c h]; exact hinv.bound cur hcur c h
      · rw [List.mem_singleton] at h; subst h; rw [hnewD]
    · omega
  · intro i a hi ha c hac hwc
    rcases hget i a ha with ⟨_, ha1⟩ | ⟨hi1, _⟩
    · obtain ⟨h1, h2⟩ := hinv.processed i a hi ha1 c hac hwc
      rw [hkeep c h1, holdD a (mem_of_getElem? _ _ _ ha1)]
      exact ⟨h1, h2⟩
    · omega
  · rw [List.nodup_append]
    refine ⟨hinv.nodup, List.nodup_singleton b, ?_⟩
    intro c hc hcb
    rw [List.mem_singleton] at hcb
    exact hold c hc hcb
  · intro c hc hcs
    rcases List.mem_append.mp hc with h | h
    · obtain ⟨u, hu1, hu2, hu3, hu4⟩ := hinv.prevSome c h hcs
      refine ⟨u, ?_, List.mem_append_left _ hu2, hu3, ?_⟩
      · rw [hPset, if_neg (hold c h)]; exact hu1
      · rw [holdD u hu2, holdD c h]; exact hu4
    · rw [List.mem_singleton] at h
      subst h
      refine ⟨cur, ?_, List.mem_append_left _ hcurmem, hadj, ?_⟩
      · rw [hPset, if_pos rfl]
      · rw [holdD cur hcurmem, hnewD]
  · intro c hc
    rw [hDset] at hc
    by_cases hcb : c = b
    · rw [if_pos hcb, hncur] at hc; omega
    · rw [if_neg hcb] at hc
      rw [hPset, if_neg hcb]; exact hinv.prevNone c hc
  · intro c hc
    rw [List.length_append, List.length_singleton]
    rcases List.mem_append.mp hc with h | h
    · have := hinv.small c h
      rw [holdD c h]; push_cast; omega
    · rw [List.mem_singleton] at h
      subst h
      have := hinv.small cur hcurmem
      rw [hnewD]; push_cast; omega

theorem BfsExt.enqueue_ext {dist : Grid Int} {queue : List Cell} (b : Cell) (v : Int)
    (hD : dist.get b.x b.y = -1) :
    BfsExt dist (dist.set b.x b.y v) queue (queue ++ [b]) := by
  refine ⟨?_, [b], rfl⟩
  intro c hc
  rw [Grid.get_set, if_neg]
  intro h
  apply hc
  rw [h.1, h.2.1]; exact hD


theorem BfsExt.refl (dist : Grid Int) (queue : List Cell) : BfsExt dist dist queue queue :=
  ⟨fun _ _ => rfl, [], (List.append_nil _).symm⟩

theorem BfsExt.trans {d1 d2 d3 : Grid Int} {q1 q2 q3 : List Cell}
    (h12 : BfsExt d1 d2 q1 q2) (h23 : BfsExt d2 d3 q2 q3) : BfsExt d1 d3 q1 q3 := by
  refine ⟨fun c hc => ?_, ?_⟩
  · have e := h12.keep c hc
    rw [h23.keep c (by rw [e]; exact hc), e]
  · obtain ⟨l1, e1⟩ := h12.grow
    obtain ⟨l2, e2⟩ := h23.grow
    exact ⟨l1 ++ l2, by rw [e2, e1, List.append_assoc]⟩

theorem BfsExt.getElem? {d1 d2 : Grid Int} {q1 q2 : List Cell} (h : BfsExt d1 d2 q1 q2)
    {i : Nat} {a : Cell} (ha : q1[i]? = some a) : q2[i]? = some a := by
  obtain ⟨l, e⟩ := h.grow
  have hi : i < q1.length := by rw [List.getElem?_eq_some] at ha; exact ha.1
  rw [e, List.getElem?_append_left hi]; exact ha

/-- After the visit of direction `d` the neighbour of `cur` in that direction,
when it is open and interior, has a distance, at most one more than `cur`. -/
theorem bfsVisit_inv {g : Grid Bool} {s : Cell} {st : BfsState} {p : Nat} {cur : Cell}
    (hinv : BfsInv g s st.dist st.prev st.queue p) (hcur : st.queue[p]? = some cur)
    (d : Dir) (hd : d ∈ DIRS) :
    BfsInv g s (bfsVisit g cur st d).dist (bfsVisit g cur st d).prev
        (bfsVisit g cur st d).queue p ∧
      BfsExt st.dist (bfsVisit g cur st d).dist st.queue (bfsVisit g cur st d).queue ∧
      (bfsVisit g cur st d).head = st.head ∧
      (Walkable g ⟨cur.x + d.dx, cur.y + d.dy⟩ →
        (bfsVisit g cur st d).dist.get (cur.x + d.dx) (cur.y + d.dy) ≠ -1 ∧
        (bfsVisit g cur st d).dist.get (cur.x + d.dx) (cur.y + d.dy)
          ≤ (bfsVisit g cur st d).dist.get cur.x cur.y + 1) := by
  rcases bfsVisit_cases g cur st d with ⟨he, hne⟩ | ⟨hw, hD, he⟩
  · rw [he]
    refine ⟨hinv, BfsExt.refl _ _, rfl, fun hw => ⟨hne hw, ?_⟩⟩
    have hmem := hinv.inQueue ⟨cur.x + d.dx, cur.y + d.dy⟩ (g.has_of_interior _ _ hw.1) (hne hw)
    exact hinv.bound cur hcur _ hmem
  · rw [he]
    have hadj : Adjacent cur ⟨cur.x + d.dx, cur.y + d.dy⟩ := ⟨d, hd, rfl, rfl⟩
    have hpush := hinv.enqueue hcur ⟨cur.x + d.dx, cur.y + d.dy⟩ hadj hw hD
    have hext : BfsExt st.dist
        (st.dist.set (cur.x + d.dx) (cur.y + d.dy) (st.dist.get cur.x cur.y + 1)) st.queue
        (st.queue ++ [⟨cur.x + d.dx, cur.y + d.dy⟩]) :=
      BfsExt.enqueue_ext ⟨cur.x + d.dx, cur.y + d.dy⟩ _ hD
    refine ⟨hpush, hext, rfl, fun _ => ?_⟩
    have hcurmem : cur ∈ st.queue := mem_of_getElem? _ _ _ hcur
    obtain ⟨_, n, hn, _⟩ := hinv.sound cur hcurmem
    have hc : (st.dist.set (cur.x + d.dx) (cur.y + d.dy) (st.dist.get cur.x cur.y + 1)).get
        cur.x cur.y = st.dist.get cur.x cur.y := hext.keep cur (by rw [hn]; omega)
    have hb : (st.dist.set (cur.x + d.dx) (cur.y + d.dy) (st.dist.get cur.x cur.y + 1)).get
        (cur.x + d.dx) (cur.y + d.dy) = st.dist.get cur.x cur.y + 1 := by
      rw [Grid.get_set, if_pos]
      refine ⟨rfl, rfl, ?_⟩
      have := g.has_of_interior _ _ hw.1
      unfold Grid.Has at *; rw [hinv.distW, hinv.distH]; exact this
    simp only []
    rw [hb, hc, hn]
    constructor <;> omega

theorem bfsVisit_fold {g : Grid Bool} {s : Cell} {p : Nat} {cur : Cell} (ds : List Dir)
    (hds : ∀ d ∈ ds, d ∈ DIRS) (st : BfsState)
    (hinv : BfsInv g s st.dist st.prev st.queue p) (hcur : st.queue[p]? = some cur) :
    BfsInv g s (ds.foldl (bfsVisit g cur) st).dist (ds.foldl (bfsVisit g cur) st).prev
        (ds.foldl (bfsVisit g cur) st).queue p ∧
      BfsExt st.dist (ds.foldl (bfsVisit g cur) st).dist st.queue
        (ds.foldl (bfsVisit g cur) st).queue ∧
      (ds.foldl (bfsVisit g cur) st).head = st.head ∧
      ∀ d ∈ ds, Walkable g ⟨cur.x + d.dx, cur.y + d.dy⟩ →
        (ds.foldl (bfsVisit g cur) st).dist.get (cur.x + d.dx) (cur.y + d.dy) ≠ -1 ∧
        (ds.foldl (bfsVisit g cur) st).dist.get (cur.x + d.dx) (cur.y + d.dy)
          ≤ (ds.foldl (bfsVisit g cur) st).dist.get cur.x cur.y + 1 := by
  induction ds generalizing st with
  | nil => exact ⟨hinv, BfsExt.refl _ _, rfl, fun d hd => absurd hd (List.not_mem_nil d)⟩
  | cons d ds ih =>
    obtain ⟨h1, h2, h3, h4⟩ := bfsVisit_inv hinv hcur d (hds d (List.mem_cons_self _ _))
    obtain ⟨k1, k2, k3, k4⟩ := ih (fun e he => hds e (List.mem_cons_of_mem _ he))
      (bfsVisit g cur st d) h1 (h2.getElem? hcur)
    rw [List.foldl_cons]
    refine ⟨k1, h2.trans k2, by rw [k3, h3], ?_⟩
    intro e he hw
    rcases List.mem_cons.mp he with rfl | he1
    · obtain ⟨a1, a2⟩ := h4 hw
      have hcurmem : cur ∈ (bfsVisit g cur st e).queue := mem_of_getElem? _ _ _ (h2.getElem? hcur)
      obtain ⟨_, n, hn, _⟩ := h1.sound cur hcurmem
      rw [k2.keep ⟨cur.x + e.dx, cur.y + e.dy⟩ a1, k2.keep cur (by rw [hn]; omega)]
      exact ⟨a1, a2⟩
    · exact k4 e he1 hw

theorem bfsStep_inv {g : Grid Bool} {s : Cell} {st : BfsState} {cur : Cell}
    (hinv : BfsInv g s st.dist st.prev st.queue st.head) (hcur : st.queue[st.head]? = some cur) :
    BfsInv g s (DIRS.foldl (bfsVisit g cur) ⟨st.dist, st.prev, st.queue, st.head + 1⟩).dist
        (DIRS.foldl (bfsVisit g cur) ⟨st.dist, st.prev, st.queue, st.head + 1⟩).prev
        (DIRS.foldl (bfsVisit g cur) ⟨st.dist, st.prev, st.queue, st.head + 1⟩).queue
        (DIRS.foldl (bfsVisit g cur) ⟨st.dist, st.prev, st.queue, st.head + 1⟩).head ∧
      (DIRS.foldl (bfsVisit g cur) ⟨st.dist, st.prev, st.queue, st.head + 1⟩).head
        = st.head + 1 := by
  obtain ⟨h1, h2, h3, h4⟩ := @bfsVisit_fold g s st.head cur DIRS
    (fun d hd => hd) ⟨st.dist, st.prev, st.queue, st.head + 1⟩ hinv hcur
  simp only [] at h3
  refine ⟨?_, h3⟩
  rw [h3]
  have hcur1 := h2.getElem? hcur
  have hlt : st.head < (DIRS.foldl (bfsVisit g cur)
      ⟨st.dist, st.prev, st.queue, st.head + 1⟩).queue.length := by
    rw [List.getElem?_eq_some] at hcur1; exact hcur1.1
  exact
    { distW := h1.distW, distH := h1.distH, prevW := h1.prevW, prevH := h1.prevH
      start0 := h1.start0
      ple := hlt
      inQueue := h1.inQueue
      sound := h1.sound
      sorted := h1.sorted
      bound := fun a ha c hc =>
        le_trans (h1.bound cur hcur1 c hc)
          (by have := h1.sorted st.head (st.head + 1) cur a (Nat.le_succ _) hcur1 ha; omega)
      processed := fun i a hi ha b hab hwb => by
        rcases Nat.lt_succ_iff_lt_or_eq.mp hi with hlt1 | heq
        · exact h1.processed i a hlt1 ha b hab hwb
        · subst heq
          rw [hcur1] at ha
          have hca : cur = a := Option.some.inj ha
          subst hca
          obtain ⟨d, hd, hx, hy⟩ := hab
          have hb : b = ⟨cur.x + d.dx, cur.y + d.dy⟩ := by
            rw [cell_eq_iff]; exact ⟨hx, hy⟩
          have := h4 d hd (by rw [← hb]; exact hwb)
          rw [hb]; exact this
      nodup := h1.nodup
      prevStart := h1.prevStart
      prevSome := h1.prevSome
      prevNone := h1.prevNone
      small := h1.small }


theorem cell_ext (a b : Cell) (hx : a.x = b.x) (hy : a.y = b.y) : a = b := by
  cases a; cases b; simp at hx hy; simp [hx, hy]

theorem cells_length_le (w h : Nat) (l : List Cell) (hnd : l.Nodup)
    (hin : ∀ c ∈ l, 0 ≤ c.x ∧ c.x < (w : Int) ∧ 0 ≤ c.y ∧ c.y < (h : Int)) :
    l.length ≤ w * h := by
  have hinj : Function.Injective (fun c : Cell => (c.x, c.y)) := by
    intro a b hab
    cases a; cases b; simp at hab; simp [hab.1, hab.2]
  have hnd2 : (l.map (fun c : Cell => (c.x, c.y))).Nodup := hnd.map hinj
  have hsub : (l.map (fun c : Cell => (c.x, c.y))).toFinset
      ⊆ Finset.Ico (0 : Int) w ×ˢ Finset.Ico (0 : Int) h := by
    intro q hq
    rw [List.mem_toFinset, List.mem_map] at hq
    obtain ⟨c, hc, rfl⟩ := hq
    have := hin c hc
    simp only [Finset.mem_product, Finset.mem_Ico]
    omega
  have hcard := Finset.card_le_card hsub
  rw [List.toFinset_card_of_nodup hnd2, List.length_map, Finset.card_product, Int.card_Ico,
    Int.card_Ico] at hcard
  simpa using hcard

theorem BfsInv.queue_length_le {g : Grid Bool} {s : Cell} {dist : Grid Int}
    {prev : Grid (Option Cell)} {queue : List Cell} {p : Nat}
    (hinv : BfsInv g s dist prev queue p) : queue.length ≤ g.width * g.height :=
  cells_length_le _ _ _ hinv.nodup (fun c hc => (hinv.sound c hc).1)

theorem bfsInit_inv (g : Grid Bool) (s : Cell) (hs : g.Has s.x s.y) :
    BfsInv g s (bfsInit g s).dist (bfsInit g s).prev (bfsInit g s).queue 0 := by
  have hD : ∀ c : Cell, (bfsInit g s).dist.get c.x c.y
      = if c = s then 0 else if g.Has c.x c.y then -1 else default := by
    intro c
    unfold bfsInit
    simp only []
    rw [Grid.get_set, createGrid_get]
    by_cases hc : c = s
    · subst hc
      rw [if_pos ⟨rfl, rfl, hs⟩, if_pos rfl]
    · rw [if_neg hc, if_neg]
      · rfl
      · intro h; apply hc; exact cell_ext c s h.1 h.2.1
  have hP : ∀ c : Cell, (bfsInit g s).prev.get c.x c.y = none := by
    intro c
    unfold bfsInit
    simp only []
    rw [createGrid_get]
    split <;> rfl
  have hq : (bfsInit g s).queue = [s] := by cases s; rfl
  refine
    { distW := by unfold bfsInit; simp only []; rw [Grid.set_width]; rfl
      distH := by unfold bfsInit; simp only []; rw [Grid.set_height]; rfl
      prevW := rfl
      prevH := rfl
      start0 := by rw [hD, if_pos rfl]
      ple := Nat.zero_le _
      inQueue := ?_
      sound := ?_
      sorted := ?_
      bound := ?_
      processed := fun i a hi => absurd hi (Nat.not_lt_zero i)
      nodup := by rw [hq]; exact List.nodup_singleton s
      prevStart := hP s
      prevSome := ?_
      prevNone := fun c _ => hP c
      small := ?_ }
  · intro c hc hne
    rw [hD] at hne
    by_cases hcs : c = s
    · rw [hq, hcs]; exact List.mem_singleton_self s
    · rw [if_neg hcs, if_pos hc] at hne; exact absurd rfl hne
  · intro c hc
    rw [hq, List.mem_singleton] at hc
    subst hc
    exact ⟨hs, 0, by rw [hD, if_pos rfl]; rfl, Reach.start⟩
  · intro i j a b _ ha hb
    rw [hq] at ha hb
    have ha1 := mem_of_getElem? _ _ _ ha
    have hb1 := mem_of_getElem? _ _ _ hb
    rw [List.mem_singleton] at ha1 hb1
    rw [ha1, hb1]
  · intro a ha c hc
    rw [hq] at ha hc
    have ha1 := mem_of_getElem? _ _ _ ha
    rw [List.mem_singleton] at ha1 hc
    rw [ha1, hc]; omega
  · intro c hc hcs
    rw [hq, List.mem_singleton] at hc
    exact absurd hc hcs
  · intro c hc
    rw [hq] at hc ⊢
    rw [List.mem_singleton] at hc
    rw [hc, hD, if_pos rfl]
    simp

/-- The loop of `bfs` ends by its own test within the fuel, with every entry
of the queue expanded. -/
theorem bfsLoop_inv (g : Grid Bool) (s : Cell) (fuel : Nat) (st : BfsState)
    (hinv : BfsInv g s st.dist st.prev st.queue st.head)
    (hfuel : g.width * g.height ≤ fuel + st.head) :
    BfsInv g s (bfsLoop g fuel st).dist (bfsLoop g fuel st).prev (bfsLoop g fuel st).queue
        (bfsLoop g fuel st).head ∧
      (bfsLoop g fuel st).head = (bfsLoop g fuel st).queue.length := by
  induction fuel generalizing st with
  | zero =>
    unfold bfsLoop
    refine ⟨hinv, ?_⟩
    have h1 := hinv.queue_length_le
    have h2 := hinv.ple
    omega
  | succ fuel ih =>
    unfold bfsLoop
    cases hq : st.queue[st.head]? with
    | none =>
      simp only []
      refine ⟨hinv, ?_⟩
      rw [List.getElem?_eq_none_iff] at hq
      have h2 := hinv.ple
      omega
    | some cur =>
      simp only []
      obtain ⟨h1, h2⟩ := bfsStep_inv hinv hq
      exact ih _ h1 (by rw [h2]; omega)

theorem bfsLoop_stable (g : Grid Bool) (fuel extra : Nat) (st : BfsState)
    (hdone : (bfsLoop g fuel st).queue[(bfsLoop g fuel st).head]? = none) :
    bfsLoop g (fuel + extra) st = bfsLoop g fuel st := by
  induction fuel generalizing st with
  | zero =>
    unfold bfsLoop at hdone
    rw [Nat.zero_add]
    cases extra with
    | zero => rfl
    | succ e =>
      show bfsLoop g (e + 1) st = bfsLoop g 0 st
      unfold bfsLoop
      rw [hdone]
  | succ fuel ih =>
    rw [Nat.add_right_comm]
    unfold bfsLoop at hdone ⊢
    cases hq : st.queue[st.head]? with
    | none => rfl
    | some cur =>
      rw [hq] at hdone
      simp only [] at hdone ⊢
      exact ih _ hdone


theorem bfs_inv (g : Grid Bool) (s : Cell) (hs : g.Has s.x s.y) :
    ∃ queue : List Cell, BfsInv g s (bfs g s).1 (bfs g s).2 queue queue.length := by
  obtain ⟨h1, h2⟩ := bfsLoop_inv g s (g.width * g.height + 1) (bfsInit g s)
    (bfsInit_inv g s hs) (by omega)
  refine ⟨(bfsLoop g (g.width * g.height + 1) (bfsInit g s)).queue, ?_⟩
  rw [← h2]; exact h1

theorem bfs_dist_width (g : Grid Bool) (s : Cell) (hs : g.Has s.x s.y) :
    (bfs g s).1.width = g.width := by
  obtain ⟨q, h⟩ := bfs_inv g s hs; exact h.distW

theorem bfs_dist_height (g : Grid Bool) (s : Cell) (hs : g.Has s.x s.y) :
    (bfs g s).1.height = g.height := by
  obtain ⟨q, h⟩ := bfs_inv g s hs; exact h.distH

theorem bfs_dist_start (g : Grid Bool) (s : Cell) (hs : g.Has s.x s.y) :
    (bfs g s).1.get s.x s.y = 0 := by
  obtain ⟨q, h⟩ := bfs_inv g s hs; exact h.start0

/-- Soundness of `bfs`: a set distance is the length of a walk. -/
theorem bfs_reach_of_dist (g : Grid Bool) (s : Cell) (hs : g.Has s.x s.y) (c : Cell)
    (hc : g.Has c.x c.y) (hd : (bfs g s).1.get c.x c.y ≠ -1) :
    ∃ n : Nat, (bfs g s).1.get c.x c.y = n ∧ Reach g s n c := by
  obtain ⟨q, h⟩ := bfs_inv g s hs
  exact (h.sound c (h.inQueue c hc hd)).2

theorem Reach.has {g : Grid Bool} {s : Cell} (hs : g.Has s.x s.y) {n : Nat} {c : Cell}
    (h : Reach g s n c) : g.Has c.x c.y := by
  cases h with
  | start => exact hs
  | step _ _ hw => exact g.has_of_interior _ _ hw.1

/-- Completeness and minimality of `bfs`: every walk ends in a cell whose
distance is set and is at most the length of the walk. -/
theorem bfs_dist_of_reach (g : Grid Bool) (s : Cell) (hs : g.Has s.x s.y) {m : Nat} {c : Cell}
    (hr : Reach g s m c) :
    (bfs g s).1.get c.x c.y ≠ -1 ∧ (bfs g s).1.get c.x c.y ≤ m := by
  obtain ⟨q, h⟩ := bfs_inv g s hs
  induction hr with
  | start => rw [h.start0]; constructor <;> omega
  | @step n a b hra hab hwb ih =>
    obtain ⟨ih1, ih2⟩ := ih
    have hamem := h.inQueue a (hra.has hs) ih1
    obtain ⟨i, hi, hget⟩ := List.getElem_of_mem hamem
    have hget2 : q[i]? = some a := by rw [List.getElem?_eq_some]; exact ⟨hi, hget⟩
    obtain ⟨k1, k2⟩ := h.processed i a hi hget2 b hab hwb
    refine ⟨k1, ?_⟩
    push_cast
    omega

theorem bfs_dist_eq_iff (g : Grid Bool) (s : Cell) (hs : g.Has s.x s.y) (c : Cell)
    (hc : g.Has c.x c.y) (n : Nat) :
    (bfs g s).1.get c.x c.y = n ↔ (Reach g s n c ∧ ∀ m, Reach g s m c → n ≤ m) := by
  constructor
  · intro hn
    obtain ⟨k, hk, hr⟩ := bfs_reach_of_dist g s hs c hc (by rw [hn]; omega)
    have hkn : k = n := by rw [hn] at hk; exact_mod_cast hk.symm
    subst hkn
    refine ⟨hr, fun m hm => ?_⟩
    have := (bfs_dist_of_reach g s hs hm).2
    rw [hn] at this
    exact_mod_cast this
  · rintro ⟨hr, hmin⟩
    obtain ⟨h1, h2⟩ := bfs_dist_of_reach g s hs hr
    obtain ⟨k, hk, hrk⟩ := bfs_reach_of_dist g s hs c hc h1
    have := hmin k hrk
    rw [hk] at h2 ⊢
    have h3 : k ≤ n := by exact_mod_cast h2
    have : k = n := by omega
    rw [this]

theorem bfs_dist_unset_iff (g : Grid Bool) (s : Cell) (hs : g.Has s.x s.y) (c : Cell)
    (hc : g.Has c.x c.y) :
    (bfs g s).1.get c.x c.y = -1 ↔ ¬ ∃ n, Reach g s n c := by
  constructor
  · rintro hd ⟨n, hr⟩
    exact (bfs_dist_of_reach g s hs hr).1 hd
  · intro hno
    by_contra hd
    obtain ⟨k, _, hr⟩ := bfs_reach_of_dist g s hs c hc hd
    exact hno ⟨k, hr⟩


/-! ## Counted loops -/

theorem foldl_range'_induction {β : Type} (P : Nat → β → Prop) (body : Int → β → β) (n : Nat) :
    ∀ (lo : Nat) (init : β), P lo init →
      (∀ i s, lo ≤ i → i < lo + n → P i s → P (i + 1) (body (i : Int) s)) →
      P (lo + n) ((List.range' lo n).foldl (fun s (i : Nat) => body (i : Int) s) init) := by
  induction n with
  | zero => intro lo init h0 _; simpa using h0
  | succ n ih =>
    intro lo init h0 hstep
    rw [List.range'_succ, List.foldl_cons]
    have h1 := hstep lo init (le_refl _) (by omega) h0
    have := ih (lo + 1) (body (lo : Int) init) h1
      (fun i s hi1 hi2 hp => hstep i s (by omega) (by omega) hp)
    rw [show lo + (n + 1) = lo + 1 + n by omega]
    exact this

/-- Loop invariant rule for `forRange` with the loop counter. -/
theorem forRange_induction {β : Type} (P : Nat → β → Prop) (lo hi : Nat) (body : Int → β → β)
    (init : β) (hle : lo ≤ hi) (h0 : P lo init)
    (hstep : ∀ i s, lo ≤ i → i < hi → P i s → P (i + 1) (body (i : Int) s)) :
    P hi (forRange lo hi body init) := by
  unfold forRange
  have := foldl_range'_induction P body (hi - lo) lo init h0
    (fun i s h1 h2 hp => hstep i s h1 (by omega) hp)
  rw [show lo + (hi - lo) = hi by omega] at this
  exact this

/-- Loop invariant rule for `forRange` without the loop counter. -/
theorem forRange_invariant {β : Type} (Q : β → Prop) (lo hi : Nat) (body : Int → β → β)
    (init : β) (h0 : Q init)
    (hstep : ∀ (i : Nat) s, lo ≤ i → i < hi → Q s → Q (body (i : Int) s)) :
    Q (forRange lo hi body init) := by
  by_cases hle : lo ≤ hi
  · exact forRange_induction (fun _ s => Q s) lo hi body init hle h0 hstep
  · unfold forRange
    rw [show hi - lo = 0 by omega]
    exact h0

theorem forRange_empty {β : Type} (lo hi : Nat) (body : Int → β → β) (init : β)
    (h : hi ≤ lo) : forRange lo hi body init = init := by
  unfold forRange
  rw [show hi - lo = 0 by omega]
  rfl

/-- The grids have the same dimensions. -/
theorem Grid.set_dims {α : Type} (g : Grid α) (x y : Int) (v : α) (w h : Nat)
    (hg : g.width = w ∧ g.height = h) : (g.set x y v).width = w ∧ (g.set x y v).height = h := by
  rw [Grid.set_width, Grid.set_height]; exact hg

/-! ## Dimensions are kept by every stage -/

theorem addLoops_dims {σ : Type} [RandomSource σ] (g : Grid Bool) (rng : σ) (amount : Int) :
    (addLoops g rng amount).1.width = g.width ∧ (addLoops g rng amount).1.height = g.height := by
  unfold addLoops
  apply forRange_invariant (fun s : Grid Bool × σ => s.1.width = g.width ∧ s.1.height = g.height)
  · exact ⟨rfl, rfl⟩
  · intro i s _ _ hs
    simp only []
    split_ifs
    · exact hs
    · exact Grid.set_dims _ _ _ _ _ _ hs
    · exact hs

theorem carveRoom_dims (g : Grid Bool) (x y w h : Int) :
    (carveRoom g x y w h).width = g.width ∧ (carveRoom g x y w h).height = g.height := by
  unfold carveRoom
  apply forRange_invariant (fun s : Grid Bool => s.width = g.width ∧ s.height = g.height)
  · exact ⟨rfl, rfl⟩
  · intro j s _ _ hs
    apply forRange_invariant (fun s : Grid Bool => s.width = g.width ∧ s.height = g.height)
    · exact hs
    · intro i s _ _ hs
      simp only []
      split_ifs
      · exact Grid.set_dims _ _ _ _ _ _ hs
      · exact hs

theorem addChambers_dims {σ : Type} [RandomSource σ] (g : Grid Bool) (rng : σ)
    (amount minSize maxSize : Int) :
    (addChambers g rng amount minSize maxSize).1.width = g.width ∧
      (addChambers g rng amount minSize maxSize).1.height = g.height := by
  unfold addChambers
  apply forRange_invariant (fun s : Grid Bool × σ => s.1.width = g.width ∧ s.1.height = g.height)
  · exact ⟨rfl, rfl⟩
  · intro i s _ _ hs
    simp only []
    have := carveRoom_dims s.1
    constructor
    · rw [(this _ _ _ _).1]; exact hs.1
    · rw [(this _ _ _ _).2]; exact hs.2

theorem addRuneCross_dims {σ : Type} [RandomSource σ] (g : Grid Bool) (rng : σ) :
    (addRuneCross g rng).1.width = g.width ∧ (addRuneCross g rng).1.height = g.height := by
  unfold addRuneCross
  apply forRange_invariant (fun s : Grid Bool × σ => s.1.width = g.width ∧ s.1.height = g.height)
  · apply forRange_invariant
      (fun s : Grid Bool × σ => s.1.width = g.width ∧ s.1.height = g.height)
    · exact ⟨rfl, rfl⟩
    · intro i s _ _ hs
      simp only []
      split_ifs
      · exact Grid.set_dims _ _ _ _ _ _ hs
      · exact hs
  · intro i s _ _ hs
    simp only []
    split_ifs
    · exact Grid.set_dims _ _ _ _ _ _ hs
    · exact hs

theorem addSerpentCuts_dims {σ : Type} [RandomSource σ] (g : Grid Bool) (rng : σ) (bands : Nat) :
    (addSerpentCuts g rng bands).1.width = g.width ∧
      (addSerpentCuts g rng bands).1.height = g.height := by
  unfold addSerpentCuts
  apply forRange_invariant (fun s : Grid Bool × σ => s.1.width = g.width ∧ s.1.height = g.height)
  · exact ⟨rfl, rfl⟩
  · intro band s _ _ hs
    apply forRange_invariant
      (fun r : Grid Bool × σ × Int => r.1.width = g.width ∧ r.1.height = g.height)
    · exact hs
    · intro x r _ _ hr
      simp only []
      split_ifs <;> first | exact hr | exact Grid.set_dims _ _ _ _ _ _ hr

theorem foldl_invariant {α β : Type} (Q : β → Prop) (f : β → α → β) (l : List α) (init : β)
    (h0 : Q init) (hstep : ∀ s a, a ∈ l → Q s → Q (f s a)) : Q (l.foldl f init) := by
  induction l generalizing init with
  | nil => exact h0
  | cons a l ih =>
    rw [List.foldl_cons]
    exact ih _ (hstep init a (List.mem_cons_self _ _) h0)
      (fun s b hb hs => hstep s b (List.mem_cons_of_mem _ hb) hs)

theorem relicArena_dims (g : Grid Bool) (maxR : F64) :
    (relicArena g maxR).width = g.width ∧ (relicArena g maxR).height = g.height := by
  unfold relicArena
  apply forRange_invariant (fun s : Grid Bool => s.width = g.width ∧ s.height = g.height)
  · exact ⟨rfl, rfl⟩
  · intro y s _ _ hs
    apply forRange_invariant (fun s : Grid Bool => s.width = g.width ∧ s.height = g.height)
    · exact hs
    · intro x s _ _ hs
      simp only []
      split_ifs <;> first | exact hs | exact Grid.set_dims _ _ _ _ _ _ hs

theorem relicStamp_dims {σ : Type} [RandomSource σ] (trig : Trig) (w h : Nat)
    (radius : F64) (idx : Nat) (s : Grid Bool × σ) (angle : F64) :
    (relicStamp trig w h radius idx s angle).1.width = s.1.width ∧
      (relicStamp trig w h radius idx s angle).1.height = s.1.height := by
  unfold relicStamp
  simp only []
  split_ifs <;> first | exact ⟨rfl, rfl⟩ | exact Grid.set_dims _ _ _ _ _ _ ⟨rfl, rfl⟩

theorem addCircularRelics_dims {σ : Type} [RandomSource σ] (trig : Trig) (g : Grid Bool)
    (rng : σ) :
    (addCircularRelics trig g rng).1.width = g.width ∧
      (addCircularRelics trig g rng).1.height = g.height := by
  unfold addCircularRelics
  apply foldl_invariant (fun s : Grid Bool × σ => s.1.width = g.width ∧ s.1.height = g.height)
  · exact relicArena_dims g _
  · intro s ring _ hs
    apply foldl_invariant (fun s : Grid Bool × σ => s.1.width = g.width ∧ s.1.height = g.height)
    · exact hs
    · intro s angle _ hs
      have := relicStamp_dims trig g.width g.height (F64.mul (relicMaxR g) ring.1)
        ring.2 s angle
      exact ⟨this.1.trans hs.1, this.2.trans hs.2⟩

theorem applySingleProfile_dims {σ : Type} [RandomSource σ] (trig : Trig) (g : Grid Bool)
    (rng : σ) (name : String) :
    (applySingleProfile trig g rng name).1.width = g.width ∧
      (applySingleProfile trig g rng name).1.height = g.height := by
  unfold applySingleProfile
  simp only []
  split_ifs
  · exact addChambers_dims _ _ _ _ _
  · have h1 := addRuneCross_dims g rng
    have h2 := addChambers_dims (addRuneCross g rng).1 (addRuneCross g rng).2 2 2 3
    exact ⟨h2.1.trans h1.1, h2.2.trans h1.2⟩
  · exact addSerpentCuts_dims _ _ _
  · have h1 := addChambers_dims g rng 5 3 5
    have h2 := addRuneCross_dims (addChambers g rng 5 3 5).1 (addChambers g rng 5 3 5).2
    exact ⟨h2.1.trans h1.1, h2.2.trans h1.2⟩
  · have h1 := addCircularRelics_dims trig g rng
    have h2 := addSerpentCuts_dims (addCircularRelics trig g rng).1
      (addCircularRelics trig g rng).2 2
    exact ⟨h2.1.trans h1.1, h2.2.trans h1.2⟩
  · exact ⟨rfl, rfl⟩

theorem applyProfileFeatures_dims {σ : Type} [RandomSource σ] (trig : Trig) (g : Grid Bool)
    (rng : σ) (config : Config) :
    (applyProfileFeatures trig g rng config).1.width = g.width ∧
      (applyProfileFeatures trig g rng config).1.height = g.height := by
  unfold applyProfileFeatures
  apply foldl_invariant (fun s : Grid Bool × σ => s.1.width = g.width ∧ s.1.height = g.height)
  · exact ⟨rfl, rfl⟩
  · intro s name _ hs
    have := applySingleProfile_dims trig s.1 s.2 name
    exact ⟨this.1.trans hs.1, this.2.trans hs.2⟩


/-! ## Border normalisation, pruning, goal selection -/

theorem Grid.get_false_of_not_has (g : Grid Bool) (x y : Int) (h : ¬ g.Has x y) :
    g.get x y = false := g.get_outside x y h

theorem Grid.get_set_false (g : Grid Bool) (x y x1 y1 : Int) :
    (g.set x y false).get x1 y1 = if x1 = x ∧ y1 = y then false else g.get x1 y1 := by
  rw [Grid.get_set]
  by_cases h : x1 = x ∧ y1 = y
  · rw [if_pos h]
    by_cases hh : g.Has x y
    · rw [if_pos ⟨h.1, h.2, hh⟩]
    · rw [if_neg (fun k => hh k.2.2), h.1, h.2]
      exact g.get_false_of_not_has x y hh
  · rw [if_neg h, if_neg (fun k => h ⟨k.1, k.2.1⟩)]

theorem Grid.has_congr {α β : Type} (g : Grid α) (g1 : Grid β) (hw : g1.width = g.width)
    (hh : g1.height = g.height) (x y : Int) : g1.Has x y ↔ g.Has x y := by
  unfold Grid.Has; rw [hw, hh]

/-- The entries of the grid after `normalizeBorders`: the start cell is open,
every other cell of the outer ring is closed, the rest is unchanged. -/
theorem normalizeBorders_get (g : Grid Bool) (x y : Int) :
    (normalizeBorders g).get x y =
      if x = 1 ∧ y = 1 ∧ g.Has 1 1 then true
      else if x = 0 ∨ x = (g.width : Int) - 1 ∨ y = 0 ∨ y = (g.height : Int) - 1 then false
      else g.get x y := by
  unfold normalizeBorders
  simp only []
  have h1 := forRange_induction
    (fun (i : Nat) (s : Grid Bool) => (s.width = g.width ∧ s.height = g.height) ∧
      ∀ x y : Int, s.get x y =
        if x < (i : Int) ∧ 0 ≤ x ∧ (y = 0 ∨ y = (g.height : Int) - 1) then false else g.get x y)
    0 g.width (fun x s => (s.set x 0 false).set x ((g.height : Int) - 1) false) g
    (Nat.zero_le _)
    ⟨⟨rfl, rfl⟩, fun x y => by rw [if_neg]; omega⟩
    (fun i s _ _ hs => by
      refine ⟨Grid.set_dims _ _ _ _ _ _ (Grid.set_dims _ _ _ _ _ _ hs.1), fun x y => ?_⟩
      rw [Grid.get_set_false, Grid.get_set_false, hs.2]
      split_ifs <;> first | rfl | (exfalso; omega))
  obtain ⟨hd1, hg1⟩ := h1
  have h2 := forRange_induction
    (fun (i : Nat) (s : Grid Bool) => (s.width = g.width ∧ s.height = g.height) ∧
      ∀ x y : Int, s.get x y =
        if y < (i : Int) ∧ 0 ≤ y ∧ (x = 0 ∨ x = (g.width : Int) - 1) then false
        else (forRange 0 g.width
          (fun x s => (s.set x 0 false).set x ((g.height : Int) - 1) false) g).get x y)
    0 g.height (fun y s => (s.set 0 y false).set ((g.width : Int) - 1) y false)
    (forRange 0 g.width (fun x s => (s.set x 0 false).set x ((g.height : Int) - 1) false) g)
    (Nat.zero_le _)
    ⟨hd1, fun x y => by rw [if_neg]; omega⟩
    (fun i s _ _ hs => by
      refine ⟨Grid.set_dims _ _ _ _ _ _ (Grid.set_dims _ _ _ _ _ _ hs.1), fun x y => ?_⟩
      rw [Grid.get_set_false, Grid.get_set_false, hs.2]
      split_ifs <;> first | rfl | (exfalso; omega))
  obtain ⟨hd2, hg2⟩ := h2
  rw [Grid.get_set, hg2, hg1]
  have hHas : (forRange 0 g.height (fun y s => (s.set 0 y false).set ((g.width : Int) - 1) y false)
      (forRange 0 g.width (fun x s => (s.set x 0 false).set x ((g.height : Int) - 1) false)
        g)).Has 1 1 ↔ g.Has 1 1 := Grid.has_congr _ _ hd2.1 hd2.2 _ _
  by_cases hs : x = 1 ∧ y = 1 ∧ g.Has 1 1
  · rw [if_pos ⟨hs.1, hs.2.1, hHas.mpr hs.2.2⟩, if_pos hs]
  · rw [if_neg (fun k => hs ⟨k.1, k.2.1, hHas.mp k.2.2⟩), if_neg hs]
    by_cases hin : g.Has x y
    · unfold Grid.Has at hin
      split_ifs <;> first | rfl | (exfalso; omega)
    · rw [g.get_false_of_not_has x y hin]
      split_ifs <;> rfl

theorem normalizeBorders_dims (g : Grid Bool) :
    (normalizeBorders g).width = g.width ∧ (normalizeBorders g).height = g.height := by
  unfold normalizeBorders
  simp only []
  apply Grid.set_dims
  apply forRange_invariant (fun s : Grid Bool => s.width = g.width ∧ s.height = g.height)
  · apply forRange_invariant (fun s : Grid Bool => s.width = g.width ∧ s.height = g.height)
    · exact ⟨rfl, rfl⟩
    · intro i s _ _ hs
      exact Grid.set_dims _ _ _ _ _ _ (Grid.set_dims _ _ _ _ _ _ hs)
  · intro i s _ _ hs
    exact Grid.set_dims _ _ _ _ _ _ (Grid.set_dims _ _ _ _ _ _ hs)


/-- A loop over the columns `lx, ..., hx - 1` of row `y` whose body rewrites
the entry of its own cell from the value that cell had: the result entry by
entry. -/
theorem forRange_row_get {α : Type} [Inhabited α] (B : Int → Int → Grid α → Grid α)
    (φ : Int → Int → α → α)
    (hB : ∀ x y g x1 y1, (B x y g).get x1 y1
      = if x1 = x ∧ y1 = y then φ x y (g.get x y) else g.get x1 y1)
    (lx hx : Nat) (y : Int) (g : Grid α) (x1 y1 : Int) :
    (forRange lx hx (fun x s => B x y s) g).get x1 y1 =
      if y1 = y ∧ (lx : Int) ≤ x1 ∧ x1 < (hx : Int) then φ x1 y1 (g.get x1 y1)
      else g.get x1 y1 := by
  by_cases hle : lx ≤ hx
  · have h := forRange_induction
      (fun (i : Nat) (s : Grid α) => ∀ x1 y1 : Int, s.get x1 y1 =
        if y1 = y ∧ (lx : Int) ≤ x1 ∧ x1 < (i : Int) then φ x1 y1 (g.get x1 y1)
        else g.get x1 y1)
      lx hx (fun x s => B x y s) g hle
      (fun x1 y1 => by rw [if_neg]; omega)
      (fun i s _ _ hs x1 y1 => by
        rw [hB, hs, hs]
        by_cases hc : x1 = (i : Int) ∧ y1 = y
        · obtain ⟨rfl, rfl⟩ := hc
          rw [if_pos ⟨rfl, rfl⟩, if_neg (by omega), if_pos ⟨rfl, by omega, by omega⟩]
        · rw [if_neg hc]
          split_ifs <;> first | rfl | (exfalso; omega))
    exact h x1 y1
  · rw [forRange_empty _ _ _ _ (by omega), if_neg]
    omega

/-- A loop nest over the rows `ly, ..., hy - 1` and the columns
`lx, ..., hx - 1` whose body rewrites the entry of its own cell from the value
that cell had: the result entry by entry. -/
theorem forRange_nest_get {α : Type} [Inhabited α] (B : Int → Int → Grid α → Grid α)
    (φ : Int → Int → α → α)
    (hB : ∀ x y g x1 y1, (B x y g).get x1 y1
      = if x1 = x ∧ y1 = y then φ x y (g.get x y) else g.get x1 y1)
    (lx hx ly hy : Nat) (g : Grid α) (x1 y1 : Int) :
    (forRange ly hy (fun y s => forRange lx hx (fun x s => B x y s) s) g).get x1 y1 =
      if ((ly : Int) ≤ y1 ∧ y1 < (hy : Int)) ∧ (lx : Int) ≤ x1 ∧ x1 < (hx : Int)
      then φ x1 y1 (g.get x1 y1) else g.get x1 y1 := by
  by_cases hle : ly ≤ hy
  · have h := forRange_induction
      (fun (i : Nat) (s : Grid α) => ∀ x1 y1 : Int, s.get x1 y1 =
        if ((ly : Int) ≤ y1 ∧ y1 < (i : Int)) ∧ (lx : Int) ≤ x1 ∧ x1 < (hx : Int)
        then φ x1 y1 (g.get x1 y1) else g.get x1 y1)
      ly hy (fun y s => forRange lx hx (fun x s => B x y s) s) g hle
      (fun x1 y1 => by rw [if_neg]; omega)
      (fun i s _ _ hs x1 y1 => by
        rw [forRange_row_get B φ hB, hs]
        by_cases hc : y1 = (i : Int)
        · subst hc
          split_ifs <;> first | rfl | (exfalso; omega)
        · split_ifs <;> first | rfl | (exfalso; omega))
    exact h x1 y1
  · rw [forRange_empty _ _ _ _ (by omega), if_neg]
    omega

theorem forRange_nest_dims {α : Type} (B : Int → Int → Grid α → Grid α)
    (hB : ∀ x y g, (B x y g).width = g.width ∧ (B x y g).height = g.height)
    (lx hx ly hy : Nat) (g : Grid α) :
    (forRange ly hy (fun y s => forRange lx hx (fun x s => B x y s) s) g).width = g.width ∧
      (forRange ly hy (fun y s => forRange lx hx (fun x s => B x y s) s) g).height
        = g.height := by
  apply forRange_invariant (fun s : Grid α => s.width = g.width ∧ s.height = g.height)
  · exact ⟨rfl, rfl⟩
  · intro y s _ _ hs
    apply forRange_invariant (fun s : Grid α => s.width = g.width ∧ s.height = g.height)
    · exact hs
    · intro x s _ _ hs
      exact ⟨(hB _ _ s).1.trans hs.1, (hB _ _ s).2.trans hs.2⟩

/-- The entries of the grid after `pruneUnreachableFromStart`: an interior
cell stays open only if its distance is not negative; nothing else changes. -/
theorem pruneUnreachableFromStart_get (g : Grid Bool) (dist : Grid Int) (x y : Int) :
    (pruneUnreachableFromStart g dist).get x y =
      if g.Interior x y then (g.get x y && !decide (dist.get x y < 0)) else g.get x y := by
  unfold pruneUnreachableFromStart
  have h := forRange_nest_get
    (fun x y (s : Grid Bool) =>
      if (s.get x y && decide (dist.get x y < 0)) = true then s.set x y false else s)
    (fun x y v => v && !decide (dist.get x y < 0))
    (fun x y s x1 y1 => by
      simp only []
      by_cases hc : (s.get x y && decide (dist.get x y < 0)) = true
      · rw [if_pos hc, Grid.get_set_false]
        by_cases hxy : x1 = x ∧ y1 = y
        · rw [if_pos hxy, if_pos hxy]
          rw [Bool.and_eq_true] at hc
          rw [hc.1, hc.2]; rfl
        · rw [if_neg hxy, if_neg hxy]
      · rw [if_neg hc]
        by_cases hxy : x1 = x ∧ y1 = y
        · rw [if_pos hxy, hxy.1, hxy.2]
          cases h1 : s.get x y
          · rfl
          · rw [h1] at hc
            simp at hc
            simp [hc]
        · rw [if_neg hxy])
    1 (g.width - 1) 1 (g.height - 1) g x y
  rw [h]
  unfold Grid.Interior
  by_cases hin : g.Has x y
  · unfold Grid.Has at hin
    split_ifs <;> first | rfl | (exfalso; omega)
  · rw [g.get_false_of_not_has x y hin]
    split_ifs <;> rfl

theorem pruneUnreachableFromStart_dims (g : Grid Bool) (dist : Grid Int) :
    (pruneUnreachableFromStart g dist).width = g.width ∧
      (pruneUnreachableFromStart g dist).height = g.height := by
  unfold pruneUnreachableFromStart
  apply forRange_nest_dims
    (fun x y (s : Grid Bool) =>
      if (s.get x y && decide (dist.get x y < 0)) = true then s.set x y false else s)
  intro x y s
  split_ifs
  · exact Grid.set_dims _ _ _ _ _ _ ⟨rfl, rfl⟩
  · exact ⟨rfl, rfl⟩

theorem openExit_get (g : Grid Bool) (goalY x y : Int) :
    (openExit g goalY).get x y =
      if x = (g.width : Int) - 1 ∧ y = goalY ∧ g.Has ((g.width : Int) - 1) goalY then true
      else g.get x y := by
  unfold openExit; rw [Grid.get_set]

theorem openExit_dims (g : Grid Bool) (goalY : Int) :
    (openExit g goalY).width = g.width ∧ (openExit g goalY).height = g.height := by
  unfold openExit; exact Grid.set_dims _ _ _ _ _ _ ⟨rfl, rfl⟩


theorem goalScan_spec (g : Grid Bool) (dist : Grid Int) (y : Int) (best : Option Goal) :
    (¬ GoalRow g dist y ∧ goalScan g dist y best = best) ∨
    (GoalRow g dist y ∧
      ((∃ b, best = some b ∧ goalScan g dist y best = some b) ∨
        ∃ score, goalScan g dist y best
          = some ⟨(g.width : Int) - 2, y, score, dist.get ((g.width : Int) - 2) y⟩)) := by
  unfold goalScan GoalRow
  simp only []
  by_cases h1 : g.get ((g.width : Int) - 2) y = true
  · by_cases h2 : dist.get ((g.width : Int) - 2) y < 0
    · left
      simp only [h1, h2, Bool.not_true, if_true, Bool.false_eq_true, if_false]
      exact ⟨fun h => by omega, trivial⟩
    · right
      simp only [h1, h2, Bool.not_true, if_false, Bool.false_eq_true]
      refine ⟨⟨trivial, by omega⟩, ?_⟩
      cases best with
      | none => right; exact ⟨_, rfl⟩
      | some b0 =>
        simp only []
        split_ifs
        · right; exact ⟨_, rfl⟩
        · left; exact ⟨b0, rfl, rfl⟩
  · left
    simp only [h1, Bool.not_false, if_true]
    exact ⟨fun h => by simp at h, trivial⟩

/-- The result of `findGoalNearRight`: a candidate row strictly inside the
border on column `width - 2` when there is one, `none` when there is none. -/
theorem findGoalNearRight_spec (g : Grid Bool) (dist : Grid Int) :
    (∀ b, findGoalNearRight g dist = some b →
      b.x = (g.width : Int) - 2 ∧ 1 ≤ b.y ∧ b.y < (g.height : Int) - 1 ∧ GoalRow g dist b.y ∧
        b.distance = dist.get ((g.width : Int) - 2) b.y) ∧
    (findGoalNearRight g dist = none →
      ∀ y : Int, 1 ≤ y → y < (g.height : Int) - 1 → ¬ GoalRow g dist y) := by
  unfold findGoalNearRight
  by_cases hle : 1 ≤ g.height - 1
  · have h := forRange_induction
      (fun (i : Nat) (best : Option Goal) =>
        (∀ b, best = some b →
          b.x = (g.width : Int) - 2 ∧ 1 ≤ b.y ∧ b.y < (i : Int) ∧ GoalRow g dist b.y ∧
            b.distance = dist.get ((g.width : Int) - 2) b.y) ∧
        (best = none → ∀ y : Int, 1 ≤ y → y < (i : Int) → ¬ GoalRow g dist y))
      1 (g.height - 1) (goalScan g dist) none hle
      ⟨fun b hb => absurd hb (by simp), fun _ y h1 h2 => by omega⟩
      (fun i best hi1 hi2 hb => by
        rcases goalScan_spec g dist (i : Int) best with ⟨hn, he⟩ | ⟨hrow, ⟨b0, hb0, he⟩ | ⟨sc, he⟩⟩
        · rw [he]
          refine ⟨fun b hbb => ?_, fun hnone y hy1 hy2 => ?_⟩
          · obtain ⟨k1, k2, k3, k4⟩ := hb.1 b hbb
            exact ⟨k1, k2, by omega, k4⟩
          · by_cases hyi : y = (i : Int)
            · rw [hyi]; exact hn
            · exact hb.2 hnone y hy1 (by omega)
        · rw [he]
          refine ⟨fun b hbb => ?_, fun hnone => absurd hnone (by simp)⟩
          have hbe := Option.some.inj hbb
          subst hbe
          obtain ⟨k1, k2, k3, k4⟩ := hb.1 b0 hb0
          exact ⟨k1, k2, by omega, k4⟩
        · rw [he]
          refine ⟨fun b hbb => ?_, fun hnone => absurd hnone (by simp)⟩
          have hbe := Option.some.inj hbb
          subst hbe
          exact ⟨rfl, by dsimp only; omega, by dsimp only; omega, hrow, rfl⟩)
    refine ⟨fun b hb => ?_, fun hn y hy1 hy2 => ?_⟩
    · obtain ⟨k1, k2, k3, k4⟩ := h.1 b hb
      exact ⟨k1, k2, by omega, k4⟩
    · exact h.2 hn y hy1 (by omega)
  · rw [forRange_empty _ _ _ _ (by omega)]
    exact ⟨fun b hb => absurd hb (by simp), fun _ y h1 h2 => by omega⟩

/-- The record `farthest`: the start cell at distance zero, or an interior
cell with its positive distance. -/
theorem farthestCell_spec (n : Nat) (dist : Grid Int) :
    farthestCell n dist = (⟨1, 1⟩, 0) ∨
      ((1 ≤ (farthestCell n dist).1.x ∧ (farthestCell n dist).1.x < (n : Int) - 1 ∧
        1 ≤ (farthestCell n dist).1.y ∧ (farthestCell n dist).1.y < (n : Int) - 1) ∧
        dist.get (farthestCell n dist).1.x (farthestCell n dist).1.y = (farthestCell n dist).2 ∧
        0 < (farthestCell n dist).2) := by
  unfold farthestCell
  apply forRange_invariant (fun far : Cell × Int => far = (⟨1, 1⟩, 0) ∨
      ((1 ≤ far.1.x ∧ far.1.x < (n : Int) - 1 ∧ 1 ≤ far.1.y ∧ far.1.y < (n : Int) - 1) ∧
        dist.get far.1.x far.1.y = far.2 ∧ 0 < far.2))
  · exact Or.inl rfl
  · intro y far hy1 hy2 hfar
    apply forRange_invariant (fun far : Cell × Int => far = (⟨1, 1⟩, 0) ∨
      ((1 ≤ far.1.x ∧ far.1.x < (n : Int) - 1 ∧ 1 ≤ far.1.y ∧ far.1.y < (n : Int) - 1) ∧
        dist.get far.1.x far.1.y = far.2 ∧ 0 < far.2))
    · exact hfar
    · intro x far hx1 hx2 hfar
      simp only []
      split_ifs with hd
      · right
        refine ⟨⟨by first | omega | (dsimp only; omega), by first | omega | (dsimp only; omega), by first | omega | (dsimp only; omega),
          by first | omega | (dsimp only; omega)⟩, rfl, ?_⟩
        rcases hfar with h | h
        · rw [h] at hd; exact hd
        · exact lt_trans h.2.2 hd
      · exact hfar

/-- The entries of the grid after the corridor loop of the fallback. -/
theorem corridor_get (g : Grid Bool) (lo hi : Nat) (fy : Int) (x y : Int) :
    (forRange lo hi (fun x s => s.set x fy true) g).get x y =
      if y = fy ∧ (lo : Int) ≤ x ∧ x < (hi : Int) ∧ g.Has x fy then true else g.get x y := by
  by_cases hle : lo ≤ hi
  · have h := forRange_induction
      (fun (i : Nat) (s : Grid Bool) => (s.width = g.width ∧ s.height = g.height) ∧
        ∀ x y : Int, s.get x y =
          if y = fy ∧ (lo : Int) ≤ x ∧ x < (i : Int) ∧ g.Has x fy then true else g.get x y)
      lo hi (fun x s => s.set x fy true) g hle
      ⟨⟨rfl, rfl⟩, fun x y => by rw [if_neg]; omega⟩
      (fun i s hlo hhi hs => by
        refine ⟨Grid.set_dims _ _ _ _ _ _ hs.1, fun x y => ?_⟩
        rw [Grid.get_set, hs.2]
        have hHas : s.Has (i : Int) fy ↔ g.Has (i : Int) fy := Grid.has_congr _ _ hs.1.1 hs.1.2 _ _
        by_cases hc : x = (i : Int) ∧ y = fy
        · obtain ⟨rfl, rfl⟩ := hc
          by_cases hh : g.Has (i : Int) y
          · rw [if_pos ⟨rfl, rfl, hHas.mpr hh⟩, if_pos ⟨rfl, by omega, by omega, hh⟩]
          · rw [if_neg (fun k => hh (hHas.mp k.2.2)), if_neg (fun k => hh k.2.2.2),
              if_neg (fun k => hh k.2.2.2)]
        · rw [if_neg (show ¬ (x = (i : Int) ∧ y = fy ∧ s.Has (i : Int) fy) from
            fun k => hc ⟨k.1, k.2.1⟩)]
          by_cases hh : g.Has x fy
          · simp only [hh, and_true]
            split_ifs <;> first | rfl | (exfalso; omega)
          · simp only [hh, and_false, if_false])
    exact h.2 x y
  · rw [forRange_empty _ _ _ _ (by omega), if_neg]
    omega

theorem corridor_dims (g : Grid Bool) (lo hi : Nat) (fy : Int) :
    (forRange lo hi (fun x s => s.set x fy true) g).width = g.width ∧
      (forRange lo hi (fun x s => s.set x fy true) g).height = g.height := by
  apply forRange_invariant (fun s : Grid Bool => s.width = g.width ∧ s.height = g.height)
  · exact ⟨rfl, rfl⟩
  · intro i s _ _ hs
    exact Grid.set_dims _ _ _ _ _ _ hs


/-! ## Walks and paths -/

theorem Reach.mono {g g1 : Grid Bool} {s : Cell} (h : ∀ c, Walkable g c → Walkable g1 c)
    {n : Nat} {c : Cell} (hr : Reach g s n c) : Reach g1 s n c := by
  induction hr with
  | start => exact Reach.start
  | step _ hab hwb ih => exact Reach.step ih hab (h _ hwb)

theorem StepChain.append_singleton (p : List Cell) (b : Cell) (hp : StepChain p)
    (hlast : ∀ a, p.getLast? = some a → Adjacent a b) : StepChain (p ++ [b]) := by
  induction p with
  | nil => exact trivial
  | cons a rest ih =>
    cases rest with
    | nil => exact ⟨hlast a rfl, trivial⟩
    | cons a1 rest1 =>
      refine ⟨hp.1, ?_⟩
      apply ih hp.2
      intro x hx
      apply hlast
      rw [List.getLast?_cons_cons]; exact hx

/-- A walk from an open interior start is a path of open interior cells. -/
theorem Reach.openPath {g : Grid Bool} {s : Cell} (hs : Walkable g s) {n : Nat} {c : Cell}
    (hr : Reach g s n c) : ∃ p : List Cell, OpenPath g s c p ∧ p.length = n + 1 := by
  induction hr with
  | start => exact ⟨[s], ⟨rfl, rfl, fun c hc => by rw [List.mem_singleton] at hc; rw [hc]; exact hs,
      trivial⟩, rfl⟩
  | @step n a b _ hab hwb ih =>
    obtain ⟨p, ⟨h1, h2, h3, h4⟩, h5⟩ := ih
    refine ⟨p ++ [b], ⟨?_, ?_, ?_, ?_⟩, ?_⟩
    · cases p with
      | nil => simp at h5
      | cons x rest => exact h1
    · simp
    · intro c hc
      rcases List.mem_append.mp hc with h | h
      · exact h3 c h
      · rw [List.mem_singleton] at h; rw [h]; exact hwb
    · apply StepChain.append_singleton p b h4
      intro x hx
      rw [h2] at hx
      rw [← Option.some.inj hx]; exact hab
    · simp [h5]

/-- A path of open interior cells is a walk. -/
theorem OpenPath.reach {g : Grid Bool} (p : List Cell) :
    ∀ (s c : Cell), OpenPath g s c p → ∃ n, Reach g s n c ∧ p.length = n + 1 := by
  induction p using List.reverseRecOn with
  | nil => intro s c h; exact absurd h.1 (by simp)
  | append_singleton p b ih =>
    intro s c ⟨h1, h2, h3, h4⟩
    have hcb : c = b := by simp at h2; exact h2.symm
    subst hcb
    cases hp : p.getLast? with
    | none =>
      rw [List.getLast?_eq_none_iff] at hp
      subst hp
      simp at h1
      subst h1
      exact ⟨0, Reach.start, rfl⟩
    | some a =>
      have hne : p ≠ [] := by intro h; rw [h] at hp; simp at hp
      have hchain : StepChain p ∧ Adjacent a c := by
        clear ih h1 h2 h3
        induction p with
        | nil => exact absurd rfl hne
        | cons x rest ih2 =>
          cases rest with
          | nil =>
            simp at hp; subst hp
            exact ⟨trivial, h4.1⟩
          | cons x1 rest1 =>
            rw [List.getLast?_cons_cons] at hp
            have := ih2 h4.2 hp (by simp)
            exact ⟨⟨h4.1, this.1⟩, this.2⟩
      have hhead : p.head? = some s := by
        cases p with
        | nil => exact absurd rfl hne
        | cons x rest => exact h1
      obtain ⟨n, hr, hl⟩ := ih s a ⟨hhead, hp, fun x hx => h3 x (List.mem_append_left _ hx),
        hchain.1⟩
      exact ⟨n + 1, Reach.step hr hchain.2 (h3 c (by simp)), by simp [hl]⟩

/-! ## The carver keeps the dimensions -/

theorem carveLoop_dims {σ : Type} [RandomSource σ] (nodesW nodesH : Nat) (profile : Profile)
    (fuel : Nat) (st : CarveState σ) :
    (carveLoop nodesW nodesH profile fuel st).grid.width = st.grid.width ∧
      (carveLoop nodesW nodesH profile fuel st).grid.height = st.grid.height := by
  induction fuel generalizing st with
  | zero => exact ⟨rfl, rfl⟩
  | succ fuel ih =>
    unfold carveLoop
    cases hst : st.stack with
    | nil => exact ⟨rfl, rfl⟩
    | cons current rest =>
      simp only []
      split_ifs
      · exact ih _
      · cases hpick : pickWeighted CarveOption.weight
            (carveOptions st.visited nodesW nodesH profile current) st.rng with
        | mk chosen rng =>
          cases chosen with
          | none => exact ⟨rfl, rfl⟩
          | some chosen =>
            simp only []
            have := ih (carveAdvance st current chosen rng)
            unfold carveAdvance at this ⊢
            simp only [Grid.set_width, Grid.set_height] at this ⊢
            exact this

theorem carveWith_dims {σ : Type} [RandomSource σ] (w h : Nat) (rng : σ) (profile : Profile) :
    (carveWith w h rng profile).1.width = w ∧ (carveWith w h rng profile).1.height = h := by
  unfold carveWith
  simp only []
  have := carveLoop_dims ((w - 1) / 2) ((h - 1) / 2) profile
    (2 * ((w - 1) / 2 * ((h - 1) / 2))) (carveInit w h rng)
  unfold carveInit at this ⊢
  simp only [Grid.set_width, Grid.set_height] at this ⊢
  exact this


/-! ## The sealed and pruned grid -/

theorem sealAndSearch_search (g : Grid Bool) :
    (sealAndSearch g).2 = bfs (sealAndSearch g).1 ⟨1, 1⟩ := rfl

theorem sealAndSearch_dims (g : Grid Bool) :
    (sealAndSearch g).1.width = g.width ∧ (sealAndSearch g).1.height = g.height := by
  unfold sealAndSearch
  simp only []
  have h1 := normalizeBorders_dims g
  have h2 := pruneUnreachableFromStart_dims (normalizeBorders g)
    (bfs (normalizeBorders g) ⟨1, 1⟩).1
  exact ⟨h2.1.trans h1.1, h2.2.trans h1.2⟩

theorem sealAndSearch_get (g : Grid Bool) (x y : Int) :
    (sealAndSearch g).1.get x y =
      if g.Interior x y then
        ((normalizeBorders g).get x y &&
          !decide ((bfs (normalizeBorders g) ⟨1, 1⟩).1.get x y < 0))
      else (normalizeBorders g).get x y := by
  unfold sealAndSearch
  simp only []
  rw [pruneUnreachableFromStart_get]
  have h1 := normalizeBorders_dims g
  have hi : (normalizeBorders g).Interior x y ↔ g.Interior x y := by
    unfold Grid.Interior; rw [h1.1, h1.2]
  by_cases h : g.Interior x y
  · rw [if_pos (hi.mpr h), if_pos h]
  · rw [if_neg (fun k => h (hi.mp k)), if_neg h]

theorem sealAndSearch_border (g : Grid Bool) (x y : Int) (hb : (sealAndSearch g).1.Border x y)
    (hw : 3 ≤ g.width) (hh : 3 ≤ g.height) :
    (sealAndSearch g).1.get x y = false := by
  have hd := sealAndSearch_dims g
  unfold Grid.Border Grid.Has at hb
  rw [hd.1, hd.2] at hb
  rw [sealAndSearch_get, if_neg (by unfold Grid.Interior; omega), normalizeBorders_get,
    if_neg (by omega), if_pos (by omega)]

theorem normalizeBorders_start (g : Grid Bool) (hw : 2 ≤ g.width) (hh : 2 ≤ g.height) :
    (normalizeBorders g).get 1 1 = true := by
  rw [normalizeBorders_get, if_pos]
  unfold Grid.Has
  omega

theorem normalizeBorders_has_start (g : Grid Bool) (hw : 2 ≤ g.width) (hh : 2 ≤ g.height) :
    (normalizeBorders g).Has 1 1 := by
  have h1 := normalizeBorders_dims g
  unfold Grid.Has
  rw [h1.1, h1.2]
  omega

theorem sealAndSearch_start (g : Grid Bool) (hw : 2 ≤ g.width) (hh : 2 ≤ g.height) :
    (sealAndSearch g).1.get 1 1 = true := by
  rw [sealAndSearch_get]
  have hs := normalizeBorders_start g hw hh
  have h0 := bfs_dist_start (normalizeBorders g) ⟨1, 1⟩ (normalizeBorders_has_start g hw hh)
  simp only [] at h0
  rw [hs, h0]
  split_ifs <;> rfl

/-- A walk of the sealed grid before pruning is a walk after pruning. -/
theorem sealAndSearch_reach (g : Grid Bool) (hw : 2 ≤ g.width) (hh : 2 ≤ g.height)
    {n : Nat} {c : Cell} (hr : Reach (normalizeBorders g) ⟨1, 1⟩ n c) :
    Reach (sealAndSearch g).1 ⟨1, 1⟩ n c := by
  have hs := normalizeBorders_has_start g hw hh
  induction hr with
  | start => exact Reach.start
  | @step n a b hra hab hwb ih =>
    refine Reach.step ih hab ?_
    have hd := sealAndSearch_dims g
    have hd0 := normalizeBorders_dims g
    have hint : g.Interior b.x b.y := by
      have := hwb.1
      unfold Grid.Interior at this ⊢
      rw [hd0.1, hd0.2] at this
      exact this
    refine ⟨?_, ?_⟩
    · unfold Grid.Interior at hint ⊢
      rw [hd.1, hd.2]; exact hint
    · rw [sealAndSearch_get, if_pos hint, hwb.2]
      have hreach : Reach (normalizeBorders g) ⟨1, 1⟩ (n + 1) b := Reach.step hra hab hwb
      obtain ⟨k1, _⟩ := bfs_dist_of_reach (normalizeBorders g) ⟨1, 1⟩ hs hreach
      obtain ⟨m, hm, _⟩ := bfs_reach_of_dist (normalizeBorders g) ⟨1, 1⟩ hs b
        (hreach.has hs) k1
      rw [hm]
      simp

/-- Every open interior cell of the pruned grid is the end of a walk from the
start cell. -/
theorem sealAndSearch_connected (g : Grid Bool) (hw : 2 ≤ g.width) (hh : 2 ≤ g.height)
    (c : Cell) (hc : Walkable (sealAndSearch g).1 c) :
    ∃ k, Reach (sealAndSearch g).1 ⟨1, 1⟩ k c := by
  have hs := normalizeBorders_has_start g hw hh
  have hd := sealAndSearch_dims g
  have hd0 := normalizeBorders_dims g
  obtain ⟨hint, hopen⟩ := hc
  have hint0 : g.Interior c.x c.y := by
    unfold Grid.Interior at hint ⊢
    rw [hd.1, hd.2] at hint; exact hint
  rw [sealAndSearch_get, if_pos hint0, Bool.and_eq_true] at hopen
  have hne : (bfs (normalizeBorders g) ⟨1, 1⟩).1.get c.x c.y ≠ -1 := by
    intro h
    rw [h] at hopen
    simp at hopen
  have hHas : (normalizeBorders g).Has c.x c.y := by
    unfold Grid.Interior at hint0
    unfold Grid.Has
    rw [hd0.1, hd0.2]; omega
  obtain ⟨m, _, hr⟩ := bfs_reach_of_dist (normalizeBorders g) ⟨1, 1⟩ hs c hHas hne
  exact ⟨m, sealAndSearch_reach g hw hh hr⟩


/-! ## The returned layouts -/

theorem walkable_openExit (g : Grid Bool) (goalY : Int) (c : Cell) :
    Walkable (openExit g goalY) c ↔ Walkable g c := by
  have hd := openExit_dims g goalY
  unfold Walkable Grid.Interior
  rw [hd.1, hd.2, openExit_get]
  constructor
  · rintro ⟨h1, h2⟩
    refine ⟨h1, ?_⟩
    rw [if_neg (by omega)] at h2; exact h2
  · rintro ⟨h1, h2⟩
    refine ⟨h1, ?_⟩
    rw [if_neg (by omega)]; exact h2

/-- The layout returned when `findGoalNearRight` finds a goal on the pruned
grid, in an attempt and in the fallback alike. -/
theorem goodLayout_exit (g : Grid Bool) (n : Nat) (hn : 3 ≤ n) (hw : g.width = n)
    (hh : g.height = n) (b : Goal)
    (hb : findGoalNearRight (sealAndSearch g).1 (sealAndSearch g).2.1 = some b) :
    GoodLayout n ⟨openExit (sealAndSearch g).1 b.y, ⟨1, 1⟩, ⟨b.x, b.y⟩⟩ := by
  have hd := sealAndSearch_dims g
  rw [hw, hh] at hd
  have hde := openExit_dims (sealAndSearch g).1 b.y
  rw [hd.1, hd.2] at hde
  obtain ⟨k1, k2, k3, k4, _⟩ := (findGoalNearRight_spec _ _).1 b hb
  rw [hd.1] at k1
  rw [hd.2] at k3
  unfold GoalRow at k4
  rw [hd.1] at k4
  refine
    { width := hde.1, height := hde.2, start := rfl, goalX := k1
      goalY := ⟨k2, by simp only []; omega⟩
      goalOpen := ?_, exitOpen := ?_, border := ?_, startOpen := ?_, connected := ?_ }
  · simp only []
    rw [openExit_get, hd.1, if_neg (by omega)]
    exact k4.1
  · simp only []
    rw [openExit_get, hd.1, if_pos]
    refine ⟨rfl, rfl, ?_⟩
    unfold Grid.Has; rw [hd.1, hd.2]; omega
  · intro x y hbd hne
    simp only [] at hbd hne ⊢
    rw [openExit_get, hd.1, if_neg (fun k => hne ⟨k.1, k.2.1⟩)]
    apply sealAndSearch_border g x y _ (by omega) (by omega)
    unfold Grid.Border Grid.Has at hbd ⊢
    rw [hde.1, hde.2] at hbd
    rw [hd.1, hd.2]; exact hbd
  · simp only []
    rw [openExit_get, hd.1, if_neg (by omega)]
    exact sealAndSearch_start g (by omega) (by omega)
  · intro c hc
    simp only [] at hc ⊢
    rw [walkable_openExit] at hc
    obtain ⟨k, hk⟩ := sealAndSearch_connected g (by omega) (by omega) c hc
    exact ⟨k, hk.mono (fun c hc => (walkable_openExit _ _ c).mpr hc)⟩

/-- The layout returned by the fallback when no goal is found: the corridor
from the farthest cell to column `n - 2`. -/
theorem goodLayout_corridor (g : Grid Bool) (n : Nat) (hn : 3 ≤ n) (hw : g.width = n)
    (hh : g.height = n) :
    GoodLayout n
      ⟨openExit (forRange (farthestCell n (sealAndSearch g).2.1).1.x.toNat (n - 1)
          (fun x s => s.set x (farthestCell n (sealAndSearch g).2.1).1.y true)
          (sealAndSearch g).1) (farthestCell n (sealAndSearch g).2.1).1.y,
        ⟨1, 1⟩, ⟨(n : Int) - 2, (farthestCell n (sealAndSearch g).2.1).1.y⟩⟩ := by
  have hd := sealAndSearch_dims g
  rw [hw, hh] at hd
  have hsHas : (sealAndSearch g).1.Has 1 1 := by unfold Grid.Has; rw [hd.1, hd.2]; omega
  generalize hfardef : farthestCell n (sealAndSearch g).2.1 = far
  have hspec := farthestCell_spec n (sealAndSearch g).2.1
  rw [hfardef] at hspec
  have hfar : 1 ≤ far.1.x ∧ far.1.x < (n : Int) - 1 ∧ 1 ≤ far.1.y ∧ far.1.y < (n : Int) - 1 := by
    rcases hspec with h | h
    · rw [h]; simp only []; omega
    · exact h.1
  have hfarReach : ∃ k, Reach (sealAndSearch g).1 ⟨1, 1⟩ k far.1 := by
    rcases hspec with h | h
    · rw [h]; exact ⟨0, Reach.start⟩
    · have hne : (bfs (sealAndSearch g).1 ⟨1, 1⟩).1.get far.1.x far.1.y ≠ -1 := by
        rw [← sealAndSearch_search, h.2.1]; omega
      obtain ⟨m, _, hr⟩ := bfs_reach_of_dist (sealAndSearch g).1 ⟨1, 1⟩ hsHas far.1
        (by unfold Grid.Has; rw [hd.1, hd.2]; omega) hne
      exact ⟨m, hr⟩
  have hxcast : ((far.1.x.toNat : Nat) : Int) = far.1.x := by omega
  have hncast : ((n - 1 : Nat) : Int) = (n : Int) - 1 := by omega
  have hdc := corridor_dims (sealAndSearch g).1 far.1.x.toNat (n - 1) far.1.y
  rw [hd.1, hd.2] at hdc
  have hcg : ∀ x y : Int,
      (forRange far.1.x.toNat (n - 1) (fun x s => s.set x far.1.y true) (sealAndSearch g).1).get x y
        = if y = far.1.y ∧ far.1.x ≤ x ∧ x < (n : Int) - 1 then true
          else (sealAndSearch g).1.get x y := by
    intro x y
    rw [corridor_get, hxcast, hncast]
    by_cases hc : y = far.1.y ∧ far.1.x ≤ x ∧ x < (n : Int) - 1
    · rw [if_pos hc, if_pos]
      refine ⟨hc.1, hc.2.1, hc.2.2, ?_⟩
      unfold Grid.Has; rw [hd.1, hd.2]; omega
    · rw [if_neg hc, if_neg (fun k => hc ⟨k.1, k.2.1, k.2.2.1⟩)]
  have hde := openExit_dims
    (forRange far.1.x.toNat (n - 1) (fun x s => s.set x far.1.y true) (sealAndSearch g).1)
    far.1.y
  rw [hdc.1, hdc.2] at hde
  have hmono : ∀ c, Walkable (sealAndSearch g).1 c → Walkable
      (forRange far.1.x.toNat (n - 1) (fun x s => s.set x far.1.y true) (sealAndSearch g).1)
      c := by
    intro c hc
    unfold Walkable Grid.Interior at hc ⊢
    rw [hdc.1, hdc.2, hcg]
    rw [hd.1, hd.2] at hc
    refine ⟨hc.1, ?_⟩
    split_ifs
    · rfl
    · exact hc.2
  have hcorr : ∀ j : Nat, far.1.x + j ≤ (n : Int) - 2 → ∃ k, Reach
      (forRange far.1.x.toNat (n - 1) (fun x s => s.set x far.1.y true) (sealAndSearch g).1)
      ⟨1, 1⟩ k ⟨far.1.x + j, far.1.y⟩ := by
    intro j
    induction j with
    | zero =>
      intro _
      obtain ⟨k, hk⟩ := hfarReach
      refine ⟨k, ?_⟩
      have := hk.mono hmono
      simpa using this
    | succ j ih =>
      intro hj
      obtain ⟨k, hk⟩ := ih (by omega)
      refine ⟨k + 1, Reach.step hk ⟨⟨1, 0, 'R'⟩, by simp [DIRS], ?_, ?_⟩ ?_⟩
      · simp only []; push_cast; ring
      · simp
      · unfold Walkable Grid.Interior
        rw [hdc.1, hdc.2, hcg]
        dsimp only
        refine ⟨by omega, ?_⟩
        rw [if_pos ⟨rfl, by omega, by omega⟩]
  refine
    { width := hde.1, height := hde.2, start := rfl, goalX := rfl
      goalY := ⟨hfar.2.2.1, by simp only []; omega⟩
      goalOpen := ?_, exitOpen := ?_, border := ?_, startOpen := ?_, connected := ?_ }
  · simp only []
    rw [openExit_get, hdc.1, if_neg (by omega), hcg, if_pos ⟨rfl, by omega, by omega⟩]
  · simp only []
    rw [openExit_get, hdc.1, if_pos]
    refine ⟨rfl, rfl, ?_⟩
    unfold Grid.Has; rw [hdc.1, hdc.2]; omega
  · intro x y hbd hne
    simp only [] at hbd hne ⊢
    rw [openExit_get, hdc.1, if_neg (fun k => hne ⟨k.1, k.2.1⟩), hcg]
    unfold Grid.Border Grid.Has at hbd
    rw [hde.1, hde.2] at hbd
    rw [if_neg (by omega)]
    apply sealAndSearch_border g x y _ (by omega) (by omega)
    unfold Grid.Border Grid.Has
    rw [hd.1, hd.2]; exact hbd
  · simp only []
    rw [openExit_get, hdc.1, if_neg (by omega), hcg]
    split_ifs
    · rfl
    · exact sealAndSearch_start g (by omega) (by omega)
  · intro c hc
    simp only [] at hc ⊢
    rw [walkable_openExit] at hc
    have hex : ∃ k, Reach
        (forRange far.1.x.toNat (n - 1) (fun x s => s.set x far.1.y true) (sealAndSearch g).1)
        ⟨1, 1⟩ k c := by
      by_cases hon : c.y = far.1.y ∧ far.1.x ≤ c.x ∧ c.x < (n : Int) - 1
      · obtain ⟨k, hk⟩ := hcorr (c.x - far.1.x).toNat (by omega)
        refine ⟨k, ?_⟩
        have hce : c = ⟨far.1.x + ((c.x - far.1.x).toNat : Nat), far.1.y⟩ := by
          apply cell_ext
          · simp only []; omega
          · exact hon.1
        rw [hce]; exact hk
      · have hw1 : Walkable (sealAndSearch g).1 c := by
          unfold Walkable Grid.Interior at hc ⊢
          rw [hdc.1, hdc.2, hcg, if_neg hon] at hc
          rw [hd.1, hd.2]; exact hc
        obtain ⟨k, hk⟩ := sealAndSearch_connected g (by omega) (by omega) c hw1
        exact ⟨k, hk.mono hmono⟩
    obtain ⟨k, hk⟩ := hex
    exact ⟨k, hk.mono (fun c hc => (walkable_openExit _ _ c).mpr hc)⟩


/-! ## Path reconstruction -/

theorem bfs_dist_lt (g : Grid Bool) (s : Cell) (hs : g.Has s.x s.y) (c : Cell)
    (hc : g.Has c.x c.y) (hd : (bfs g s).1.get c.x c.y ≠ -1) :
    (bfs g s).1.get c.x c.y < ((g.width * g.height : Nat) : Int) := by
  obtain ⟨q, h⟩ := bfs_inv g s hs
  have h1 := h.small c (h.inQueue c hc hd)
  have h2 := h.queue_length_le
  omega

/-- The walk of `reconstructPath` along the predecessors of `bfs` from a cell of
distance `d`: with more than `d` units of fuel it appends `d + 1` cells, from
the cell to the start, and more fuel changes nothing. -/
theorem reconstructLoop_spec {g : Grid Bool} {s : Cell} {dist : Grid Int}
    {prev : Grid (Option Cell)} {queue : List Cell} {p : Nat}
    (hinv : BfsInv g s dist prev queue p) (d : Nat) :
    ∀ (c : Cell) (fuel : Nat) (acc : List Cell), c ∈ queue → dist.get c.x c.y = d → d < fuel →
      ∃ l : List Cell, reconstructLoop prev s fuel (some c) acc = acc ++ l ∧
        l.length = d + 1 ∧ l.head? = some c ∧ l.getLast? = some s ∧
        ∀ fuel1, d < fuel1 → reconstructLoop prev s fuel1 (some c) acc = acc ++ l := by
  induction d with
  | zero =>
    intro c fuel acc hc hd hf
    have hcs : c = s := by
      by_contra hne
      obtain ⟨u, _, hu2, _, hu4⟩ := hinv.prevSome c hc hne
      obtain ⟨_, n, hn, _⟩ := hinv.sound u hu2
      rw [hd, hn] at hu4
      omega
    subst hcs
    refine ⟨[c], ?_, rfl, rfl, rfl, ?_⟩
    · cases fuel with
      | zero => omega
      | succ f => unfold reconstructLoop; simp
    · intro fuel1 hf1
      cases fuel1 with
      | zero => omega
      | succ f => unfold reconstructLoop; simp
  | succ d ih =>
    intro c fuel acc hc hd hf
    have hcs : c ≠ s := by
      intro h
      rw [h, hinv.start0] at hd
      omega
    have hcs2 : ¬ (c.x = s.x ∧ c.y = s.y) := fun h => hcs (cell_ext c s h.1 h.2)
    obtain ⟨u, hu1, hu2, _, hu4⟩ := hinv.prevSome c hc hcs
    have hud : dist.get u.x u.y = (d : Nat) := by rw [hd] at hu4; push_cast at hu4; omega
    cases fuel with
    | zero => omega
    | succ f =>
      obtain ⟨l, hl1, hl2, _, hl4, hl5⟩ := ih u f (acc ++ [c]) hu2 hud (by omega)
      refine ⟨c :: l, ?_, by simp [hl2], rfl, ?_, ?_⟩
      · unfold reconstructLoop
        simp only []
        rw [if_neg hcs2, hu1, hl1]
        simp
      · cases l with
        | nil => simp at hl2
        | cons x rest => rw [List.getLast?_cons_cons]; exact hl4
      · intro fuel1 hf1
        cases fuel1 with
        | zero => omega
        | succ f1 =>
          unfold reconstructLoop
          simp only []
          rw [if_neg hcs2, hu1, hl5 f1 (by omega)]
          simp

/-- On the result of `bfs`, `reconstructPath` from a cell with a set distance
`d` returns `d + 1` cells that begin with the start and end with the cell, at
most as many as the grid has cells; the walk ends by reaching the start, and
more fuel gives the same list. -/
theorem reconstructPath_spec (g : Grid Bool) (s : Cell) (hs : g.Has s.x s.y) (c : Cell)
    (hc : g.Has c.x c.y) (hd : (bfs g s).1.get c.x c.y ≠ -1) :
    ((reconstructPath (bfs g s).2 s c).length : Int) = (bfs g s).1.get c.x c.y + 1 ∧
      (reconstructPath (bfs g s).2 s c).length ≤ g.width * g.height ∧
      (reconstructPath (bfs g s).2 s c).head? = some s ∧
      (reconstructPath (bfs g s).2 s c).getLast? = some c ∧
      ∀ fuel, g.width * g.height + 1 ≤ fuel →
        (reconstructLoop (bfs g s).2 s fuel (some c) []).reverse
          = reconstructPath (bfs g s).2 s c := by
  obtain ⟨q, h⟩ := bfs_inv g s hs
  have hmem := h.inQueue c hc hd
  obtain ⟨_, n, hn, _⟩ := h.sound c hmem
  have hlt := bfs_dist_lt g s hs c hc hd
  have hfuel : n < (bfs g s).2.width * (bfs g s).2.height + 1 := by
    rw [h.prevW, h.prevH]; rw [hn] at hlt; omega
  obtain ⟨l, hl1, hl2, hl3, hl4, hl5⟩ := reconstructLoop_spec h n c _ [] hmem hn hfuel
  have hce : (⟨c.x, c.y⟩ : Cell) = c := rfl
  unfold reconstructPath
  rw [hce, hl1, List.nil_append]
  refine ⟨by rw [List.length_reverse, hl2, hn]; push_cast; rfl,
    by rw [List.length_reverse, hl2]; rw [hn] at hlt; omega,
    by rw [List.head?_reverse]; exact hl4,
    by rw [List.getLast?_reverse]; exact hl3, ?_⟩
  intro fuel hf
  rw [hl5 fuel (by rw [hn] at hlt; omega), List.nil_append]


/-! ## The orchestrator -/

theorem attemptSearch_eq (trig : Trig) (config : Config) (attempt : Nat) :
    attemptSearch trig config attempt = sealAndSearch (applyProfileFeatures trig
      (addLoops
        (carvePerfectMaze (gridSize config) (gridSize config) (config.seed + attempt * 97)
          ⟨config.biasX, config.biasY, config.straightness⟩).1
        (carvePerfectMaze (gridSize config) (gridSize config) (config.seed + attempt * 97)
          ⟨config.biasX, config.biasY, config.straightness⟩).2
        (config.loopCount + (attempt / 20 : Nat))).1
      (addLoops
        (carvePerfectMaze (gridSize config) (gridSize config) (config.seed + attempt * 97)
          ⟨config.biasX, config.biasY, config.straightness⟩).1
        (carvePerfectMaze (gridSize config) (gridSize config) (config.seed + attempt * 97)
          ⟨config.biasX, config.biasY, config.straightness⟩).2
        (config.loopCount + (attempt / 20 : Nat))).2 config).1 := rfl

theorem attemptSearch_sealed (trig : Trig) (config : Config) (attempt : Nat) :
    ∃ g : Grid Bool, g.width = gridSize config ∧ g.height = gridSize config ∧
      attemptSearch trig config attempt = sealAndSearch g := by
  refine ⟨_, ?_, ?_, attemptSearch_eq trig config attempt⟩
  · rw [(applyProfileFeatures_dims _ _ _ _).1, (addLoops_dims _ _ _).1]
    exact (carveWith_dims _ _ _ _).1
  · rw [(applyProfileFeatures_dims _ _ _ _).2, (addLoops_dims _ _ _).2]
    exact (carveWith_dims _ _ _ _).2

theorem fallbackSearch_sealed (config : Config) :
    ∃ g : Grid Bool, g.width = gridSize config ∧ g.height = gridSize config ∧
      fallbackSearch config = sealAndSearch g := by
  refine ⟨_, ?_, ?_, rfl⟩
  · rw [(addLoops_dims _ _ _).1]
    exact (carveWith_dims _ _ _ _).1
  · rw [(addLoops_dims _ _ _).2]
    exact (carveWith_dims _ _ _ _).2

/-- What `attemptLayout` returns: the layout of the goal when the attempt
passes the acceptance test, nothing otherwise. -/
theorem attemptLayout_eq (trig : Trig) (config : Config) (attempt : Nat) :
    (¬ Accepted trig config attempt ∧ attemptLayout trig config attempt = none) ∨
    (Accepted trig config attempt ∧ ∃ goal : Goal,
      findGoalNearRight (attemptSearch trig config attempt).1
        (attemptSearch trig config attempt).2.1 = some goal ∧
      attemptLayout trig config attempt
        = some ⟨openExit (attemptSearch trig config attempt).1 goal.y, ⟨1, 1⟩,
            ⟨goal.x, goal.y⟩⟩) := by
  unfold attemptLayout Accepted
  simp only []
  cases hg : findGoalNearRight (attemptSearch trig config attempt).1
      (attemptSearch trig config attempt).2.1 with
  | none =>
    left
    exact ⟨fun ⟨goal, h, _⟩ => by simp at h, rfl⟩
  | some goal =>
    simp only []
    by_cases h1 : ((analyzePath (reconstructPath (attemptSearch trig config attempt).2.2
        ⟨1, 1⟩ ⟨goal.x, goal.y⟩)).length : Int) < config.minPathLength
    · left
      rw [if_pos h1]
      refine ⟨?_, rfl⟩
      rintro ⟨goal1, k1, k2, _⟩
      rw [← Option.some.inj k1] at k2
      omega
    · rw [if_neg h1]
      by_cases h2 : ((analyzePath (reconstructPath (attemptSearch trig config attempt).2.2
          ⟨1, 1⟩ ⟨goal.x, goal.y⟩)).turns : Int) < config.minTurns
      · left
        rw [if_pos h2]
        refine ⟨?_, rfl⟩
        rintro ⟨goal1, k1, _, k3, _⟩
        rw [← Option.some.inj k1] at k3
        omega
      · rw [if_neg h2]
        by_cases h3 : (analyzePath (reconstructPath (attemptSearch trig config attempt).2.2
            ⟨1, 1⟩ ⟨goal.x, goal.y⟩)).rightDownOneTurn = true
        · left
          rw [if_pos h3]
          refine ⟨?_, rfl⟩
          rintro ⟨goal1, k1, _, _, k4⟩
          rw [← Option.some.inj k1, h3] at k4
          exact absurd k4 (by simp)
        · right
          rw [if_neg h3]
          refine ⟨⟨goal, rfl, by omega, by omega, by simpa using h3⟩, goal, rfl, rfl⟩

theorem attemptLayout_good (trig : Trig) (config : Config) (hn : 3 ≤ gridSize config)
    (attempt : Nat) (l : Layout) (h : attemptLayout trig config attempt = some l) :
    GoodLayout (gridSize config) l := by
  rcases attemptLayout_eq trig config attempt with ⟨_, h1⟩ | ⟨_, goal, hg, h1⟩
  · rw [h1] at h; exact absurd h (by simp)
  · rw [h1] at h
    rw [← Option.some.inj h]
    obtain ⟨g, hw, hh, he⟩ := attemptSearch_sealed trig config attempt
    rw [he] at hg ⊢
    exact goodLayout_exit g (gridSize config) hn hw hh goal hg

theorem fallbackLayout_good (config : Config) (hn : 3 ≤ gridSize config) :
    GoodLayout (gridSize config) (fallbackLayout config) := by
  unfold fallbackLayout
  simp only []
  obtain ⟨g, hw, hh, he⟩ := fallbackSearch_sealed config
  rw [he]
  cases hg : findGoalNearRight (sealAndSearch g).1 (sealAndSearch g).2.1 with
  | some goal => exact goodLayout_exit g (gridSize config) hn hw hh goal hg
  | none => exact goodLayout_corridor g (gridSize config) hn hw hh

/-- The first successful index of a search over `0, ..., n - 1`. -/
theorem findSome?_range {β : Type} (f : Nat → Option β) (n : Nat) :
    ((List.range n).findSome? f = none ∧ ∀ k, k < n → f k = none) ∨
    (∃ k, k < n ∧ (List.range n).findSome? f = f k ∧ (f k).isSome = true ∧
      ∀ j, j < k → f j = none) := by
  induction n with
  | zero => left; exact ⟨rfl, fun k hk => absurd hk (Nat.not_lt_zero k)⟩
  | succ n ih =>
    rw [List.range_succ, List.findSome?_append]
    rcases ih with ⟨h1, h2⟩ | ⟨k, hk, h1, h2, h3⟩
    · rw [h1]
      cases hf : f n with
      | none =>
        left
        refine ⟨by simp [List.findSome?_cons, hf], fun k hk => ?_⟩
        rcases Nat.lt_succ_iff_lt_or_eq.mp hk with h | h
        · exact h2 k h
        · rw [h]; exact hf
      | some b =>
        right
        exact ⟨n, Nat.lt_succ_self n, by simp [List.findSome?_cons, hf], by simp [hf], h2⟩
    · right
      refine ⟨k, Nat.lt_succ_of_lt hk, ?_, h2, h3⟩
      rw [h1]
      cases hf : f k with
      | none => rw [hf] at h2; simp at h2
      | some b => rfl

/-- Every layout that `generateQualifiedLayout` returns on a grid of side at
least three is a good layout. -/
theorem generateQualifiedLayout_good (trig : Trig) (config : Config)
    (hn : 3 ≤ gridSize config) :
    GoodLayout (gridSize config) (generateQualifiedLayout trig config) := by
  unfold generateQualifiedLayout
  cases hf : (List.range 280).findSome? (attemptLayout trig config) with
  | none => exact fallbackLayout_good config hn
  | some l =>
    obtain ⟨k, _, hk⟩ := List.exists_of_findSome?_eq_some hf
    exact attemptLayout_good trig config hn k l hk


/-! ## Weighted choice and the termination of the carver -/

theorem pickWeightedLoop_mem {ι : Type} (weight : ι → F64) (items : List ι) (ticket : F64)
    (c : ι) (h : pickWeightedLoop weight items ticket = some c) : c ∈ items := by
  induction items generalizing ticket with
  | nil => simp [pickWeightedLoop] at h
  | cons a rest ih =>
    unfold pickWeightedLoop at h
    simp only [] at h
    split_ifs at h
    · rw [← Option.some.inj h]; exact List.mem_cons_self _ _
    · exact List.mem_cons_of_mem _ (ih _ h)

/-- The item that `pickWeighted` returns is one of the items. -/
theorem pickWeighted_mem {ι σ : Type} [RandomSource σ] (weight : ι → F64) (items : List ι)
    (rng : σ) (c : ι) (h : (pickWeighted weight items rng).1 = some c) : c ∈ items := by
  unfold pickWeighted at h
  simp only [] at h
  split at h
  · rename_i item hitem
    simp only [] at h
    rw [← Option.some.inj h]
    exact pickWeightedLoop_mem weight items _ item hitem
  · simp only [] at h
    exact List.mem_of_getLast?_eq_some h

/-- On a non-empty array `pickWeighted` returns an item. -/
theorem pickWeighted_isSome {ι σ : Type} [RandomSource σ] (weight : ι → F64) (items : List ι)
    (rng : σ) (hne : items ≠ []) : ∃ c, (pickWeighted weight items rng).1 = some c := by
  unfold pickWeighted
  simp only []
  split
  · rename_i item _
    exact ⟨item, rfl⟩
  · simp only []
    cases hl : items.getLast? with
    | none => rw [List.getLast?_eq_none_iff] at hl; exact absurd hl hne
    | some c => exact ⟨c, rfl⟩

theorem pickWeighted_rng {ι σ : Type} [RandomSource σ] (weight : ι → F64) (items : List ι)
    (rng : σ) : (pickWeighted weight items rng).2 = (RandomSource.sample rng).2 := by
  unfold pickWeighted
  simp only []
  split <;> rfl

theorem carveOptions_mem (visited : Grid Bool) (nodesW nodesH : Nat) (profile : Profile)
    (current : Node) (o : CarveOption)
    (h : o ∈ carveOptions visited nodesW nodesH profile current) :
    (0 ≤ o.nx ∧ o.nx < (nodesW : Int) ∧ 0 ≤ o.ny ∧ o.ny < (nodesH : Int)) ∧
      visited.get o.nx o.ny = false ∧ o.dir ∈ DIRS ∧
      o.nx = current.x + o.dir.dx ∧ o.ny = current.y + o.dir.dy := by
  unfold carveOptions at h
  rw [List.mem_filterMap] at h
  obtain ⟨dir, hdir, hsome⟩ := h
  simp only [] at hsome
  split_ifs at hsome with h1 h2
  have ho := Option.some.inj hsome
  subst ho
  dsimp only
  refine ⟨by omega, by simpa using h2, hdir, rfl, rfl⟩

theorem unvisitedCount_set (visited : Grid Bool) (x y : Int) (hin : visited.Has x y)
    (hv : visited.get x y = false) :
    unvisitedCount (visited.set x y true) + 1 = unvisitedCount visited := by
  unfold unvisitedCount
  rw [Grid.set_width, Grid.set_height]
  have hmem : (x, y) ∈ (Finset.Ico (0 : Int) visited.width ×ˢ
      Finset.Ico (0 : Int) visited.height).filter (fun q => visited.get q.1 q.2 = false) := by
    unfold Grid.Has at hin
    simp only [Finset.mem_filter, Finset.mem_product, Finset.mem_Ico]
    exact ⟨⟨⟨hin.1, hin.2.1⟩, hin.2.2⟩, hv⟩
  have heq : (Finset.Ico (0 : Int) visited.width ×ˢ
      Finset.Ico (0 : Int) visited.height).filter
        (fun q => (visited.set x y true).get q.1 q.2 = false)
      = ((Finset.Ico (0 : Int) visited.width ×ˢ
        Finset.Ico (0 : Int) visited.height).filter
          (fun q => visited.get q.1 q.2 = false)).erase (x, y) := by
    ext q
    simp only [Finset.mem_filter, Finset.mem_erase, Grid.get_set]
    by_cases hq : q = (x, y)
    · subst hq
      simp [hin]
    · have : ¬ (q.1 = x ∧ q.2 = y ∧ visited.Has x y) := by
        intro k; apply hq; exact Prod.ext k.1 k.2.1
      simp [this, hq]
  rw [heq, Finset.card_erase_of_mem hmem]
  have := Finset.card_pos.mpr ⟨_, hmem⟩
  omega

/-- The loop of the carver ends with an empty stack within the fuel: every
iteration either marks a lattice node or pops the stack. -/
theorem carveLoop_terminates {σ : Type} [RandomSource σ] (nodesW nodesH : Nat)
    (profile : Profile) (fuel : Nat) (st : CarveState σ)
    (hw : st.visited.width = nodesW) (hh : st.visited.height = nodesH)
    (hfuel : 2 * unvisitedCount st.visited + st.stack.length ≤ fuel) :
    (carveLoop nodesW nodesH profile fuel st).stack = [] := by
  induction fuel generalizing st with
  | zero =>
    unfold carveLoop
    exact List.length_eq_zero.mp (by omega)
  | succ fuel ih =>
    unfold carveLoop
    cases hst : st.stack with
    | nil => simp only []; exact hst
    | cons current rest =>
      simp only []
      rw [hst] at hfuel
      simp only [List.length_cons] at hfuel
      split_ifs with hempty
      · exact ih _ hw hh (by simp only []; omega)
      · have hne : carveOptions st.visited nodesW nodesH profile current ≠ [] := by
          intro h; rw [h] at hempty; exact hempty rfl
        obtain ⟨chosen, hch⟩ := pickWeighted_isSome CarveOption.weight _ st.rng hne
        have hmem := pickWeighted_mem CarveOption.weight _ st.rng chosen hch
        obtain ⟨hin, hv, _⟩ := carveOptions_mem _ _ _ _ _ _ hmem
        cases hpick : pickWeighted CarveOption.weight
            (carveOptions st.visited nodesW nodesH profile current) st.rng with
        | mk c rng =>
          rw [hpick] at hch
          simp only [] at hch
          subst hch
          simp only []
          apply ih
          · unfold carveAdvance; simp only []; rw [Grid.set_width]; exact hw
          · unfold carveAdvance; simp only []; rw [Grid.set_height]; exact hh
          · have hcount := unvisitedCount_set st.visited chosen.nx chosen.ny
              (by unfold Grid.Has; rw [hw, hh]; exact hin) hv
            unfold carveAdvance
            simp only [List.length_cons]
            rw [hst]
            simp only [List.length_cons]
            omega

theorem carveLoop_stable {σ : Type} [RandomSource σ] (nodesW nodesH : Nat)
    (profile : Profile) (fuel extra : Nat) (st : CarveState σ)
    (hdone : (carveLoop nodesW nodesH profile fuel st).stack = []) :
    carveLoop nodesW nodesH profile (fuel + extra) st
      = carveLoop nodesW nodesH profile fuel st := by
  induction fuel generalizing st with
  | zero =>
    unfold carveLoop at hdone
    rw [Nat.zero_add]
    cases extra with
    | zero => rfl
    | succ e =>
      show carveLoop nodesW nodesH profile (e + 1) st = carveLoop nodesW nodesH profile 0 st
      unfold carveLoop
      rw [hdone]
  | succ fuel ih =>
    rw [Nat.add_right_comm]
    unfold carveLoop at hdone ⊢
    cases hst : st.stack with
    | nil => rfl
    | cons current rest =>
      rw [hst] at hdone
      simp only [] at hdone ⊢
      split_ifs at hdone ⊢ with hempty
      · exact ih _ hdone
      · cases hpick : pickWeighted CarveOption.weight
            (carveOptions st.visited nodesW nodesH profile current) st.rng with
        | mk c rng =>
          rw [hpick] at hdone
          cases c with
          | none => rfl
          | some chosen =>
            simp only [] at hdone ⊢
            exact ih _ hdone

theorem unvisitedCount_le (visited : Grid Bool) :
    unvisitedCount visited ≤ visited.width * visited.height := by
  unfold unvisitedCount
  refine le_trans (Finset.card_filter_le _ _) ?_
  rw [Finset.card_product, Int.card_Ico, Int.card_Ico]
  simp

/-- The carver run by `carveWith` ends with an empty stack when the lattice has
a node, that is on every grid with both sides at least three. -/
theorem carveWith_terminates {σ : Type} [RandomSource σ] (w h : Nat) (rng : σ)
    (profile : Profile) (hw : 3 ≤ w) (hh : 3 ≤ h) :
    (carveLoop ((w - 1) / 2) ((h - 1) / 2) profile (2 * ((w - 1) / 2 * ((h - 1) / 2)))
      (carveInit w h rng)).stack = [] := by
  apply carveLoop_terminates
  · unfold carveInit; simp only []; rw [Grid.set_width]; rfl
  · unfold carveInit; simp only []; rw [Grid.set_height]; rfl
  · have hW : 1 ≤ (w - 1) / 2 := by omega
    have hH : 1 ≤ (h - 1) / 2 := by omega
    have hcount := unvisitedCount_set (createGrid ((w - 1) / 2) ((h - 1) / 2) false) 0 0
      (by unfold Grid.Has; show (0 : Int) ≤ 0 ∧ (0 : Int) < (((w - 1) / 2 : Nat) : Int) ∧
            (0 : Int) ≤ 0 ∧ (0 : Int) < (((h - 1) / 2 : Nat) : Int); omega)
      (by rw [createGrid_get]; split_ifs <;> rfl)
    have hle := unvisitedCount_le (createGrid ((w - 1) / 2) ((h - 1) / 2) false)
    have hd : (createGrid ((w - 1) / 2) ((h - 1) / 2) false).width
        * (createGrid ((w - 1) / 2) ((h - 1) / 2) false).height
        = (w - 1) / 2 * ((h - 1) / 2) := rfl
    rw [hd] at hle
    unfold carveInit
    simp only [List.length_singleton]
    omega


/-! ## Grids of even side: the goal column stays closed -/

theorem RightClosed.set {g : Grid Bool} (h : RightClosed g) (x y : Int)
    (hx : x < (g.width : Int) - 2) (v : Bool) : RightClosed (g.set x y v) := by
  intro x1 y1 hx1
  rw [Grid.set_width] at hx1
  rw [Grid.get_set, if_neg (by omega)]
  exact h x1 y1 hx1

theorem RightClosed.set_false {g : Grid Bool} (h : RightClosed g) (x y : Int) :
    RightClosed (g.set x y false) := by
  intro x1 y1 hx1
  rw [Grid.set_width] at hx1
  rw [Grid.get_set_false]
  split_ifs
  · rfl
  · exact h x1 y1 hx1

theorem scaleSample_bounds (k : Nat) (m : Int) (hk : k < 4294967296) (hm : 0 < m) :
    0 ≤ scaleSample k m ∧ scaleSample k m < m := by
  unfold scaleSample
  constructor
  · apply Int.ediv_nonneg
    · exact Int.mul_nonneg (Int.ofNat_nonneg k) (le_of_lt hm)
    · decide
  · apply Int.ediv_lt_of_lt_mul (by decide)
    have hk1 : (k : Int) < 4294967296 := by exact_mod_cast hk
    calc (k : Int) * m < 4294967296 * m := by
          apply mul_lt_mul_of_pos_right hk1 hm
      _ = m * 4294967296 := by ring

theorem sign_le_of_le (z : Int) : -1 ≤ z.sign ∧ z.sign ≤ 1 ∧ (z ≤ 0 → z.sign ≤ 0) := by
  rcases lt_trichotomy z 0 with h | h | h
  · rw [Int.sign_eq_neg_one_of_neg h]; omega
  · rw [h]; simp
  · rw [Int.sign_eq_one_of_pos h]; omega

theorem carveLoop_rightClosed {σ : Type} [RandomSource σ] (nodesW nodesH : Nat)
    (profile : Profile) (w : Nat) (hw : 2 * nodesW + 2 ≤ w) (fuel : Nat) (st : CarveState σ)
    (hwd : st.grid.width = w) (hrc : RightClosed st.grid)
    (hstack : ∀ node ∈ st.stack, 0 ≤ node.x ∧ node.x < (nodesW : Int)) :
    RightClosed (carveLoop nodesW nodesH profile fuel st).grid := by
  induction fuel generalizing st with
  | zero => exact hrc
  | succ fuel ih =>
    unfold carveLoop
    cases hst : st.stack with
    | nil => exact hrc
    | cons current rest =>
      simp only []
      rw [hst] at hstack
      split_ifs
      · exact ih _ hwd hrc (fun node hn => hstack node (List.mem_cons_of_mem _ hn))
      · cases hpick : pickWeighted CarveOption.weight
            (carveOptions st.visited nodesW nodesH profile current) st.rng with
        | mk c rng =>
          cases c with
          | none => exact hrc
          | some chosen =>
            simp only []
            have hmem := pickWeighted_mem CarveOption.weight _ st.rng chosen
              (by rw [hpick])
            obtain ⟨hin, _, _, _, _⟩ := carveOptions_mem _ _ _ _ _ _ hmem
            have hcur := hstack current (List.mem_cons_self _ _)
            have hsg := sign_le_of_le (1 + chosen.nx * 2 - (1 + current.x * 2))
            apply ih
            · unfold carveAdvance; simp only []; rw [Grid.set_width, Grid.set_width]; exact hwd
            · unfold carveAdvance
              simp only []
              apply RightClosed.set
              · apply RightClosed.set hrc
                rw [hwd]
                by_cases hle : 1 + chosen.nx * 2 - (1 + current.x * 2) ≤ 0
                · have := hsg.2.2 hle; omega
                · omega
              · rw [Grid.set_width, hwd]; omega
            · intro node hn
              unfold carveAdvance at hn
              simp only [] at hn
              rcases List.mem_cons.mp hn with h | h
              · rw [h]; exact ⟨hin.1, hin.2.1⟩
              · rw [hst] at h; exact hstack node h

theorem carveWith_rightClosed {σ : Type} [RandomSource σ] (w h : Nat) (rng : σ)
    (profile : Profile) (hw : 4 ≤ w) (heven : w % 2 = 0) :
    RightClosed (carveWith w h rng profile).1 := by
  unfold carveWith
  simp only []
  apply carveLoop_rightClosed ((w - 1) / 2) ((h - 1) / 2) profile w (by omega)
  · unfold carveInit; simp only []; rw [Grid.set_width]; rfl
  · unfold carveInit
    simp only []
    apply RightClosed.set
    · intro x y _
      rw [createGrid_get]
      split_ifs <;> rfl
    · show (1 : Int) < ((w : Nat) : Int) - 2
      omega
  · intro node hn
    unfold carveInit at hn
    simp only [List.mem_singleton] at hn
    rw [hn]
    simp only []
    omega

theorem addLoops_rightClosed {σ : Type} [RandomSource σ] (g : Grid Bool) (rng : σ)
    (amount : Int) (h : RightClosed g) : RightClosed (addLoops g rng amount).1 := by
  unfold addLoops
  simp only []
  have := forRange_invariant
    (fun s : Grid Bool × σ => s.1.width = g.width ∧ RightClosed s.1) 0 amount.toNat
    (fun _ (s : Grid Bool × σ) =>
      if s.1.get (1 + scaleSample (RandomSource.sample s.2).1 ((g.width : Int) - 2))
          (1 + scaleSample (RandomSource.sample (RandomSource.sample s.2).2).1
            ((g.height : Int) - 2)) = true
      then (s.1, (RandomSource.sample (RandomSource.sample s.2).2).2)
      else if (s.1.get (1 + scaleSample (RandomSource.sample s.2).1 ((g.width : Int) - 2) - 1)
            (1 + scaleSample (RandomSource.sample (RandomSource.sample s.2).2).1
              ((g.height : Int) - 2)) &&
          s.1.get (1 + scaleSample (RandomSource.sample s.2).1 ((g.width : Int) - 2) + 1)
            (1 + scaleSample (RandomSource.sample (RandomSource.sample s.2).2).1
              ((g.height : Int) - 2)) ||
          s.1.get (1 + scaleSample (RandomSource.sample s.2).1 ((g.width : Int) - 2))
            (1 + scaleSample (RandomSource.sample (RandomSource.sample s.2).2).1
              ((g.height : Int) - 2) - 1) &&
          s.1.get (1 + scaleSample (RandomSource.sample s.2).1 ((g.width : Int) - 2))
            (1 + scaleSample (RandomSource.sample (RandomSource.sample s.2).2).1
              ((g.height : Int) - 2) + 1)) = true
      then (s.1.set (1 + scaleSample (RandomSource.sample s.2).1 ((g.width : Int) - 2))
            (1 + scaleSample (RandomSource.sample (RandomSource.sample s.2).2).1
              ((g.height : Int) - 2)) true,
          (RandomSource.sample (RandomSource.sample s.2).2).2)
      else (s.1, (RandomSource.sample (RandomSource.sample s.2).2).2))
    (g, rng) ⟨rfl, h⟩
    (fun i s _ _ hs => by
      simp only []
      split_ifs with h1 h2
      · exact hs
      · refine ⟨by rw [Grid.set_width]; exact hs.1, ?_⟩
        apply RightClosed.set hs.2
        rw [hs.1]
        by_contra hx
        simp only [Bool.or_eq_true, Bool.and_eq_true] at h2
        rcases h2 with h2 | h2
        · have := hs.2 _ _ (show (s.1.width : Int) - 2 ≤ _ from by rw [hs.1]; omega) |>.symm.trans h2.2
          exact absurd this (by simp)
        · have := hs.2 _ _ (show (s.1.width : Int) - 2 ≤ _ from by rw [hs.1]; omega) |>.symm.trans h2.1
          exact absurd this (by simp)
      · exact hs)
  exact this.2


theorem carveRoom_rightClosed (g : Grid Bool) (x y width height : Int) (h : RightClosed g)
    (hx : x + width ≤ (g.width : Int) - 2) : RightClosed (carveRoom g x y width height) := by
  unfold carveRoom
  refine (forRange_invariant (fun s : Grid Bool => s.width = g.width ∧ RightClosed s)
    _ _ _ _ ⟨rfl, h⟩ ?_).2
  intro j s _ _ hs
  refine forRange_invariant (fun s : Grid Bool => s.width = g.width ∧ RightClosed s)
    _ _ _ _ hs ?_
  intro i s _ hi hs
  try simp only []
  split_ifs
  · refine ⟨by rw [Grid.set_width]; exact hs.1, RightClosed.set hs.2 _ _ ?_ _⟩
    rw [hs.1]
    omega
  · exact hs

theorem addChambers_rightClosed {σ : Type} [RandomSource σ] (g : Grid Bool) (rng : σ)
    (amount minSize maxSize : Int) (h : RightClosed g) (hmin : minSize ≤ maxSize)
    (hw : maxSize + 4 ≤ (g.width : Int)) :
    RightClosed (addChambers g rng amount minSize maxSize).1 := by
  unfold addChambers
  try simp only []
  refine (forRange_invariant (fun s : Grid Bool × σ => s.1.width = g.width ∧ RightClosed s.1)
    _ _ _ _ ⟨rfl, h⟩ ?_).2
  intro i s _ _ hs
  try simp only []
  refine ⟨by rw [(carveRoom_dims _ _ _ _ _).1]; exact hs.1, ?_⟩
  apply carveRoom_rightClosed _ _ _ _ _ hs.2
  rw [hs.1]
  have h1 := scaleSample_bounds (RandomSource.sample s.2).1 (maxSize - minSize + 1)
    (RandomSource.sample_lt _) (by omega)
  have h3 := scaleSample_bounds
    (RandomSource.sample (RandomSource.sample (RandomSource.sample s.2).2).2).1
    (max 1 ((g.width : Int) - (minSize + scaleSample (RandomSource.sample s.2).1
      (maxSize - minSize + 1)) - 3))
    (RandomSource.sample_lt _) (by omega)
  omega

theorem addRuneCross_rightClosed {σ : Type} [RandomSource σ] (g : Grid Bool) (rng : σ)
    (h : RightClosed g) (hw : 6 ≤ g.width) : RightClosed (addRuneCross g rng).1 := by
  unfold addRuneCross
  try simp only []
  refine (forRange_invariant (fun s : Grid Bool × σ => s.1.width = g.width ∧ RightClosed s.1)
    _ _ _ _ ?_ ?_).2
  · refine forRange_invariant
      (fun s : Grid Bool × σ => s.1.width = g.width ∧ RightClosed s.1) _ _ _ _ ⟨rfl, h⟩ ?_
    intro i s _ hi hs
    try simp only []
    split_ifs
    · refine ⟨by rw [Grid.set_width]; exact hs.1, RightClosed.set hs.2 _ _ ?_ _⟩
      rw [hs.1]; omega
    · exact hs
  · intro i s _ hi hs
    try simp only []
    split_ifs
    · refine ⟨by rw [Grid.set_width]; exact hs.1, RightClosed.set hs.2 _ _ ?_ _⟩
      rw [hs.1]; omega
    · exact hs

theorem addSerpentCuts_rightClosed {σ : Type} [RandomSource σ] (g : Grid Bool) (rng : σ)
    (bands : Nat) (h : RightClosed g) : RightClosed (addSerpentCuts g rng bands).1 := by
  unfold addSerpentCuts
  try simp only []
  refine (forRange_invariant (fun s : Grid Bool × σ => s.1.width = g.width ∧ RightClosed s.1)
    _ _ _ _ ⟨rfl, h⟩ ?_).2
  intro band s _ _ hs
  try simp only []
  refine forRange_invariant
    (fun r : Grid Bool × σ × Int => r.1.width = g.width ∧ RightClosed r.1) _ _ _ _ hs ?_
  intro x r _ hx hr
  try simp only []
  have hset : (r.1.set (x : Int) r.2.2 true).width = g.width ∧
      RightClosed (r.1.set (x : Int) r.2.2 true) := by
    refine ⟨by rw [Grid.set_width]; exact hr.1, RightClosed.set hr.2 _ _ ?_ _⟩
    rw [hr.1]; omega
  split_ifs <;> first | exact hr | exact hset

theorem relicArena_rightClosed (g : Grid Bool) (maxR : F64) (h : RightClosed g) :
    RightClosed (relicArena g maxR) := by
  unfold relicArena
  try simp only []
  refine (forRange_invariant (fun s : Grid Bool => s.width = g.width ∧ RightClosed s)
    _ _ _ _ ⟨rfl, h⟩ ?_).2
  intro j s _ _ hs
  refine forRange_invariant (fun s : Grid Bool => s.width = g.width ∧ RightClosed s)
    _ _ _ _ hs ?_
  intro i s _ hi hs
  try simp only []
  split_ifs
  · exact ⟨by rw [Grid.set_width]; exact hs.1, RightClosed.set_false hs.2 _ _⟩
  · exact hs

theorem relicStamp_rightClosed {σ : Type} [RandomSource σ] (trig : Trig) (w h : Nat)
    (radius : F64) (idx : Nat) (s : Grid Bool × σ) (angle : F64) (hw : s.1.width = w)
    (hs : RightClosed s.1) :
    RightClosed (relicStamp trig w h radius idx s angle).1 := by
  unfold relicStamp
  try simp only []
  split_ifs with h1 h2 h3
  · exact hs
  · apply RightClosed.set hs
    rw [hw]; exact h2.2.2.1
  · exact hs
  · exact hs

theorem addCircularRelics_rightClosed {σ : Type} [RandomSource σ] (trig : Trig)
    (g : Grid Bool) (rng : σ) (h : RightClosed g) :
    RightClosed (addCircularRelics trig g rng).1 := by
  unfold addCircularRelics
  refine (foldl_invariant (fun s : Grid Bool × σ => s.1.width = g.width ∧ RightClosed s.1)
    _ _ _ ⟨(relicArena_dims g _).1, relicArena_rightClosed g _ h⟩ ?_).2
  intro s ring _ hs
  refine foldl_invariant (fun s : Grid Bool × σ => s.1.width = g.width ∧ RightClosed s.1)
    _ _ _ hs ?_
  intro s angle _ hs
  exact ⟨(relicStamp_dims trig g.width g.height _ ring.2 s angle).1.trans hs.1,
    relicStamp_rightClosed trig g.width g.height _ ring.2 s angle hs.1 hs.2⟩

theorem applySingleProfile_rightClosed {σ : Type} [RandomSource σ] (trig : Trig)
    (g : Grid Bool) (rng : σ) (name : String) (h : RightClosed g) (hw : 9 ≤ g.width) :
    RightClosed (applySingleProfile trig g rng name).1 := by
  unfold applySingleProfile
  split_ifs
  · exact addChambers_rightClosed g rng 3 3 4 h (by decide) (by omega)
  · simp only []
    apply addChambers_rightClosed _ _ 2 2 3 (addRuneCross_rightClosed g rng h (by omega))
      (by decide)
    rw [(addRuneCross_dims g rng).1]; omega
  · exact addSerpentCuts_rightClosed g rng 3 h
  · simp only []
    apply addRuneCross_rightClosed _ _
      (addChambers_rightClosed g rng 5 3 5 h (by decide) (by omega))
    rw [(addChambers_dims g rng 5 3 5).1]; omega
  · simp only []
    exact addSerpentCuts_rightClosed _ _ 2 (addCircularRelics_rightClosed trig g rng h)
  · exact h

theorem applyProfileFeatures_rightClosed {σ : Type} [RandomSource σ] (trig : Trig)
    (g : Grid Bool) (rng : σ) (config : Config) (h : RightClosed g) (hw : 9 ≤ g.width) :
    RightClosed (applyProfileFeatures trig g rng config).1 := by
  unfold applyProfileFeatures
  try simp only []
  refine (foldl_invariant (fun s : Grid Bool × σ => s.1.width = g.width ∧ RightClosed s.1)
    _ _ _ ⟨rfl, h⟩ ?_).2
  intro s name _ hs
  exact ⟨(applySingleProfile_dims trig s.1 s.2 name).1.trans hs.1,
    applySingleProfile_rightClosed trig s.1 s.2 name hs.2 (by rw [hs.1]; exact hw)⟩

theorem sealAndSearch_rightClosed (g : Grid Bool) (h : RightClosed g) (hw : 4 ≤ g.width) :
    RightClosed (sealAndSearch g).1 := by
  intro x y hx
  rw [(sealAndSearch_dims g).1] at hx
  have hn : (normalizeBorders g).get x y = false := by
    rw [normalizeBorders_get, if_neg (by omega)]
    split_ifs
    · rfl
    · exact h x y hx
  rw [sealAndSearch_get, hn]
  split_ifs <;> rfl

/-- When no cell of column `width - 2` is open, `findGoalNearRight` finds no
goal. -/
theorem findGoalNearRight_none_of_rightClosed (g : Grid Bool) (dist : Grid Int)
    (h : RightClosed g) : findGoalNearRight g dist = none := by
  cases hg : findGoalNearRight g dist with
  | none => rfl
  | some b =>
    obtain ⟨_, _, _, hrow, _⟩ := (findGoalNearRight_spec g dist).1 b hg
    have := h ((g.width : Int) - 2) b.y (le_refl _)
    rw [hrow.1] at this
    exact absurd this (by simp)

/-- On a grid of even side at least ten no attempt finds a goal: the carver
opens cells of odd columns up to `n - 3` and the cells between them, and
neither the loop injector nor a sculptor opens a cell of column `n - 2`. -/
theorem attempt_no_goal (trig : Trig) (config : Config) (attempt : Nat)
    (hn : 10 ≤ gridSize config) (heven : gridSize config % 2 = 0) :
    findGoalNearRight (attemptSearch trig config attempt).1
      (attemptSearch trig config attempt).2.1 = none := by
  apply findGoalNearRight_none_of_rightClosed
  rw [attemptSearch_eq]
  have h1 : RightClosed (carvePerfectMaze (gridSize config) (gridSize config)
      (config.seed + attempt * 97) ⟨config.biasX, config.biasY, config.straightness⟩).1 :=
    carveWith_rightClosed _ _ _ _ (by omega) heven
  have hd1 := carveWith_dims (gridSize config) (gridSize config)
    (seededRandom (config.seed + attempt * 97))
    ⟨config.biasX, config.biasY, config.straightness⟩
  have h2 := addLoops_rightClosed _
    (carvePerfectMaze (gridSize config) (gridSize config)
      (config.seed + attempt * 97) ⟨config.biasX, config.biasY, config.straightness⟩).2
    (config.loopCount + (attempt / 20 : Nat)) h1
  have hd2 := addLoops_dims
    (carvePerfectMaze (gridSize config) (gridSize config)
      (config.seed + attempt * 97) ⟨config.biasX, config.biasY, config.straightness⟩).1
    (carvePerfectMaze (gridSize config) (gridSize config)
      (config.seed + attempt * 97) ⟨config.biasX, config.biasY, config.straightness⟩).2
    (config.loopCount + (attempt / 20 : Nat))
  have hw2 : (addLoops
      (carvePerfectMaze (gridSize config) (gridSize config)
        (config.seed + attempt * 97) ⟨config.biasX, config.biasY, config.straightness⟩).1
      (carvePerfectMaze (gridSize config) (gridSize config)
        (config.seed + attempt * 97) ⟨config.biasX, config.biasY, config.straightness⟩).2
      (config.loopCount + (attempt / 20 : Nat))).1.width = gridSize config :=
    hd2.1.trans hd1.1
  have h3 := applyProfileFeatures_rightClosed trig _
    (addLoops
      (carvePerfectMaze (gridSize config) (gridSize config)
        (config.seed + attempt * 97) ⟨config.biasX, config.biasY, config.straightness⟩).1
      (carvePerfectMaze (gridSize config) (gridSize config)
        (config.seed + attempt * 97) ⟨config.biasX, config.biasY, config.straightness⟩).2
      (config.loopCount + (attempt / 20 : Nat))).2 config h2 (by rw [hw2]; omega)
  apply sealAndSearch_rightClosed _ h3
  rw [(applyProfileFeatures_dims _ _ _ _).1, hw2]
  omega

/-- On a grid of even side at least ten every attempt is rejected. -/
theorem attemptLayout_none_of_even (trig : Trig) (config : Config) (attempt : Nat)
    (hn : 10 ≤ gridSize config) (heven : gridSize config % 2 = 0) :
    attemptLayout trig config attempt = none := by
  unfold attemptLayout
  try simp only []
  rw [attempt_no_goal trig config attempt hn heven]

theorem generateQualifiedLayout_of_none (trig : Trig) (config : Config)
    (h : ∀ k, k < 280 → attemptLayout trig config k = none) :
    generateQualifiedLayout trig config = fallbackLayout config := by
  unfold generateQualifiedLayout
  have : (List.range 280).findSome? (attemptLayout trig config) = none := by
    rw [List.findSome?_eq_none_iff]
    intro k hk
    exact h k (List.mem_range.mp hk)
  rw [this]


/-! ## Properties of the returned layout -/

theorem GoodLayout.has_start {n : Nat} {l : Layout} (h : GoodLayout n l) (hn : 3 ≤ n) :
    l.grid.Has 1 1 := by
  unfold Grid.Has; rw [h.width, h.height]; omega

theorem GoodLayout.walkable_start {n : Nat} {l : Layout} (h : GoodLayout n l) (hn : 3 ≤ n) :
    Walkable l.grid ⟨1, 1⟩ := by
  refine ⟨?_, h.startOpen⟩
  unfold Grid.Interior; rw [h.width, h.height]; simp only []; omega

theorem GoodLayout.walkable_goal {n : Nat} {l : Layout} (h : GoodLayout n l) (hn : 3 ≤ n) :
    Walkable l.grid l.goal := by
  refine ⟨?_, ?_⟩
  · unfold Grid.Interior; rw [h.width, h.height, h.goalX]
    have := h.goalY; omega
  · rw [h.goalX]; exact h.goalOpen

theorem GoodLayout.path {n : Nat} {l : Layout} (h : GoodLayout n l) (hn : 3 ≤ n) :
    ∃ p : List Cell, OpenPath l.grid ⟨1, 1⟩ l.goal p := by
  obtain ⟨k, hk⟩ := h.connected l.goal (h.walkable_goal hn)
  obtain ⟨p, hp, _⟩ := hk.openPath (h.walkable_start hn)
  exact ⟨p, hp⟩

theorem GoodLayout.bfs_reaches {n : Nat} {l : Layout} (h : GoodLayout n l) (hn : 3 ≤ n)
    (x y : Int) (hin : l.grid.Interior x y) (hopen : l.grid.get x y = true) :
    (bfs l.grid ⟨1, 1⟩).1.get x y ≠ -1 := by
  obtain ⟨k, hk⟩ := h.connected ⟨x, y⟩ ⟨hin, hopen⟩
  exact (bfs_dist_of_reach l.grid ⟨1, 1⟩ (h.has_start hn) hk).1

theorem GoodLayout.border_iff {n : Nat} {l : Layout} (h : GoodLayout n l)
    (x y : Int) (hb : l.grid.Border x y) :
    l.grid.get x y = true ↔ (x = (n : Int) - 1 ∧ y = l.goal.y) := by
  constructor
  · intro hopen
    by_contra hne
    rw [h.border x y hb hne] at hopen
    exact absurd hopen (by simp)
  · rintro ⟨rfl, rfl⟩
    exact h.exitOpen

/-- C1: on a grid of side at least three, whatever the biases, the grid of a
returned layout contains a path of open cells strictly inside the border, each
one unit step from the one before, from the start cell `(1, 1)` to the goal
cell. This holds for the layout of an accepted attempt, for the fallback
layout (with a goal found on column `n - 2` or with the forced corridor), and
so for the result of `generateQualifiedLayout`. -/
theorem generateQualifiedLayout_has_path (trig : Trig) (config : Config)
    (hn : 3 ≤ gridSize config) :
    (∀ attempt l, attemptLayout trig config attempt = some l →
      ∃ p : List Cell, OpenPath l.grid ⟨1, 1⟩ l.goal p) ∧
    (∃ p : List Cell, OpenPath (fallbackLayout config).grid ⟨1, 1⟩ (fallbackLayout config).goal p) ∧
    (generateQualifiedLayout trig config).start = ⟨1, 1⟩ ∧
    ∃ p : List Cell, OpenPath (generateQualifiedLayout trig config).grid ⟨1, 1⟩
      (generateQualifiedLayout trig config).goal p :=
  ⟨fun attempt l h => (attemptLayout_good trig config hn attempt l h).path hn,
    (fallbackLayout_good config hn).path hn,
    (generateQualifiedLayout_good trig config hn).start,
    (generateQualifiedLayout_good trig config hn).path hn⟩

theorem generateQualifiedLayout_has_path_witness :
    3 ≤ gridSize levelEmberKeep ∧
    ((∀ attempt l, attemptLayout flatTrig levelEmberKeep attempt = some l →
      ∃ p : List Cell, OpenPath l.grid ⟨1, 1⟩ l.goal p) ∧
    (∃ p : List Cell, OpenPath (fallbackLayout levelEmberKeep).grid ⟨1, 1⟩
      (fallbackLayout levelEmberKeep).goal p) ∧
    (generateQualifiedLayout flatTrig levelEmberKeep).start = ⟨1, 1⟩ ∧
    ∃ p : List Cell, OpenPath (generateQualifiedLayout flatTrig levelEmberKeep).grid ⟨1, 1⟩
      (generateQualifiedLayout flatTrig levelEmberKeep).goal p) :=
  ⟨by decide, generateQualifiedLayout_has_path flatTrig levelEmberKeep (by decide)⟩

/-- C2: on a grid of side at least three, `bfs` from the start cell `(1, 1)`
on the grid of a returned layout gives a distance other than `-1` to every
open cell strictly inside the border, for the layout of an accepted attempt
and for the fallback layout (with or without the forced corridor), and so for
the result of `generateQualifiedLayout`. -/
theorem generateQualifiedLayout_connected (trig : Trig) (config : Config)
    (hn : 3 ≤ gridSize config) :
    (∀ attempt l, attemptLayout trig config attempt = some l →
      ∀ x y : Int, l.grid.Interior x y → l.grid.get x y = true →
        (bfs l.grid ⟨1, 1⟩).1.get x y ≠ -1) ∧
    (∀ x y : Int, (fallbackLayout config).grid.Interior x y →
      (fallbackLayout config).grid.get x y = true →
        (bfs (fallbackLayout config).grid ⟨1, 1⟩).1.get x y ≠ -1) ∧
    (∀ x y : Int, (generateQualifiedLayout trig config).grid.Interior x y →
      (generateQualifiedLayout trig config).grid.get x y = true →
        (bfs (generateQualifiedLayout trig config).grid ⟨1, 1⟩).1.get x y ≠ -1) :=
  ⟨fun attempt l h => (attemptLayout_good trig config hn attempt l h).bfs_reaches hn,
    (fallbackLayout_good config hn).bfs_reaches hn,
    (generateQualifiedLayout_good trig config hn).bfs_reaches hn⟩

theorem generateQualifiedLayout_connected_witness :
    3 ≤ gridSize levelEmberKeep ∧
    ((∀ attempt l, attemptLayout flatTrig levelEmberKeep attempt = some l →
      ∀ x y : Int, l.grid.Interior x y → l.grid.get x y = true →
        (bfs l.grid ⟨1, 1⟩).1.get x y ≠ -1) ∧
    (∀ x y : Int, (fallbackLayout levelEmberKeep).grid.Interior x y →
      (fallbackLayout levelEmberKeep).grid.get x y = true →
        (bfs (fallbackLayout levelEmberKeep).grid ⟨1, 1⟩).1.get x y ≠ -1) ∧
    (∀ x y : Int, (generateQualifiedLayout flatTrig levelEmberKeep).grid.Interior x y →
      (generateQualifiedLayout flatTrig levelEmberKeep).grid.get x y = true →
        (bfs (generateQualifiedLayout flatTrig levelEmberKeep).grid ⟨1, 1⟩).1.get x y ≠ -1)) :=
  ⟨by decide, generateQualifiedLayout_connected flatTrig levelEmberKeep (by decide)⟩

/-- C3: on a grid of side `n` at least three the returned grid is `n` by `n`
and a cell of its row `0`, row `n - 1`, column `0` or column `n - 1` is open
exactly when it is the exit cell `(n - 1, goal.y)`. -/
theorem generateQualifiedLayout_border (trig : Trig) (config : Config)
    (hn : 3 ≤ gridSize config) :
    (generateQualifiedLayout trig config).grid.width = gridSize config ∧
    (generateQualifiedLayout trig config).grid.height = gridSize config ∧
    ∀ x y : Int, (generateQualifiedLayout trig config).grid.Border x y →
      ((generateQualifiedLayout trig config).grid.get x y = true ↔
        (x = (gridSize config : Int) - 1 ∧ y = (generateQualifiedLayout trig config).goal.y)) :=
  ⟨(generateQualifiedLayout_good trig config hn).width,
    (generateQualifiedLayout_good trig config hn).height,
    (generateQualifiedLayout_good trig config hn).border_iff⟩

theorem generateQualifiedLayout_border_witness :
    3 ≤ gridSize levelEmberKeep ∧
    ((generateQualifiedLayout flatTrig levelEmberKeep).grid.width = gridSize levelEmberKeep ∧
    (generateQualifiedLayout flatTrig levelEmberKeep).grid.height = gridSize levelEmberKeep ∧
    ∀ x y : Int, (generateQualifiedLayout flatTrig levelEmberKeep).grid.Border x y →
      ((generateQualifiedLayout flatTrig levelEmberKeep).grid.get x y = true ↔
        (x = (gridSize levelEmberKeep : Int) - 1 ∧
          y = (generateQualifiedLayout flatTrig levelEmberKeep).goal.y))) :=
  ⟨by decide, generateQualifiedLayout_border flatTrig levelEmberKeep (by decide)⟩

/-- C4: on a grid of side `n` at least three the returned goal has
`goal.x = n - 2` and `1 <= goal.y <= n - 2`, and in the returned grid the goal
cell `(n - 2, goal.y)` and the border cell `(n - 1, goal.y)` of the same row
are both open. -/
theorem generateQualifiedLayout_exit (trig : Trig) (config : Config)
    (hn : 3 ≤ gridSize config) :
    (generateQualifiedLayout trig config).goal.x = (gridSize config : Int) - 2 ∧
    1 ≤ (generateQualifiedLayout trig config).goal.y ∧
    (generateQualifiedLayout trig config).goal.y ≤ (gridSize config : Int) - 2 ∧
    (generateQualifiedLayout trig config).grid.get ((gridSize config : Int) - 2)
      (generateQualifiedLayout trig config).goal.y = true ∧
    (generateQualifiedLayout trig config).grid.get ((gridSize config : Int) - 1)
      (generateQualifiedLayout trig config).goal.y = true :=
  ⟨(generateQualifiedLayout_good trig config hn).goalX,
    (generateQualifiedLayout_good trig config hn).goalY.1,
    (generateQualifiedLayout_good trig config hn).goalY.2,
    (generateQualifiedLayout_good trig config hn).goalOpen,
    (generateQualifiedLayout_good trig config hn).exitOpen⟩

theorem generateQualifiedLayout_exit_witness :
    3 ≤ gridSize levelEmberKeep ∧
    ((generateQualifiedLayout flatTrig levelEmberKeep).goal.x
      = (gridSize levelEmberKeep : Int) - 2 ∧
    1 ≤ (generateQualifiedLayout flatTrig levelEmberKeep).goal.y ∧
    (generateQualifiedLayout flatTrig levelEmberKeep).goal.y
      ≤ (gridSize levelEmberKeep : Int) - 2 ∧
    (generateQualifiedLayout flatTrig levelEmberKeep).grid.get
      ((gridSize levelEmberKeep : Int) - 2)
      (generateQualifiedLayout flatTrig levelEmberKeep).goal.y = true ∧
    (generateQualifiedLayout flatTrig levelEmberKeep).grid.get
      ((gridSize levelEmberKeep : Int) - 1)
      (generateQualifiedLayout flatTrig levelEmberKeep).goal.y = true) :=
  ⟨by decide, generateQualifiedLayout_exit flatTrig levelEmberKeep (by decide)⟩


/-! ## Acceptance, the fallback and termination -/

theorem analyzePath_length (path : List Cell) : (analyzePath path).length = path.length := by
  unfold analyzePath
  split_ifs <;> rfl

set_option maxRecDepth 1000000 in
/-- The first two attempts of `levelSmall`, run in the kernel: attempt `0`
returns no layout and attempt `1` returns one. -/
theorem levelSmall_attempts :
    (attemptLayout flatTrig levelSmall 0).isSome = false ∧
    (attemptLayout flatTrig levelSmall 1).isSome = true := by
  constructor <;> decide!

/-- Attempt `0` of `levelSmall` fails the acceptance test (its path
`R R R R D D D D` is a right/down route with one turn) and attempt `1` passes
it (nine cells, two turns, beginning downwards). -/
theorem levelSmall_accepted :
    ¬ Accepted flatTrig levelSmall 0 ∧ Accepted flatTrig levelSmall 1 := by
  constructor
  · rcases attemptLayout_eq flatTrig levelSmall 0 with ⟨h, _⟩ | ⟨_, goal, _, he⟩
    · exact h
    · have := levelSmall_attempts.1
      rw [he] at this
      exact absurd this (by simp)
  · rcases attemptLayout_eq flatTrig levelSmall 1 with ⟨_, he⟩ | ⟨h, _⟩
    · have := levelSmall_attempts.2
      rw [he] at this
      exact absurd this (by decide)
    · exact h

/-- C5: for a config of grid side at least three and a seed below `2 ^ 32`
(on which no statement of the code throws and the attempt seeds
`config.seed + 97 * k` are exact), the result of `generateQualifiedLayout` is
the fallback layout, with every attempt `0, ..., 279` failing the acceptance
test, or it is the layout of the first attempt `k` that passes it: attempt `k`
runs on seed `config.seed + 97 * k` with loop budget
`loopCount + floor(k / 20)`, a goal exists (on column `n - 2`), the
reconstructed path has at least `minPathLength` cells and at least `minTurns`
turns, `rightDownOneTurn` is false, and every attempt before `k` fails the
test. -/
theorem generateQualifiedLayout_first_accepted (trig : Trig) (config : Config)
    (_hn : 3 ≤ gridSize config) (_hseed : config.seed < 4294967296) :
    ((∀ k, k < 280 → ¬ Accepted trig config k) ∧
      generateQualifiedLayout trig config = fallbackLayout config) ∨
    ∃ k, k < 280 ∧ Accepted trig config k ∧ (∀ j, j < k → ¬ Accepted trig config j) ∧
      attemptSearch trig config k = sealAndSearch (applyProfileFeatures trig
        (addLoops
          (carvePerfectMaze (gridSize config) (gridSize config) (config.seed + 97 * k)
            ⟨config.biasX, config.biasY, config.straightness⟩).1
          (carvePerfectMaze (gridSize config) (gridSize config) (config.seed + 97 * k)
            ⟨config.biasX, config.biasY, config.straightness⟩).2
          (config.loopCount + (k / 20 : Nat))).1
        (addLoops
          (carvePerfectMaze (gridSize config) (gridSize config) (config.seed + 97 * k)
            ⟨config.biasX, config.biasY, config.straightness⟩).1
          (carvePerfectMaze (gridSize config) (gridSize config) (config.seed + 97 * k)
            ⟨config.biasX, config.biasY, config.straightness⟩).2
          (config.loopCount + (k / 20 : Nat))).2 config).1 ∧
      ∃ goal : Goal,
        findGoalNearRight (attemptSearch trig config k).1
          (attemptSearch trig config k).2.1 = some goal ∧
        goal.x = ((attemptSearch trig config k).1.width : Int) - 2 ∧
        generateQualifiedLayout trig config
          = ⟨openExit (attemptSearch trig config k).1 goal.y, ⟨1, 1⟩, ⟨goal.x, goal.y⟩⟩ := by
  unfold generateQualifiedLayout
  rcases findSome?_range (attemptLayout trig config) 280 with ⟨h1, h2⟩ | ⟨k, hk, h1, h2, h3⟩
  · left
    rw [h1]
    refine ⟨fun k hk hacc => ?_, rfl⟩
    rcases attemptLayout_eq trig config k with ⟨hn, _⟩ | ⟨_, goal, _, he⟩
    · exact hn hacc
    · rw [h2 k hk] at he; exact absurd he (by simp)
  · right
    refine ⟨k, hk, ?_⟩
    rcases attemptLayout_eq trig config k with ⟨_, he⟩ | ⟨hacc, goal, hg, he⟩
    · rw [he] at h2; exact absurd h2 (by simp)
    · refine ⟨hacc, fun j hj hj2 => ?_, ?_, goal, hg, ?_, ?_⟩
      · rcases attemptLayout_eq trig config j with ⟨hn, _⟩ | ⟨_, goal1, _, he1⟩
        · exact hn hj2
        · rw [h3 j hj] at he1; exact absurd he1 (by simp)
      · rw [Nat.mul_comm 97 k]; exact attemptSearch_eq trig config k
      · exact ((findGoalNearRight_spec _ _).1 goal hg).1
      · rw [h1, he]

/-- The config `levelSmall`: attempt `0` fails the test and attempt `1` passes
it, so the result is the layout of attempt `1`. -/
theorem generateQualifiedLayout_first_accepted_witness :
    (3 ≤ gridSize levelSmall ∧ levelSmall.seed < 4294967296) ∧
    (((∀ k, k < 280 → ¬ Accepted flatTrig levelSmall k) ∧
      generateQualifiedLayout flatTrig levelSmall = fallbackLayout levelSmall) ∨
    ∃ k, k < 280 ∧ Accepted flatTrig levelSmall k ∧ (∀ j, j < k → ¬ Accepted flatTrig levelSmall j) ∧
      attemptSearch flatTrig levelSmall k = sealAndSearch (applyProfileFeatures flatTrig
        (addLoops
          (carvePerfectMaze (gridSize levelSmall) (gridSize levelSmall) (levelSmall.seed + 97 * k)
            ⟨levelSmall.biasX, levelSmall.biasY, levelSmall.straightness⟩).1
          (carvePerfectMaze (gridSize levelSmall) (gridSize levelSmall) (levelSmall.seed + 97 * k)
            ⟨levelSmall.biasX, levelSmall.biasY, levelSmall.straightness⟩).2
          (levelSmall.loopCount + (k / 20 : Nat))).1
        (addLoops
          (carvePerfectMaze (gridSize levelSmall) (gridSize levelSmall) (levelSmall.seed + 97 * k)
            ⟨levelSmall.biasX, levelSmall.biasY, levelSmall.straightness⟩).1
          (carvePerfectMaze (gridSize levelSmall) (gridSize levelSmall) (levelSmall.seed + 97 * k)
            ⟨levelSmall.biasX, levelSmall.biasY, levelSmall.straightness⟩).2
          (levelSmall.loopCount + (k / 20 : Nat))).2 levelSmall).1 ∧
      ∃ goal : Goal,
        findGoalNearRight (attemptSearch flatTrig levelSmall k).1
          (attemptSearch flatTrig levelSmall k).2.1 = some goal ∧
        goal.x = ((attemptSearch flatTrig levelSmall k).1.width : Int) - 2 ∧
        generateQualifiedLayout flatTrig levelSmall
          = ⟨openExit (attemptSearch flatTrig levelSmall k).1 goal.y, ⟨1, 1⟩, ⟨goal.x, goal.y⟩⟩) ∧
    (¬ Accepted flatTrig levelSmall 0 ∧ Accepted flatTrig levelSmall 1) :=
  ⟨⟨by decide, by decide⟩,
    generateQualifiedLayout_first_accepted flatTrig levelSmall (by decide) (by decide),
    levelSmall_accepted⟩

/-- An attempt whose path would need more cells than the grid has is rejected. -/
theorem not_accepted_of_large (trig : Trig) (config : Config) (hn : 3 ≤ gridSize config)
    (hmin : ((gridSize config * gridSize config : Nat) : Int) < config.minPathLength)
    (attempt : Nat) : ¬ Accepted trig config attempt := by
  rintro ⟨goal, hg, hlen, _, _⟩
  obtain ⟨g, hw, hh, he⟩ := attemptSearch_sealed trig config attempt
  rw [he] at hg hlen
  rw [sealAndSearch_search] at hg hlen
  have hd := sealAndSearch_dims g
  rw [hw, hh] at hd
  obtain ⟨k1, k2, k3, k4, _⟩ := (findGoalNearRight_spec _ _).1 goal hg
  unfold GoalRow at k4
  have hsHas : (sealAndSearch g).1.Has (1 : Int) 1 := by
    unfold Grid.Has; rw [hd.1, hd.2]; omega
  have hgHas : (sealAndSearch g).1.Has goal.x goal.y := by
    unfold Grid.Has; rw [hd.1, hd.2, k1, hd.1]; rw [hd.2] at k3; omega
  have hne : (bfs (sealAndSearch g).1 ⟨1, 1⟩).1.get goal.x goal.y ≠ -1 := by
    rw [k1]; omega
  have hspec := reconstructPath_spec (sealAndSearch g).1 ⟨1, 1⟩ hsHas ⟨goal.x, goal.y⟩
    hgHas hne
  rw [analyzePath_length] at hlen
  have h2 := hspec.2.1
  rw [hd.1, hd.2] at h2
  have h3 : ((reconstructPath (bfs (sealAndSearch g).1 ⟨1, 1⟩).2 ⟨1, 1⟩
      ⟨goal.x, goal.y⟩).length : Int) ≤ ((gridSize config * gridSize config : Nat) : Int) := by
    exact_mod_cast h2
  omega

/-- C7: on a grid of side `n` at least three, a config whose `minPathLength`
is larger than `n * n` has none of its attempts accepted, so
`generateQualifiedLayout` returns the fallback layout; that layout is
connected (`bfs` from `(1, 1)` sets the distance of every open interior cell),
bordered (a cell of the outer ring is open only if it is the exit) and
exit-opened (the cell `(n - 1, goal.y)` is open). -/
theorem generateQualifiedLayout_pathological (trig : Trig) (config : Config)
    (hn : 3 ≤ gridSize config)
    (hmin : ((gridSize config * gridSize config : Nat) : Int) < config.minPathLength) :
    (∀ attempt, ¬ Accepted trig config attempt) ∧
    (∀ attempt, attemptLayout trig config attempt = none) ∧
    generateQualifiedLayout trig config = fallbackLayout config ∧
    (∀ x y : Int, (fallbackLayout config).grid.Interior x y →
      (fallbackLayout config).grid.get x y = true →
        (bfs (fallbackLayout config).grid ⟨1, 1⟩).1.get x y ≠ -1) ∧
    (∀ x y : Int, (fallbackLayout config).grid.Border x y →
      ((fallbackLayout config).grid.get x y = true ↔
        (x = (gridSize config : Int) - 1 ∧ y = (fallbackLayout config).goal.y))) ∧
    (fallbackLayout config).grid.get ((gridSize config : Int) - 1)
      (fallbackLayout config).goal.y = true := by
  have hnone : ∀ attempt, attemptLayout trig config attempt = none := by
    intro attempt
    rcases attemptLayout_eq trig config attempt with ⟨_, he⟩ | ⟨hacc, _⟩
    · exact he
    · exact absurd hacc (not_accepted_of_large trig config hn hmin attempt)
  exact ⟨not_accepted_of_large trig config hn hmin, hnone,
    generateQualifiedLayout_of_none trig config (fun k _ => hnone k),
    (fallbackLayout_good config hn).bfs_reaches hn,
    (fallbackLayout_good config hn).border_iff,
    (fallbackLayout_good config hn).exitOpen⟩

/-- The config `levelSmallLong`, of grid side seven with `minPathLength = 50`:
it differs from `levelSmall` in that threshold only, every attempt runs the
same search, and attempt `1`, which `levelSmall` accepts with its path of nine
cells, is rejected for its length. -/
theorem generateQualifiedLayout_pathological_witness :
    (3 ≤ gridSize levelSmallLong ∧
      ((gridSize levelSmallLong * gridSize levelSmallLong : Nat) : Int)
        < levelSmallLong.minPathLength) ∧
    ((∀ attempt, ¬ Accepted flatTrig levelSmallLong attempt) ∧
    (∀ attempt, attemptLayout flatTrig levelSmallLong attempt = none) ∧
    generateQualifiedLayout flatTrig levelSmallLong = fallbackLayout levelSmallLong ∧
    (∀ x y : Int, (fallbackLayout levelSmallLong).grid.Interior x y →
      (fallbackLayout levelSmallLong).grid.get x y = true →
        (bfs (fallbackLayout levelSmallLong).grid ⟨1, 1⟩).1.get x y ≠ -1) ∧
    (∀ x y : Int, (fallbackLayout levelSmallLong).grid.Border x y →
      ((fallbackLayout levelSmallLong).grid.get x y = true ↔
        (x = (gridSize levelSmallLong : Int) - 1 ∧
          y = (fallbackLayout levelSmallLong).goal.y))) ∧
    (fallbackLayout levelSmallLong).grid.get ((gridSize levelSmallLong : Int) - 1)
      (fallbackLayout levelSmallLong).goal.y = true) ∧
    ((∀ k, attemptSearch flatTrig levelSmallLong k = attemptSearch flatTrig levelSmall k) ∧
      Accepted flatTrig levelSmall 1) :=
  ⟨⟨by decide, by decide⟩,
    generateQualifiedLayout_pathological flatTrig levelSmallLong (by decide) (by decide),
    fun _ => rfl, levelSmall_accepted.2⟩


/-- C8: on a grid of side at least three, whatever the biases,
`generateQualifiedLayout` returns after at most 280 attempts and one fallback
generation, and the loops of each generation end by their own tests within the
fuel of the embedding (more fuel gives the same result): the stack loop of the
carver, for every seed, ends with an empty stack; the queue loop of `bfs` from
`(1, 1)`, on every grid of that side, ends with the whole queue expanded; and
the predecessor walk of `reconstructPath`, in every attempt with a goal, ends
by reaching the start cell. -/
theorem generateQualifiedLayout_terminates (trig : Trig) (config : Config)
    (hn : 3 ≤ gridSize config) :
    (generateQualifiedLayout trig config = fallbackLayout config ∨
      ∃ k, k < 280 ∧ attemptLayout trig config k = some (generateQualifiedLayout trig config)) ∧
    (∀ seed extra : Nat,
      (carveLoop ((gridSize config - 1) / 2) ((gridSize config - 1) / 2)
        ⟨config.biasX, config.biasY, config.straightness⟩
        (2 * ((gridSize config - 1) / 2 * ((gridSize config - 1) / 2)))
        (carveInit (gridSize config) (gridSize config) (seededRandom seed))).stack = [] ∧
      carveLoop ((gridSize config - 1) / 2) ((gridSize config - 1) / 2)
        ⟨config.biasX, config.biasY, config.straightness⟩
        (2 * ((gridSize config - 1) / 2 * ((gridSize config - 1) / 2)) + extra)
        (carveInit (gridSize config) (gridSize config) (seededRandom seed))
      = carveLoop ((gridSize config - 1) / 2) ((gridSize config - 1) / 2)
        ⟨config.biasX, config.biasY, config.straightness⟩
        (2 * ((gridSize config - 1) / 2 * ((gridSize config - 1) / 2)))
        (carveInit (gridSize config) (gridSize config) (seededRandom seed))) ∧
    (∀ (g : Grid Bool) (extra : Nat), g.width = gridSize config → g.height = gridSize config →
      (bfsLoop g (g.width * g.height + 1) (bfsInit g ⟨1, 1⟩)).head
        = (bfsLoop g (g.width * g.height + 1) (bfsInit g ⟨1, 1⟩)).queue.length ∧
      bfsLoop g (g.width * g.height + 1 + extra) (bfsInit g ⟨1, 1⟩)
        = bfsLoop g (g.width * g.height + 1) (bfsInit g ⟨1, 1⟩)) ∧
    (∀ (attempt : Nat) (goal : Goal),
      findGoalNearRight (attemptSearch trig config attempt).1
        (attemptSearch trig config attempt).2.1 = some goal →
      (reconstructPath (attemptSearch trig config attempt).2.2 ⟨1, 1⟩ ⟨goal.x, goal.y⟩).head?
        = some ⟨1, 1⟩ ∧
      ∀ fuel, (attemptSearch trig config attempt).1.width
          * (attemptSearch trig config attempt).1.height + 1 ≤ fuel →
        (reconstructLoop (attemptSearch trig config attempt).2.2 ⟨1, 1⟩ fuel
          (some ⟨goal.x, goal.y⟩) []).reverse
        = reconstructPath (attemptSearch trig config attempt).2.2 ⟨1, 1⟩ ⟨goal.x, goal.y⟩) := by
  refine ⟨?_, ?_, ?_, ?_⟩
  · unfold generateQualifiedLayout
    cases hf : (List.range 280).findSome? (attemptLayout trig config) with
    | none => left; rfl
    | some l =>
      right
      obtain ⟨k, hk, he⟩ := List.exists_of_findSome?_eq_some hf
      exact ⟨k, List.mem_range.mp hk, he⟩
  · intro seed extra
    have h := carveWith_terminates (gridSize config) (gridSize config) (seededRandom seed)
      ⟨config.biasX, config.biasY, config.straightness⟩ hn hn
    exact ⟨h, carveLoop_stable _ _ _ _ extra _ h⟩
  · intro g extra hw hh
    have hs : g.Has (1 : Int) 1 := by unfold Grid.Has; rw [hw, hh]; omega
    obtain ⟨_, h2⟩ := bfsLoop_inv g ⟨1, 1⟩ (g.width * g.height + 1) (bfsInit g ⟨1, 1⟩)
      (bfsInit_inv g ⟨1, 1⟩ hs) (by omega)
    refine ⟨h2, bfsLoop_stable g _ extra _ ?_⟩
    rw [List.getElem?_eq_none_iff]
    omega
  · intro attempt goal hg
    obtain ⟨g, hw, hh, he⟩ := attemptSearch_sealed trig config attempt
    rw [he] at hg ⊢
    rw [sealAndSearch_search] at hg ⊢
    have hd := sealAndSearch_dims g
    rw [hw, hh] at hd
    obtain ⟨k1, k2, k3, k4, _⟩ := (findGoalNearRight_spec _ _).1 goal hg
    unfold GoalRow at k4
    have hsHas : (sealAndSearch g).1.Has (1 : Int) 1 := by
      unfold Grid.Has; rw [hd.1, hd.2]; omega
    have hgHas : (sealAndSearch g).1.Has goal.x goal.y := by
      unfold Grid.Has; rw [hd.1, hd.2, k1, hd.1]; rw [hd.2] at k3; omega
    have hne : (bfs (sealAndSearch g).1 ⟨1, 1⟩).1.get goal.x goal.y ≠ -1 := by
      rw [k1]; omega
    have hspec := reconstructPath_spec (sealAndSearch g).1 ⟨1, 1⟩ hsHas ⟨goal.x, goal.y⟩
      hgHas hne
    exact ⟨hspec.2.2.1, hspec.2.2.2.2⟩

theorem generateQualifiedLayout_terminates_witness :
    3 ≤ gridSize levelEmberKeep ∧
    (generateQualifiedLayout flatTrig levelEmberKeep = fallbackLayout levelEmberKeep ∨
      ∃ k, k < 280 ∧ attemptLayout flatTrig levelEmberKeep k
        = some (generateQualifiedLayout flatTrig levelEmberKeep)) :=
  ⟨by decide, (generateQualifiedLayout_terminates flatTrig levelEmberKeep (by decide)).1⟩

/-- C10, as amended: for a grid with both sides at least three and a start
cell strictly inside the border, `bfs` returns a distance grid of the shape of
the grid with `dist[start] = 0` and, for every other cell `c` of the grid,
`dist[c] = n` exactly when `n` is the number of steps of a shortest walk from
the start to `c`, and `dist[c] = -1` exactly when there is no such walk. A walk
makes unit steps and every cell it enters is open and strictly inside the
border; the start cell itself is not tested. When the start cell is open the
walks of `n` steps are exactly the paths of `n + 1` open interior cells. -/
theorem bfs_shortest_distance (g : Grid Bool) (start : Cell) (_hw : 3 ≤ g.width)
    (_hh : 3 ≤ g.height) (hs : g.Interior start.x start.y) :
    (bfs g start).1.width = g.width ∧ (bfs g start).1.height = g.height ∧
    (bfs g start).1.get start.x start.y = 0 ∧
    (∀ c : Cell, g.Has c.x c.y → c ≠ start →
      (∀ n : Nat, (bfs g start).1.get c.x c.y = n ↔
        (Reach g start n c ∧ ∀ m, Reach g start m c → n ≤ m)) ∧
      ((bfs g start).1.get c.x c.y = -1 ↔ ¬ ∃ n, Reach g start n c)) ∧
    (g.get start.x start.y = true → ∀ (c : Cell) (n : Nat),
      Reach g start n c ↔ ∃ p : List Cell, OpenPath g start c p ∧ p.length = n + 1) :=
  ⟨bfs_dist_width g start (g.has_of_interior _ _ hs),
    bfs_dist_height g start (g.has_of_interior _ _ hs),
    bfs_dist_start g start (g.has_of_interior _ _ hs),
    fun c hc _ => ⟨bfs_dist_eq_iff g start (g.has_of_interior _ _ hs) c hc,
      bfs_dist_unset_iff g start (g.has_of_interior _ _ hs) c hc⟩,
    fun hopen c n => ⟨fun hr => hr.openPath ⟨hs, hopen⟩, fun ⟨p, hp, hl⟩ => by
      obtain ⟨m, hm, hl2⟩ := OpenPath.reach p start c hp
      have : m = n := by omega
      rw [← this]; exact hm⟩⟩

set_option maxRecDepth 1000000 in
/-- The grid `islandGrid` from the start `(1, 1)`: the open cells `(2, 1)` and
`(2, 2)` get the distances `1` and `2`; the open cells `(1, 3)` and `(3, 3)`,
which no walk reaches, and the closed cell `(1, 2)` keep the distance `-1`. -/
theorem bfs_shortest_distance_witness :
    (3 ≤ islandGrid.width ∧ 3 ≤ islandGrid.height ∧
      islandGrid.Interior 1 1) ∧
    ((bfs islandGrid ⟨1, 1⟩).1.width = islandGrid.width ∧
    (bfs islandGrid ⟨1, 1⟩).1.height = islandGrid.height ∧
    (bfs islandGrid ⟨1, 1⟩).1.get 1 1 = 0 ∧
    (∀ c : Cell, islandGrid.Has c.x c.y → c ≠ ⟨1, 1⟩ →
      (∀ n : Nat, (bfs islandGrid ⟨1, 1⟩).1.get c.x c.y = n ↔
        (Reach islandGrid ⟨1, 1⟩ n c ∧
          ∀ m, Reach islandGrid ⟨1, 1⟩ m c → n ≤ m)) ∧
      ((bfs islandGrid ⟨1, 1⟩).1.get c.x c.y = -1 ↔
        ¬ ∃ n, Reach islandGrid ⟨1, 1⟩ n c)) ∧
    (islandGrid.get 1 1 = true → ∀ (c : Cell) (n : Nat),
      Reach islandGrid ⟨1, 1⟩ n c ↔
        ∃ p : List Cell, OpenPath islandGrid ⟨1, 1⟩ c p ∧ p.length = n + 1)) ∧
    ((bfs islandGrid ⟨1, 1⟩).1.get 2 1 = 1 ∧ (bfs islandGrid ⟨1, 1⟩).1.get 2 2 = 2 ∧
      (bfs islandGrid ⟨1, 1⟩).1.get 1 3 = -1 ∧ (bfs islandGrid ⟨1, 1⟩).1.get 3 3 = -1 ∧
      (bfs islandGrid ⟨1, 1⟩).1.get 1 2 = -1) :=
  ⟨⟨by decide, by decide, by decide⟩,
    bfs_shortest_distance islandGrid ⟨1, 1⟩ (by decide) (by decide) (by decide),
    by decide!, by decide!, by decide!, by decide!, by decide!⟩

/-- C10, as stated, fails when the start cell is closed: on the grid of width
four and height three whose only open cell is `(2, 1)`, with the interior
start cell `(1, 1)`, `bfs` gives the cell `(2, 1)` the distance `1`, although
no path of open cells leads from the start to it (the start is not open). -/
theorem bfs_closed_start_counterexample :
    (3 ≤ closedStartGrid.width ∧ 3 ≤ closedStartGrid.height ∧
      closedStartGrid.Interior 1 1 ∧ closedStartGrid.Has 2 1) ∧
    (bfs closedStartGrid ⟨1, 1⟩).1.get 2 1 = 1 ∧
    ¬ ∃ p : List Cell, OpenPath closedStartGrid ⟨1, 1⟩ ⟨2, 1⟩ p := by
  refine ⟨⟨by decide, by decide, by decide, by decide⟩, by decide, ?_⟩
  rintro ⟨p, h1, _, h3, _⟩
  cases p with
  | nil => simp at h1
  | cons a rest =>
    have ha : a = ⟨1, 1⟩ := by simpa using h1
    have hw := (h3 a (List.mem_cons_self _ _)).2
    rw [ha] at hw
    exact absurd hw (by decide)

/-- The angle loop of `addCircularRelics` ends by its own test after 210
iterations, within the fuel of the embedding. -/
theorem ringAngles_length : (ringAngles 256 (F64.ofNat 0)).length = 210 := by
  decide!


/-! ## The first level of the catalog -/

theorem Grid.eq_ofRows {α : Type} (g : Grid α) (w h : Nat) (rows : List (List α)) (fill : α)
    (hw : g.width = w) (hh : g.height = h) (hr : g.rows = rows) :
    g = Grid.ofRows w h rows fill := by
  cases g with
  | mk gw gh grows ghr ghc =>
    simp only [] at hw hh hr
    subst hw hh hr
    unfold Grid.ofRows
    rw [dif_pos ⟨ghr, ghc⟩]

/-- The fallback of a grid of even side finds no goal either. -/
theorem fallback_no_goal (config : Config) (hn : 4 ≤ gridSize config)
    (heven : gridSize config % 2 = 0) :
    findGoalNearRight (fallbackSearch config).1 (fallbackSearch config).2.1 = none := by
  apply findGoalNearRight_none_of_rightClosed
  unfold fallbackSearch
  simp only []
  apply sealAndSearch_rightClosed
  · exact addLoops_rightClosed _ _ _ (carveWith_rightClosed _ _ _ _ hn heven)
  · rw [(addLoops_dims _ _ _).1]
    have := (carveWith_dims (gridSize config) (gridSize config)
      (seededRandom (config.seed + 991))
      ⟨config.biasX, config.biasY, config.straightness⟩).1
    unfold carvePerfectMaze
    omega

set_option maxRecDepth 1000000 in
theorem emberKeep_carve :
    (carvePerfectMaze 20 20 2392
      ⟨F64.ofRat 12 10, F64.ofRat 108 100, F64.ofRat 11 10⟩).1.rows = gridRows emberKeepCarved ∧
    (carvePerfectMaze 20 20 2392
      ⟨F64.ofRat 12 10, F64.ofRat 108 100, F64.ofRat 11 10⟩).2 = ⟨146525267432⟩ := by
  decide!

set_option maxRecDepth 1000000 in
theorem emberKeep_loops :
    (addLoops (Grid.ofRows 20 20 (gridRows emberKeepCarved) false) (⟨146525267432⟩ : Rng)
      30).1.rows = gridRows emberKeepLooped := by
  decide!

set_option maxRecDepth 1000000 in
theorem emberKeep_borders :
    (normalizeBorders (Grid.ofRows 20 20 (gridRows emberKeepLooped) false)).rows
      = gridRows emberKeepLooped := by
  decide!

set_option maxRecDepth 1000000 in
theorem emberKeep_prune :
    (pruneUnreachableFromStart (Grid.ofRows 20 20 (gridRows emberKeepLooped) false)
      (bfs (Grid.ofRows 20 20 (gridRows emberKeepLooped) false) ⟨1, 1⟩).1).rows
      = gridRows emberKeepLooped := by
  decide!

set_option maxRecDepth 1000000 in
theorem emberKeep_farthest :
    farthestCell 20 (bfs (Grid.ofRows 20 20 (gridRows emberKeepLooped) false) ⟨1, 1⟩).1
      = (⟨15, 15⟩, 56) := by
  decide!

set_option maxRecDepth 1000000 in
theorem emberKeep_corridor :
    (openExit (forRange 15 19 (fun x g => g.set x 15 true)
      (Grid.ofRows 20 20 (gridRows emberKeepLooped) false)) 15).rows
      = gridRows emberKeepFinal := by
  decide!

set_option maxRecDepth 1000000 in
theorem emberKeep_path :
    analyzePath (reconstructPath
      (bfs (Grid.ofRows 20 20 (gridRows emberKeepFinal) false) ⟨1, 1⟩).2 ⟨1, 1⟩ ⟨18, 15⟩)
      = ⟨52, 13, false, false⟩ ∧
    (Grid.ofRows 20 20 (gridRows emberKeepFinal) false).get 19 15 = true := by
  decide!

theorem fallbackSearch_emberKeep :
    fallbackSearch levelEmberKeep
      = (Grid.ofRows 20 20 (gridRows emberKeepLooped) false,
          bfs (Grid.ofRows 20 20 (gridRows emberKeepLooped) false) ⟨1, 1⟩) := by
  have hc : carvePerfectMaze 20 20 2392 ⟨F64.ofRat 12 10, F64.ofRat 108 100, F64.ofRat 11 10⟩
      = (Grid.ofRows 20 20 (gridRows emberKeepCarved) false, ⟨146525267432⟩) :=
    Prod.ext
      (Grid.eq_ofRows _ 20 20 _ false (carveWith_dims _ _ _ _).1 (carveWith_dims _ _ _ _).2
        emberKeep_carve.1)
      emberKeep_carve.2
  have hl : (addLoops (Grid.ofRows 20 20 (gridRows emberKeepCarved) false)
      (⟨146525267432⟩ : Rng) 30).1 = Grid.ofRows 20 20 (gridRows emberKeepLooped) false :=
    Grid.eq_ofRows _ 20 20 _ false (addLoops_dims _ _ _).1 (addLoops_dims _ _ _).2 emberKeep_loops
  have hb : normalizeBorders (Grid.ofRows 20 20 (gridRows emberKeepLooped) false)
      = Grid.ofRows 20 20 (gridRows emberKeepLooped) false :=
    Grid.eq_ofRows _ 20 20 _ false (normalizeBorders_dims _).1 (normalizeBorders_dims _).2
      emberKeep_borders
  have hp : pruneUnreachableFromStart (Grid.ofRows 20 20 (gridRows emberKeepLooped) false)
      (bfs (Grid.ofRows 20 20 (gridRows emberKeepLooped) false) ⟨1, 1⟩).1
      = Grid.ofRows 20 20 (gridRows emberKeepLooped) false :=
    Grid.eq_ofRows _ 20 20 _ false (pruneUnreachableFromStart_dims _ _).1
      (pruneUnreachableFromStart_dims _ _).2 emberKeep_prune
  show sealAndSearch (addLoops
      (carvePerfectMaze 20 20 2392 ⟨F64.ofRat 12 10, F64.ofRat 108 100, F64.ofRat 11 10⟩).1
      (carvePerfectMaze 20 20 2392 ⟨F64.ofRat 12 10, F64.ofRat 108 100, F64.ofRat 11 10⟩).2
      30).1 = _
  rw [hc]
  simp only []
  rw [hl]
  unfold sealAndSearch
  simp only []
  rw [hb, hp]

theorem fallbackLayout_emberKeep :
    fallbackLayout levelEmberKeep
      = ⟨Grid.ofRows 20 20 (gridRows emberKeepFinal) false, ⟨1, 1⟩, ⟨18, 15⟩⟩ := by
  have hg := fallback_no_goal levelEmberKeep (by decide) (by decide)
  unfold fallbackLayout
  simp only []
  rw [hg]
  simp only []
  rw [fallbackSearch_emberKeep]
  simp only []
  have hn : gridSize levelEmberKeep = 20 := by decide
  rw [hn, emberKeep_farthest]
  have hf : openExit (forRange 15 19 (fun x g => g.set x 15 true)
      (Grid.ofRows 20 20 (gridRows emberKeepLooped) false)) 15
      = Grid.ofRows 20 20 (gridRows emberKeepFinal) false :=
    Grid.eq_ofRows _ 20 20 _ false
      ((openExit_dims _ _).1.trans (corridor_dims _ _ _ _).1)
      ((openExit_dims _ _).2.trans (corridor_dims _ _ _ _).2) emberKeep_corridor
  show Layout.mk (openExit (forRange 15 19 (fun x g => g.set x 15 true)
      (Grid.ofRows 20 20 (gridRows emberKeepLooped) false)) 15) ⟨1, 1⟩ ⟨18, 15⟩ = _
  rw [hf]

/-- C6: what the code does on the first config of the catalog. The grid side
is 20, an even number, so no attempt finds a goal and the result is the
fallback layout with the forced corridor. Its goal is `(18, 15)` on column
`width - 2`, the exit cell `(19, 15)` is open, and the path that
`reconstructPath` finds on the returned grid has 13 turns but only 52 cells,
fewer than the `minPathLength` of 62 of the config. -/
theorem generateQualifiedLayout_emberKeep (trig : Trig) :
    (∀ attempt, attemptLayout trig levelEmberKeep attempt = none) ∧
    generateQualifiedLayout trig levelEmberKeep = fallbackLayout levelEmberKeep ∧
    (generateQualifiedLayout trig levelEmberKeep).goal = ⟨18, 15⟩ ∧
    (generateQualifiedLayout trig levelEmberKeep).grid.get 19 15 = true ∧
    analyzePath (reconstructPath (bfs (generateQualifiedLayout trig levelEmberKeep).grid
      ⟨1, 1⟩).2 ⟨1, 1⟩ (generateQualifiedLayout trig levelEmberKeep).goal)
      = ⟨52, 13, false, false⟩ ∧
    ¬ (levelEmberKeep.minPathLength ≤ ((analyzePath (reconstructPath
      (bfs (generateQualifiedLayout trig levelEmberKeep).grid ⟨1, 1⟩).2 ⟨1, 1⟩
      (generateQualifiedLayout trig levelEmberKeep).goal)).length : Int)) := by
  have hnone : ∀ attempt, attemptLayout trig levelEmberKeep attempt = none :=
    fun attempt => attemptLayout_none_of_even trig levelEmberKeep attempt (by decide) (by decide)
  have he := generateQualifiedLayout_of_none trig levelEmberKeep (fun k _ => hnone k)
  rw [he]
  refine ⟨hnone, rfl, ?_, ?_, ?_, ?_⟩
  · rw [fallbackLayout_emberKeep]
  · rw [fallbackLayout_emberKeep]; exact emberKeep_path.2
  · rw [fallbackLayout_emberKeep]; exact emberKeep_path.1
  · rw [fallbackLayout_emberKeep]
    simp only []
    rw [emberKeep_path.1]
    decide


/-! ## Predecessors, pruning and border normalisation -/

/-- Following the predecessor links `k` times from an enqueued cell of distance
`d`, for `k` at most `d`, leads to an enqueued cell of distance `d - k`. -/
theorem followPrev_spec {g : Grid Bool} {s : Cell} {dist : Grid Int}
    {prev : Grid (Option Cell)} {queue : List Cell} {p : Nat}
    (hinv : BfsInv g s dist prev queue p) :
    ∀ (k : Nat) (c : Cell) (d : Nat), c ∈ queue → dist.get c.x c.y = d → k ≤ d →
      ∃ u, u ∈ queue ∧ followPrev prev k c = some u ∧ dist.get u.x u.y = ((d - k : Nat) : Int) := by
  intro k
  induction k with
  | zero =>
    intro c d hc hd _
    exact ⟨c, hc, rfl, by simpa using hd⟩
  | succ k ih =>
    intro c d hc hd hk
    have hcs : c ≠ s := by
      intro h
      rw [h, hinv.start0] at hd
      omega
    obtain ⟨u, hu1, hu2, _, hu4⟩ := hinv.prevSome c hc hcs
    have hud : dist.get u.x u.y = ((d - 1 : Nat) : Int) := by omega
    obtain ⟨v, hv1, hv2, hv3⟩ := ih u (d - 1) hu2 hud (by omega)
    refine ⟨v, hv1, ?_, ?_⟩
    · unfold followPrev
      rw [hu1]
      exact hv2
    · rw [hv3]
      congr 1
      omega

/-- An enqueued cell of distance zero is the start cell. -/
theorem BfsInv.eq_start_of_dist_zero {g : Grid Bool} {s : Cell} {dist : Grid Int}
    {prev : Grid (Option Cell)} {queue : List Cell} {p : Nat}
    (hinv : BfsInv g s dist prev queue p) (c : Cell) (hc : c ∈ queue)
    (hd : dist.get c.x c.y = 0) : c = s := by
  by_contra hne
  obtain ⟨u, _, hu2, _, hu4⟩ := hinv.prevSome c hc hne
  obtain ⟨_, n, hn, _⟩ := hinv.sound u hu2
  rw [hd, hn] at hu4
  omega

/-- C11: for a grid and a start cell strictly inside its border, in the output
of `bfs` the predecessor of the start is `none`, the predecessor of every cell
of distance `-1` is `none`, and every reached cell `c` other than the start has
a predecessor that is one unit step from `c`, is reached, and has the distance
of `c` less one; so following the predecessors from a reached cell `c` arrives
at the start after exactly `dist[c]` links and not earlier. -/
theorem bfs_predecessors (g : Grid Bool) (start : Cell) (hs : g.Interior start.x start.y) :
    (bfs g start).2.get start.x start.y = none ∧
    (∀ c : Cell, (bfs g start).1.get c.x c.y = -1 → (bfs g start).2.get c.x c.y = none) ∧
    (∀ c : Cell, g.Has c.x c.y → (bfs g start).1.get c.x c.y ≠ -1 → c ≠ start →
      ∃ u : Cell, (bfs g start).2.get c.x c.y = some u ∧ Adjacent u c ∧ g.Has u.x u.y ∧
        (bfs g start).1.get u.x u.y ≠ -1 ∧
        (bfs g start).1.get u.x u.y = (bfs g start).1.get c.x c.y - 1) ∧
    (∀ c : Cell, g.Has c.x c.y → (bfs g start).1.get c.x c.y ≠ -1 →
      ∃ d : Nat, (bfs g start).1.get c.x c.y = d ∧
        followPrev (bfs g start).2 d c = some start ∧
        ∀ k, k < d → followPrev (bfs g start).2 k c ≠ some start) := by
  have hhas := Grid.has_of_interior g _ _ hs
  obtain ⟨q, hinv⟩ := bfs_inv g start hhas
  refine ⟨hinv.prevStart, hinv.prevNone, ?_, ?_⟩
  · intro c hc hd hne
    obtain ⟨u, hu1, hu2, hu3, hu4⟩ := hinv.prevSome c (hinv.inQueue c hc hd) hne
    obtain ⟨hu5, n, hn, _⟩ := hinv.sound u hu2
    exact ⟨u, hu1, hu3, hu5, by rw [hn]; omega, by omega⟩
  · intro c hc hd
    have hcq := hinv.inQueue c hc hd
    obtain ⟨_, d, hdist, _⟩ := hinv.sound c hcq
    refine ⟨d, hdist, ?_, ?_⟩
    · obtain ⟨u, hu1, hu2, hu3⟩ := followPrev_spec hinv d c d hcq hdist (le_refl d)
      have : u = start := hinv.eq_start_of_dist_zero u hu1 (by simpa using hu3)
      rw [hu2, this]
    · intro k hk hcontra
      obtain ⟨u, _, hu2, hu3⟩ := followPrev_spec hinv k c d hcq hdist (le_of_lt hk)
      rw [hu2] at hcontra
      have hus : u = start := Option.some.inj hcontra
      rw [hus, hinv.start0] at hu3
      omega

theorem bfs_predecessors_witness :
    (createGrid 4 4 true).Interior 1 1 ∧
    (bfs (createGrid 4 4 true) ⟨1, 1⟩).2.get 1 1 = none ∧
    (∀ c : Cell, (bfs (createGrid 4 4 true) ⟨1, 1⟩).1.get c.x c.y = -1 →
      (bfs (createGrid 4 4 true) ⟨1, 1⟩).2.get c.x c.y = none) ∧
    (∀ c : Cell, (createGrid 4 4 true).Has c.x c.y →
      (bfs (createGrid 4 4 true) ⟨1, 1⟩).1.get c.x c.y ≠ -1 → c ≠ ⟨1, 1⟩ →
      ∃ u : Cell, (bfs (createGrid 4 4 true) ⟨1, 1⟩).2.get c.x c.y = some u ∧ Adjacent u c ∧
        (createGrid 4 4 true).Has u.x u.y ∧
        (bfs (createGrid 4 4 true) ⟨1, 1⟩).1.get u.x u.y ≠ -1 ∧
        (bfs (createGrid 4 4 true) ⟨1, 1⟩).1.get u.x u.y
          = (bfs (createGrid 4 4 true) ⟨1, 1⟩).1.get c.x c.y - 1) ∧
    (∀ c : Cell, (createGrid 4 4 true).Has c.x c.y →
      (bfs (createGrid 4 4 true) ⟨1, 1⟩).1.get c.x c.y ≠ -1 →
      ∃ d : Nat, (bfs (createGrid 4 4 true) ⟨1, 1⟩).1.get c.x c.y = d ∧
        followPrev (bfs (createGrid 4 4 true) ⟨1, 1⟩).2 d c = some ⟨1, 1⟩ ∧
        ∀ k, k < d → followPrev (bfs (createGrid 4 4 true) ⟨1, 1⟩).2 k c ≠ some ⟨1, 1⟩) :=
  ⟨by decide, bfs_predecessors (createGrid 4 4 true) ⟨1, 1⟩ (by decide)⟩

/-- A distance that `bfs` gives to a cell of the grid is `-1` or not negative. -/
theorem bfs_dist_nonneg (g : Grid Bool) (s : Cell) (hs : g.Has s.x s.y) (c : Cell)
    (hc : g.Has c.x c.y) (hd : (bfs g s).1.get c.x c.y ≠ -1) : 0 ≤ (bfs g s).1.get c.x c.y := by
  obtain ⟨n, hn, _⟩ := bfs_reach_of_dist g s hs c hc hd
  omega

/-- C12: on a grid and the distance grid of `bfs` from a start cell of the
grid, `pruneUnreachableFromStart` keeps the shape of the grid, closes every
open cell strictly inside the border whose distance is `-1` and changes no
other cell: afterwards an interior cell is open exactly when it was open and
has a distance that is not negative, no cell has been opened, and the cells
that are not strictly inside the border (the border in particular) are as
before. -/
theorem pruneUnreachableFromStart_spec (g : Grid Bool) (start : Cell)
    (hs : g.Has start.x start.y) :
    ((pruneUnreachableFromStart g (bfs g start).1).width = g.width ∧
      (pruneUnreachableFromStart g (bfs g start).1).height = g.height) ∧
    (∀ x y : Int, g.Interior x y → g.get x y = true → (bfs g start).1.get x y = -1 →
      (pruneUnreachableFromStart g (bfs g start).1).get x y = false) ∧
    (∀ x y : Int, (pruneUnreachableFromStart g (bfs g start).1).get x y ≠ g.get x y →
      g.Interior x y ∧ g.get x y = true ∧ (bfs g start).1.get x y = -1) ∧
    (∀ x y : Int, g.Interior x y →
      ((pruneUnreachableFromStart g (bfs g start).1).get x y = true ↔
        g.get x y = true ∧ 0 ≤ (bfs g start).1.get x y)) ∧
    (∀ x y : Int, (pruneUnreachableFromStart g (bfs g start).1).get x y = true →
      g.get x y = true) ∧
    (∀ x y : Int, g.Border x y →
      (pruneUnreachableFromStart g (bfs g start).1).get x y = g.get x y) := by
  have hneg : ∀ x y : Int, g.Interior x y →
      ((bfs g start).1.get x y < 0 ↔ (bfs g start).1.get x y = -1) := by
    intro x y hi
    constructor
    · intro h
      by_contra hne
      have := bfs_dist_nonneg g start hs ⟨x, y⟩ (Grid.has_of_interior g x y hi) hne
      simp only [] at this
      omega
    · intro h
      omega
  refine ⟨pruneUnreachableFromStart_dims g _, ?_, ?_, ?_, ?_, ?_⟩
  · intro x y hi ho hd
    rw [pruneUnreachableFromStart_get, if_pos hi, ho, hd]
    decide
  · intro x y hne
    rw [pruneUnreachableFromStart_get] at hne
    by_cases hi : g.Interior x y
    · rw [if_pos hi] at hne
      refine ⟨hi, ?_, ?_⟩
      · cases hg : g.get x y
        · rw [hg] at hne; simp at hne
        · rfl
      · by_contra hd
        have h1 : ¬ (bfs g start).1.get x y < 0 := fun h => hd ((hneg x y hi).1 h)
        rw [decide_eq_false h1] at hne
        simp at hne
    · rw [if_neg hi] at hne
      exact absurd rfl hne
  · intro x y hi
    rw [pruneUnreachableFromStart_get, if_pos hi]
    simp only [Bool.and_eq_true, Bool.not_eq_true', decide_eq_false_iff_not, not_lt]
  · intro x y h
    rw [pruneUnreachableFromStart_get] at h
    by_cases hi : g.Interior x y
    · rw [if_pos hi] at h
      simp only [Bool.and_eq_true] at h
      exact h.1
    · rw [if_neg hi] at h
      exact h
  · intro x y hb
    rw [pruneUnreachableFromStart_get, if_neg]
    intro hi
    unfold Grid.Border at hb
    unfold Grid.Interior at hi
    omega

set_option maxRecDepth 1000000 in
/-- The grid `islandGrid` from the start `(1, 1)`: pruning closes the open
cells `(1, 3)` and `(3, 3)`, whose distance is `-1`, and keeps the reached
cell `(2, 2)` open. -/
theorem pruneUnreachableFromStart_spec_witness :
    islandGrid.Has 1 1 ∧
    (((pruneUnreachableFromStart islandGrid (bfs islandGrid ⟨1, 1⟩).1).width
        = islandGrid.width ∧
      (pruneUnreachableFromStart islandGrid (bfs islandGrid ⟨1, 1⟩).1).height
        = islandGrid.height) ∧
    (∀ x y : Int, islandGrid.Interior x y → islandGrid.get x y = true →
      (bfs islandGrid ⟨1, 1⟩).1.get x y = -1 →
      (pruneUnreachableFromStart islandGrid (bfs islandGrid ⟨1, 1⟩).1).get x y
        = false) ∧
    (∀ x y : Int,
      (pruneUnreachableFromStart islandGrid (bfs islandGrid ⟨1, 1⟩).1).get x y
        ≠ islandGrid.get x y →
      islandGrid.Interior x y ∧ islandGrid.get x y = true ∧
        (bfs islandGrid ⟨1, 1⟩).1.get x y = -1) ∧
    (∀ x y : Int, islandGrid.Interior x y →
      ((pruneUnreachableFromStart islandGrid (bfs islandGrid ⟨1, 1⟩).1).get x y
          = true ↔
        islandGrid.get x y = true ∧ 0 ≤ (bfs islandGrid ⟨1, 1⟩).1.get x y)) ∧
    (∀ x y : Int,
      (pruneUnreachableFromStart islandGrid (bfs islandGrid ⟨1, 1⟩).1).get x y
        = true → islandGrid.get x y = true) ∧
    (∀ x y : Int, islandGrid.Border x y →
      (pruneUnreachableFromStart islandGrid (bfs islandGrid ⟨1, 1⟩).1).get x y
        = islandGrid.get x y)) ∧
    (islandGrid.get 3 3 = true ∧ islandGrid.get 1 3 = true ∧ islandGrid.get 2 2 = true ∧
      (pruneUnreachableFromStart islandGrid (bfs islandGrid ⟨1, 1⟩).1).get 3 3 = false ∧
      (pruneUnreachableFromStart islandGrid (bfs islandGrid ⟨1, 1⟩).1).get 1 3 = false ∧
      (pruneUnreachableFromStart islandGrid (bfs islandGrid ⟨1, 1⟩).1).get 2 2 = true) :=
  ⟨by decide, pruneUnreachableFromStart_spec islandGrid ⟨1, 1⟩ (by decide),
    by decide, by decide, by decide, by decide!, by decide!, by decide!⟩

/-- C19: on a grid with both sides at least three, `normalizeBorders` keeps
the shape of the grid; afterwards every cell of row `0`, row `height - 1`,
column `0` and column `width - 1` is closed, the start cell `(1, 1)` is open,
and every other cell strictly inside the border has the value it had before. -/
theorem normalizeBorders_spec (g : Grid Bool) (hw : 3 ≤ g.width) (hh : 3 ≤ g.height) :
    ((normalizeBorders g).width = g.width ∧ (normalizeBorders g).height = g.height) ∧
    (∀ x y : Int, g.Border x y → (normalizeBorders g).get x y = false) ∧
    (normalizeBorders g).get 1 1 = true ∧
    (∀ x y : Int, g.Interior x y → ¬ (x = 1 ∧ y = 1) →
      (normalizeBorders g).get x y = g.get x y) := by
  refine ⟨normalizeBorders_dims g, ?_, ?_, ?_⟩
  · intro x y hb
    unfold Grid.Border Grid.Has at hb
    rw [normalizeBorders_get, if_neg (by omega), if_pos hb.2]
  · rw [normalizeBorders_get, if_pos]
    unfold Grid.Has
    omega
  · intro x y hi hne
    unfold Grid.Interior at hi
    rw [normalizeBorders_get, if_neg (fun h => hne ⟨h.1, h.2.1⟩), if_neg (by omega)]

theorem normalizeBorders_spec_witness :
    (3 ≤ (createGrid 4 3 true).width ∧ 3 ≤ (createGrid 4 3 true).height) ∧
    (((normalizeBorders (createGrid 4 3 true)).width = (createGrid 4 3 true).width ∧
      (normalizeBorders (createGrid 4 3 true)).height = (createGrid 4 3 true).height) ∧
    (∀ x y : Int, (createGrid 4 3 true).Border x y →
      (normalizeBorders (createGrid 4 3 true)).get x y = false) ∧
    (normalizeBorders (createGrid 4 3 true)).get 1 1 = true ∧
    (∀ x y : Int, (createGrid 4 3 true).Interior x y → ¬ (x = 1 ∧ y = 1) →
      (normalizeBorders (createGrid 4 3 true)).get x y = (createGrid 4 3 true).get x y)) :=
  ⟨⟨by decide, by decide⟩, normalizeBorders_spec (createGrid 4 3 true) (by decide) (by decide)⟩

/-! ## The reconstructed path -/

theorem stepChain_iff_chain' (p : List Cell) : StepChain p ↔ List.Chain' Adjacent p := by
  induction p with
  | nil => simp [StepChain]
  | cons a rest ih =>
    cases rest with
    | nil => simp [StepChain]
    | cons b rest2 =>
      rw [List.chain'_cons]
      unfold StepChain
      rw [ih]

/-- The end of a walk is the start cell or an open cell strictly inside the
border. -/
theorem Reach.walkable_or_start {g : Grid Bool} {s : Cell} {n : Nat} {c : Cell}
    (h : Reach g s n c) : c = s ∨ Walkable g c := by
  cases h with
  | start => exact Or.inl rfl
  | step _ _ hw => exact Or.inr hw

/-- The cells that the walk of `reconstructPath` appends are enqueued cells,
each the predecessor of the one before, hence one unit step from it. -/
theorem reconstructLoop_chain {g : Grid Bool} {s : Cell} {dist : Grid Int}
    {prev : Grid (Option Cell)} {queue : List Cell} {p : Nat}
    (hinv : BfsInv g s dist prev queue p) (d : Nat) :
    ∀ (c : Cell) (fuel : Nat) (acc : List Cell), c ∈ queue → dist.get c.x c.y = d → d < fuel →
      ∃ l : List Cell, reconstructLoop prev s fuel (some c) acc = acc ++ l ∧
        l.head? = some c ∧ (∀ x ∈ l, x ∈ queue) ∧ List.Chain' (flip Adjacent) l := by
  induction d with
  | zero =>
    intro c fuel acc hc hd hf
    have hcs : c = s := hinv.eq_start_of_dist_zero c hc (by simpa using hd)
    subst hcs
    refine ⟨[c], ?_, rfl, ?_, List.chain'_singleton c⟩
    · cases fuel with
      | zero => omega
      | succ f => unfold reconstructLoop; simp
    · intro x hx
      rw [List.mem_singleton] at hx
      rw [hx]; exact hc
  | succ d ih =>
    intro c fuel acc hc hd hf
    have hcs : c ≠ s := by
      intro h
      rw [h, hinv.start0] at hd
      omega
    have hcs2 : ¬ (c.x = s.x ∧ c.y = s.y) := fun h => hcs (cell_ext c s h.1 h.2)
    obtain ⟨u, hu1, hu2, hu3, hu4⟩ := hinv.prevSome c hc hcs
    have hud : dist.get u.x u.y = (d : Nat) := by rw [hd] at hu4; push_cast at hu4; omega
    cases fuel with
    | zero => omega
    | succ f =>
      obtain ⟨l, hl1, hl2, hl3, hl4⟩ := ih u f (acc ++ [c]) hu2 hud (by omega)
      refine ⟨c :: l, ?_, rfl, ?_, ?_⟩
      · unfold reconstructLoop
        simp only []
        rw [if_neg hcs2, hu1, hl1]
        simp
      · intro x hx
        rcases List.mem_cons.1 hx with h | h
        · rw [h]; exact hc
        · exact hl3 x h
      · cases l with
        | nil => simp at hl2
        | cons x rest =>
          have hx : x = u := by simpa using hl2
          rw [List.chain'_cons]
          exact ⟨by rw [hx]; exact hu3, hl4⟩

/-- C14, as amended: for a grid, a start cell strictly inside the border and a
cell `c` of the grid whose distance in the output of `bfs` is not negative,
`reconstructPath` ends by reaching the start (more fuel gives the same list)
and returns a list of exactly `dist[c] + 1` cells that begins with the start
and ends with `c`, in which each cell is one unit step (right, left, down or
up) from the one before and every cell other than the start is open and
strictly inside the border; when the start cell is open, every cell is. -/
theorem reconstructPath_shortest (g : Grid Bool) (start : Cell)
    (hs : g.Interior start.x start.y) (c : Cell) (hc : g.Has c.x c.y)
    (hd : 0 ≤ (bfs g start).1.get c.x c.y) :
    ((reconstructPath (bfs g start).2 start c).length : Int)
      = (bfs g start).1.get c.x c.y + 1 ∧
    (reconstructPath (bfs g start).2 start c).head? = some start ∧
    (reconstructPath (bfs g start).2 start c).getLast? = some c ∧
    StepChain (reconstructPath (bfs g start).2 start c) ∧
    (∀ x ∈ reconstructPath (bfs g start).2 start c, x ≠ start → Walkable g x) ∧
    (g.get start.x start.y = true →
      ∀ x ∈ reconstructPath (bfs g start).2 start c, Walkable g x) ∧
    (∀ fuel, g.width * g.height + 1 ≤ fuel →
      (reconstructLoop (bfs g start).2 start fuel (some c) []).reverse
        = reconstructPath (bfs g start).2 start c) := by
  have hhas := Grid.has_of_interior g _ _ hs
  have hne : (bfs g start).1.get c.x c.y ≠ -1 := by omega
  obtain ⟨h1, _, h3, h4, h5⟩ := reconstructPath_spec g start hhas c hc hne
  obtain ⟨q, hinv⟩ := bfs_inv g start hhas
  have hcq := hinv.inQueue c hc hne
  obtain ⟨_, d, hdist, _⟩ := hinv.sound c hcq
  have hdlt : d < (bfs g start).2.width * (bfs g start).2.height + 1 := by
    have := bfs_dist_lt g start hhas c hc hne
    rw [hinv.prevW, hinv.prevH]
    rw [hdist] at this
    have h2 : d < g.width * g.height := by exact_mod_cast this
    omega
  obtain ⟨l, hl1, _, hl3, hl4⟩ := reconstructLoop_chain hinv d c _ [] hcq hdist hdlt
  have hpath : reconstructPath (bfs g start).2 start c = l.reverse := by
    unfold reconstructPath
    have hcc : (⟨c.x, c.y⟩ : Cell) = c := rfl
    rw [hcc, hl1]
    simp
  have hmem : ∀ x ∈ reconstructPath (bfs g start).2 start c, x = start ∨ Walkable g x := by
    intro x hx
    rw [hpath, List.mem_reverse] at hx
    obtain ⟨_, n, _, hr⟩ := hinv.sound x (hl3 x hx)
    exact hr.walkable_or_start
  refine ⟨h1, h3, h4, ?_, ?_, ?_, h5⟩
  · rw [stepChain_iff_chain', hpath, List.chain'_reverse]
    exact hl4
  · intro x hx hxs
    rcases hmem x hx with h | h
    · exact absurd h hxs
    · exact h
  · intro hopen x hx
    rcases hmem x hx with h | h
    · rw [h]; exact ⟨hs, hopen⟩
    · exact h

theorem reconstructPath_shortest_witness :
    ((createGrid 4 4 true).Interior 1 1 ∧ (createGrid 4 4 true).Has 2 2 ∧
      0 ≤ (bfs (createGrid 4 4 true) ⟨1, 1⟩).1.get 2 2) ∧
    (((reconstructPath (bfs (createGrid 4 4 true) ⟨1, 1⟩).2 ⟨1, 1⟩ ⟨2, 2⟩).length : Int)
      = (bfs (createGrid 4 4 true) ⟨1, 1⟩).1.get 2 2 + 1 ∧
    (reconstructPath (bfs (createGrid 4 4 true) ⟨1, 1⟩).2 ⟨1, 1⟩ ⟨2, 2⟩).head? = some ⟨1, 1⟩ ∧
    (reconstructPath (bfs (createGrid 4 4 true) ⟨1, 1⟩).2 ⟨1, 1⟩ ⟨2, 2⟩).getLast?
      = some ⟨2, 2⟩ ∧
    StepChain (reconstructPath (bfs (createGrid 4 4 true) ⟨1, 1⟩).2 ⟨1, 1⟩ ⟨2, 2⟩) ∧
    (∀ x ∈ reconstructPath (bfs (createGrid 4 4 true) ⟨1, 1⟩).2 ⟨1, 1⟩ ⟨2, 2⟩,
      x ≠ ⟨1, 1⟩ → Walkable (createGrid 4 4 true) x) ∧
    ((createGrid 4 4 true).get 1 1 = true →
      ∀ x ∈ reconstructPath (bfs (createGrid 4 4 true) ⟨1, 1⟩).2 ⟨1, 1⟩ ⟨2, 2⟩,
        Walkable (createGrid 4 4 true) x) ∧
    (∀ fuel, (createGrid 4 4 true).width * (createGrid 4 4 true).height + 1 ≤ fuel →
      (reconstructLoop (bfs (createGrid 4 4 true) ⟨1, 1⟩).2 ⟨1, 1⟩ fuel (some ⟨2, 2⟩) []).reverse
        = reconstructPath (bfs (createGrid 4 4 true) ⟨1, 1⟩).2 ⟨1, 1⟩ ⟨2, 2⟩)) :=
  ⟨⟨by decide, by decide, by decide⟩,
    reconstructPath_shortest (createGrid 4 4 true) ⟨1, 1⟩ (by decide) ⟨2, 2⟩ (by decide)
      (by decide)⟩

/-- C14, as stated, fails when the start cell is closed: on the grid of width
four and height three whose only open cell is `(2, 1)`, with the interior
start cell `(1, 1)`, the cell `(2, 1)` has distance `1` and `reconstructPath`
returns the two cells `(1, 1)`, `(2, 1)`, the first of which is not open. -/
theorem reconstructPath_closed_start_counterexample :
    (closedStartGrid.Interior 1 1 ∧ closedStartGrid.Has 2 1 ∧
      0 ≤ (bfs closedStartGrid ⟨1, 1⟩).1.get 2 1) ∧
    reconstructPath (bfs closedStartGrid ⟨1, 1⟩).2 ⟨1, 1⟩ ⟨2, 1⟩ = [⟨1, 1⟩, ⟨2, 1⟩] ∧
    closedStartGrid.get 1 1 = false := by
  decide

/-! ## Path metrics -/

/-- On a unit step `pathDirs` records the code of the direction of the step. -/
theorem pathDirs_step (a b : Cell) (rest : List Cell) (h : Adjacent a b) :
    ∃ ch, stepCode a b = some ch ∧ pathDirs (a :: b :: rest) = ch :: pathDirs (b :: rest) := by
  obtain ⟨d, hd, hx, hy⟩ := h
  simp only [DIRS, List.mem_cons, List.mem_singleton, List.not_mem_nil, or_false] at hd
  rcases hd with h | h | h | h <;> subst h <;> simp only [] at hx hy
  · refine ⟨'R', ?_, ?_⟩
    · simp [stepCode, DIRS, List.find?, hx, hy]
    · rw [pathDirs]
      simp [hx]
  · refine ⟨'L', ?_, ?_⟩
    · simp [stepCode, DIRS, List.find?, hx, hy]
    · rw [pathDirs]
      simp [hx]
  · refine ⟨'D', ?_, ?_⟩
    · simp [stepCode, DIRS, List.find?, hx, hy]
    · rw [pathDirs]
      simp [hx, hy]
  · refine ⟨'U', ?_, ?_⟩
    · simp [stepCode, DIRS, List.find?, hx, hy]
    · rw [pathDirs]
      simp [hx, hy]

/-- On a path of unit steps `pathDirs` has one code per step, the code of the
direction of that step. -/
theorem pathDirs_spec (path : List Cell) (h : StepChain path) :
    (pathDirs path).length = path.length - 1 ∧
    ∀ (i : Nat) (a b : Cell), path[i]? = some a → path[i + 1]? = some b →
      stepCode a b = (pathDirs path)[i]? := by
  induction path with
  | nil => exact ⟨rfl, fun i a b ha _ => by simp at ha⟩
  | cons a rest ih =>
    cases rest with
    | nil => exact ⟨rfl, fun i x y _ hy => by simp at hy⟩
    | cons b rest2 =>
      obtain ⟨hab, hrest⟩ := h
      obtain ⟨ch, hch1, hch2⟩ := pathDirs_step a b rest2 hab
      obtain ⟨ih1, ih2⟩ := ih hrest
      rw [hch2]
      refine ⟨by simp [ih1], ?_⟩
      intro i x y hx hy
      cases i with
      | zero =>
        simp only [List.getElem?_cons_zero, Option.some.injEq] at hx
        simp only [zero_add, List.getElem?_cons_succ, List.getElem?_cons_zero,
          Option.some.injEq] at hy
        rw [← hx, ← hy, hch1]
        simp
      | succ j =>
        have hx1 : (b :: rest2)[j]? = some x := by simpa using hx
        have hy1 : (b :: rest2)[j + 1]? = some y := by simpa using hy
        rw [List.getElem?_cons_succ]
        exact ih2 j x y hx1 hy1

/-- The number of changes of a list, counted from the earlier position of each
pair of neighbours. -/
theorem changeCount_eq_sum (codes : List Char) :
    changeCount codes
      = ∑ i in Finset.range (codes.length - 1), if codes[i + 1]? ≠ codes[i]? then 1 else 0 := by
  unfold changeCount
  rw [Finset.card_filter]
  cases codes with
  | nil => rfl
  | cons a rest =>
    simp only [List.length_cons, add_tsub_cancel_right]
    rw [Finset.sum_range_succ']
    simp

/-- The loop of `analyzePath` that counts turns counts the positions `i >= 1`
whose code differs from the code before. -/
theorem countTurns_eq_changeCount (codes : List Char) : countTurns codes = changeCount codes := by
  rw [changeCount_eq_sum]
  induction codes with
  | nil => rfl
  | cons a rest ih =>
    cases rest with
    | nil => simp [countTurns]
    | cons b rest2 =>
      unfold countTurns
      rw [ih]
      simp only [List.length_cons, add_tsub_cancel_right]
      rw [Finset.sum_range_succ' _ rest2.length]
      simp only [List.getElem?_cons_succ, zero_add, List.getElem?_cons_zero, ne_eq,
        Option.some.injEq]
      omega

/-- C15: for a path of at least two cells whose consecutive cells are one unit
step apart, `analyzePath` returns the number of cells as `length`; the list
`codes` holds the direction code of each step (entry `i` is the code of the
step from cell `i` to cell `i + 1`), `turns` is the number of positions
`i >= 1` of `codes` whose code differs from the code at `i - 1`, and
`rightDownOneTurn` is true exactly when every code is `R` or `D` and `turns`
is at most one. For a list of fewer than two cells it returns `turns = 0` and
`rightDownOneTurn = true`. -/
theorem analyzePath_spec (path : List Cell) (hlen : 2 ≤ path.length) (hchain : StepChain path) :
    ((analyzePath path).length = path.length ∧
      ∃ codes : List Char, codes.length = path.length - 1 ∧
        (∀ (i : Nat) (a b : Cell), path[i]? = some a → path[i + 1]? = some b →
          stepCode a b = codes[i]?) ∧
        (analyzePath path).turns = changeCount codes ∧
        ((analyzePath path).rightDownOneTurn = true ↔
          (∀ ch ∈ codes, ch = 'R' ∨ ch = 'D') ∧ (analyzePath path).turns ≤ 1)) ∧
    (∀ short : List Cell, short.length < 2 →
      (analyzePath short).length = short.length ∧ (analyzePath short).turns = 0 ∧
        (analyzePath short).rightDownOneTurn = true) := by
  have hnot : ¬ path.length < 2 := by omega
  obtain ⟨h1, h2⟩ := pathDirs_spec path hchain
  refine ⟨⟨analyzePath_length path, pathDirs path, h1, h2, ?_, ?_⟩, ?_⟩
  · unfold analyzePath
    rw [if_neg hnot]
    exact countTurns_eq_changeCount _
  · unfold analyzePath
    rw [if_neg hnot]
    simp only [Bool.and_eq_true, List.all_eq_true, Bool.or_eq_true, decide_eq_true_eq]
  · intro short hs
    unfold analyzePath
    rw [if_pos hs]
    exact ⟨rfl, rfl, rfl⟩

theorem analyzePath_spec_witness :
    (2 ≤ [(⟨1, 1⟩ : Cell), ⟨2, 1⟩, ⟨2, 2⟩, ⟨1, 2⟩].length ∧
      StepChain [(⟨1, 1⟩ : Cell), ⟨2, 1⟩, ⟨2, 2⟩, ⟨1, 2⟩]) ∧
    (((analyzePath [(⟨1, 1⟩ : Cell), ⟨2, 1⟩, ⟨2, 2⟩, ⟨1, 2⟩]).length
        = [(⟨1, 1⟩ : Cell), ⟨2, 1⟩, ⟨2, 2⟩, ⟨1, 2⟩].length ∧
      ∃ codes : List Char,
        codes.length = [(⟨1, 1⟩ : Cell), ⟨2, 1⟩, ⟨2, 2⟩, ⟨1, 2⟩].length - 1 ∧
        (∀ (i : Nat) (a b : Cell), [(⟨1, 1⟩ : Cell), ⟨2, 1⟩, ⟨2, 2⟩, ⟨1, 2⟩][i]? = some a →
          [(⟨1, 1⟩ : Cell), ⟨2, 1⟩, ⟨2, 2⟩, ⟨1, 2⟩][i + 1]? = some b →
          stepCode a b = codes[i]?) ∧
        (analyzePath [(⟨1, 1⟩ : Cell), ⟨2, 1⟩, ⟨2, 2⟩, ⟨1, 2⟩]).turns = changeCount codes ∧
        ((analyzePath [(⟨1, 1⟩ : Cell), ⟨2, 1⟩, ⟨2, 2⟩, ⟨1, 2⟩]).rightDownOneTurn = true ↔
          (∀ ch ∈ codes, ch = 'R' ∨ ch = 'D') ∧
            (analyzePath [(⟨1, 1⟩ : Cell), ⟨2, 1⟩, ⟨2, 2⟩, ⟨1, 2⟩]).turns ≤ 1)) ∧
    (∀ short : List Cell, short.length < 2 →
      (analyzePath short).length = short.length ∧ (analyzePath short).turns = 0 ∧
        (analyzePath short).rightDownOneTurn = true)) :=
  ⟨⟨by decide, ⟨⟨⟨1, 0, 'R'⟩, by decide, rfl, rfl⟩, ⟨⟨0, 1, 'D'⟩, by decide, rfl, rfl⟩,
      ⟨⟨-1, 0, 'L'⟩, by decide, by decide, by decide⟩, trivial⟩⟩,
    analyzePath_spec [⟨1, 1⟩, ⟨2, 1⟩, ⟨2, 2⟩, ⟨1, 2⟩] (by decide)
      ⟨⟨⟨1, 0, 'R'⟩, by decide, rfl, rfl⟩, ⟨⟨0, 1, 'D'⟩, by decide, rfl, rfl⟩,
        ⟨⟨-1, 0, 'L'⟩, by decide, by decide, by decide⟩, trivial⟩⟩

/-! ## Wall compaction -/

/-- The inner loop of `buildWallsFromOpen` stops at the end of the run of
closed cells that starts at `x`. -/
theorem wallRunEnd_spec (g : Grid Bool) (y : Int) :
    ∀ (fuel : Nat) (x : Int), 0 ≤ x → x ≤ (g.width : Int) → (g.width : Int) - x ≤ fuel →
      x ≤ wallRunEnd g y fuel x ∧ wallRunEnd g y fuel x ≤ (g.width : Int) ∧
      (∀ x1 : Int, x ≤ x1 → x1 < wallRunEnd g y fuel x → g.get x1 y = false) ∧
      (wallRunEnd g y fuel x = (g.width : Int) ∨ g.get (wallRunEnd g y fuel x) y = true) := by
  intro fuel
  induction fuel with
  | zero =>
    intro x h0 hw hf
    unfold wallRunEnd
    exact ⟨le_refl x, hw, fun x1 h1 h2 => by omega, Or.inl (by push_cast at hf; omega)⟩
  | succ f ih =>
    intro x h0 hw hf
    unfold wallRunEnd
    by_cases hc : x < (g.width : Int) ∧ (!g.get x y) = true
    · rw [if_pos hc]
      obtain ⟨i1, i2, i3, i4⟩ := ih (x + 1) (by omega) (by omega) (by push_cast at hf ⊢; omega)
      refine ⟨by omega, i2, ?_, i4⟩
      intro x1 h1 h2
      by_cases hx : x1 = x
      · rw [hx]
        simpa using hc.2
      · exact i3 x1 (by omega) h2
    · rw [if_neg hc]
      refine ⟨le_refl x, hw, fun x1 h1 h2 => by omega, ?_⟩
      by_cases hx : x < (g.width : Int)
      · right
        have : ¬ (!g.get x y) = true := fun h => hc ⟨hx, h⟩
        simpa using this
      · left; omega

/-- The end of a maximal run is determined by its start. -/
theorem MaxRun.end_unique {g : Grid Bool} {y a b c : Int} (h1 : MaxRun g y a b)
    (h2 : MaxRun g y a c) : b = c := by
  obtain ⟨_, hab, hbw, hcl, _, hr⟩ := h1
  obtain ⟨_, hac, hcw, hcl2, _, hr2⟩ := h2
  rcases lt_trichotomy b c with h | h | h
  · rcases hr with h3 | h3
    · omega
    · rw [hcl2 b (le_of_lt hab) h] at h3
      exact absurd h3 (by decide)
  · exact h
  · rcases hr2 with h3 | h3
    · omega
    · rw [hcl c (le_of_lt hac) h] at h3
      exact absurd h3 (by decide)

/-- The loop of `buildWallsFromOpen` on row `y`, entered at column `x` with
enough fuel, appends the rectangles of the maximal runs of the row that start
at column `x` or further right, from left to right; these runs contain every
closed cell of the row from column `x` on. -/
theorem wallRow_runs (g : Grid Bool) (cellSize : Int) (y : Int) :
    ∀ (fuel : Nat) (x : Int) (walls : List Rect), 0 ≤ x → x ≤ (g.width : Int) →
      (g.width : Int) - x ≤ fuel →
      (x = 0 ∨ g.get (x - 1) y = true ∨ x = (g.width : Int) ∨ g.get x y = true) →
      ∃ runs : List Run,
        wallRow g cellSize y fuel x walls = walls ++ runs.map (runRect cellSize) ∧
        (∀ r : Run, r ∈ runs ↔ (r.y = y ∧ x ≤ r.a ∧ MaxRun g y r.a r.b)) ∧
        runs.Pairwise (fun r s => r.b < s.a) ∧
        (∀ x1 : Int, x ≤ x1 → x1 < (g.width : Int) → g.get x1 y = false →
          ∃ r ∈ runs, r.a ≤ x1 ∧ x1 < r.b) := by
  intro fuel
  induction fuel with
  | zero =>
    intro x walls h0 hw hf _
    refine ⟨[], by simp [wallRow], ?_, List.Pairwise.nil, ?_⟩
    · intro r
      simp only [List.not_mem_nil, false_iff, not_and]
      intro _ hx hm
      obtain ⟨_, h1, h2, _⟩ := hm
      push_cast at hf
      omega
    · intro x1 h1 h2 _
      push_cast at hf
      omega
  | succ f ih =>
    intro x walls h0 hw hf hentry
    unfold wallRow
    by_cases hx : x < (g.width : Int)
    · rw [if_pos hx]
      by_cases hopen : g.get x y = true
      · rw [if_pos hopen]
        obtain ⟨runs, i1, i2, i3, i4⟩ := ih (x + 1) walls (by omega) (by omega)
          (by push_cast at hf ⊢; omega) (Or.inr (Or.inl (by simpa using hopen)))
        refine ⟨runs, i1, ?_, i3, ?_⟩
        · intro r
          rw [i2 r]
          constructor
          · rintro ⟨h1, h2, h3⟩
            exact ⟨h1, by omega, h3⟩
          · rintro ⟨h1, h2, h3⟩
            refine ⟨h1, ?_, h3⟩
            by_contra hlt
            have hra : r.a = x := by omega
            obtain ⟨_, hab, _, hcl, _⟩ := h3
            have := hcl r.a (le_refl _) hab
            rw [hra, hopen] at this
            exact absurd this (by decide)
        · intro x1 h1 h2 h3
          have hne : x1 ≠ x := by
            intro h
            rw [h, hopen] at h3
            exact absurd h3 (by decide)
          exact i4 x1 (by omega) h2 h3
      · rw [if_neg hopen]
        have hclosed : g.get x y = false := by simpa using hopen
        obtain ⟨e1, e2, e3, e4⟩ := wallRunEnd_spec g y g.width x h0 hw (by omega)
        have hlt : x < wallRunEnd g y g.width x := by
          rcases e4 with h | h
          · omega
          · rcases lt_or_eq_of_le e1 with h1 | h1
            · exact h1
            · rw [← h1, hclosed] at h
              exact absurd h (by decide)
        have hrun : MaxRun g y x (wallRunEnd g y g.width x) := by
          refine ⟨h0, hlt, e2, e3, ?_, e4⟩
          rcases hentry with h | h | h | h
          · exact Or.inl h
          · exact Or.inr h
          · omega
          · rw [hclosed] at h
            exact absurd h (by decide)
        obtain ⟨runs, i1, i2, i3, i4⟩ := ih (wallRunEnd g y g.width x)
          (walls ++ [⟨x * cellSize, y * cellSize, (wallRunEnd g y g.width x - x) * cellSize,
            cellSize⟩]) (by omega) e2 (by push_cast at hf ⊢; omega)
          (by rcases e4 with h | h
              · exact Or.inr (Or.inr (Or.inl h))
              · exact Or.inr (Or.inr (Or.inr h)))
        refine ⟨⟨y, x, wallRunEnd g y g.width x⟩ :: runs, ?_, ?_, ?_, ?_⟩
        · simp only []
          rw [i1]
          simp [runRect]
        · intro r
          rw [List.mem_cons, i2 r]
          constructor
          · rintro (h | ⟨h1, h2, h3⟩)
            · rw [h]
              exact ⟨rfl, le_refl x, hrun⟩
            · exact ⟨h1, by omega, h3⟩
          · rintro ⟨h1, h2, h3⟩
            by_cases hra : r.a = x
            · left
              have hb : r.b = wallRunEnd g y g.width x := by
                rw [hra] at h3
                exact h3.end_unique hrun
              cases r
              simp only [] at h1 hra hb
              rw [h1, hra, hb]
            · right
              refine ⟨h1, ?_, h3⟩
              by_contra hlt2
              obtain ⟨_, _, _, _, hleft, _⟩ := h3
              rcases hleft with h | h
              · omega
              · rw [e3 (r.a - 1) (by omega) (by omega)] at h
                exact absurd h (by decide)
        · rw [List.pairwise_cons]
          refine ⟨?_, i3⟩
          intro s hs
          obtain ⟨_, hs2, hs3⟩ := (i2 s).1 hs
          simp only []
          rcases lt_or_eq_of_le hs2 with h | h
          · exact h
          · obtain ⟨_, hab, hbw, hcl, _⟩ := hs3
            rcases e4 with h4 | h4
            · omega
            · rw [h, hcl s.a (le_refl _) hab] at h4
              exact absurd h4 (by decide)
        · intro x1 h1 h2 h3
          by_cases hx1 : x1 < wallRunEnd g y g.width x
          · exact ⟨_, List.mem_cons_self _ _, h1, hx1⟩
          · obtain ⟨r, hr, hr2⟩ := i4 x1 (by omega) h2 h3
            exact ⟨r, List.mem_cons_of_mem _ hr, hr2⟩
    · rw [if_neg hx]
      refine ⟨[], by simp, ?_, List.Pairwise.nil, ?_⟩
      · intro r
        simp only [List.not_mem_nil, false_iff, not_and]
        intro _ hx2 hm
        obtain ⟨_, h1, h2, _⟩ := hm
        omega
      · intro x1 h1 h2 _
        omega

/-- The rectangles that `buildWallsFromOpen` returns are those of the maximal
runs of closed cells of the rows of the grid, each once, row by row and from
left to right within a row; the runs contain every closed cell of the grid. -/
theorem buildWallsFromOpen_runs (g : Grid Bool) (cellSize : Int) :
    ∃ runs : List Run,
      buildWallsFromOpen g cellSize = runs.map (runRect cellSize) ∧
      (∀ r : Run, r ∈ runs ↔ (0 ≤ r.y ∧ r.y < (g.height : Int) ∧ MaxRun g r.y r.a r.b)) ∧
      runs.Pairwise (fun r s => r.y < s.y ∨ (r.y = s.y ∧ r.b < s.a)) ∧
      (∀ x y : Int, g.Has x y → g.get x y = false →
        ∃ r ∈ runs, r.y = y ∧ r.a ≤ x ∧ x < r.b) := by
  have key := forRange_induction (fun (i : Nat) (walls : List Rect) =>
      ∃ runs : List Run, walls = runs.map (runRect cellSize) ∧
        (∀ r : Run, r ∈ runs ↔ (0 ≤ r.y ∧ r.y < (i : Int) ∧ MaxRun g r.y r.a r.b)) ∧
        runs.Pairwise (fun r s => r.y < s.y ∨ (r.y = s.y ∧ r.b < s.a)) ∧
        (∀ x y : Int, 0 ≤ x → x < (g.width : Int) → 0 ≤ y → y < (i : Int) →
          g.get x y = false → ∃ r ∈ runs, r.y = y ∧ r.a ≤ x ∧ x < r.b))
    0 g.height (fun y walls => wallRow g cellSize y g.width 0 walls) [] (Nat.zero_le _)
    ⟨[], rfl, fun r => by simp; intro h1 h2; omega, List.Pairwise.nil,
      fun x y _ _ h1 h2 _ => by simp at h2; omega⟩
    (by
      intro i walls _ hi ⟨runs, h1, h2, h3, h4⟩
      obtain ⟨row, r1, r2, r3, r4⟩ := wallRow_runs g cellSize (i : Int) g.width 0 walls
        (le_refl 0) (by omega) (by omega) (Or.inl rfl)
      refine ⟨runs ++ row, ?_, ?_, ?_, ?_⟩
      · simp only []
        rw [r1, h1, List.map_append]
      · intro r
        rw [List.mem_append, h2 r, r2 r]
        constructor
        · rintro (⟨a1, a2, a3⟩ | ⟨a1, a2, a3⟩)
          · exact ⟨a1, by push_cast; omega, a3⟩
          · exact ⟨by omega, by push_cast; omega, by rw [a1]; exact a3⟩
        · rintro ⟨a1, a2, a3⟩
          by_cases hy : r.y < (i : Int)
          · exact Or.inl ⟨a1, hy, a3⟩
          · have hy2 : r.y = (i : Int) := by push_cast at a2; omega
            exact Or.inr ⟨hy2, a3.1, by rw [← hy2]; exact a3⟩
      · rw [List.pairwise_append]
        refine ⟨h3, ?_, ?_⟩
        · exact r3.imp_of_mem (fun {a b} ha hb hab =>
            Or.inr ⟨by rw [((r2 a).1 ha).1, ((r2 b).1 hb).1], hab⟩)
        · intro a ha b hb
          left
          rw [((r2 b).1 hb).1]
          exact ((h2 a).1 ha).2.1
      · intro x y hx0 hxw hy0 hyi hcl
        by_cases hy : y < (i : Int)
        · obtain ⟨r, hr, hr2⟩ := h4 x y hx0 hxw hy0 hy hcl
          exact ⟨r, List.mem_append_left _ hr, hr2⟩
        · have hy2 : y = (i : Int) := by push_cast at hyi; omega
          rw [hy2] at hcl
          obtain ⟨r, hr, hr2⟩ := r4 x hx0 hxw hcl
          exact ⟨r, List.mem_append_right _ hr, by rw [hy2]; exact ((r2 r).1 hr).1, hr2⟩)
  obtain ⟨runs, h1, h2, h3, h4⟩ := key
  exact ⟨runs, h1, h2, h3, fun x y hh hcl => h4 x y hh.1 hh.2.1 hh.2.2.1 hh.2.2.2 hcl⟩

/-- In a list ordered by a relation that excludes two entries with the
property `p`, an entry with `p` is the only one. -/
theorem countP_eq_one_of_pairwise {α : Type} (R : α → α → Prop) (p : α → Bool) :
    ∀ l : List α, l.Pairwise R → (∀ a b, R a b → ¬ (p a = true ∧ p b = true)) →
      (∃ a ∈ l, p a = true) → l.countP p = 1 := by
  intro l
  induction l with
  | nil => intro _ _ ⟨a, ha, _⟩; simp at ha
  | cons a rest ih =>
    intro hpw hex hsome
    rw [List.pairwise_cons] at hpw
    by_cases hpa : p a = true
    · rw [List.countP_cons_of_pos _ _ hpa]
      have : rest.countP p = 0 := by
        rw [List.countP_eq_zero]
        intro b hb hpb
        exact hex a b (hpw.1 b hb) ⟨hpa, hpb⟩
      omega
    · rw [List.countP_cons_of_neg _ _ hpa]
      apply ih hpw.2 hex
      obtain ⟨b, hb, hpb⟩ := hsome
      rcases List.mem_cons.1 hb with h | h
      · rw [h] at hpb; exact absurd hpb hpa
      · exact ⟨b, h, hpb⟩

/-- The rectangle of a run covers the cells of the run and no other cell. -/
theorem covers_runRect (cellSize : Int) (hcs : 0 < cellSize) (r : Run) (x y : Int) :
    Covers cellSize (runRect cellSize r) x y ↔ (r.y = y ∧ r.a ≤ x ∧ x < r.b) := by
  unfold Covers runRect
  simp only [true_and]
  constructor
  · rintro ⟨h1, h2, h3⟩
    refine ⟨?_, ?_, ?_⟩
    · exact Int.eq_of_mul_eq_mul_right (ne_of_gt hcs) h1
    · exact le_of_mul_le_mul_right h2 hcs
    · have : x * cellSize < r.b * cellSize := by nlinarith
      exact lt_of_mul_lt_mul_right this (le_of_lt hcs)
  · rintro ⟨h1, h2, h3⟩
    refine ⟨by rw [h1], ?_, ?_⟩
    · exact mul_le_mul_of_nonneg_right h2 (le_of_lt hcs)
    · have : x * cellSize < r.b * cellSize := mul_lt_mul_of_pos_right h3 hcs
      nlinarith

/-- The rectangles of two runs in row-major order do not overlap. -/
theorem not_overlap_runRect (cellSize : Int) (hcs : 0 < cellSize) (r s : Run)
    (h : r.y < s.y ∨ (r.y = s.y ∧ r.b < s.a)) :
    ¬ Overlap (runRect cellSize r) (runRect cellSize s) := by
  unfold Overlap runRect
  simp only []
  rintro ⟨_, h2, _, h4⟩
  rcases h with h | ⟨_, h⟩
  · have : (r.y + 1) * cellSize ≤ s.y * cellSize :=
      mul_le_mul_of_nonneg_right (by omega) (le_of_lt hcs)
    nlinarith
  · have : r.b * cellSize < s.a * cellSize := mul_lt_mul_of_pos_right h hcs
    nlinarith

/-- C16: for a grid and a positive cell size, every closed cell `(x, y)` of
the grid is covered by exactly one of the rectangles that
`buildWallsFromOpen` returns (counted with multiplicity), no open cell of the
grid is covered by any of them, and no two of the rectangles overlap. A
rectangle covers a cell when `rect.y = y * cellSize`,
`rect.height = cellSize` and `rect.x <= x * cellSize < rect.x + rect.width`. -/
theorem buildWallsFromOpen_cover (g : Grid Bool) (cellSize : Int) (hcs : 0 < cellSize) :
    (∀ x y : Int, g.Has x y → g.get x y = false →
      (buildWallsFromOpen g cellSize).countP (fun r => decide (Covers cellSize r x y)) = 1) ∧
    (∀ x y : Int, g.Has x y → g.get x y = true →
      ∀ r ∈ buildWallsFromOpen g cellSize, ¬ Covers cellSize r x y) ∧
    (buildWallsFromOpen g cellSize).Pairwise (fun r s => ¬ Overlap r s) := by
  obtain ⟨runs, h1, h2, h3, h4⟩ := buildWallsFromOpen_runs g cellSize
  rw [h1]
  refine ⟨?_, ?_, ?_⟩
  · intro x y hh hcl
    rw [List.countP_map]
    apply countP_eq_one_of_pairwise _ _ runs h3
    · intro a b hab ⟨ha, hb⟩
      simp only [Function.comp, decide_eq_true_eq] at ha hb
      rw [covers_runRect cellSize hcs] at ha hb
      rcases hab with h | ⟨_, h⟩
      · omega
      · omega
    · obtain ⟨r, hr, hr2⟩ := h4 x y hh hcl
      refine ⟨r, hr, ?_⟩
      simp only [Function.comp, decide_eq_true_eq]
      rw [covers_runRect cellSize hcs]
      exact hr2
  · intro x y _ hopen r hr hcov
    obtain ⟨q, hq, hqr⟩ := List.mem_map.1 hr
    rw [← hqr, covers_runRect cellSize hcs] at hcov
    obtain ⟨_, _, hm⟩ := (h2 q).1 hq
    obtain ⟨_, _, _, hcl, _⟩ := hm
    have := hcl x hcov.2.1 hcov.2.2
    rw [hcov.1, hopen] at this
    exact absurd this (by decide)
  · rw [List.pairwise_map]
    exact h3.imp (fun {a b} hab => not_overlap_runRect cellSize hcs a b hab)

theorem buildWallsFromOpen_cover_witness :
    (0 : Int) < 20 ∧
    ((∀ x y : Int, closedStartGrid.Has x y → closedStartGrid.get x y = false →
      (buildWallsFromOpen closedStartGrid 20).countP (fun r => decide (Covers 20 r x y)) = 1) ∧
    (∀ x y : Int, closedStartGrid.Has x y → closedStartGrid.get x y = true →
      ∀ r ∈ buildWallsFromOpen closedStartGrid 20, ¬ Covers 20 r x y) ∧
    (buildWallsFromOpen closedStartGrid 20).Pairwise (fun r s => ¬ Overlap r s)) :=
  ⟨by decide, buildWallsFromOpen_cover closedStartGrid 20 (by decide)⟩

/-- C17: for a grid and a positive cell size, the rectangles that
`buildWallsFromOpen` returns are the rectangles of a list of runs that holds
each maximal run of closed cells of each row exactly once (a run is maximal
when the cell left of its start and the cell right of its end are open or
outside the grid), in row-major order (rows from the top, within a row from
left to right, each run ending before the next starts); so their number is the
number of maximal runs, and no list of rectangles one cell high that covers
exactly the closed cells of the grid is shorter. -/
theorem buildWallsFromOpen_minimal (g : Grid Bool) (cellSize : Int) (hcs : 0 < cellSize) :
    ∃ runs : List Run,
      buildWallsFromOpen g cellSize = runs.map (runRect cellSize) ∧
      (∀ r : Run, r ∈ runs ↔ (0 ≤ r.y ∧ r.y < (g.height : Int) ∧ MaxRun g r.y r.a r.b)) ∧
      runs.Pairwise (fun r s => r.y < s.y ∨ (r.y = s.y ∧ r.b < s.a)) ∧
      runs.Nodup ∧
      (buildWallsFromOpen g cellSize).length = runs.length ∧
      (∀ L : List Rect, (∀ r ∈ L, r.height = cellSize) →
        (∀ x y : Int, g.Has x y → (g.get x y = false ↔ ∃ r ∈ L, Covers cellSize r x y)) →
        (buildWallsFromOpen g cellSize).length ≤ L.length) := by
  obtain ⟨runs, h1, h2, h3, _⟩ := buildWallsFromOpen_runs g cellSize
  have hnd : runs.Nodup := by
    refine h3.imp_of_mem (fun {a b} ha _ hab heq => ?_)
    obtain ⟨_, _, _, hlt, _⟩ := (h2 a).1 ha
    rw [← heq] at hab
    omega
  have hlen : (buildWallsFromOpen g cellSize).length = runs.length := by
    rw [h1, List.length_map]
  refine ⟨runs, h1, h2, h3, hnd, hlen, ?_⟩
  intro L _ hL
  rw [hlen, ← List.toFinset_card_of_nodup hnd]
  refine le_trans ?_ (List.toFinset_card_le L)
  apply Finset.card_le_card_of_forall_subsingleton
    (fun (r : Run) (w : Rect) => Covers cellSize w r.a r.y)
  · intro r hr
    rw [List.mem_toFinset] at hr
    obtain ⟨hy0, hy1, hm⟩ := (h2 r).1 hr
    obtain ⟨ha0, hab, hbw, hcl, _⟩ := hm
    have hhas : g.Has r.a r.y := ⟨ha0, by omega, hy0, hy1⟩
    obtain ⟨w, hw, hcov⟩ := (hL r.a r.y hhas).1 (hcl r.a (le_refl _) hab)
    exact ⟨w, List.mem_toFinset.2 hw, hcov⟩
  · intro w hw
    rw [List.mem_toFinset] at hw
    have hsep : ∀ r s : Run, r ∈ runs → s ∈ runs → Covers cellSize w r.a r.y →
        Covers cellSize w s.a s.y → ¬ r.a < s.a := by
      intro r s hr hs hcr hcs2 hlt
      obtain ⟨hy0, hy1, hmr⟩ := (h2 r).1 hr
      obtain ⟨_, _, hms⟩ := (h2 s).1 hs
      obtain ⟨hra, _, _⟩ := hmr
      obtain ⟨_, hsab, hsb, _, hleft, _⟩ := hms
      have hy : r.y = s.y := by
        have : r.y * cellSize = s.y * cellSize := by rw [← hcr.1, ← hcs2.1]
        exact Int.eq_of_mul_eq_mul_right (ne_of_gt hcs) this
      rcases hleft with h | h
      · omega
      · have hhas : g.Has (s.a - 1) s.y := ⟨by omega, by omega, by omega, by omega⟩
        have hcov : Covers cellSize w (s.a - 1) s.y := by
          refine ⟨hcs2.1, hcs2.2.1, ?_, ?_⟩
          · have : r.a * cellSize ≤ (s.a - 1) * cellSize :=
              mul_le_mul_of_nonneg_right (by omega) (le_of_lt hcs)
            exact le_trans hcr.2.2.1 this
          · have : (s.a - 1) * cellSize < s.a * cellSize :=
              mul_lt_mul_of_pos_right (by omega) hcs
            exact lt_trans this hcs2.2.2.2
        have := (hL (s.a - 1) s.y hhas).2 ⟨w, hw, hcov⟩
        rw [h] at this
        exact absurd this (by decide)
    intro r hr s hs
    simp only [Finset.coe_filter, Set.mem_setOf_eq, List.mem_toFinset] at hr hs
    obtain ⟨hr1, hr2⟩ := hr
    obtain ⟨hs1, hs2⟩ := hs
    have ha : r.a = s.a := by
      have n1 := hsep r s hr1 hs1 hr2 hs2
      have n2 := hsep s r hs1 hr1 hs2 hr2
      omega
    have hy : r.y = s.y := by
      have : r.y * cellSize = s.y * cellSize := by rw [← hr2.1, ← hs2.1]
      exact Int.eq_of_mul_eq_mul_right (ne_of_gt hcs) this
    have hb : r.b = s.b := by
      have m1 := ((h2 r).1 hr1).2.2
      have m2 := ((h2 s).1 hs1).2.2
      rw [hy, ha] at m1
      exact m1.end_unique m2
    cases r; cases s
    simp only [] at ha hy hb
    rw [ha, hy, hb]

theorem buildWallsFromOpen_minimal_witness :
    (0 : Int) < 20 ∧
    ∃ runs : List Run,
      buildWallsFromOpen closedStartGrid 20 = runs.map (runRect 20) ∧
      (∀ r : Run, r ∈ runs ↔
        (0 ≤ r.y ∧ r.y < (closedStartGrid.height : Int) ∧ MaxRun closedStartGrid r.y r.a r.b)) ∧
      runs.Pairwise (fun r s => r.y < s.y ∨ (r.y = s.y ∧ r.b < s.a)) ∧
      runs.Nodup ∧
      (buildWallsFromOpen closedStartGrid 20).length = runs.length ∧
      (∀ L : List Rect, (∀ r ∈ L, r.height = 20) →
        (∀ x y : Int, closedStartGrid.Has x y →
          (closedStartGrid.get x y = false ↔ ∃ r ∈ L, Covers 20 r x y)) →
        (buildWallsFromOpen closedStartGrid 20).length ≤ L.length) :=
  ⟨by decide, buildWallsFromOpen_minimal closedStartGrid 20 (by decide)⟩

/-! ## Order of binary64 values and goal selection -/

theorem F64.bitLengthAux_le : ∀ (fuel n k : Nat), n < 2 ^ k → F64.bitLengthAux fuel n ≤ k := by
  intro fuel
  induction fuel with
  | zero => intro n k _; unfold F64.bitLengthAux; exact Nat.zero_le _
  | succ f ih =>
    intro n k hn
    unfold F64.bitLengthAux
    by_cases h0 : n = 0
    · rw [if_pos h0]; exact Nat.zero_le _
    · rw [if_neg h0]
      cases k with
      | zero => simp at hn; exact absurd hn h0
      | succ k1 =>
        have : n / 2 < 2 ^ k1 := by
          rw [Nat.div_lt_iff_lt_mul (by decide)]
          rw [pow_succ] at hn
          exact hn
        have := ih (n / 2) k1 this
        omega

/-- An integer of absolute value below `2 ^ 53` is a binary64 value. -/
theorem F64.ofInt_small (d : Int) (hd : d.natAbs < 2 ^ 53) : F64.ofInt d = F64.fin d 0 := by
  unfold F64.ofInt F64.round
  by_cases h0 : d.natAbs = 0
  · simp only [h0, if_true]
    rw [Int.natAbs_eq_zero.1 h0]
  · have hbl : F64.bitLength d.natAbs ≤ 53 := F64.bitLengthAux_le _ _ _ hd
    have hq : max ((0 : Int) + (F64.bitLength d.natAbs : Int) - 53) (-1074) - 0 ≤ 0 := by
      have : (F64.bitLength d.natAbs : Int) ≤ 53 := by exact_mod_cast hbl
      omega
    have hs : (max ((0 : Int) + (F64.bitLength d.natAbs : Int) - 53) (-1074) - 0).toNat = 0 :=
      Int.toNat_eq_zero.2 hq
    simp only [h0, if_false, hs, pow_zero, Nat.div_one, Nat.mod_one, mul_zero]
    have h1 : ¬ (1 < 0 ∨ (0 = 1 ∧ d.natAbs % 2 = 1)) := by omega
    rw [if_neg h1]
    have h2 : ¬ (1024 : Int) < (F64.bitLength d.natAbs : Int) + (0 + ((0 : Nat) : Int)) := by
      have : (F64.bitLength d.natAbs : Int) ≤ 53 := by exact_mod_cast hbl
      omega
    rw [if_neg h2]
    congr 1
    · split_ifs with hneg
      · omega
      · omega

theorem F64.round_ne_nan (m e : Int) : F64.round m e ≠ F64.nan := by
  unfold F64.round
  simp only []
  split_ifs <;> exact fun h => F64.noConfusion h

/-- The comparison `a < b` of two binary64 values that are not NaN is the
comparison of their positions on the extended rational line. -/
theorem F64.lt_iff_key (a b : F64) (ha : a ≠ F64.nan) (hb : b ≠ F64.nan) :
    F64.lt a b = true ↔ a.key < b.key := by
  cases a with
  | nan => exact absurd rfl ha
  | inf s =>
    cases b with
    | nan => exact absurd rfl hb
    | inf t => cases s <;> cases t <;> simp [F64.lt, F64.key]
    | fin m e =>
      cases s with
      | false => simp [F64.lt, F64.key]
      | true =>
        simp only [F64.lt, F64.key, true_iff]
        exact WithBot.bot_lt_coe _
  | fin m1 e1 =>
    cases b with
    | nan => exact absurd rfl hb
    | inf t =>
      cases t with
      | true => simp [F64.lt, F64.key]
      | false =>
        simp only [F64.lt, F64.key, Bool.not_false, true_iff]
        exact WithBot.coe_lt_coe.2 (WithTop.coe_lt_top _)
    | fin m2 e2 =>
      simp only [F64.lt, F64.key, decide_eq_true_eq, WithBot.coe_lt_coe, WithTop.coe_lt_coe]
      have hp : (0 : ℚ) < (2 : ℚ) ^ (min e1 e2) := zpow_pos (by norm_num) _
      have h1 : (2 : ℚ) ^ e1 = (2 : ℚ) ^ (e1 - min e1 e2).toNat * (2 : ℚ) ^ (min e1 e2) := by
        rw [← zpow_natCast, ← zpow_add₀ (by norm_num : (2 : ℚ) ≠ 0)]
        congr 1
        rw [Int.toNat_of_nonneg (by omega)]
        omega
      have h2 : (2 : ℚ) ^ e2 = (2 : ℚ) ^ (e2 - min e1 e2).toNat * (2 : ℚ) ^ (min e1 e2) := by
        rw [← zpow_natCast, ← zpow_add₀ (by norm_num : (2 : ℚ) ≠ 0)]
        congr 1
        rw [Int.toNat_of_nonneg (by omega)]
        omega
      rw [h1, h2, ← mul_assoc, ← mul_assoc, mul_lt_mul_right hp]
      constructor
      · intro h
        have : ((m1 * ((2 ^ (e1 - min e1 e2).toNat : Nat) : Int) : Int) : ℚ)
            < ((m2 * ((2 ^ (e2 - min e1 e2).toNat : Nat) : Int) : Int) : ℚ) := by
          exact_mod_cast h
        push_cast at this
        exact this
      · intro h
        have : ((m1 * ((2 ^ (e1 - min e1 e2).toNat : Nat) : Int) : Int) : ℚ)
            < ((m2 * ((2 ^ (e2 - min e1 e2).toNat : Nat) : Int) : Int) : ℚ) := by
          push_cast
          exact h
        exact_mod_cast this

/-- An entry read from a grid whose entries are all below a positive bound is
below the bound. -/
theorem Grid.get_lt_of_rows (dist : Grid Int) (B : Int) (hB : 0 < B)
    (hd : ∀ row ∈ dist.rows, ∀ d ∈ row, d < B) (x y : Int) : dist.get x y < B := by
  unfold Grid.get
  split_ifs with h
  · rw [List.getD_eq_getElem?_getD, List.getD_eq_getElem?_getD]
    cases hr : dist.rows[y.toNat]? with
    | none => simpa using hB
    | some row =>
      cases hx : row[x.toNat]? with
      | none => simpa [hx] using hB
      | some d =>
        simp only [Option.getD_some, hx]
        exact hd row (mem_of_getElem? _ _ _ hr) d (mem_of_getElem? _ _ _ hx)
  · exact hB

/-- The score of a candidate row whose distance is below `2 ^ 53` is not NaN. -/
theorem goalScore_ne_nan (g : Grid Bool) (dist : Grid Int) (y : Int)
    (h0 : 0 ≤ dist.get ((g.width : Int) - 2) y)
    (h1 : dist.get ((g.width : Int) - 2) y < 9007199254740992) :
    goalScore g dist y ≠ F64.nan := by
  unfold goalScore
  rw [F64.ofInt_small _ (by omega)]
  have hc : F64.ofRat 35 100 = F64.fin 6305039478318694 (-54) := by decide
  rw [hc]
  cases hr : F64.round (Int.natAbs (2 * y - (g.height : Int)) : Int) (-1) with
  | nan => exact absurd hr (F64.round_ne_nan _ _)
  | inf s =>
    cases s <;> simp [F64.mul, F64.sub, F64.neg, F64.add]
  | fin m e =>
    simp only [F64.mul, F64.sub]
    cases hp : F64.round (m * 6305039478318694) (e + -54) with
    | nan => exact absurd hp (F64.round_ne_nan _ _)
    | inf s => simp [F64.neg, F64.add]
    | fin m2 e2 =>
      simp only [F64.neg, F64.add]
      exact F64.round_ne_nan _ _

/-- The body of the loop of `findGoalNearRight`: a row that is no candidate
leaves `best` as it is; a candidate row replaces it when there is none yet or
when the score of the row is greater than the score of `best`. -/
theorem goalScan_eq (g : Grid Bool) (dist : Grid Int) (y : Int) (best : Option Goal) :
    (¬ GoalRow g dist y → goalScan g dist y best = best) ∧
    (GoalRow g dist y → goalScan g dist y best =
      match best with
      | none => some ⟨(g.width : Int) - 2, y, goalScore g dist y,
          dist.get ((g.width : Int) - 2) y⟩
      | some b =>
        if F64.lt b.score (goalScore g dist y) then
          some ⟨(g.width : Int) - 2, y, goalScore g dist y, dist.get ((g.width : Int) - 2) y⟩
        else some b) := by
  unfold goalScan GoalRow goalScore
  simp only []
  by_cases h1 : g.get ((g.width : Int) - 2) y = true
  · by_cases h2 : dist.get ((g.width : Int) - 2) y < 0
    · simp only [h1, h2, Bool.not_true, if_true, Bool.false_eq_true, if_false]
      exact ⟨fun _ => trivial, fun h => by omega⟩
    · simp only [h1, h2, Bool.not_true, if_false, Bool.false_eq_true]
      refine ⟨fun h => absurd ⟨trivial, by omega⟩ h, fun _ => ?_⟩
      cases best <;> first | rfl | trivial
  · simp only [h1, Bool.not_false, if_true]
    exact ⟨fun _ => trivial, fun h => by simp at h⟩

/-- C13, as amended: for a grid with both sides at least three and a distance
grid of the same shape whose entries are below `2 ^ 53`, `findGoalNearRight`
returns `none` exactly when no row `y` of `1, ..., height - 2` has its cell of
column `width - 2` open with a distance that is not negative; otherwise it
returns the cell `(width - 2, y*)` of such a row `y*` with `distance` the
distance of that cell and `score` the binary64 value of
`distance - Math.abs(y* - height / 2) * 0.35`, each operation rounded as the
code computes it, such that no such row has a greater computed score and every
such row above `y*` has a smaller computed score (the smallest row among those
of greatest computed score). -/
theorem findGoalNearRight_max (g : Grid Bool) (dist : Grid Int) (_hw : 3 ≤ g.width)
    (hh : 3 ≤ g.height) (_hdw : dist.width = g.width) (_hdh : dist.height = g.height)
    (hd : ∀ row ∈ dist.rows, ∀ d ∈ row, d < 9007199254740992) :
    (findGoalNearRight g dist = none ↔
      ∀ y : Int, 1 ≤ y → y ≤ (g.height : Int) - 2 → ¬ GoalRow g dist y) ∧
    (∀ b, findGoalNearRight g dist = some b →
      b.x = (g.width : Int) - 2 ∧ 1 ≤ b.y ∧ b.y ≤ (g.height : Int) - 2 ∧ GoalRow g dist b.y ∧
      b.distance = dist.get ((g.width : Int) - 2) b.y ∧ b.score = goalScore g dist b.y ∧
      (∀ y : Int, 1 ≤ y → y ≤ (g.height : Int) - 2 → GoalRow g dist y →
        F64.lt b.score (goalScore g dist y) = false) ∧
      (∀ y : Int, 1 ≤ y → y < b.y → GoalRow g dist y →
        F64.lt (goalScore g dist y) b.score = true)) := by
  have hnan : ∀ y : Int, GoalRow g dist y → goalScore g dist y ≠ F64.nan := fun y hy =>
    goalScore_ne_nan g dist y hy.2 (Grid.get_lt_of_rows dist _ (by decide) hd _ _)
  have hlt : ∀ y z : Int, GoalRow g dist y → GoalRow g dist z →
      (F64.lt (goalScore g dist y) (goalScore g dist z) = true ↔
        (goalScore g dist y).key < (goalScore g dist z).key) := fun y z hy hz =>
    F64.lt_iff_key _ _ (hnan y hy) (hnan z hz)
  have hlf : ∀ y z : Int, GoalRow g dist y → GoalRow g dist z →
      (F64.lt (goalScore g dist y) (goalScore g dist z) = false ↔
        (goalScore g dist z).key ≤ (goalScore g dist y).key) := by
    intro y z hy hz
    rw [← not_lt, ← hlt y z hy hz]
    simp
  have key := forRange_induction
    (fun (i : Nat) (best : Option Goal) =>
      (best = none → ∀ y : Int, 1 ≤ y → y < (i : Int) → ¬ GoalRow g dist y) ∧
      (∀ b, best = some b →
        b.x = (g.width : Int) - 2 ∧ 1 ≤ b.y ∧ b.y < (i : Int) ∧ GoalRow g dist b.y ∧
        b.distance = dist.get ((g.width : Int) - 2) b.y ∧ b.score = goalScore g dist b.y ∧
        (∀ y : Int, 1 ≤ y → y < (i : Int) → GoalRow g dist y →
          F64.lt b.score (goalScore g dist y) = false) ∧
        (∀ y : Int, 1 ≤ y → y < b.y → GoalRow g dist y →
          F64.lt (goalScore g dist y) b.score = true)))
    1 (g.height - 1) (goalScan g dist) none (by omega)
    ⟨fun _ y h1 h2 => by push_cast at h2; omega, fun b hb => by simp at hb⟩
    (by
      intro i best hi1 hi2 ⟨hnone, hsome⟩
      by_cases hrow : GoalRow g dist (i : Int)
      · rw [(goalScan_eq g dist i best).2 hrow]
        have hnew : ∀ b : Goal,
            b = ⟨(g.width : Int) - 2, i, goalScore g dist i, dist.get ((g.width : Int) - 2) i⟩ →
            (∀ y : Int, 1 ≤ y → y < (i : Int) → GoalRow g dist y →
              (goalScore g dist y).key < (goalScore g dist i).key) →
            b.x = (g.width : Int) - 2 ∧ 1 ≤ b.y ∧ b.y < ((i + 1 : Nat) : Int) ∧
            GoalRow g dist b.y ∧
            b.distance = dist.get ((g.width : Int) - 2) b.y ∧ b.score = goalScore g dist b.y ∧
            (∀ y : Int, 1 ≤ y → y < ((i + 1 : Nat) : Int) → GoalRow g dist y →
              F64.lt b.score (goalScore g dist y) = false) ∧
            (∀ y : Int, 1 ≤ y → y < b.y → GoalRow g dist y →
              F64.lt (goalScore g dist y) b.score = true) := by
          intro b hb hbelow
          subst hb
          refine ⟨rfl, by simp only []; omega, by simp only []; push_cast; omega, hrow, rfl, rfl,
            ?_, ?_⟩
          · intro y h1 h2 hy
            simp only []
            rw [hlf _ _ hrow hy]
            by_cases hyi : y = (i : Int)
            · rw [hyi]
            · exact le_of_lt (hbelow y h1 (by push_cast at h2; omega) hy)
          · intro y h1 h2 hy
            simp only [] at h2 ⊢
            rw [hlt _ _ hy hrow]
            exact hbelow y h1 h2 hy
        cases best with
        | none =>
          refine ⟨fun h => by simp at h, ?_⟩
          intro b hb
          simp only [Option.some.injEq] at hb
          exact hnew b hb.symm (fun y h1 h2 hy => absurd hy (hnone rfl y h1 h2))
        | some b0 =>
          obtain ⟨p1, p2, p3, p4, p5, p6, p7, p8⟩ := hsome b0 rfl
          simp only []
          by_cases hbetter : F64.lt b0.score (goalScore g dist i) = true
          · rw [if_pos hbetter]
            refine ⟨fun h => by simp at h, ?_⟩
            intro b hb
            simp only [Option.some.injEq] at hb
            have hb0 : (goalScore g dist b0.y).key < (goalScore g dist i).key := by
              rw [p6] at hbetter
              exact (hlt _ _ p4 hrow).1 hbetter
            refine hnew b hb.symm (fun y h1 h2 hy => ?_)
            have := p7 y h1 h2 hy
            rw [p6, hlf _ _ p4 hy] at this
            exact lt_of_le_of_lt this hb0
          · rw [if_neg hbetter]
            refine ⟨fun h => by simp at h, ?_⟩
            intro b hb
            simp only [Option.some.injEq] at hb
            subst hb
            refine ⟨p1, p2, by push_cast; omega, p4, p5, p6, ?_, p8⟩
            intro y h1 h2 hy
            by_cases hyi : y = (i : Int)
            · rw [hyi]
              simpa using hbetter
            · exact p7 y h1 (by push_cast at h2; omega) hy
      · rw [(goalScan_eq g dist i best).1 hrow]
        refine ⟨?_, ?_⟩
        · intro hb y h1 h2
          by_cases hyi : y = (i : Int)
          · rw [hyi]; exact hrow
          · exact hnone hb y h1 (by push_cast at h2; omega)
        · intro b hb
          obtain ⟨p1, p2, p3, p4, p5, p6, p7, p8⟩ := hsome b hb
          refine ⟨p1, p2, by push_cast; omega, p4, p5, p6, ?_, p8⟩
          intro y h1 h2 hy
          by_cases hyi : y = (i : Int)
          · rw [hyi] at hy; exact absurd hy hrow
          · exact p7 y h1 (by push_cast at h2; omega) hy)
  have hcast : ((g.height - 1 : Nat) : Int) = (g.height : Int) - 1 := by omega
  obtain ⟨knone, ksome⟩ := key
  rw [hcast] at knone ksome
  have hsome : ∀ b, findGoalNearRight g dist = some b →
      b.x = (g.width : Int) - 2 ∧ 1 ≤ b.y ∧ b.y ≤ (g.height : Int) - 2 ∧ GoalRow g dist b.y ∧
      b.distance = dist.get ((g.width : Int) - 2) b.y ∧ b.score = goalScore g dist b.y ∧
      (∀ y : Int, 1 ≤ y → y ≤ (g.height : Int) - 2 → GoalRow g dist y →
        F64.lt b.score (goalScore g dist y) = false) ∧
      (∀ y : Int, 1 ≤ y → y < b.y → GoalRow g dist y →
        F64.lt (goalScore g dist y) b.score = true) := by
    intro b hb
    obtain ⟨p1, p2, p3, p4, p5, p6, p7, p8⟩ := ksome b hb
    exact ⟨p1, p2, by omega, p4, p5, p6, fun y h1 h2 hy => p7 y h1 (by omega) hy, p8⟩
  refine ⟨⟨fun h y h1 h2 => knone h y h1 (by omega), ?_⟩, hsome⟩
  intro hall
  cases hres : findGoalNearRight g dist with
  | none => rfl
  | some b =>
    obtain ⟨_, p2, p3, p4, _⟩ := hsome b hres
    exact absurd p4 (hall b.y p2 p3)

theorem findGoalNearRight_max_witness :
    (3 ≤ (createGrid 5 5 true).width ∧ 3 ≤ (createGrid 5 5 true).height ∧
      (bfs (createGrid 5 5 true) ⟨1, 1⟩).1.width = (createGrid 5 5 true).width ∧
      (bfs (createGrid 5 5 true) ⟨1, 1⟩).1.height = (createGrid 5 5 true).height ∧
      ∀ row ∈ (bfs (createGrid 5 5 true) ⟨1, 1⟩).1.rows, ∀ d ∈ row, d < 9007199254740992) ∧
    ((findGoalNearRight (createGrid 5 5 true) (bfs (createGrid 5 5 true) ⟨1, 1⟩).1 = none ↔
      ∀ y : Int, 1 ≤ y → y ≤ ((createGrid 5 5 true).height : Int) - 2 →
        ¬ GoalRow (createGrid 5 5 true) (bfs (createGrid 5 5 true) ⟨1, 1⟩).1 y) ∧
    (∀ b, findGoalNearRight (createGrid 5 5 true) (bfs (createGrid 5 5 true) ⟨1, 1⟩).1 = some b →
      b.x = ((createGrid 5 5 true).width : Int) - 2 ∧ 1 ≤ b.y ∧
      b.y ≤ ((createGrid 5 5 true).height : Int) - 2 ∧
      GoalRow (createGrid 5 5 true) (bfs (createGrid 5 5 true) ⟨1, 1⟩).1 b.y ∧
      b.distance = (bfs (createGrid 5 5 true) ⟨1, 1⟩).1.get
        (((createGrid 5 5 true).width : Int) - 2) b.y ∧
      b.score = goalScore (createGrid 5 5 true) (bfs (createGrid 5 5 true) ⟨1, 1⟩).1 b.y ∧
      (∀ y : Int, 1 ≤ y → y ≤ ((createGrid 5 5 true).height : Int) - 2 →
        GoalRow (createGrid 5 5 true) (bfs (createGrid 5 5 true) ⟨1, 1⟩).1 y →
        F64.lt b.score
          (goalScore (createGrid 5 5 true) (bfs (createGrid 5 5 true) ⟨1, 1⟩).1 y) = false) ∧
      (∀ y : Int, 1 ≤ y → y < b.y →
        GoalRow (createGrid 5 5 true) (bfs (createGrid 5 5 true) ⟨1, 1⟩).1 y →
        F64.lt (goalScore (createGrid 5 5 true) (bfs (createGrid 5 5 true) ⟨1, 1⟩).1 y)
          b.score = true))) :=
  ⟨⟨by decide, by decide, by decide, by decide, by decide⟩,
    findGoalNearRight_max (createGrid 5 5 true) (bfs (createGrid 5 5 true) ⟨1, 1⟩).1
      (by decide) (by decide) (by decide) (by decide) (by decide)⟩

/-! ## Weighted choice -/

theorem ticketAfter_cons {ι : Type} (weight : ι → F64) (item : ι) (rest : List ι)
    (ticket : F64) (n : Nat) :
    ticketAfter weight (item :: rest) ticket (n + 1)
      = ticketAfter weight rest (F64.sub ticket (weight item)) n := by
  unfold ticketAfter
  rw [List.take_succ_cons, List.foldl_cons]

/-- The loop of `pickWeighted` returns the item at the least index at which
the ticket, reduced by the weights up to that index, is at most zero; it ends
without returning when there is no such index. -/
theorem pickWeightedLoop_least {ι : Type} (weight : ι → F64) :
    ∀ (items : List ι) (ticket : F64),
      (∀ item, pickWeightedLoop weight items ticket = some item →
        ∃ i, i < items.length ∧ items[i]? = some item ∧
          F64.le (ticketAfter weight items ticket (i + 1)) (F64.ofNat 0) = true ∧
          ∀ j, j < i → F64.le (ticketAfter weight items ticket (j + 1)) (F64.ofNat 0) = false) ∧
      (pickWeightedLoop weight items ticket = none →
        ∀ j, j < items.length →
          F64.le (ticketAfter weight items ticket (j + 1)) (F64.ofNat 0) = false) := by
  intro items
  induction items with
  | nil =>
    intro ticket
    exact ⟨fun item h => by simp [pickWeightedLoop] at h, fun _ j hj => by simp at hj⟩
  | cons first rest ih =>
    intro ticket
    unfold pickWeightedLoop
    simp only []
    by_cases hle : F64.le (F64.sub ticket (weight first)) (F64.ofNat 0) = true
    · rw [if_pos hle]
      refine ⟨?_, fun h => by simp at h⟩
      intro item hitem
      simp only [Option.some.injEq] at hitem
      refine ⟨0, by simp, by simp [hitem], ?_, fun j hj => by omega⟩
      rw [ticketAfter_cons]
      exact hle
    · rw [if_neg hle]
      obtain ⟨ih1, ih2⟩ := ih (F64.sub ticket (weight first))
      have hfalse : F64.le (F64.sub ticket (weight first)) (F64.ofNat 0) = false := by
        simpa using hle
      refine ⟨?_, ?_⟩
      · intro item hitem
        obtain ⟨i, hi1, hi2, hi3, hi4⟩ := ih1 item hitem
        refine ⟨i + 1, by simp [hi1], by simp [hi2], ?_, ?_⟩
        · rw [ticketAfter_cons]; exact hi3
        · intro j hj
          rw [ticketAfter_cons]
          cases j with
          | zero => exact hfalse
          | succ j1 => exact hi4 j1 (by omega)
      · intro hnone j hj
        rw [ticketAfter_cons]
        cases j with
        | zero => exact hfalse
        | succ j1 => exact ih2 hnone j1 (by simp at hj; omega)

/-- C20, as amended: for a non-empty list of items and a sample source,
`pickWeighted` consumes exactly one sample, computes in binary64 the ticket
`sample * sum`, where `sum` adds the weights to zero in list order, and
subtracts the weights from the ticket one at a time, each difference rounded.
It returns the item at the least index `i` at which the ticket so reduced by
the weights of the items `0, ..., i` is at most zero, and the last item when
there is no such index; in every case the result is a member of the list. -/
theorem pickWeighted_least_index {ι σ : Type} [RandomSource σ] (weight : ι → F64)
    (items : List ι) (rng : σ) (hne : items ≠ []) :
    (pickWeighted weight items rng).2 = (RandomSource.sample rng).2 ∧
    ∃ (i : Nat) (item : ι), i < items.length ∧ items[i]? = some item ∧ item ∈ items ∧
      (pickWeighted weight items rng).1 = some item ∧
      ((F64.le (ticketAfter weight items
            (drawTicket weight items (RandomSource.sample rng).1) (i + 1)) (F64.ofNat 0) = true ∧
          ∀ j, j < i → F64.le (ticketAfter weight items
            (drawTicket weight items (RandomSource.sample rng).1) (j + 1)) (F64.ofNat 0) = false) ∨
        (i = items.length - 1 ∧
          ∀ j, j < items.length → F64.le (ticketAfter weight items
            (drawTicket weight items (RandomSource.sample rng).1) (j + 1)) (F64.ofNat 0)
              = false)) := by
  refine ⟨pickWeighted_rng weight items rng, ?_⟩
  obtain ⟨h1, h2⟩ := pickWeightedLoop_least weight items
    (drawTicket weight items (RandomSource.sample rng).1)
  unfold pickWeighted
  simp only []
  cases hloop : pickWeightedLoop weight items
      (drawTicket weight items (RandomSource.sample rng).1) with
  | some item =>
    obtain ⟨i, hi1, hi2, hi3, hi4⟩ := h1 item hloop
    have hloop2 : pickWeightedLoop weight items
        (F64.mul (F64.ofSample (RandomSource.sample rng).1)
          (items.foldl (fun s item => F64.add s (weight item)) (F64.ofNat 0))) = some item := hloop
    rw [hloop2]
    exact ⟨i, item, hi1, hi2, mem_of_getElem? _ _ _ hi2, rfl, Or.inl ⟨hi3, hi4⟩⟩
  | none =>
    have hloop2 : pickWeightedLoop weight items
        (F64.mul (F64.ofSample (RandomSource.sample rng).1)
          (items.foldl (fun s item => F64.add s (weight item)) (F64.ofNat 0))) = none := hloop
    rw [hloop2]
    have hlen : 0 < items.length := List.length_pos.2 hne
    have hlast : items[items.length - 1]? = some (items.getLast hne) := by
      rw [List.getLast_eq_getElem]
      exact List.getElem?_eq_getElem _
    refine ⟨items.length - 1, items.getLast hne, by omega, hlast, List.getLast_mem hne, ?_,
      Or.inr ⟨rfl, h2 hloop⟩⟩
    simp only []
    rw [List.getLast?_eq_getLast _ hne]

theorem pickWeighted_least_index_witness :
    [F64.ofRat 12 10, F64.ofRat 108 100] ≠ [] ∧
    ((pickWeighted (fun w : F64 => w) [F64.ofRat 12 10, F64.ofRat 108 100]
        (seededRandom 1401)).2 = (RandomSource.sample (seededRandom 1401)).2 ∧
    ∃ (i : Nat) (item : F64), i < [F64.ofRat 12 10, F64.ofRat 108 100].length ∧
      [F64.ofRat 12 10, F64.ofRat 108 100][i]? = some item ∧
      item ∈ [F64.ofRat 12 10, F64.ofRat 108 100] ∧
      (pickWeighted (fun w : F64 => w) [F64.ofRat 12 10, F64.ofRat 108 100]
        (seededRandom 1401)).1 = some item ∧
      ((F64.le (ticketAfter (fun w : F64 => w) [F64.ofRat 12 10, F64.ofRat 108 100]
            (drawTicket (fun w : F64 => w) [F64.ofRat 12 10, F64.ofRat 108 100]
              (RandomSource.sample (seededRandom 1401)).1) (i + 1)) (F64.ofNat 0) = true ∧
          ∀ j, j < i → F64.le (ticketAfter (fun w : F64 => w)
            [F64.ofRat 12 10, F64.ofRat 108 100]
            (drawTicket (fun w : F64 => w) [F64.ofRat 12 10, F64.ofRat 108 100]
              (RandomSource.sample (seededRandom 1401)).1) (j + 1)) (F64.ofNat 0) = false) ∨
        (i = [F64.ofRat 12 10, F64.ofRat 108 100].length - 1 ∧
          ∀ j, j < [F64.ofRat 12 10, F64.ofRat 108 100].length →
            F64.le (ticketAfter (fun w : F64 => w) [F64.ofRat 12 10, F64.ofRat 108 100]
              (drawTicket (fun w : F64 => w) [F64.ofRat 12 10, F64.ofRat 108 100]
                (RandomSource.sample (seededRandom 1401)).1) (j + 1)) (F64.ofNat 0)
              = false))) :=
  ⟨by decide, pickWeighted_least_index (fun w : F64 => w) [F64.ofRat 12 10, F64.ofRat 108 100]
    (seededRandom 1401) (by decide)⟩

set_option maxRecDepth 1000000 in
/-- C20, as stated, fails on the weights `2 ^ -53`, `1`, `1 + 2 ^ -51` (all
positive) and the sample `1 / 2`: the sum of the weights is `2 + 2 ^ -51` in
binary64, the ticket is `1 + 2 ^ -52`, the difference `ticket - 2 ^ -53`
rounds to `1` and `1 - 1 <= 0`, so `pickWeighted` returns the item of index
`1`. The condition of the claim, `s * totalWeight - (w_0 + ... + w_i) <= 0`,
is false at the indices `0` and `1` and true at index `2`, both when it is
evaluated in binary64 and when it is evaluated exactly, so the claim names the
item of index `2`. -/
theorem pickWeighted_rounding_counterexample :
    (tieWeights ≠ [] ∧ ∀ w ∈ tieWeights, F64.lt (F64.ofNat 0) w = true) ∧
    (pickWeighted (fun w : F64 => w) tieWeights
      (⟨2147483648, by decide⟩ : FixedSample)).1 = tieWeights[1]? ∧
    tieWeights[1]? ≠ tieWeights[2]? ∧
    (F64.le (F64.sub (drawTicket (fun w : F64 => w) tieWeights 2147483648)
        (weightPrefix (fun w : F64 => w) tieWeights 1)) (F64.ofNat 0) = false ∧
      F64.le (F64.sub (drawTicket (fun w : F64 => w) tieWeights 2147483648)
        (weightPrefix (fun w : F64 => w) tieWeights 2)) (F64.ofNat 0) = false ∧
      F64.le (F64.sub (drawTicket (fun w : F64 => w) tieWeights 2147483648)
        (weightPrefix (fun w : F64 => w) tieWeights 3)) (F64.ofNat 0) = true) ∧
    (¬ (2147483648 / 4294967296 : ℚ) * (tieWeights.map F64.toRat).sum
        - ((tieWeights.map F64.toRat).take 1).sum ≤ 0 ∧
      ¬ (2147483648 / 4294967296 : ℚ) * (tieWeights.map F64.toRat).sum
        - ((tieWeights.map F64.toRat).take 2).sum ≤ 0 ∧
      (2147483648 / 4294967296 : ℚ) * (tieWeights.map F64.toRat).sum
        - ((tieWeights.map F64.toRat).take 3).sum ≤ 0) := by
  refine ⟨⟨by decide, by decide⟩, by decide!, by decide, ⟨by decide!, by decide!, by decide!⟩, ?_⟩
  simp only [tieWeights, List.map_cons, List.map_nil, F64.toRat, List.take_succ_cons,
    List.take_zero, List.sum_cons, List.sum_nil]
  norm_num [zpow_neg]

/-! ## Trees of open cells -/

theorem Adjacent.symm {a b : Cell} (h : Adjacent a b) : Adjacent b a := by
  obtain ⟨d, hd, hx, hy⟩ := h
  simp only [DIRS, List.mem_cons, List.mem_singleton, List.not_mem_nil, or_false] at hd
  rcases hd with h | h | h | h <;> subst h <;> simp only [] at hx hy
  · exact ⟨⟨-1, 0, 'L'⟩, by decide, by simp only []; omega, by simp only []; omega⟩
  · exact ⟨⟨1, 0, 'R'⟩, by decide, by simp only []; omega, by simp only []; omega⟩
  · exact ⟨⟨0, -1, 'U'⟩, by decide, by simp only []; omega, by simp only []; omega⟩
  · exact ⟨⟨0, 1, 'D'⟩, by decide, by simp only []; omega, by simp only []; omega⟩

/-- Two cells are one unit step apart exactly when they differ by one in one
coordinate and agree in the other. -/
theorem adjacent_iff (a b : Cell) :
    Adjacent a b ↔ ((b.x = a.x + 1 ∨ b.x = a.x - 1) ∧ b.y = a.y) ∨
      (b.x = a.x ∧ (b.y = a.y + 1 ∨ b.y = a.y - 1)) := by
  unfold Adjacent
  simp only [DIRS, List.mem_cons, List.mem_singleton, List.not_mem_nil, or_false,
    exists_eq_or_imp, exists_eq_left]
  omega

theorem SimplePath.of_open {g g1 : Grid Bool} {a b : Cell} {p : List Cell}
    (h : SimplePath g a b p) (hsub : ∀ c ∈ p, g1.cell c = true) : SimplePath g1 a b p :=
  ⟨h.1, h.2.1, hsub, h.2.2.2.1, h.2.2.2.2⟩

theorem SimplePath.reverse {g : Grid Bool} {a b : Cell} {p : List Cell}
    (h : SimplePath g a b p) : SimplePath g b a p.reverse := by
  obtain ⟨h1, h2, h3, h4, h5⟩ := h
  refine ⟨by rw [List.head?_reverse]; exact h2, by rw [List.getLast?_reverse]; exact h1,
    fun c hc => h3 c (List.mem_reverse.1 hc), ?_, List.nodup_reverse.2 h5⟩
  rw [stepChain_iff_chain', List.chain'_reverse]
  rw [stepChain_iff_chain'] at h4
  exact h4.imp (fun {x y} hxy => hxy.symm)

/-- A simple path from a cell to itself is the cell alone. -/
theorem SimplePath.eq_singleton {g : Grid Bool} {a : Cell} {p : List Cell}
    (h : SimplePath g a a p) : p = [a] := by
  obtain ⟨h1, h2, _, _, h5⟩ := h
  cases p with
  | nil => simp at h1
  | cons x t =>
    simp only [List.head?_cons, Option.some.injEq] at h1
    subst h1
    cases t with
    | nil => rfl
    | cons y t2 =>
      rw [List.getLast?_cons_cons] at h2
      have : x ∈ y :: t2 := List.mem_of_getLast?_eq_some h2
      exact absurd this (List.nodup_cons.1 h5).1

theorem simplePath_singleton (g : Grid Bool) (a : Cell) (h : g.cell a = true) :
    SimplePath g a a [a] :=
  ⟨rfl, rfl, fun c hc => by rw [List.mem_singleton.1 hc]; exact h, trivial,
    List.nodup_singleton a⟩

theorem list_eq_nil_or_snoc {α : Type} (l : List α) : l = [] ∨ ∃ q x, l = q ++ [x] := by
  rcases l.eq_nil_or_concat with h | ⟨q, x, h⟩
  · exact Or.inl h
  · exact Or.inr ⟨q, x, by rw [h, List.concat_eq_append]⟩

/-- In a simple path, a cell whose only open neighbour is `c` is an end of the
path. -/
theorem SimplePath.leaf_is_end {g : Grid Bool} {a b leaf c : Cell} {p : List Cell}
    (h : SimplePath g a b p) (hmem : leaf ∈ p)
    (honly : ∀ u, g.cell u = true → u ≠ leaf → Adjacent u leaf → u = c) :
    a = leaf ∨ b = leaf := by
  obtain ⟨h1, h2, h3, h4, h5⟩ := h
  rw [stepChain_iff_chain'] at h4
  obtain ⟨s, t, hp⟩ := List.append_of_mem hmem
  subst hp
  rcases list_eq_nil_or_snoc s with hs | ⟨s1, u, hs⟩
  · subst hs
    left
    simpa using h1.symm
  · subst hs
    cases t with
    | nil =>
      right
      simpa using h2.symm
    | cons v t1 =>
      exfalso
      rw [List.chain'_split] at h4
      obtain ⟨h4a, h4b⟩ := h4
      have hlv : Adjacent leaf v := (List.chain'_cons.1 h4b).1
      have hul : Adjacent u leaf := by
        rw [List.append_assoc, List.singleton_append, List.chain'_split] at h4a
        exact (List.chain'_cons.1 h4a.2).1
      have hu_ne : u ≠ leaf := by
        intro e; subst e
        simp [List.nodup_append] at h5
      have hv_ne : v ≠ leaf := by
        intro e; subst e
        simp [List.nodup_append] at h5
      have huv : u ≠ v := by
        intro e; subst e
        simp [List.nodup_append] at h5
      have hu := honly u (h3 u (by simp)) hu_ne hul
      have hv := honly v (h3 v (by simp)) hv_ne hlv.symm
      exact huv (by rw [hu, hv])

/-- A simple path that ends at a cell whose only open neighbour is `c`, and
does not begin there, is a simple path to `c` followed by that cell. -/
theorem SimplePath.snoc_leaf {g : Grid Bool} {a leaf c : Cell} {p : List Cell}
    (h : SimplePath g a leaf p) (hne : a ≠ leaf)
    (honly : ∀ u, g.cell u = true → u ≠ leaf → Adjacent u leaf → u = c) :
    ∃ q, p = q ++ [leaf] ∧ SimplePath g a c q ∧ leaf ∉ q := by
  obtain ⟨h1, h2, h3, h4, h5⟩ := h
  rw [stepChain_iff_chain'] at h4
  rcases list_eq_nil_or_snoc p with hp | ⟨q, x, hp⟩
  · subst hp; simp at h1
  · subst hp
    have hx : x = leaf := by simpa using h2
    subst hx
    have hnq : x ∉ q := by
      intro hx
      have := List.nodup_append.1 h5
      exact this.2.2 hx (List.mem_singleton_self x) 
    rcases list_eq_nil_or_snoc q with hq | ⟨q1, u, hq⟩
    · subst hq
      simp at h1
      exact absurd h1.symm hne
    · subst hq
      have hux : Adjacent u x := by
        rw [List.append_assoc, List.singleton_append, List.chain'_split] at h4
        exact (List.chain'_cons.1 h4.2).1
      have hu_ne : u ≠ x := fun e => hnq (by rw [← e]; simp)
      have huc : u = c := honly u (h3 u (by simp)) hu_ne hux
      refine ⟨q1 ++ [u], rfl, ⟨?_, ?_, ?_, ?_, ?_⟩, hnq⟩
      · cases q1 with
        | nil => simpa using h1
        | cons y q2 => simpa using h1
      · rw [List.getLast?_append_of_ne_nil _ (by simp), huc]
        rfl
      · intro y hy
        exact h3 y (List.mem_append_left _ hy)
      · rw [stepChain_iff_chain']
        exact (List.chain'_append.1 h4).1
      · exact (List.nodup_append.1 h5).1

/-- Opening a closed cell whose only open neighbour is the open cell `c`
keeps the property that any two open cells are joined by exactly one simple
path. -/
theorem UniquePaths.add_leaf {g g1 : Grid Bool} {leaf c : Cell}
    (hO : ∀ x, g1.cell x = true ↔ (g.cell x = true ∨ x = leaf))
    (hleaf : g.cell leaf = false) (hc : g.cell c = true) (hadj : Adjacent c leaf)
    (honly : ∀ u, g.cell u = true → Adjacent u leaf → u = c)
    (htree : UniquePaths g) : UniquePaths g1 := by
  have honly1 : ∀ u, g1.cell u = true → u ≠ leaf → Adjacent u leaf → u = c :=
    fun u hu hne ha => honly u (((hO u).1 hu).resolve_right hne) ha
  have hsub : ∀ x, g.cell x = true → g1.cell x = true := fun x hx => (hO x).2 (Or.inl hx)
  have hrestrict : ∀ {a b : Cell} {p : List Cell}, SimplePath g1 a b p → leaf ∉ p →
      SimplePath g a b p := by
    intro a b p hp hn
    refine hp.of_open (fun x hx => ?_)
    rcases (hO x).1 (hp.2.2.1 x hx) with h | h
    · exact h
    · rw [h] at hx; exact absurd hx hn
  have hto : ∀ a, g.cell a = true → ∃! p, SimplePath g1 a leaf p := by
    intro a ha
    have hal : a ≠ leaf := by
      intro e; rw [e, hleaf] at ha; exact absurd ha (by decide)
    obtain ⟨q0, hq0, huq⟩ := htree a c ha hc
    have hq0ne : q0 ≠ [] := by
      intro e; rw [e] at hq0; simp [SimplePath] at hq0
    have hlq : leaf ∉ q0 := by
      intro hm
      have := hq0.2.2.1 leaf hm
      rw [hleaf] at this
      exact absurd this (by decide)
    refine ⟨q0 ++ [leaf], ⟨?_, ?_, ?_, ?_, ?_⟩, ?_⟩
    · rw [List.head?_append_of_ne_nil _ hq0ne]; exact hq0.1
    · simp
    · intro x hx
      rcases List.mem_append.1 hx with h | h
      · exact hsub x (hq0.2.2.1 x h)
      · rw [List.mem_singleton.1 h]; exact (hO leaf).2 (Or.inr rfl)
    · apply StepChain.append_singleton _ _ hq0.2.2.2.1
      intro x hx
      rw [hq0.2.1] at hx
      rw [← Option.some.inj hx]
      exact hadj
    · rw [List.nodup_append]
      refine ⟨hq0.2.2.2.2, List.nodup_singleton _, ?_⟩
      intro x hx1 hx2
      rw [List.mem_singleton.1 hx2] at hx1
      exact hlq hx1
    · intro p hp
      obtain ⟨q, hpq, hq, hnq⟩ := hp.snoc_leaf hal honly1
      rw [hpq, huq q (hrestrict hq hnq)]
  intro a b ha hb
  by_cases hal : a = leaf
  · by_cases hbl : b = leaf
    · rw [hal, hbl]
      exact ⟨[leaf], simplePath_singleton g1 leaf ((hO leaf).2 (Or.inr rfl)),
        fun p hp => hp.eq_singleton⟩
    · have hb1 : g.cell b = true := ((hO b).1 hb).resolve_right hbl
      obtain ⟨p0, hp0, hu⟩ := hto b hb1
      rw [hal]
      refine ⟨p0.reverse, hp0.reverse, fun p hp => ?_⟩
      have := hu p.reverse hp.reverse
      rw [← this, List.reverse_reverse]
  · have ha1 : g.cell a = true := ((hO a).1 ha).resolve_right hal
    by_cases hbl : b = leaf
    · rw [hbl]
      exact hto a ha1
    · have hb1 : g.cell b = true := ((hO b).1 hb).resolve_right hbl
      obtain ⟨p0, hp0, hu⟩ := htree a b ha1 hb1
      refine ⟨p0, hp0.of_open (fun x hx => hsub x (hp0.2.2.1 x hx)), fun p hp => ?_⟩
      have hn : leaf ∉ p := by
        intro hm
        rcases hp.leaf_is_end hm honly1 with h | h
        · exact hal h
        · exact hbl h
      exact hu p (hrestrict hp hn)

/-! ## The shape of the carved grid -/

theorem Grid.get_set_true (g : Grid Bool) (x y x1 y1 : Int) (h : g.Has x y) :
    (g.set x y true).get x1 y1 = true ↔ (g.get x1 y1 = true ∨ (x1 = x ∧ y1 = y)) := by
  rw [Grid.get_set]
  by_cases hxy : x1 = x ∧ y1 = y
  · rw [if_pos ⟨hxy.1, hxy.2, h⟩]
    simp [hxy]
  · rw [if_neg (fun k => hxy ⟨k.1, k.2.1⟩)]
    simp [hxy]

theorem Grid.cell_set_true (g : Grid Bool) (x y : Int) (h : g.Has x y) (u : Cell) :
    (g.set x y true).cell u = true ↔ (g.cell u = true ∨ u = ⟨x, y⟩) := by
  unfold Grid.cell
  rw [Grid.get_set_true g x y u.x u.y h, cell_eq_iff]

theorem openCount_set (g : Grid Bool) (x y : Int) (hin : g.Has x y) (hv : g.get x y = false) :
    openCount (g.set x y true) = openCount g + 1 := by
  unfold openCount
  rw [Grid.set_width, Grid.set_height]
  have hnot : (x, y) ∉ (Finset.Ico (0 : Int) g.width ×ˢ Finset.Ico (0 : Int) g.height).filter
      (fun q => g.get q.1 q.2 = true) := by
    simp only [Finset.mem_filter, not_and]
    intro _
    rw [hv]
    decide
  have heq : (Finset.Ico (0 : Int) g.width ×ˢ Finset.Ico (0 : Int) g.height).filter
        (fun q => (g.set x y true).get q.1 q.2 = true)
      = insert (x, y) ((Finset.Ico (0 : Int) g.width ×ˢ Finset.Ico (0 : Int) g.height).filter
          (fun q => g.get q.1 q.2 = true)) := by
    ext q
    simp only [Finset.mem_filter, Finset.mem_insert, Finset.mem_product, Finset.mem_Ico,
      Grid.get_set_true g x y q.1 q.2 hin]
    unfold Grid.Has at hin
    constructor
    · rintro ⟨hq, h | h⟩
      · exact Or.inr ⟨hq, h⟩
      · exact Or.inl (Prod.ext h.1 h.2)
    · rintro (h | ⟨hq, h⟩)
      · rw [h]
        exact ⟨⟨⟨hin.1, hin.2.1⟩, hin.2.2⟩, Or.inr ⟨rfl, rfl⟩⟩
      · exact ⟨hq, Or.inl h⟩
  rw [heq, Finset.card_insert_of_not_mem hnot]

/-- One step of the carver keeps the shape: opening, from an open cell `c` with
odd coordinates, the cell `p` next to it and the closed cell `t` two steps away
in the same direction. The cell `p` was closed before. -/
theorem MazeShape.open_passage {g : Grid Bool} (hs : MazeShape g)
    (cx cy dx dy px py tx ty : Int)
    (hd : (dx = 1 ∧ dy = 0) ∨ (dx = -1 ∧ dy = 0) ∨ (dx = 0 ∧ dy = 1) ∨ (dx = 0 ∧ dy = -1))
    (hpx : px = cx + dx) (hpy : py = cy + dy) (htx : tx = cx + 2 * dx) (hty : ty = cy + 2 * dy)
    (hcx : cx % 2 = 1) (hcy : cy % 2 = 1)
    (hc : g.get cx cy = true) (ht : g.get tx ty = false)
    (hp : g.Has px py) (hT : g.Has tx ty) :
    g.get px py = false ∧ MazeShape ((g.set px py true).set tx ty true) := by
  have hfalse : ∀ {P : Prop}, g.get tx ty = true → P := by
    intro P h
    rw [ht] at h
    exact absurd h (by decide)
  have hpclosed : g.get px py = false := by
    by_contra hne
    have hpo : g.get px py = true := by simpa using hne
    by_cases hh : dy = 0
    · have h2 := hs.passH px py hpo (by omega)
      by_cases h1 : dx = 1
      · apply hfalse
        rw [show tx = px + 1 by omega, show ty = py by omega]
        exact h2.2
      · apply hfalse
        rw [show tx = px - 1 by omega, show ty = py by omega]
        exact h2.1
    · have h2 := hs.passV px py hpo (by omega)
      by_cases h1 : dy = 1
      · apply hfalse
        rw [show tx = px by omega, show ty = py + 1 by omega]
        exact h2.2
      · apply hfalse
        rw [show tx = px by omega, show ty = py - 1 by omega]
        exact h2.1
  have hT1 : (g.set px py true).Has tx ty :=
    (Grid.has_congr g _ (Grid.set_width g _ _ _) (Grid.set_height g _ _ _) tx ty).2 hT
  have hget : ∀ x y : Int, ((g.set px py true).set tx ty true).get x y = true ↔
      (g.get x y = true ∨ (x = px ∧ y = py) ∨ (x = tx ∧ y = ty)) := by
    intro x y
    rw [Grid.get_set_true _ _ _ _ _ hT1, Grid.get_set_true _ _ _ _ _ hp, or_assoc]
  have hcopen : ((g.set px py true).set tx ty true).get cx cy = true := (hget cx cy).2 (Or.inl hc)
  have htopen : ((g.set px py true).set tx ty true).get tx ty = true :=
    (hget tx ty).2 (Or.inr (Or.inr ⟨rfl, rfl⟩))
  refine ⟨hpclosed, ⟨?_, ?_, ?_, ?_⟩⟩
  · intro x y hxy
    rcases (hget x y).1 hxy with h | h | h
    · exact hs.parity x y h
    · omega
    · omega
  · intro x y hxy hx
    rcases (hget x y).1 hxy with h | h | h
    · have := hs.passH x y h hx
      exact ⟨(hget _ _).2 (Or.inl this.1), (hget _ _).2 (Or.inl this.2)⟩
    · by_cases h1 : dx = 1
      · constructor
        · rw [show x - 1 = cx by omega, show y = cy by omega]; exact hcopen
        · rw [show x + 1 = tx by omega, show y = ty by omega]; exact htopen
      · constructor
        · rw [show x - 1 = tx by omega, show y = ty by omega]; exact htopen
        · rw [show x + 1 = cx by omega, show y = cy by omega]; exact hcopen
    · omega
  · intro x y hxy hy
    rcases (hget x y).1 hxy with h | h | h
    · have := hs.passV x y h hy
      exact ⟨(hget _ _).2 (Or.inl this.1), (hget _ _).2 (Or.inl this.2)⟩
    · by_cases h1 : dy = 1
      · constructor
        · rw [show y - 1 = cy by omega, show x = cx by omega]; exact hcopen
        · rw [show y + 1 = ty by omega, show x = tx by omega]; exact htopen
      · constructor
        · rw [show y - 1 = ty by omega, show x = tx by omega]; exact htopen
        · rw [show y + 1 = cy by omega, show x = cx by omega]; exact hcopen
    · omega
  · have htree1 : UniquePaths (g.set px py true) := by
      refine @UniquePaths.add_leaf g _ ⟨px, py⟩ ⟨cx, cy⟩
        (fun u => Grid.cell_set_true g px py hp u) hpclosed hc ?_ ?_ hs.tree
      · rw [adjacent_iff]
        simp only []
        omega
      · intro u hu hadj
        rw [adjacent_iff] at hadj
        simp only [] at hadj
        have hpar := hs.parity u.x u.y hu
        by_cases hut : u.x = tx ∧ u.y = ty
        · apply hfalse
          rw [← hut.1, ← hut.2]
          exact hu
        · apply cell_ext <;> simp only [] <;> omega
    refine @UniquePaths.add_leaf (g.set px py true) _ ⟨tx, ty⟩ ⟨px, py⟩
      (fun u => Grid.cell_set_true _ tx ty hT1 u) ?_ ?_ ?_ ?_ htree1
    · show (g.set px py true).get tx ty = false
      rw [Grid.get_set, if_neg (by omega)]
      exact ht
    · exact (Grid.cell_set_true g px py hp _).2 (Or.inr rfl)
    · rw [adjacent_iff]
      simp only []
      omega
    · intro u hu hadj
      rw [adjacent_iff] at hadj
      simp only [] at hadj
      rcases (Grid.cell_set_true g px py hp u).1 hu with h | h
      · exfalso
        have hu1 : g.get u.x u.y = true := h
        by_cases hux : u.x % 2 = 0
        · have h2 := hs.passH u.x u.y hu1 hux
          by_cases h3 : tx = u.x + 1
          · apply hfalse
            rw [h3, show ty = u.y by omega]
            exact h2.2
          · apply hfalse
            rw [show tx = u.x - 1 by omega, show ty = u.y by omega]
            exact h2.1
        · have h2 := hs.passV u.x u.y hu1 (by omega)
          by_cases h3 : ty = u.y + 1
          · apply hfalse
            rw [h3, show tx = u.x by omega]
            exact h2.2
          · apply hfalse
            rw [show ty = u.y - 1 by omega, show tx = u.x by omega]
            exact h2.1
      · exact h

/-! ## The sequence generator -/

theorem Rng.next_eq (g : Rng) :
    Rng.next g = (mix32 (numberAdd g.t 0x6d2b79f5 % 4294967296), ⟨numberAdd g.t 0x6d2b79f5⟩) :=
  rfl

theorem mix32_lt (t : Nat) : mix32 t < 4294967296 :=
  Nat.mod_lt _ (by decide)

/-- A rounding that has nothing to round: a mantissa below `2 ^ 53` with an
exponent in the normal range is kept as it is. -/
theorem F64.round_small (m e : Int) (hm : m.natAbs < 2 ^ 53) (hm0 : m ≠ 0) (he : -1074 ≤ e)
    (he2 : e ≤ 970) : F64.round m e = F64.fin m e := by
  unfold F64.round
  have h0 : m.natAbs ≠ 0 := fun h => hm0 (Int.natAbs_eq_zero.1 h)
  have hbl : F64.bitLength m.natAbs ≤ 53 := F64.bitLengthAux_le _ _ _ hm
  have hblz : (F64.bitLength m.natAbs : Int) ≤ 53 := by exact_mod_cast hbl
  have hq : max (e + (F64.bitLength m.natAbs : Int) - 53) (-1074) - e ≤ 0 := by omega
  have hs : (max (e + (F64.bitLength m.natAbs : Int) - 53) (-1074) - e).toNat = 0 :=
    Int.toNat_eq_zero.2 hq
  simp only [h0, if_false, hs, pow_zero, Nat.div_one, Nat.mod_one, mul_zero]
  have h1 : ¬ (1 < 0 ∨ (0 = 1 ∧ m.natAbs % 2 = 1)) := by omega
  rw [if_neg h1]
  have h2 : ¬ (1024 : Int) < (F64.bitLength m.natAbs : Int) + (e + ((0 : Nat) : Int)) := by
    omega
  rw [if_neg h2]
  congr 1
  · split_ifs with hneg
    · omega
    · omega
  · omega

/-- The value `k / 2 ^ 32` of a 32-bit sample is a binary64 value. -/
theorem F64.ofSample_toRat (k : Nat) (hk : k < 4294967296) :
    (F64.ofSample k).toRat = (k : ℚ) / 4294967296 := by
  unfold F64.ofSample
  by_cases h0 : k = 0
  · subst h0
    have : F64.round ((0 : Nat) : Int) (-32) = F64.fin 0 0 := by decide
    rw [this]
    simp [F64.toRat]
  · rw [F64.round_small _ _ (by simp only [Int.natAbs_ofNat]; omega) (by omega) (by omega)
      (by omega)]
    simp only [F64.toRat, Int.cast_natCast]
    rw [zpow_neg, ← div_eq_mul_inv]
    norm_num

/-- C21: for every seed and every call, the generator returned by
`seededRandom` yields `k / 2 ^ 32` for an integer `k` with
`0 <= k < 2 ^ 32`: the binary64 quotient is that rational number exactly, so
the returned value `v` satisfies `0 <= v < 1`. -/
theorem seededRandom_unit_interval (seed n : Nat) :
    seededSample seed n < 4294967296 ∧
    (F64.ofSample (seededSample seed n)).toRat = (seededSample seed n : ℚ) / 4294967296 ∧
    0 ≤ (F64.ofSample (seededSample seed n)).toRat ∧
    (F64.ofSample (seededSample seed n)).toRat < 1 := by
  have hk : seededSample seed n < 4294967296 := by
    unfold seededSample
    rw [Rng.next_eq]
    exact mix32_lt _
  have hv := F64.ofSample_toRat _ hk
  refine ⟨hk, hv, ?_, ?_⟩
  · rw [hv]
    positivity
  · rw [hv, div_lt_one (by norm_num)]
    exact_mod_cast hk

theorem Rng.after_succ (g : Rng) (n : Nat) :
    Rng.after g (n + 1) = (Rng.next (Rng.after g n)).2 := rfl

/-- While the sum stays below `2 ^ 53` the state of the generator after `n`
calls is the seed, folded to 32 bits, plus `n` times the increment. -/
theorem Rng.after_exact (seed : Nat) :
    ∀ n : Nat, seed % 4294967296 + n * 0x6d2b79f5 < 9007199254740992 →
      Rng.after (seededRandom seed) n = ⟨seed % 4294967296 + n * 0x6d2b79f5⟩ := by
  intro n
  induction n with
  | zero => intro _; simp [Rng.after, seededRandom]
  | succ k ih =>
    intro h
    have hstep := Rng.after_succ (seededRandom seed) k
    have hsum : seed % 4294967296 + k * 0x6d2b79f5 + 0x6d2b79f5
        = seed % 4294967296 + (k + 1) * 0x6d2b79f5 := by omega
    rw [hstep, ih (by omega), Rng.next_eq]
    show (⟨numberAdd (seed % 4294967296 + k * 0x6d2b79f5) 0x6d2b79f5⟩ : Rng) = _
    rw [numberAdd, if_pos (by omega), hsum]

/-- The state of the reference generator after `n` calls. -/
theorem wrapAfter_eq (seed : Nat) :
    ∀ n : Nat, wrapAfter seed n = (seed % 4294967296 + n * 0x6d2b79f5) % 4294967296 := by
  intro n
  induction n with
  | zero => simp [wrapAfter]
  | succ k ih =>
    have hstep : wrapAfter seed (k + 1) = (wrapAfter seed k + 0x6d2b79f5) % 4294967296 := rfl
    rw [hstep, ih]
    omega

/-- While the state of the code is exact, its outputs are those of the
reference generator. -/
theorem seededSample_eq_wrap (seed n : Nat)
    (h : seed % 4294967296 + (n + 1) * 0x6d2b79f5 < 9007199254740992) :
    seededSample seed n = wrapSample seed n := by
  have h1 : seededSample seed n
      = mix32 (numberAdd (seed % 4294967296 + n * 0x6d2b79f5) 0x6d2b79f5 % 4294967296) := by
    rw [seededSample, Rng.after_exact seed n (by omega), Rng.next_eq]
  have h2 : wrapSample seed n = mix32 ((wrapAfter seed n + 0x6d2b79f5) % 4294967296) := rfl
  have h3 : (seed % 4294967296 + n * 0x6d2b79f5 + 0x6d2b79f5) % 4294967296
      = ((seed % 4294967296 + n * 0x6d2b79f5) % 4294967296 + 0x6d2b79f5) % 4294967296 := by
    omega
  rw [h1, h2, wrapAfter_eq, numberAdd, if_pos (by omega), h3]

/-- C22, as amended: for every seed and every `k >= 1` (here `k = n + 1`) such
that the seed, folded to 32 bits, plus `k` times `0x6d2b79f5` is below
`2 ^ 53`, the `k`-th value returned by `seededRandom(seed)` equals the `k`-th
value of the reference generator that keeps its state as an unsigned 32-bit
integer and adds `0x6d2b79f5` with wrap-around modulo `2 ^ 32` before the same
mixing; this covers the first `4917756` values of every seed. -/
theorem seededRandom_refines_wrap (seed n : Nat)
    (h : seed % 4294967296 + (n + 1) * 0x6d2b79f5 < 9007199254740992) :
    seededSample seed n = wrapSample seed n ∧
    (∀ s m : Nat, m + 1 ≤ 4917756 → seededSample s m = wrapSample s m) :=
  ⟨seededSample_eq_wrap seed n h, fun s m hm => seededSample_eq_wrap s m (by omega)⟩

theorem seededRandom_refines_wrap_witness :
    1401 % 4294967296 + (0 + 1) * 0x6d2b79f5 < 9007199254740992 ∧
    (seededSample 1401 0 = wrapSample 1401 0 ∧
    (∀ s m : Nat, m + 1 ≤ 4917756 → seededSample s m = wrapSample s m)) :=
  ⟨by decide, seededRandom_refines_wrap 1401 0 (by decide)⟩

set_option maxRecDepth 1000000 in
/-- C22, as stated, fails for long sequences: the variable `t` of the code is
a binary64 number that is never folded to 32 bits, and from `2 ^ 53` on its
sums are rounded. With seed `1401` the state before call number `4917760` is
`9007199260974468`; the sum `9007201092540281` is odd, so it is rounded to
`9007201092540280`, and the call returns `1197754501 / 2 ^ 32`, while the
reference generator returns `3895913047 / 2 ^ 32`. -/
theorem seededRandom_rounding_counterexample :
    seededSample 1401 4917759 = 1197754501 ∧ wrapSample 1401 4917759 = 3895913047 ∧
    seededSample 1401 4917759 ≠ wrapSample 1401 4917759 := by
  have hc : seededSample 1401 4917759 = 1197754501 := by
    have hn : (4917759 : Nat) = 4917758 + 1 := by norm_num
    rw [seededSample, hn, Rng.after_succ, Rng.after_exact 1401 4917758 (by decide)]
    decide!
  have hr : wrapSample 1401 4917759 = 3895913047 := by
    unfold wrapSample
    rw [wrapAfter_eq]
    decide!
  refine ⟨hc, hr, ?_⟩
  rw [hc, hr]
  decide

/-! ## The lattice, the even grid sides and the fallback -/

/-- C24: the claimed odd alignment fails for the first entry of
`BASE_LEVEL_DEFS`: its grid side is `floor(400 / 20) = 20`, the lattice has
`floor(19 / 2) = 9` nodes per side, and `2 * 9 + 1 = 19` is not `20`. The
alignment `side = 2 * nodes + 1` holds exactly for the odd grid sides (size
900 of the catalog) and fails for every even one (sizes 400 and 600). For every
side of at least three the lattice nodes do map to distinct cells strictly
inside the border. -/
theorem gridSize_not_odd_aligned :
    gridSize levelEmberKeep = 20 ∧ (gridSize levelEmberKeep - 1) / 2 = 9 ∧
    gridSize levelEmberKeep ≠ 2 * ((gridSize levelEmberKeep - 1) / 2) + 1 ∧
    (∀ config : Config,
      gridSize config = 2 * ((gridSize config - 1) / 2) + 1 ↔ gridSize config % 2 = 1) ∧
    (∀ (config : Config) (x y : Int), 3 ≤ gridSize config →
      0 ≤ x → x < (((gridSize config - 1) / 2 : Nat) : Int) →
      0 ≤ y → y < (((gridSize config - 1) / 2 : Nat) : Int) →
      1 ≤ 1 + 2 * x ∧ 1 + 2 * x ≤ (gridSize config : Int) - 2 ∧
      1 ≤ 1 + 2 * y ∧ 1 + 2 * y ≤ (gridSize config : Int) - 2) ∧
    (∀ x y x1 y1 : Int, (⟨1 + 2 * x, 1 + 2 * y⟩ : Cell) = ⟨1 + 2 * x1, 1 + 2 * y1⟩ →
      x = x1 ∧ y = y1) := by
  refine ⟨by decide, by decide, by decide, fun config => by omega, ?_, ?_⟩
  · intro config x y hn hx0 hx1 hy0 hy1
    omega
  · intro x y x1 y1 h
    rw [cell_eq_iff] at h
    simp only [] at h
    omega

/-- The fallback on an even grid side: no goal is found and the exit is the
forced corridor from the farthest cell. -/
theorem fallbackLayout_of_even (config : Config) (hn : 4 ≤ gridSize config)
    (heven : gridSize config % 2 = 0) :
    fallbackLayout config =
      ⟨openExit (forRange (farthestCell (gridSize config) (fallbackSearch config).2.1).1.x.toNat
          (gridSize config - 1)
          (fun x g => g.set x (farthestCell (gridSize config) (fallbackSearch config).2.1).1.y
            true) (fallbackSearch config).1)
          (farthestCell (gridSize config) (fallbackSearch config).2.1).1.y,
        ⟨1, 1⟩,
        ⟨(gridSize config : Int) - 2,
          (farthestCell (gridSize config) (fallbackSearch config).2.1).1.y⟩⟩ := by
  unfold fallbackLayout
  simp only []
  rw [fallback_no_goal config hn heven]

/-- C26: for a config whose grid side `n` is even and at least `10`, whatever
its profile names, `carvePerfectMaze` returns a grid with column `n - 2` (and
column `n - 1`) closed, and `addLoops` and the sculptors of
`applyProfileFeatures` keep such a grid so; hence `findGoalNearRight` returns
`none` in every attempt and in the fallback, every attempt ends in `continue`,
and `generateQualifiedLayout` returns the fallback layout whose exit is the
forced straight corridor from the farthest reachable cell. -/
theorem generateQualifiedLayout_even_side (trig : Trig) (config : Config)
    (hn : 10 ≤ gridSize config) (heven : gridSize config % 2 = 0) :
    (∀ (seed : Nat) (profile : Profile),
      RightClosed (carvePerfectMaze (gridSize config) (gridSize config) seed profile).1) ∧
    (∀ (g : Grid Bool) (rng : Rng) (amount : Int), g.width = gridSize config →
      RightClosed g → RightClosed (addLoops g rng amount).1) ∧
    (∀ (g : Grid Bool) (rng : Rng) (name : String), g.width = gridSize config →
      RightClosed g → RightClosed (applySingleProfile trig g rng name).1) ∧
    (∀ (g : Grid Bool) (rng : Rng), g.width = gridSize config →
      RightClosed g → RightClosed (applyProfileFeatures trig g rng config).1) ∧
    (∀ attempt : Nat,
      findGoalNearRight (attemptSearch trig config attempt).1
        (attemptSearch trig config attempt).2.1 = none ∧
      attemptLayout trig config attempt = none) ∧
    findGoalNearRight (fallbackSearch config).1 (fallbackSearch config).2.1 = none ∧
    generateQualifiedLayout trig config = fallbackLayout config ∧
    fallbackLayout config =
      ⟨openExit (forRange (farthestCell (gridSize config) (fallbackSearch config).2.1).1.x.toNat
          (gridSize config - 1)
          (fun x g => g.set x (farthestCell (gridSize config) (fallbackSearch config).2.1).1.y
            true) (fallbackSearch config).1)
          (farthestCell (gridSize config) (fallbackSearch config).2.1).1.y,
        ⟨1, 1⟩,
        ⟨(gridSize config : Int) - 2,
          (farthestCell (gridSize config) (fallbackSearch config).2.1).1.y⟩⟩ := by
  refine ⟨?_, ?_, ?_, ?_, ?_, fallback_no_goal config (by omega) heven, ?_,
    fallbackLayout_of_even config (by omega) heven⟩
  · intro seed profile
    exact carveWith_rightClosed _ _ _ _ (by omega) heven
  · intro g rng amount _ h
    exact addLoops_rightClosed g rng amount h
  · intro g rng name hw h
    exact applySingleProfile_rightClosed trig g rng name h (by omega)
  · intro g rng hw h
    exact applyProfileFeatures_rightClosed trig g rng config h (by omega)
  · intro attempt
    exact ⟨attempt_no_goal trig config attempt hn heven,
      attemptLayout_none_of_even trig config attempt hn heven⟩
  · exact generateQualifiedLayout_of_none trig config
      (fun k _ => attemptLayout_none_of_even trig config k hn heven)

theorem generateQualifiedLayout_even_side_witness :
    (10 ≤ gridSize levelEmberKeep ∧ gridSize levelEmberKeep % 2 = 0) ∧
    ((∀ (seed : Nat) (profile : Profile),
      RightClosed (carvePerfectMaze (gridSize levelEmberKeep) (gridSize levelEmberKeep)
        seed profile).1) ∧
    (∀ (g : Grid Bool) (rng : Rng) (amount : Int), g.width = gridSize levelEmberKeep →
      RightClosed g → RightClosed (addLoops g rng amount).1) ∧
    (∀ (g : Grid Bool) (rng : Rng) (name : String), g.width = gridSize levelEmberKeep →
      RightClosed g → RightClosed (applySingleProfile flatTrig g rng name).1) ∧
    (∀ (g : Grid Bool) (rng : Rng), g.width = gridSize levelEmberKeep →
      RightClosed g → RightClosed (applyProfileFeatures flatTrig g rng levelEmberKeep).1) ∧
    (∀ attempt : Nat,
      findGoalNearRight (attemptSearch flatTrig levelEmberKeep attempt).1
        (attemptSearch flatTrig levelEmberKeep attempt).2.1 = none ∧
      attemptLayout flatTrig levelEmberKeep attempt = none) ∧
    findGoalNearRight (fallbackSearch levelEmberKeep).1 (fallbackSearch levelEmberKeep).2.1
      = none ∧
    generateQualifiedLayout flatTrig levelEmberKeep = fallbackLayout levelEmberKeep ∧
    fallbackLayout levelEmberKeep =
      ⟨openExit (forRange
          (farthestCell (gridSize levelEmberKeep) (fallbackSearch levelEmberKeep).2.1).1.x.toNat
          (gridSize levelEmberKeep - 1)
          (fun x g => g.set x
            (farthestCell (gridSize levelEmberKeep) (fallbackSearch levelEmberKeep).2.1).1.y
            true) (fallbackSearch levelEmberKeep).1)
          (farthestCell (gridSize levelEmberKeep) (fallbackSearch levelEmberKeep).2.1).1.y,
        ⟨1, 1⟩,
        ⟨(gridSize levelEmberKeep : Int) - 2,
          (farthestCell (gridSize levelEmberKeep) (fallbackSearch levelEmberKeep).2.1).1.y⟩⟩) :=
  ⟨⟨by decide, by decide⟩,
    generateQualifiedLayout_even_side flatTrig levelEmberKeep (by decide) (by decide)⟩

/-! ## The fallback checks no threshold -/

/-- The fallback layout depends on the size, the seed, the loop count and the
three carving weights of the config only. -/
theorem fallbackLayout_congr (c1 c2 : Config) (hsize : c1.size = c2.size)
    (hseed : c1.seed = c2.seed) (hloop : c1.loopCount = c2.loopCount)
    (hbx : c1.biasX = c2.biasX) (hby : c1.biasY = c2.biasY)
    (hst : c1.straightness = c2.straightness) : fallbackLayout c1 = fallbackLayout c2 := by
  have hg : gridSize c1 = gridSize c2 := by unfold gridSize; rw [hsize]
  have hs : fallbackSearch c1 = fallbackSearch c2 := by
    unfold fallbackSearch
    rw [hg, hseed, hloop, hbx, hby, hst]
  unfold fallbackLayout
  rw [hg, hs]

/-- The walk of `reconstructPath` from the start cell to itself is the start
cell alone. -/
theorem reconstructPath_self (prev : Grid (Option Cell)) (s : Cell) :
    reconstructPath prev s ⟨s.x, s.y⟩ = [s] := by
  unfold reconstructPath reconstructLoop
  simp

/-- On a grid of side three every attempt is rejected: the only candidate goal
is the start cell, whose path is one cell long and so counts as
`rightDownOneTurn`. -/
theorem attemptLayout_none_of_three (trig : Trig) (config : Config)
    (h3 : gridSize config = 3) (attempt : Nat) : attemptLayout trig config attempt = none := by
  unfold attemptLayout
  simp only []
  cases hgoal : findGoalNearRight (attemptSearch trig config attempt).1
      (attemptSearch trig config attempt).2.1 with
  | none => rfl
  | some goal =>
    obtain ⟨g, hw, hh, hg⟩ := attemptSearch_sealed trig config attempt
    obtain ⟨p1, p2, p3, _⟩ := (findGoalNearRight_spec _ _).1 goal hgoal
    have hd := sealAndSearch_dims g
    rw [hg, hd.2, hh, h3] at p3
    rw [hg, hd.1, hw, h3] at p1
    have hx : goal.x = 1 := by rw [p1]; norm_num
    have hy : goal.y = 1 := by push_cast at p3; omega
    simp only []
    rw [hx, hy]
    have hpath := reconstructPath_self (attemptSearch trig config attempt).2.2 ⟨1, 1⟩
    simp only [] at hpath
    rw [hpath]
    simp only [analyzePath, List.length_singleton, Nat.one_lt_ofNat, if_true]
    split_ifs <;> rfl

/-- C29: for any two configs that agree on size, seed, loopCount, biasX, biasY
and straightness and for which all 280 attempts are rejected,
`generateQualifiedLayout` returns the same layout, the fallback layout,
whatever their profile, minPathLength and minTurns. The fallback layout is
returned even when its start-to-goal path misses a threshold: for the first
entry of `BASE_LEVEL_DEFS` that path has 52 cells, fewer than the
`minPathLength` of 62. -/
theorem generateQualifiedLayout_fallback_independent (trig : Trig) (c1 c2 : Config)
    (hsize : c1.size = c2.size) (hseed : c1.seed = c2.seed)
    (hloop : c1.loopCount = c2.loopCount) (hbx : c1.biasX = c2.biasX)
    (hby : c1.biasY = c2.biasY) (hst : c1.straightness = c2.straightness)
    (h1 : ∀ k, k < 280 → attemptLayout trig c1 k = none)
    (h2 : ∀ k, k < 280 → attemptLayout trig c2 k = none) :
    generateQualifiedLayout trig c1 = generateQualifiedLayout trig c2 ∧
    generateQualifiedLayout trig c1 = fallbackLayout c1 ∧
    fallbackLayout c1 = fallbackLayout c2 ∧
    ((analyzePath (reconstructPath
        (bfs (fallbackLayout levelEmberKeep).grid (fallbackLayout levelEmberKeep).start).2
        (fallbackLayout levelEmberKeep).start (fallbackLayout levelEmberKeep).goal)).length : Int)
      < levelEmberKeep.minPathLength := by
  have e1 := generateQualifiedLayout_of_none trig c1 h1
  have e2 := generateQualifiedLayout_of_none trig c2 h2
  have e3 := fallbackLayout_congr c1 c2 hsize hseed hloop hbx hby hst
  refine ⟨by rw [e1, e2, e3], e1, e3, ?_⟩
  rw [fallbackLayout_emberKeep]
  simp only []
  rw [emberKeep_path.1]
  decide

theorem generateQualifiedLayout_fallback_independent_witness :
    (levelEmberKeep.size = levelEmberKeepPlain.size ∧
      levelEmberKeep.seed = levelEmberKeepPlain.seed ∧
      levelEmberKeep.loopCount = levelEmberKeepPlain.loopCount ∧
      levelEmberKeep.biasX = levelEmberKeepPlain.biasX ∧
      levelEmberKeep.biasY = levelEmberKeepPlain.biasY ∧
      levelEmberKeep.straightness = levelEmberKeepPlain.straightness ∧
      (∀ k, k < 280 → attemptLayout flatTrig levelEmberKeep k = none) ∧
      (∀ k, k < 280 → attemptLayout flatTrig levelEmberKeepPlain k = none)) ∧
    (generateQualifiedLayout flatTrig levelEmberKeep
      = generateQualifiedLayout flatTrig levelEmberKeepPlain ∧
    generateQualifiedLayout flatTrig levelEmberKeep = fallbackLayout levelEmberKeep ∧
    fallbackLayout levelEmberKeep = fallbackLayout levelEmberKeepPlain ∧
    ((analyzePath (reconstructPath
        (bfs (fallbackLayout levelEmberKeep).grid (fallbackLayout levelEmberKeep).start).2
        (fallbackLayout levelEmberKeep).start (fallbackLayout levelEmberKeep).goal)).length : Int)
      < levelEmberKeep.minPathLength) :=
  ⟨⟨rfl, rfl, rfl, rfl, rfl, rfl,
      fun k _ => attemptLayout_none_of_even flatTrig levelEmberKeep k (by decide) (by decide),
      fun k _ => attemptLayout_none_of_even flatTrig levelEmberKeepPlain k (by decide)
        (by decide)⟩,
    generateQualifiedLayout_fallback_independent flatTrig levelEmberKeep levelEmberKeepPlain
      rfl rfl rfl rfl rfl rfl
      (fun k _ => attemptLayout_none_of_even flatTrig levelEmberKeep k (by decide) (by decide))
      (fun k _ => attemptLayout_none_of_even flatTrig levelEmberKeepPlain k (by decide)
        (by decide))⟩

/-- The start-to-goal path of a layout, as the acceptance test measures it. -/
theorem layout_path_spec {n : Nat} {l : Layout} (h : GoodLayout n l) (hn : 3 ≤ n) :
    (reconstructPath (bfs l.grid l.start).2 l.start l.goal).head? = some l.start ∧
    (reconstructPath (bfs l.grid l.start).2 l.start l.goal).getLast? = some l.goal ∧
    ((reconstructPath (bfs l.grid l.start).2 l.start l.goal).length : Int)
      = (bfs l.grid l.start).1.get l.goal.x l.goal.y + 1 := by
  have hs : l.grid.Has l.start.x l.start.y := by rw [h.start]; exact h.has_start hn
  have hg := h.walkable_goal hn
  have hreach : (bfs l.grid l.start).1.get l.goal.x l.goal.y ≠ -1 := by
    rw [h.start]
    exact h.bfs_reaches hn _ _ hg.1 hg.2
  obtain ⟨p1, _, p3, p4, _⟩ := reconstructPath_spec l.grid l.start hs l.goal
    (Grid.has_of_interior _ _ _ hg.1) hreach
  exact ⟨p3, p4, p1⟩

/-- No threshold is reduced or checked in the fallback. For every config with
grid side at least three that exhausts the 280 attempts the result is the
fallback layout, whose start-to-goal path (the result of `reconstructPath` over
`bfs` of the returned grid) begins at the start, ends at the goal and has
`dist[goal] + 1` cells; `analyzePath` can report `rightDownOneTurn = true` for
it, and does so whenever the grid side is three, where the path is the start
cell alone. -/
theorem fallback_path_can_be_trivial (trig : Trig) (config : Config)
    (hn : 3 ≤ gridSize config) (h : ∀ k, k < 280 → attemptLayout trig config k = none) :
    generateQualifiedLayout trig config = fallbackLayout config ∧
    (reconstructPath (bfs (fallbackLayout config).grid (fallbackLayout config).start).2
      (fallbackLayout config).start (fallbackLayout config).goal).head?
        = some (fallbackLayout config).start ∧
    (reconstructPath (bfs (fallbackLayout config).grid (fallbackLayout config).start).2
      (fallbackLayout config).start (fallbackLayout config).goal).getLast?
        = some (fallbackLayout config).goal ∧
    ((reconstructPath (bfs (fallbackLayout config).grid (fallbackLayout config).start).2
      (fallbackLayout config).start (fallbackLayout config).goal).length : Int)
        = (bfs (fallbackLayout config).grid (fallbackLayout config).start).1.get
            (fallbackLayout config).goal.x (fallbackLayout config).goal.y + 1 ∧
    (gridSize config = 3 →
      reconstructPath (bfs (fallbackLayout config).grid (fallbackLayout config).start).2
        (fallbackLayout config).start (fallbackLayout config).goal = [⟨1, 1⟩] ∧
      (analyzePath (reconstructPath
        (bfs (fallbackLayout config).grid (fallbackLayout config).start).2
        (fallbackLayout config).start (fallbackLayout config).goal)).rightDownOneTurn
          = true) := by
  have hgood := fallbackLayout_good config hn
  obtain ⟨p1, p2, p3⟩ := layout_path_spec hgood hn
  refine ⟨generateQualifiedLayout_of_none trig config h, p1, p2, p3, ?_⟩
  intro h3
  have hstart := hgood.start
  have hgx := hgood.goalX
  have hgy := hgood.goalY
  rw [h3] at hgx hgy
  have hgoal : (fallbackLayout config).goal = ⟨1, 1⟩ := by
    apply cell_ext
    · rw [hgx]; norm_num
    · simp only []; push_cast at hgy; omega
  have hpath : reconstructPath
      (bfs (fallbackLayout config).grid (fallbackLayout config).start).2
      (fallbackLayout config).start (fallbackLayout config).goal = [⟨1, 1⟩] := by
    rw [hgoal, hstart]
    exact reconstructPath_self _ ⟨1, 1⟩
  refine ⟨hpath, ?_⟩
  rw [hpath]
  rfl

theorem fallback_path_can_be_trivial_witness :
    (3 ≤ gridSize levelTiny ∧ ∀ k, k < 280 → attemptLayout flatTrig levelTiny k = none) ∧
    (generateQualifiedLayout flatTrig levelTiny = fallbackLayout levelTiny ∧
    (reconstructPath (bfs (fallbackLayout levelTiny).grid (fallbackLayout levelTiny).start).2
      (fallbackLayout levelTiny).start (fallbackLayout levelTiny).goal).head?
        = some (fallbackLayout levelTiny).start ∧
    (reconstructPath (bfs (fallbackLayout levelTiny).grid (fallbackLayout levelTiny).start).2
      (fallbackLayout levelTiny).start (fallbackLayout levelTiny).goal).getLast?
        = some (fallbackLayout levelTiny).goal ∧
    ((reconstructPath (bfs (fallbackLayout levelTiny).grid (fallbackLayout levelTiny).start).2
      (fallbackLayout levelTiny).start (fallbackLayout levelTiny).goal).length : Int)
        = (bfs (fallbackLayout levelTiny).grid (fallbackLayout levelTiny).start).1.get
            (fallbackLayout levelTiny).goal.x (fallbackLayout levelTiny).goal.y + 1 ∧
    (gridSize levelTiny = 3 →
      reconstructPath (bfs (fallbackLayout levelTiny).grid (fallbackLayout levelTiny).start).2
        (fallbackLayout levelTiny).start (fallbackLayout levelTiny).goal = [⟨1, 1⟩] ∧
      (analyzePath (reconstructPath
        (bfs (fallbackLayout levelTiny).grid (fallbackLayout levelTiny).start).2
        (fallbackLayout levelTiny).start (fallbackLayout levelTiny).goal)).rightDownOneTurn
          = true)) :=
  ⟨⟨by decide, fun k _ => attemptLayout_none_of_three flatTrig levelTiny (by decide) k⟩,
    fallback_path_can_be_trivial flatTrig levelTiny (by decide)
      (fun k _ => attemptLayout_none_of_three flatTrig levelTiny (by decide) k)⟩

/-- C30: the fallback does not do what the comment above it says (that its
layout is still non-trivial because the thresholds are gradually reduced). For
the config of size 60 (grid side three) with `minPathLength = 1` and
`minTurns = 0` every one of the 280 attempts is rejected, because its path is
the start cell alone and so counts as `rightDownOneTurn`; the fallback, which
reduces and checks no threshold, then returns a layout whose start-to-goal
path is again the start cell alone, for which `analyzePath` reports
`rightDownOneTurn = true`. -/
theorem fallback_trivial_path :
    (∀ k, k < 280 → attemptLayout flatTrig levelTiny k = none) ∧
    generateQualifiedLayout flatTrig levelTiny = fallbackLayout levelTiny ∧
    (analyzePath (reconstructPath
      (bfs (generateQualifiedLayout flatTrig levelTiny).grid
        (generateQualifiedLayout flatTrig levelTiny).start).2
      (generateQualifiedLayout flatTrig levelTiny).start
      (generateQualifiedLayout flatTrig levelTiny).goal)).rightDownOneTurn = true := by
  have hnone : ∀ k, k < 280 → attemptLayout flatTrig levelTiny k = none :=
    fun k _ => attemptLayout_none_of_three flatTrig levelTiny (by decide) k
  have hfb := generateQualifiedLayout_of_none flatTrig levelTiny hnone
  refine ⟨hnone, hfb, ?_⟩
  have hgood := fallbackLayout_good levelTiny (by decide)
  have hstart := hgood.start
  have hgx := hgood.goalX
  have hgy := hgood.goalY
  have h3 : gridSize levelTiny = 3 := by decide
  rw [h3] at hgx hgy
  have hgoal : (fallbackLayout levelTiny).goal = ⟨1, 1⟩ := by
    apply cell_ext
    · rw [hgx]; norm_num
    · simp only []; push_cast at hgy; omega
  rw [hfb, hgoal, hstart, reconstructPath_self _ ⟨1, 1⟩]
  rfl

/-! ## Searching again after pruning -/

/-- Two grids of the same shape with the same entries are equal. -/
theorem Grid.ext_get {α : Type} [Inhabited α] (g g1 : Grid α) (hw : g1.width = g.width)
    (hh : g1.height = g.height) (h : ∀ x y : Int, g.Has x y → g1.get x y = g.get x y) :
    g1 = g := by
  have hrows : g1.rows = g.rows := by
    apply List.ext_getElem
    · rw [g1.hrows, g.hrows, hh]
    · intro i h1 h2
      have hi : i < g.height := by rw [← g.hrows]; exact h2
      have hl1 : g1.rows[i].length = g1.width := g1.hcols _ (List.getElem_mem _)
      have hl2 : g.rows[i].length = g.width := g.hcols _ (List.getElem_mem _)
      apply List.ext_getElem
      · rw [hl1, hl2, hw]
      · intro j k1 k2
        have hj : j < g.width := by rw [← hl2]; exact k2
        have key := h (j : Int) (i : Int) ⟨by omega, by omega, by omega, by omega⟩
        unfold Grid.get at key
        rw [if_pos ⟨by omega, by omega⟩, if_pos ⟨by omega, by omega⟩] at key
        simp only [Int.toNat_ofNat] at key
        rw [list_getD_of_lt _ _ _ h1, list_getD_of_lt _ _ _ h2] at key
        simp only [List.get_eq_getElem] at key
        rw [list_getD_of_lt _ _ _ k1, list_getD_of_lt _ _ _ k2] at key
        simpa using key
  cases g with
  | mk gw gh grows ghr ghc =>
    cases g1 with
    | mk g1w g1h g1rows g1hr g1hc =>
      simp only [] at hw hh hrows
      subst hw hh hrows
      rfl

/-- The visit of a neighbour by `bfs` reads the grid at that neighbour only, and
only when it lies strictly inside the border. -/
theorem bfsVisit_congr (g g1 : Grid Bool) (hw : g1.width = g.width) (hh : g1.height = g.height)
    (cur : Cell) (st : BfsState) (d : Dir)
    (h : g.Interior (cur.x + d.dx) (cur.y + d.dy) →
      g1.get (cur.x + d.dx) (cur.y + d.dy) = g.get (cur.x + d.dx) (cur.y + d.dy)) :
    bfsVisit g1 cur st d = bfsVisit g cur st d := by
  unfold bfsVisit
  simp only []
  rw [hw, hh]
  by_cases h1 : cur.x + d.dx < 1 ∨ cur.y + d.dy < 1 ∨ cur.x + d.dx ≥ (g.width : Int) - 1 ∨
      cur.y + d.dy ≥ (g.height : Int) - 1
  · rw [if_pos h1, if_pos h1]
  · rw [if_neg h1, if_neg h1, h (by unfold Grid.Interior; omega)]

theorem foldl_congr_mem {α β : Type} (f f1 : β → α → β) (l : List α)
    (h : ∀ a ∈ l, ∀ s, f1 s a = f s a) : ∀ s, l.foldl f1 s = l.foldl f s := by
  induction l with
  | nil => intro s; rfl
  | cons a rest ih =>
    intro s
    rw [List.foldl_cons, List.foldl_cons, h a (List.mem_cons_self _ _) s]
    exact ih (fun b hb => h b (List.mem_cons_of_mem _ hb)) _

/-- The loop of `bfs` runs alike on two grids of the same shape that agree on
the interior neighbours of every cell that the search reaches. -/
theorem bfsLoop_congr (g g1 : Grid Bool) (s : Cell) (hw : g1.width = g.width)
    (hh : g1.height = g.height)
    (hagree : ∀ (c : Cell) (n : Nat), Reach g s n c → ∀ d ∈ DIRS,
      g.Interior (c.x + d.dx) (c.y + d.dy) →
      g1.get (c.x + d.dx) (c.y + d.dy) = g.get (c.x + d.dx) (c.y + d.dy)) :
    ∀ (fuel : Nat) (st : BfsState), BfsInv g s st.dist st.prev st.queue st.head →
      bfsLoop g1 fuel st = bfsLoop g fuel st := by
  intro fuel
  induction fuel with
  | zero => intro st _; rfl
  | succ f ih =>
    intro st hinv
    unfold bfsLoop
    cases hq : st.queue[st.head]? with
    | none => rfl
    | some cur =>
      simp only []
      obtain ⟨_, n, _, hreach⟩ := hinv.sound cur (mem_of_getElem? _ _ _ hq)
      have hfold := foldl_congr_mem (bfsVisit g cur) (bfsVisit g1 cur) DIRS
        (fun d hd st1 => bfsVisit_congr g g1 hw hh cur st1 d (hagree cur n hreach d hd))
        ⟨st.dist, st.prev, st.queue, st.head + 1⟩
      rw [hfold]
      exact ih _ (bfsStep_inv hinv hq).1

/-- The function `bfs` returns the same grids on two grids of the same shape
that agree on the interior neighbours of every cell that the search reaches. -/
theorem bfs_congr (g g1 : Grid Bool) (s : Cell) (hs : g.Has s.x s.y) (hw : g1.width = g.width)
    (hh : g1.height = g.height)
    (hagree : ∀ (c : Cell) (n : Nat), Reach g s n c → ∀ d ∈ DIRS,
      g.Interior (c.x + d.dx) (c.y + d.dy) →
      g1.get (c.x + d.dx) (c.y + d.dy) = g.get (c.x + d.dx) (c.y + d.dy)) :
    bfs g1 s = bfs g s := by
  have hinit : bfsInit g1 s = bfsInit g s := by
    unfold bfsInit
    rw [hw, hh]
  have hloop := bfsLoop_congr g g1 s hw hh hagree (g.width * g.height + 1) (bfsInit g s)
    (bfsInit_inv g s hs)
  unfold bfs
  simp only []
  rw [hw, hh, hinit, hloop]

/-- Pruning keeps the interior neighbours of the cells that the search reaches
as they are. -/
theorem prune_agree (g : Grid Bool) (s : Cell) (hs : g.Has s.x s.y) (c : Cell) (n : Nat)
    (hr : Reach g s n c) (d : Dir) (hd : d ∈ DIRS)
    (hi : g.Interior (c.x + d.dx) (c.y + d.dy)) :
    (pruneUnreachableFromStart g (bfs g s).1).get (c.x + d.dx) (c.y + d.dy)
      = g.get (c.x + d.dx) (c.y + d.dy) := by
  rw [pruneUnreachableFromStart_get, if_pos hi]
  cases hopen : g.get (c.x + d.dx) (c.y + d.dy) with
  | false => rfl
  | true =>
    have hstep : Reach g s (n + 1) ⟨c.x + d.dx, c.y + d.dy⟩ :=
      Reach.step hr ⟨d, hd, rfl, rfl⟩ ⟨hi, hopen⟩
    have h1 := (bfs_dist_of_reach g s hs hstep).1
    have h2 := bfs_dist_nonneg g s hs ⟨c.x + d.dx, c.y + d.dy⟩
      (Grid.has_of_interior g _ _ hi) h1
    simp only [] at h1 h2
    have : ¬ (bfs g s).1.get (c.x + d.dx) (c.y + d.dy) < 0 := by omega
    simp [this]

/-- C28: for a grid and a start cell strictly inside its border, `bfs` on the
grid pruned by `pruneUnreachableFromStart` returns exactly the `dist` and
`prev` grids of the `bfs` before pruning, so pruning changes the reachability,
the distance and the predecessor of no cell; and pruning a second time, with
the distances of the second search, changes nothing. -/
theorem bfs_after_prune (g : Grid Bool) (start : Cell) (hs : g.Interior start.x start.y) :
    bfs (pruneUnreachableFromStart g (bfs g start).1) start = bfs g start ∧
    (∀ c : Cell,
      (bfs (pruneUnreachableFromStart g (bfs g start).1) start).1.get c.x c.y
        = (bfs g start).1.get c.x c.y ∧
      (bfs (pruneUnreachableFromStart g (bfs g start).1) start).2.get c.x c.y
        = (bfs g start).2.get c.x c.y) ∧
    pruneUnreachableFromStart (pruneUnreachableFromStart g (bfs g start).1)
      (bfs (pruneUnreachableFromStart g (bfs g start).1) start).1
      = pruneUnreachableFromStart g (bfs g start).1 := by
  have hhas := Grid.has_of_interior g _ _ hs
  have hd := pruneUnreachableFromStart_dims g (bfs g start).1
  have heq : bfs (pruneUnreachableFromStart g (bfs g start).1) start = bfs g start :=
    bfs_congr g _ start hhas hd.1 hd.2
      (fun c n hr d hdir hi => prune_agree g start hhas c n hr d hdir hi)
  refine ⟨heq, fun c => by rw [heq]; exact ⟨rfl, rfl⟩, ?_⟩
  rw [heq]
  apply Grid.ext_get
  · exact (pruneUnreachableFromStart_dims _ _).1
  · exact (pruneUnreachableFromStart_dims _ _).2
  · intro x y _
    rw [pruneUnreachableFromStart_get]
    by_cases hi : g.Interior x y
    · have hi2 : (pruneUnreachableFromStart g (bfs g start).1).Interior x y := by
        unfold Grid.Interior at hi ⊢
        rw [hd.1, hd.2]
        exact hi
      rw [if_pos hi2, pruneUnreachableFromStart_get, if_pos hi]
      cases g.get x y <;> cases decide ((bfs g start).1.get x y < 0) <;> rfl
    · have hi2 : ¬ (pruneUnreachableFromStart g (bfs g start).1).Interior x y := by
        unfold Grid.Interior at hi ⊢
        rw [hd.1, hd.2]
        exact hi
      rw [if_neg hi2]

set_option maxRecDepth 1000000 in
/-- The grid `islandGrid` from the start `(1, 1)`: pruning closes the open
cell `(3, 3)`, so the pruned grid differs from the grid, and the search on the
pruned grid returns the same grids, with distance `2` at `(2, 2)`. -/
theorem bfs_after_prune_witness :
    islandGrid.Interior 1 1 ∧
    (bfs (pruneUnreachableFromStart islandGrid (bfs islandGrid ⟨1, 1⟩).1) ⟨1, 1⟩
      = bfs islandGrid ⟨1, 1⟩ ∧
    (∀ c : Cell,
      (bfs (pruneUnreachableFromStart islandGrid (bfs islandGrid ⟨1, 1⟩).1)
        ⟨1, 1⟩).1.get c.x c.y = (bfs islandGrid ⟨1, 1⟩).1.get c.x c.y ∧
      (bfs (pruneUnreachableFromStart islandGrid (bfs islandGrid ⟨1, 1⟩).1)
        ⟨1, 1⟩).2.get c.x c.y = (bfs islandGrid ⟨1, 1⟩).2.get c.x c.y) ∧
    pruneUnreachableFromStart
      (pruneUnreachableFromStart islandGrid (bfs islandGrid ⟨1, 1⟩).1)
      (bfs (pruneUnreachableFromStart islandGrid (bfs islandGrid ⟨1, 1⟩).1)
        ⟨1, 1⟩).1
      = pruneUnreachableFromStart islandGrid (bfs islandGrid ⟨1, 1⟩).1) ∧
    (islandGrid.get 3 3 = true ∧
      (pruneUnreachableFromStart islandGrid (bfs islandGrid ⟨1, 1⟩).1).get 3 3 = false ∧
      pruneUnreachableFromStart islandGrid (bfs islandGrid ⟨1, 1⟩).1 ≠ islandGrid ∧
      (bfs (pruneUnreachableFromStart islandGrid (bfs islandGrid ⟨1, 1⟩).1) ⟨1, 1⟩).1.get 2 2
        = 2) :=
  ⟨by decide, bfs_after_prune islandGrid ⟨1, 1⟩ (by decide),
    by decide, by decide!,
    fun h => by
      have h1 : (pruneUnreachableFromStart islandGrid (bfs islandGrid ⟨1, 1⟩).1).get 3 3
          = false := by decide!
      rw [h] at h1
      exact absurd h1 (by decide),
    by decide!⟩

/-! ## The arena of the circular relics -/

/-- The first loop nest of `addCircularRelics`: a cell strictly inside the
border is closed when the square root of its squared distance from the centre
is greater than `maxR`; every other cell keeps its value. -/
theorem relicArena_get (g : Grid Bool) (maxR : F64) (x y : Int) :
    (relicArena g maxR).get x y =
      if g.Interior x y ∧ F64.lt maxR (F64.sqrtNat
          ((x - ((g.width / 2 : Nat) : Int)) * (x - ((g.width / 2 : Nat) : Int))
            + (y - ((g.height / 2 : Nat) : Int)) * (y - ((g.height / 2 : Nat) : Int))).toNat)
          = true
      then false else g.get x y := by
  unfold relicArena
  simp only []
  have h := forRange_nest_get
    (fun x y (s : Grid Bool) =>
      if F64.lt maxR (F64.sqrtNat
          ((x - ((g.width / 2 : Nat) : Int)) * (x - ((g.width / 2 : Nat) : Int))
            + (y - ((g.height / 2 : Nat) : Int)) * (y - ((g.height / 2 : Nat) : Int))).toNat)
          = true
      then s.set x y false else s)
    (fun x y v =>
      if F64.lt maxR (F64.sqrtNat
          ((x - ((g.width / 2 : Nat) : Int)) * (x - ((g.width / 2 : Nat) : Int))
            + (y - ((g.height / 2 : Nat) : Int)) * (y - ((g.height / 2 : Nat) : Int))).toNat)
          = true
      then false else v)
    (fun x y s x1 y1 => by
      simp only []
      split_ifs with hc hxy hxy
      · rw [Grid.get_set_false, if_pos hxy]
      · rw [Grid.get_set_false, if_neg hxy]
      · rw [hxy.1, hxy.2]
      · rfl)
    1 (g.width - 1) 1 (g.height - 1) g x y
  rw [h]
  unfold Grid.Interior
  by_cases hi : (1 ≤ x ∧ x < (g.width : Int) - 1 ∧ 1 ≤ y ∧ y < (g.height : Int) - 1)
  · have hi2 : (((1 : Nat) : Int) ≤ y ∧ y < ((g.height - 1 : Nat) : Int)) ∧
        ((1 : Nat) : Int) ≤ x ∧ x < ((g.width - 1 : Nat) : Int) := by omega
    rw [if_pos hi2]
    by_cases hc : F64.lt maxR (F64.sqrtNat
          ((x - ((g.width / 2 : Nat) : Int)) * (x - ((g.width / 2 : Nat) : Int))
            + (y - ((g.height / 2 : Nat) : Int)) * (y - ((g.height / 2 : Nat) : Int))).toNat)
          = true
    · rw [if_pos hc, if_pos ⟨hi, hc⟩]
    · rw [if_neg hc, if_neg (fun k => hc k.2)]
  · have hi2 : ¬ ((((1 : Nat) : Int) ≤ y ∧ y < ((g.height - 1 : Nat) : Int)) ∧
        ((1 : Nat) : Int) ≤ x ∧ x < ((g.width - 1 : Nat) : Int)) := by omega
    rw [if_neg hi2, if_neg (fun k => hi k.1)]

/-- C25, as amended: `addCircularRelics` starts from the grid in which a cell
strictly inside the border is closed exactly when it was closed before or
`Math.sqrt(dx * dx + dy * dy) > maxR`, for `dx`, `dy` its offsets from the
centre `(floor(width / 2), floor(height / 2))` and
`maxR = Math.min(width, height) * 0.42` (42% of the smaller side, not of the
half-size), all in binary64; the first pass opens no cell, changes no cell
outside the interior and keeps the shape of the grid. -/
theorem addCircularRelics_arena {σ : Type} [RandomSource σ] (trig : Trig) (g : Grid Bool)
    (rng : σ) :
    addCircularRelics trig g rng = relicRings.foldl
      (fun (s : Grid Bool × σ) (ring : F64 × Nat) =>
        (ringAngles 256 (F64.ofNat 0)).foldl
          (relicStamp trig g.width g.height (F64.mul (relicMaxR g) ring.1) ring.2) s)
      (relicArena g (relicMaxR g), rng) ∧
    relicMaxR g = F64.mul (F64.ofNat (min g.width g.height)) (F64.ofRat 42 100) ∧
    ((relicArena g (relicMaxR g)).width = g.width ∧
      (relicArena g (relicMaxR g)).height = g.height) ∧
    (∀ x y : Int, g.Interior x y →
      ((relicArena g (relicMaxR g)).get x y = false ↔
        (g.get x y = false ∨ F64.lt (relicMaxR g) (F64.sqrtNat
          ((x - ((g.width / 2 : Nat) : Int)) * (x - ((g.width / 2 : Nat) : Int))
            + (y - ((g.height / 2 : Nat) : Int)) * (y - ((g.height / 2 : Nat) : Int))).toNat)
          = true))) ∧
    (∀ x y : Int, (relicArena g (relicMaxR g)).get x y = true → g.get x y = true) ∧
    (∀ x y : Int, ¬ g.Interior x y → (relicArena g (relicMaxR g)).get x y = g.get x y) := by
  refine ⟨rfl, rfl, relicArena_dims g _, ?_, ?_, ?_⟩
  · intro x y hi
    rw [relicArena_get]
    by_cases hc : F64.lt (relicMaxR g) (F64.sqrtNat
          ((x - ((g.width / 2 : Nat) : Int)) * (x - ((g.width / 2 : Nat) : Int))
            + (y - ((g.height / 2 : Nat) : Int)) * (y - ((g.height / 2 : Nat) : Int))).toNat)
          = true
    · rw [if_pos ⟨hi, hc⟩]
      exact ⟨fun _ => Or.inr hc, fun _ => rfl⟩
    · rw [if_neg (fun k => hc k.2)]
      exact ⟨fun h => Or.inl h, fun h => h.resolve_right hc⟩
  · intro x y h
    rw [relicArena_get] at h
    split_ifs at h
    exact h
  · intro x y hi
    rw [relicArena_get, if_neg (fun k => hi k.1)]

set_option maxRecDepth 1000000 in
/-- C25, as stated, fails on the open grid of side ten: the centre is
`(5, 5)` and 42% of the half-size is `0.42 * 10 / 2 = 2.1`; the cell `(2, 5)`
lies strictly inside the border at distance `3 > 2.1` from the centre, yet the
first pass leaves it open, because the code compares the distance with
`maxR = 10 * 0.42 = 4.2`. -/
theorem addCircularRelics_half_size_counterexample :
    (createGrid 10 10 true).Interior 2 5 ∧ (createGrid 10 10 true).get 2 5 = true ∧
    ((2 : Int) - ((10 / 2 : Nat) : Int)) * (2 - ((10 / 2 : Nat) : Int))
      + (5 - ((10 / 2 : Nat) : Int)) * (5 - ((10 / 2 : Nat) : Int)) = 3 * 3 ∧
    ((42 : ℚ) / 100 * (min 10 10 : Nat) / 2 < 3) ∧
    (relicArena (createGrid 10 10 true) (relicMaxR (createGrid 10 10 true))).get 2 5 = true := by
  refine ⟨by decide, by decide, by decide, by norm_num, ?_⟩
  rw [relicArena_get]
  have hs : Nat.sqrt (9 * 4 ^ 64) = 3 * 2 ^ 64 := by
    have h := Nat.sqrt_eq (3 * 2 ^ 64)
    have e : 3 * 2 ^ 64 * (3 * 2 ^ 64) = 9 * 4 ^ 64 := by norm_num
    rw [e] at h
    exact h
  have hroot : F64.sqrtNat 9 = F64.fin 6755399441055744 (-51) := by
    unfold F64.sqrtNat
    simp only []
    rw [hs]
    decide!
  have harg : (((2 : Int) - (((createGrid 10 10 true).width / 2 : Nat) : Int))
      * (2 - (((createGrid 10 10 true).width / 2 : Nat) : Int))
      + (5 - (((createGrid 10 10 true).height / 2 : Nat) : Int))
        * (5 - (((createGrid 10 10 true).height / 2 : Nat) : Int))).toNat = 9 := by decide
  rw [harg, hroot]
  have hlt : F64.lt (relicMaxR (createGrid 10 10 true)) (F64.fin 6755399441055744 (-51))
      = false := by decide!
  rw [hlt]
  decide

/-! ## The loop injector -/

/-- One attempt keeps the shape of the grid, closes nothing, changes no cell
outside the interior and opens at most one cell. -/
theorem BridgeStep.facts {g g1 : Grid Bool} (h : BridgeStep g g1) :
    (g1.width = g.width ∧ g1.height = g.height) ∧
    (∀ x y : Int, g.get x y = true → g1.get x y = true) ∧
    (∀ x y : Int, ¬ g.Interior x y → g1.get x y = g.get x y) ∧
    openCount g1 ≤ openCount g + 1 := by
  obtain ⟨x, y, hi, h1 | h1 | h1⟩ := h
  · rw [h1.2]
    exact ⟨⟨rfl, rfl⟩, fun _ _ k => k, fun _ _ _ => rfl, Nat.le_succ _⟩
  · rw [h1.2.2]
    exact ⟨⟨rfl, rfl⟩, fun _ _ k => k, fun _ _ _ => rfl, Nat.le_succ _⟩
  · rw [h1.2.2]
    have hin : g.Has x y := by
      unfold Grid.Interior at hi
      unfold Grid.Has
      omega
    refine ⟨⟨Grid.set_width _ _ _ _, Grid.set_height _ _ _ _⟩, ?_, ?_, ?_⟩
    · intro x1 y1 k
      exact (Grid.get_set_true g x y x1 y1 hin).2 (Or.inl k)
    · intro x1 y1 k
      rw [Grid.get_set]
      by_cases hxy : x1 = x ∧ y1 = y ∧ g.Has x y
      · exfalso
        apply k
        rw [hxy.1, hxy.2.1]
        exact hi
      · rw [if_neg hxy]
    · rw [openCount_set g x y hin h1.1]

/-- The body of the loop of `addLoops` is one attempt. -/
theorem addLoops_body_step {σ : Type} [RandomSource σ] (w h : Nat) (hw : 3 ≤ w) (hh : 3 ≤ h)
    (s : Grid Bool × σ) (hsw : s.1.width = w) (hsh : s.1.height = h) :
    BridgeStep s.1
      (if s.1.get (1 + scaleSample (RandomSource.sample s.2).1 ((w : Int) - 2))
            (1 + scaleSample (RandomSource.sample (RandomSource.sample s.2).2).1 ((h : Int) - 2))
          = true
        then (s.1, (RandomSource.sample (RandomSource.sample s.2).2).2)
        else
          if (s.1.get (1 + scaleSample (RandomSource.sample s.2).1 ((w : Int) - 2) - 1)
                (1 + scaleSample (RandomSource.sample (RandomSource.sample s.2).2).1
                  ((h : Int) - 2)) &&
              s.1.get (1 + scaleSample (RandomSource.sample s.2).1 ((w : Int) - 2) + 1)
                (1 + scaleSample (RandomSource.sample (RandomSource.sample s.2).2).1
                  ((h : Int) - 2)) ||
              s.1.get (1 + scaleSample (RandomSource.sample s.2).1 ((w : Int) - 2))
                (1 + scaleSample (RandomSource.sample (RandomSource.sample s.2).2).1
                  ((h : Int) - 2) - 1) &&
              s.1.get (1 + scaleSample (RandomSource.sample s.2).1 ((w : Int) - 2))
                (1 + scaleSample (RandomSource.sample (RandomSource.sample s.2).2).1
                  ((h : Int) - 2) + 1)) = true
          then (s.1.set (1 + scaleSample (RandomSource.sample s.2).1 ((w : Int) - 2))
            (1 + scaleSample (RandomSource.sample (RandomSource.sample s.2).2).1 ((h : Int) - 2))
            true, (RandomSource.sample (RandomSource.sample s.2).2).2)
          else (s.1, (RandomSource.sample (RandomSource.sample s.2).2).2)).1 := by
  have hx := scaleSample_bounds (RandomSource.sample s.2).1 ((w : Int) - 2)
    (RandomSource.sample_lt _) (by omega)
  have hy := scaleSample_bounds (RandomSource.sample (RandomSource.sample s.2).2).1
    ((h : Int) - 2) (RandomSource.sample_lt _) (by omega)
  have hx1 : 1 ≤ 1 + scaleSample (RandomSource.sample s.2).1 ((w : Int) - 2) ∧
      1 + scaleSample (RandomSource.sample s.2).1 ((w : Int) - 2) < (w : Int) - 1 := by omega
  have hy1 : 1 ≤ 1 + scaleSample (RandomSource.sample (RandomSource.sample s.2).2).1
        ((h : Int) - 2) ∧
      1 + scaleSample (RandomSource.sample (RandomSource.sample s.2).2).1 ((h : Int) - 2)
        < (h : Int) - 1 := by omega
  clear hx hy
  generalize 1 + scaleSample (RandomSource.sample s.2).1 ((w : Int) - 2) = x at *
  generalize 1 + scaleSample (RandomSource.sample (RandomSource.sample s.2).2).1
    ((h : Int) - 2) = y at *
  have hi : s.1.Interior x y := by
    unfold Grid.Interior
    rw [hsw, hsh]
    omega
  refine ⟨x, y, hi, ?_⟩
  by_cases ho : s.1.get x y = true
  · rw [if_pos ho]
    exact Or.inl ⟨ho, rfl⟩
  · rw [if_neg ho]
    have hc : s.1.get x y = false := by
      cases hv : s.1.get x y
      · rfl
      · exact absurd hv ho
    by_cases hb : (s.1.get (x - 1) y && s.1.get (x + 1) y ||
        s.1.get x (y - 1) && s.1.get x (y + 1)) = true
    · rw [if_pos hb]
      refine Or.inr (Or.inr ⟨hc, ?_, rfl⟩)
      unfold Bridges
      simpa using hb
    · rw [if_neg hb]
      refine Or.inr (Or.inl ⟨hc, ?_, rfl⟩)
      unfold Bridges
      simpa using hb

/-- The loop invariant of `addLoops` is kept by one attempt. -/
theorem addLoops_step_inv (g s1 nxt : Grid Bool) (i : Nat)
    (hP : (∃ gs : List (Grid Bool), gs.length = i + 1 ∧ gs.head? = some g ∧
        gs.getLast? = some s1 ∧ List.Chain' BridgeStep gs) ∧
      (s1.width = g.width ∧ s1.height = g.height) ∧
      (∀ x y : Int, g.get x y = true → s1.get x y = true) ∧
      (∀ x y : Int, ¬ g.Interior x y → s1.get x y = g.get x y) ∧
      openCount s1 ≤ openCount g + i)
    (hstep : BridgeStep s1 nxt) :
    (∃ gs : List (Grid Bool), gs.length = i + 1 + 1 ∧ gs.head? = some g ∧
        gs.getLast? = some nxt ∧ List.Chain' BridgeStep gs) ∧
      (nxt.width = g.width ∧ nxt.height = g.height) ∧
      (∀ x y : Int, g.get x y = true → nxt.get x y = true) ∧
      (∀ x y : Int, ¬ g.Interior x y → nxt.get x y = g.get x y) ∧
      openCount nxt ≤ openCount g + (i + 1) := by
  obtain ⟨⟨gs, hlen, hhead, hlast, hchain⟩, hdim, hmono, hout, hcount⟩ := hP
  obtain ⟨hd1, hm1, ho1, hc1⟩ := hstep.facts
  refine ⟨⟨gs ++ [nxt], ?_, ?_, ?_, ?_⟩, ⟨hd1.1.trans hdim.1, hd1.2.trans hdim.2⟩, ?_, ?_, ?_⟩
  · rw [List.length_append, hlen]; rfl
  · cases gs with
    | nil => simp at hlen
    | cons a t => exact hhead
  · rw [List.getLast?_append]
    rfl
  · apply List.Chain'.append hchain (List.chain'_singleton _)
    intro a ha1 b hb
    rw [hlast] at ha1
    cases ha1
    cases hb
    exact hstep
  · intro x y k
    exact hm1 x y (hmono x y k)
  · intro x y k
    have k1 : ¬ s1.Interior x y := by
      unfold Grid.Interior at k ⊢
      rw [hdim.1, hdim.2]
      exact k
    rw [ho1 x y k1]
    exact hout x y k
  · omega

/-- C23: on a grid at least three cells wide and high, `addLoops` with a
budget `amount >= 0` is a sequence of `amount` attempts. Each attempt samples a
cell strictly inside the border, so the cell and its four neighbours are
entries of the grid; an open cell and a cell that bridges nothing leave the
grid unchanged, and a closed cell whose left and right or upper and lower
neighbours are both open is opened. Hence no cell is closed, no cell outside
the interior changes, and at most `amount` cells are opened. -/
theorem addLoops_spec {σ : Type} [RandomSource σ] (g : Grid Bool) (rng : σ) (amount : Int)
    (hw : 3 ≤ g.width) (hh : 3 ≤ g.height) (ha : 0 ≤ amount) :
    (∃ gs : List (Grid Bool), (gs.length : Int) = amount + 1 ∧ gs.head? = some g ∧
      gs.getLast? = some (addLoops g rng amount).1 ∧ List.Chain' BridgeStep gs) ∧
    ((addLoops g rng amount).1.width = g.width ∧
      (addLoops g rng amount).1.height = g.height) ∧
    (∀ x y : Int, g.get x y = true → (addLoops g rng amount).1.get x y = true) ∧
    (∀ x y : Int, ¬ g.Interior x y → (addLoops g rng amount).1.get x y = g.get x y) ∧
    (openCount (addLoops g rng amount).1 : Int) ≤ openCount g + amount := by
  have key : (∃ gs : List (Grid Bool), gs.length = amount.toNat + 1 ∧ gs.head? = some g ∧
        gs.getLast? = some (addLoops g rng amount).1 ∧ List.Chain' BridgeStep gs) ∧
      ((addLoops g rng amount).1.width = g.width ∧
        (addLoops g rng amount).1.height = g.height) ∧
      (∀ x y : Int, g.get x y = true → (addLoops g rng amount).1.get x y = true) ∧
      (∀ x y : Int, ¬ g.Interior x y → (addLoops g rng amount).1.get x y = g.get x y) ∧
      openCount (addLoops g rng amount).1 ≤ openCount g + amount.toNat := by
    unfold addLoops
    simp only []
    apply forRange_induction (fun (i : Nat) (s : Grid Bool × σ) =>
      (∃ gs : List (Grid Bool), gs.length = i + 1 ∧ gs.head? = some g ∧
        gs.getLast? = some s.1 ∧ List.Chain' BridgeStep gs) ∧
      (s.1.width = g.width ∧ s.1.height = g.height) ∧
      (∀ x y : Int, g.get x y = true → s.1.get x y = true) ∧
      (∀ x y : Int, ¬ g.Interior x y → s.1.get x y = g.get x y) ∧
      openCount s.1 ≤ openCount g + i)
    · exact Nat.zero_le _
    · exact ⟨⟨[g], rfl, rfl, rfl, List.chain'_singleton g⟩, ⟨rfl, rfl⟩, fun _ _ k => k,
        fun _ _ _ => rfl, le_refl _⟩
    · intro i s _ _ hP
      exact addLoops_step_inv g s.1 _ i hP
        (addLoops_body_step g.width g.height hw hh s hP.2.1.1 hP.2.1.2)
  obtain ⟨⟨gs, hlen, hrest⟩, hdim, hmono, hout, hcount⟩ := key
  refine ⟨⟨gs, ?_, hrest⟩, hdim, hmono, hout, ?_⟩
  · rw [hlen]
    push_cast
    rw [Int.toNat_of_nonneg ha]
  · have : ((openCount (addLoops g rng amount).1 : Nat) : Int)
        ≤ ((openCount g + amount.toNat : Nat) : Int) := by exact_mod_cast hcount
    push_cast at this
    rw [Int.toNat_of_nonneg ha] at this
    exact this

set_option maxRecDepth 1000000 in
/-- The loop injector with a budget of six on the maze that
`carvePerfectMaze` carves on the grid of side seven with seed 1401: the closed
cell `(4, 2)`, whose left and right neighbours are open, is opened. -/
theorem addLoops_spec_witness :
    (3 ≤ (carvePerfectMaze 7 7 1401
        ⟨F64.ofRat 12 10, F64.ofRat 108 100, F64.ofRat 11 10⟩).1.width ∧
      3 ≤ (carvePerfectMaze 7 7 1401
        ⟨F64.ofRat 12 10, F64.ofRat 108 100, F64.ofRat 11 10⟩).1.height ∧ (0 : Int) ≤ 6) ∧
    ((∃ gs : List (Grid Bool), (gs.length : Int) = 6 + 1 ∧
        gs.head? = some (carvePerfectMaze 7 7 1401
          ⟨F64.ofRat 12 10, F64.ofRat 108 100, F64.ofRat 11 10⟩).1 ∧
        gs.getLast? = some (addLoops
          (carvePerfectMaze 7 7 1401 ⟨F64.ofRat 12 10, F64.ofRat 108 100, F64.ofRat 11 10⟩).1
          (carvePerfectMaze 7 7 1401 ⟨F64.ofRat 12 10, F64.ofRat 108 100, F64.ofRat 11 10⟩).2
          6).1 ∧
        List.Chain' BridgeStep gs) ∧
      ((addLoops
          (carvePerfectMaze 7 7 1401 ⟨F64.ofRat 12 10, F64.ofRat 108 100, F64.ofRat 11 10⟩).1
          (carvePerfectMaze 7 7 1401 ⟨F64.ofRat 12 10, F64.ofRat 108 100, F64.ofRat 11 10⟩).2
          6).1.width
          = (carvePerfectMaze 7 7 1401
            ⟨F64.ofRat 12 10, F64.ofRat 108 100, F64.ofRat 11 10⟩).1.width ∧
        (addLoops
          (carvePerfectMaze 7 7 1401 ⟨F64.ofRat 12 10, F64.ofRat 108 100, F64.ofRat 11 10⟩).1
          (carvePerfectMaze 7 7 1401 ⟨F64.ofRat 12 10, F64.ofRat 108 100, F64.ofRat 11 10⟩).2
          6).1.height
          = (carvePerfectMaze 7 7 1401
            ⟨F64.ofRat 12 10, F64.ofRat 108 100, F64.ofRat 11 10⟩).1.height) ∧
      (∀ x y : Int, (carvePerfectMaze 7 7 1401
          ⟨F64.ofRat 12 10, F64.ofRat 108 100, F64.ofRat 11 10⟩).1.get x y = true →
        (addLoops
          (carvePerfectMaze 7 7 1401 ⟨F64.ofRat 12 10, F64.ofRat 108 100, F64.ofRat 11 10⟩).1
          (carvePerfectMaze 7 7 1401 ⟨F64.ofRat 12 10, F64.ofRat 108 100, F64.ofRat 11 10⟩).2
          6).1.get x y = true) ∧
      (∀ x y : Int, ¬ (carvePerfectMaze 7 7 1401
          ⟨F64.ofRat 12 10, F64.ofRat 108 100, F64.ofRat 11 10⟩).1.Interior x y →
        (addLoops
          (carvePerfectMaze 7 7 1401 ⟨F64.ofRat 12 10, F64.ofRat 108 100, F64.ofRat 11 10⟩).1
          (carvePerfectMaze 7 7 1401 ⟨F64.ofRat 12 10, F64.ofRat 108 100, F64.ofRat 11 10⟩).2
          6).1.get x y
          = (carvePerfectMaze 7 7 1401
            ⟨F64.ofRat 12 10, F64.ofRat 108 100, F64.ofRat 11 10⟩).1.get x y) ∧
      (openCount (addLoops
          (carvePerfectMaze 7 7 1401 ⟨F64.ofRat 12 10, F64.ofRat 108 100, F64.ofRat 11 10⟩).1
          (carvePerfectMaze 7 7 1401 ⟨F64.ofRat 12 10, F64.ofRat 108 100, F64.ofRat 11 10⟩).2
          6).1 : Int)
        ≤ openCount (carvePerfectMaze 7 7 1401
          ⟨F64.ofRat 12 10, F64.ofRat 108 100, F64.ofRat 11 10⟩).1 + 6) ∧
    ((carvePerfectMaze 7 7 1401
        ⟨F64.ofRat 12 10, F64.ofRat 108 100, F64.ofRat 11 10⟩).1.get 4 2 = false ∧
      (carvePerfectMaze 7 7 1401
        ⟨F64.ofRat 12 10, F64.ofRat 108 100, F64.ofRat 11 10⟩).1.get 3 2 = true ∧
      (carvePerfectMaze 7 7 1401
        ⟨F64.ofRat 12 10, F64.ofRat 108 100, F64.ofRat 11 10⟩).1.get 5 2 = true ∧
      (addLoops
        (carvePerfectMaze 7 7 1401 ⟨F64.ofRat 12 10, F64.ofRat 108 100, F64.ofRat 11 10⟩).1
        (carvePerfectMaze 7 7 1401 ⟨F64.ofRat 12 10, F64.ofRat 108 100, F64.ofRat 11 10⟩).2
        6).1.get 4 2 = true) :=
  ⟨⟨le_of_le_of_eq (by decide) (carveWith_dims 7 7 _ _).1.symm,
      le_of_le_of_eq (by decide) (carveWith_dims 7 7 _ _).2.symm, by decide⟩,
    addLoops_spec _ _ 6 (le_of_le_of_eq (by decide) (carveWith_dims 7 7 _ _).1.symm)
      (le_of_le_of_eq (by decide) (carveWith_dims 7 7 _ _).2.symm) (by decide),
    by decide!, by decide!, by decide!, by decide!⟩

/-! ## Relative error of a rounding -/

theorem F64.bitLengthAux_zero (fuel : Nat) : F64.bitLengthAux fuel 0 = 0 := by
  cases fuel with
  | zero => rfl
  | succ f => unfold F64.bitLengthAux; rw [if_pos rfl]

/-- The number of binary digits of a positive number `n` is the `b` with
`2 ^ (b - 1) <= n < 2 ^ b`. -/
theorem F64.bitLengthAux_bounds : ∀ (fuel n : Nat), n ≤ fuel → n ≠ 0 →
    2 ^ (F64.bitLengthAux fuel n - 1) ≤ n ∧ n < 2 ^ F64.bitLengthAux fuel n := by
  intro fuel
  induction fuel with
  | zero => intro n h1 h2; omega
  | succ f ih =>
    intro n hn h0
    unfold F64.bitLengthAux
    rw [if_neg h0]
    by_cases h2 : n / 2 = 0
    · rw [h2, F64.bitLengthAux_zero]
      have : n = 1 := by omega
      rw [this]
      decide
    · obtain ⟨l, u⟩ := ih (n / 2) (by omega) h2
      have hb : 1 ≤ F64.bitLengthAux f (n / 2) := by
        by_contra hlt
        have hz : F64.bitLengthAux f (n / 2) = 0 := by omega
        rw [hz] at u
        simp at u
        exact h2 u
      have e1 : F64.bitLengthAux f (n / 2) + 1 - 1 = (F64.bitLengthAux f (n / 2) - 1) + 1 := by
        omega
      rw [e1, pow_succ, pow_succ]
      omega

/-- A rounding of a positive number in the normal range changes it by at most
the fraction `2 ^ -53` of its value. -/
theorem F64.round_rel (a : Nat) (e : Int) (k : Nat) (ha : 0 < a) (he : -1074 ≤ e)
    (hk : a < 2 ^ k) (hek : e + (k : Int) ≤ 900) :
    ∃ r s : Nat, F64.round (a : Int) e = F64.fin (r : Int) (e + (s : Int)) ∧
      9007199254740992 * (r * 2 ^ s) ≤ 9007199254740993 * a ∧
      9007199254740991 * a ≤ 9007199254740992 * (r * 2 ^ s) := by
  have h0 : a ≠ 0 := by omega
  obtain ⟨hb1, hb2⟩ := F64.bitLengthAux_bounds a a (le_refl _) h0
  have hbk : F64.bitLength a ≤ k := F64.bitLengthAux_le _ _ _ hk
  have hbl : F64.bitLengthAux a a = F64.bitLength a := rfl
  rw [hbl] at hb1 hb2
  have hbz : (F64.bitLength a : Int) ≤ k := by exact_mod_cast hbk
  have hs : (max (e + (F64.bitLength a : Int) - 53) (-1074) - e).toNat = F64.bitLength a - 53 := by
    omega
  unfold F64.round
  simp only [Int.natAbs_ofNat, h0, if_false, hs]
  generalize hsd : F64.bitLength a - 53 = s at *
  have hdm := Nat.div_add_mod a (2 ^ s)
  have hPpos : 0 < 2 ^ s := Nat.pow_pos (by decide)
  have hrest := Nat.mod_lt a hPpos
  have hP : 4503599627370496 * 2 ^ s ≤ a ∨ 2 ^ s = 1 := by
    rcases Nat.eq_zero_or_pos s with h | h
    · right; rw [h]; rfl
    · left
      have e1 : F64.bitLength a - 1 = 52 + s := by omega
      rw [e1, pow_add] at hb1
      exact hb1
  have hr : a / 2 ^ s < 9007199254740992 := by
    rw [Nat.div_lt_iff_lt_mul hPpos]
    rcases Nat.eq_zero_or_pos s with h | h
    · rw [h]
      have : F64.bitLength a ≤ 53 := by omega
      calc a < 2 ^ F64.bitLength a := hb2
        _ ≤ 2 ^ 53 := Nat.pow_le_pow_right (by decide) this
        _ = 9007199254740992 * 2 ^ 0 := by norm_num
    · have e1 : F64.bitLength a = 53 + s := by omega
      rw [e1, pow_add] at hb2
      exact hb2
  generalize hPd : 2 ^ s = P at *
  generalize hqd : a / P = q at *
  generalize hrd : a % P = rest at *
  have hneg : ¬ ((a : Int) < 0) := by omega
  by_cases hc : P < 2 * rest ∨ (2 * rest = P ∧ q % 2 = 1)
  · rw [if_pos hc]
    have hbq : F64.bitLength (q + 1) ≤ 54 :=
      F64.bitLengthAux_le _ _ _ (by norm_num; omega)
    have hbqz : (F64.bitLength (q + 1) : Int) ≤ 54 := by exact_mod_cast hbq
    have hov : ¬ (1024 : Int) < (F64.bitLength (q + 1) : Int) + (e + (s : Int)) := by omega
    rw [if_neg hov, if_neg hneg]
    refine ⟨q + 1, s, rfl, ?_, ?_⟩
    · rw [hPd, add_mul, one_mul, mul_comm q P]
      rcases hP with h | h <;> omega
    · rw [hPd, add_mul, one_mul, mul_comm q P]
      omega
  · rw [if_neg hc]
    have hbq : F64.bitLength q ≤ 54 :=
      F64.bitLengthAux_le _ _ _ (by norm_num; omega)
    have hbqz : (F64.bitLength q : Int) ≤ 54 := by exact_mod_cast hbq
    have hov : ¬ (1024 : Int) < (F64.bitLength q : Int) + (e + (s : Int)) := by omega
    rw [if_neg hov, if_neg hneg]
    refine ⟨q, s, rfl, ?_, ?_⟩
    · rw [hPd, mul_comm q P]
      omega
    · rw [hPd, mul_comm q P]
      rcases hP with h | h <;> omega

/-! ## The corner of the arena of the circular relics -/

set_option maxRecDepth 1000000 in
theorem F64.ofRat_42_100 : F64.ofRat 42 100 = F64.fin 7566047373982433 (-54) := by decide!

/-- On a board of side `n >= 10` the radius `maxR = n * 0.42` is smaller, in
binary64, than the square root of every `S >= floor(n / 2) ^ 2`. -/
theorem relic_far (n S : Nat) (hn : 10 ≤ n) (hbig : n < 2 ^ 32) (hS : n / 2 * (n / 2) ≤ S)
    (hS2 : S < 2 ^ 64) :
    F64.lt (F64.mul (F64.ofNat n) (F64.ofRat 42 100)) (F64.sqrtNat S) = true := by
  have hofn : F64.ofNat n = F64.fin (n : Int) 0 :=
    F64.ofInt_small (n : Int) (by
      simp only [Int.natAbs_ofNat]
      calc n < 2 ^ 32 := hbig
        _ ≤ 2 ^ 53 := by norm_num)
  have hmul : F64.mul (F64.ofNat n) (F64.ofRat 42 100)
      = F64.round ((n * 7566047373982433 : Nat) : Int) (-54) := by
    rw [hofn, F64.ofRat_42_100]
    show F64.round ((n : Int) * 7566047373982433) (0 + -54) = _
    push_cast
    rfl
  obtain ⟨r, s, hr, hr1, _⟩ := F64.round_rel (n * 7566047373982433) (-54) 86 (by omega)
    (by decide) (by
      calc n * 7566047373982433 < 2 ^ 32 * 2 ^ 54 := by
            apply Nat.mul_lt_mul_of_lt_of_le hbig (by norm_num) (by norm_num)
        _ = 2 ^ 86 := by norm_num) (by decide)
  have hR : n / 2 * 2 ^ 64 ≤ Nat.sqrt (S * 4 ^ 64) := by
    rw [Nat.le_sqrt]
    calc n / 2 * 2 ^ 64 * (n / 2 * 2 ^ 64) = n / 2 * (n / 2) * 4 ^ 64 := by ring
      _ ≤ S * 4 ^ 64 := Nat.mul_le_mul_right _ hS
  have hRlt : Nat.sqrt (S * 4 ^ 64) < 2 ^ 96 := by
    rw [Nat.sqrt_lt]
    calc S * 4 ^ 64 < 2 ^ 64 * 4 ^ 64 := Nat.mul_lt_mul_of_lt_of_le hS2 (le_refl _) (by norm_num)
      _ = 2 ^ 96 * 2 ^ 96 := by norm_num
  have hc5 : 5 ≤ n / 2 := by omega
  have hsq : F64.sqrtNat S = F64.round
      ((2 * Nat.sqrt (S * 4 ^ 64)
        + (if Nat.sqrt (S * 4 ^ 64) * Nat.sqrt (S * 4 ^ 64) = S * 4 ^ 64 then 0 else 1) : Nat)
        : Int) (-65) := rfl
  generalize hRd : Nat.sqrt (S * 4 ^ 64) = R at *
  generalize hstd : (if R * R = S * 4 ^ 64 then 0 else 1 : Nat) = st at *
  have hst : st ≤ 1 := by
    rw [← hstd]; split_ifs <;> omega
  have hRpos : 0 < R := by
    have : 0 < n / 2 * 2 ^ 64 := Nat.mul_pos (by omega) (by norm_num)
    omega
  obtain ⟨r2, s2, hr2, _, hr22⟩ := F64.round_rel (2 * R + st) (-65) 98 (by omega)
    (by decide) (by
      have : (2 : Nat) ^ 98 = 4 * 2 ^ 96 := by norm_num
      omega) (by decide)
  rw [hmul, hr, hsq, hr2]
  rw [F64.lt_iff_key _ _ (fun h => F64.noConfusion h) (fun h => F64.noConfusion h)]
  unfold F64.key
  apply WithBot.coe_lt_coe.2
  apply WithTop.coe_lt_coe.2
  have q1 : (9007199254740992 : ℚ) * ((r : ℚ) * 2 ^ s)
      ≤ 9007199254740993 * ((n : ℚ) * 7566047373982433) := by exact_mod_cast hr1
  have q2 : (9007199254740991 : ℚ) * (2 * (R : ℚ) + (st : ℚ))
      ≤ 9007199254740992 * ((r2 : ℚ) * 2 ^ s2) := by exact_mod_cast hr22
  have q3 : ((n / 2 : Nat) : ℚ) * 2 ^ 64 ≤ (R : ℚ) := by exact_mod_cast hR
  have q4 : (n : ℚ) ≤ 2 * ((n / 2 : Nat) : ℚ) + 1 := by
    have : n ≤ 2 * (n / 2) + 1 := by omega
    exact_mod_cast this
  have q5 : (10 : ℚ) ≤ (n : ℚ) := by exact_mod_cast hn
  have q6 : (0 : ℚ) ≤ (st : ℚ) := Nat.cast_nonneg _
  have e1 : ((r : Int) : ℚ) * (2 : ℚ) ^ ((-54 : Int) + (s : Int))
      = ((r : ℚ) * 2 ^ s) * (1 / 18014398509481984) := by
    rw [zpow_add₀ (by norm_num : (2 : ℚ) ≠ 0), zpow_natCast]
    norm_num
    ring
  have e2 : ((r2 : Int) : ℚ) * (2 : ℚ) ^ ((-65 : Int) + (s2 : Int))
      = ((r2 : ℚ) * 2 ^ s2) * (1 / 36893488147419103232) := by
    rw [zpow_add₀ (by norm_num : (2 : ℚ) ≠ 0), zpow_natCast]
    norm_num
    ring
  rw [e1, e2]
  generalize (r : ℚ) * 2 ^ s = X at *
  generalize (r2 : ℚ) * 2 ^ s2 = Y at *
  norm_num at q3
  linarith

/-! ## Sculptors and the neighbours of the start cell -/

theorem StartSealed.set_inner {g : Grid Bool} (h : StartSealed g) (x y : Int) (hx : 2 ≤ x)
    (hy : 2 ≤ y) (v : Bool) : StartSealed (g.set x y v) := by
  unfold StartSealed
  rw [Grid.get_set, Grid.get_set, if_neg (by omega), if_neg (by omega)]
  exact h

theorem StartSealed.set_closed {g : Grid Bool} (h : StartSealed g) (x y : Int) :
    StartSealed (g.set x y false) := by
  unfold StartSealed
  rw [Grid.get_set_false, Grid.get_set_false]
  constructor
  · split_ifs
    · rfl
    · exact h.1
  · split_ifs
    · rfl
    · exact h.2

theorem carveRoom_startSealed (g : Grid Bool) (x y width height : Int) (h : StartSealed g)
    (hx : 2 ≤ x) (hy : 2 ≤ y) : StartSealed (carveRoom g x y width height) := by
  unfold carveRoom
  refine forRange_invariant (fun s : Grid Bool => StartSealed s) _ _ _ _ h ?_
  intro j s _ _ hs
  refine forRange_invariant (fun s : Grid Bool => StartSealed s) _ _ _ _ hs ?_
  intro i s _ _ hs
  try simp only []
  split_ifs
  · exact StartSealed.set_inner hs _ _ (by omega) (by omega) _
  · exact hs

theorem addChambers_startSealed {σ : Type} [RandomSource σ] (g : Grid Bool) (rng : σ)
    (amount minSize maxSize : Int) (h : StartSealed g) :
    StartSealed (addChambers g rng amount minSize maxSize).1 := by
  unfold addChambers
  try simp only []
  refine forRange_invariant (fun s : Grid Bool × σ => StartSealed s.1) _ _ _ _ h ?_
  intro i s _ _ hs
  try simp only []
  apply carveRoom_startSealed _ _ _ _ _ hs
  · have h3 := scaleSample_bounds
      (RandomSource.sample (RandomSource.sample (RandomSource.sample s.2).2).2).1
      (max 1 ((g.width : Int) - (minSize + scaleSample (RandomSource.sample s.2).1
        (maxSize - minSize + 1)) - 3))
      (RandomSource.sample_lt _) (by omega)
    omega
  · have h4 := scaleSample_bounds
      (RandomSource.sample (RandomSource.sample (RandomSource.sample
        (RandomSource.sample s.2).2).2).2).1
      (max 1 ((g.height : Int) - (minSize + scaleSample
        (RandomSource.sample (RandomSource.sample s.2).2).1 (maxSize - minSize + 1)) - 3))
      (RandomSource.sample_lt _) (by omega)
    omega

theorem addRuneCross_startSealed {σ : Type} [RandomSource σ] (g : Grid Bool) (rng : σ)
    (h : StartSealed g) (hw : 4 ≤ g.width) (hh : 4 ≤ g.height) :
    StartSealed (addRuneCross g rng).1 := by
  unfold addRuneCross
  try simp only []
  refine forRange_invariant (fun s : Grid Bool × σ => StartSealed s.1) _ _ _ _ ?_ ?_
  · refine forRange_invariant (fun s : Grid Bool × σ => StartSealed s.1) _ _ _ _ h ?_
    intro i s hi _ hs
    try simp only []
    split_ifs
    · exact StartSealed.set_inner hs _ _ (by omega) (by omega) _
    · exact hs
  · intro i s hi _ hs
    try simp only []
    split_ifs
    · exact StartSealed.set_inner hs _ _ (by omega) (by omega) _
    · exact hs

/-- The mantissa of a rounded non-negative number is not negative. -/
theorem F64.round_sign (m e : Int) (hm : 0 ≤ m) (r q : Int) (h : F64.round m e = F64.fin r q) :
    0 ≤ r := by
  unfold F64.round at h
  simp only [] at h
  split_ifs at h
  all_goals first
    | (cases h; exact le_refl _)
    | (exfalso; omega)
    | (cases h; exact Int.ofNat_nonneg _)

theorem F64.ofRat_sign (p q : Nat) (r : Int) (e : Int) (h : F64.ofRat p q = F64.fin r e) :
    0 ≤ r := by
  unfold F64.ofRat at h
  simp only [] at h
  split_ifs at h
  all_goals exact F64.round_sign _ _ (Int.ofNat_nonneg _) _ _ h

theorem F64.floor_mul_sign (a b : F64) (ha : ∀ m e, a = F64.fin m e → 0 ≤ m)
    (hb : ∀ m e, b = F64.fin m e → 0 ≤ m) : 0 ≤ F64.floor (F64.mul a b) := by
  have hfl : ∀ x : F64, (∀ m e, x = F64.fin m e → 0 ≤ m) → 0 ≤ F64.floor x := by
    intro x hx
    cases x with
    | fin m e =>
      have hm := hx m e rfl
      unfold F64.floor
      simp only []
      split_ifs
      · exact Int.mul_nonneg hm (Int.ofNat_nonneg _)
      · exact Int.ediv_nonneg hm (Int.ofNat_nonneg _)
    | inf s => exact le_refl _
    | nan => exact le_refl _
  apply hfl
  intro m e hme
  cases a with
  | fin m1 e1 =>
    cases b with
    | fin m2 e2 =>
      exact F64.round_sign _ _ (Int.mul_nonneg (ha m1 e1 rfl) (hb m2 e2 rfl)) _ _ hme
    | inf s =>
      unfold F64.mul at hme
      simp only [] at hme
      split_ifs at hme
    | nan => cases hme
  | inf s =>
    cases b with
    | fin m2 e2 =>
      unfold F64.mul at hme
      simp only [] at hme
      split_ifs at hme
    | inf s2 => cases hme
    | nan => cases hme
  | nan =>
    cases b <;> cases hme

theorem addSerpentCuts_startSealed {σ : Type} [RandomSource σ] (g : Grid Bool) (rng : σ)
    (bands : Nat) (h : StartSealed g) (hh : 4 ≤ g.height) :
    StartSealed (addSerpentCuts g rng bands).1 := by
  unfold addSerpentCuts
  try simp only []
  refine forRange_invariant (fun s : Grid Bool × σ => StartSealed s.1) _ _ _ _ h ?_
  intro band s _ _ hs
  try simp only []
  have hbase : 0 ≤ F64.floor (F64.mul (F64.ofInt ((g.height : Int) - 4))
      (F64.ofRat ((band : Int) + 1).toNat (bands + 1))) := by
    apply F64.floor_mul_sign
    · intro m e hme
      exact F64.round_sign _ _ (by omega) _ _ hme
    · intro m e hme
      exact F64.ofRat_sign _ _ _ _ hme
  refine (forRange_invariant
    (fun r : Grid Bool × σ × Int => StartSealed r.1 ∧ 2 ≤ r.2.2) _ _ _ _ ⟨hs, le_add_of_nonneg_right hbase⟩ ?_).1
  intro x r hx _ hr
  try simp only []
  have hset : StartSealed (r.1.set (x : Int) r.2.2 true) :=
    StartSealed.set_inner hr.1 _ _ (by omega) hr.2 _
  split_ifs <;> first
    | exact ⟨hr.1, hr.2⟩
    | exact ⟨hset, hr.2⟩
    | exact ⟨hr.1, le_max_left _ _⟩
    | exact ⟨hset, le_max_left _ _⟩

theorem relicStamp_startSealed {σ : Type} [RandomSource σ] (trig : Trig) (w h : Nat)
    (radius : F64) (idx : Nat) (s : Grid Bool × σ) (angle : F64) (hs : StartSealed s.1) :
    StartSealed (relicStamp trig w h radius idx s angle).1 := by
  unfold relicStamp
  try simp only []
  split_ifs with h1 h2 h3
  · exact hs
  · exact StartSealed.set_inner hs _ _ (by omega) (by omega) _
  · exact hs
  · exact hs

/-- The rings stamped by `addCircularRelics` keep the neighbours of the start
cell as the arena left them. -/
theorem addCircularRelics_startSealed {σ : Type} [RandomSource σ] (trig : Trig)
    (g : Grid Bool) (rng : σ) (h : StartSealed (relicArena g (relicMaxR g))) :
    StartSealed (addCircularRelics trig g rng).1 := by
  unfold addCircularRelics
  refine foldl_invariant (fun s : Grid Bool × σ => StartSealed s.1) _ _ _ h ?_
  intro s ring _ hs
  refine foldl_invariant (fun s : Grid Bool × σ => StartSealed s.1) _ _ _ hs ?_
  intro s angle _ hs
  exact relicStamp_startSealed trig g.width g.height _ ring.2 s angle hs

/-- On a square board of side `n >= 10` the arena pass closes both
neighbours of the start cell, whatever the grid was before. -/
theorem relicArena_startSealed (g : Grid Bool) (n : Nat) (hw : g.width = n) (hh : g.height = n)
    (hn : 10 ≤ n) (hbig : n < 2 ^ 32) : StartSealed (relicArena g (relicMaxR g)) := by
  have hmax : relicMaxR g = F64.mul (F64.ofNat n) (F64.ofRat 42 100) := by
    unfold relicMaxR
    rw [hw, hh, min_self]
  obtain ⟨c, hc⟩ : ∃ c : Nat, c = n / 2 := ⟨_, rfl⟩
  have hc5 : (5 : Int) ≤ (c : Int) := by
    have : 5 ≤ c := by omega
    exact_mod_cast this
  have hcb : (c : Int) < 2147483648 := by
    have : c < 2147483648 := by
      have : (2 : Nat) ^ 32 = 4294967296 := by norm_num
      omega
    exact_mod_cast this
  have hfar : ∀ S : Int, S = ((2 : Int) - (c : Int)) * (2 - (c : Int))
      + (1 - (c : Int)) * (1 - (c : Int)) →
      F64.lt (F64.mul (F64.ofNat n) (F64.ofRat 42 100)) (F64.sqrtNat S.toNat) = true := by
    intro S hS
    have h1 : (c : Int) * c ≤ S := by rw [hS]; nlinarith
    have h2 : S < 18446744073709551616 := by rw [hS]; nlinarith
    have h0 : 0 ≤ S := le_trans (mul_self_nonneg (c : Int)) h1
    apply relic_far n S.toNat hn hbig
    · have : ((c * c : Nat) : Int) ≤ ((S.toNat : Nat) : Int) := by
        rw [Int.toNat_of_nonneg h0]
        push_cast
        exact h1
      rw [← hc]
      exact_mod_cast this
    · have : ((S.toNat : Nat) : Int) < ((18446744073709551616 : Nat) : Int) := by
        rw [Int.toNat_of_nonneg h0]
        exact_mod_cast h2
      have h3 : S.toNat < 18446744073709551616 := by exact_mod_cast this
      calc S.toNat < 18446744073709551616 := h3
        _ = 2 ^ 64 := by norm_num
  have hi1 : g.Interior 2 1 := by unfold Grid.Interior; rw [hw, hh]; omega
  have hi2 : g.Interior 1 2 := by unfold Grid.Interior; rw [hw, hh]; omega
  unfold StartSealed
  constructor
  · rw [relicArena_get, if_pos ⟨hi1, by rw [hw, hh, hmax, ← hc]; exact hfar _ rfl⟩]
  · rw [relicArena_get, if_pos ⟨hi2, by rw [hw, hh, hmax, ← hc]; exact hfar _ (add_comm _ _)⟩]

/-! ## A board with the circular relics: every attempt is rejected -/

theorem applySingleProfile_startSealed {σ : Type} [RandomSource σ] (trig : Trig)
    (g : Grid Bool) (rng : σ) (name : String) (h : StartSealed g) (hw : 4 ≤ g.width)
    (hh : 4 ≤ g.height) : StartSealed (applySingleProfile trig g rng name).1 := by
  unfold applySingleProfile
  split_ifs
  · exact addChambers_startSealed g rng 3 3 4 h
  · simp only []
    exact addChambers_startSealed _ _ 2 2 3 (addRuneCross_startSealed g rng h hw hh)
  · exact addSerpentCuts_startSealed g rng 3 h hh
  · simp only []
    apply addRuneCross_startSealed _ _ (addChambers_startSealed g rng 5 3 5 h)
    · rw [(addChambers_dims g rng 5 3 5).1]; exact hw
    · rw [(addChambers_dims g rng 5 3 5).2]; exact hh
  · simp only []
    apply addSerpentCuts_startSealed _ _ 2
    · apply addCircularRelics_startSealed
      unfold relicArena
      try simp only []
      refine forRange_invariant (fun s : Grid Bool => StartSealed s) _ _ _ _ h ?_
      intro j s _ _ hs
      refine forRange_invariant (fun s : Grid Bool => StartSealed s) _ _ _ _ hs ?_
      intro i s _ _ hs
      try simp only []
      split_ifs
      · exact StartSealed.set_closed hs _ _
      · exact hs
    · rw [(addCircularRelics_dims trig g rng).2]; exact hh
  · exact h

/-- The profile `rings` closes both neighbours of the start cell of a square
board of side `n >= 10`. -/
theorem applySingleProfile_rings {σ : Type} [RandomSource σ] (trig : Trig) (g : Grid Bool)
    (rng : σ) (n : Nat) (hw : g.width = n) (hh : g.height = n) (hn : 10 ≤ n)
    (hbig : n < 2 ^ 32) : StartSealed (applySingleProfile trig g rng "rings").1 := by
  have e : applySingleProfile trig g rng "rings"
      = addSerpentCuts (addCircularRelics trig g rng).1 (addCircularRelics trig g rng).2 2 := by
    unfold applySingleProfile
    rw [if_neg (by decide), if_neg (by decide), if_neg (by decide), if_neg (by decide),
      if_pos rfl]
  rw [e]
  apply addSerpentCuts_startSealed _ _ 2
  · exact addCircularRelics_startSealed trig g rng (relicArena_startSealed g n hw hh hn hbig)
  · rw [(addCircularRelics_dims trig g rng).2, hh]; omega

theorem profileFold_startSealed {σ : Type} [RandomSource σ] (trig : Trig) (n : Nat)
    (hn : 10 ≤ n) (names : List String) (s : Grid Bool × σ) (hw : s.1.width = n)
    (hh : s.1.height = n) (h : StartSealed s.1) :
    StartSealed (names.foldl (fun (s : Grid Bool × σ) profileName =>
      applySingleProfile trig s.1 s.2 profileName) s).1 := by
  refine (foldl_invariant
    (fun s : Grid Bool × σ => (s.1.width = n ∧ s.1.height = n) ∧ StartSealed s.1)
    _ _ _ ⟨⟨hw, hh⟩, h⟩ ?_).2
  intro s name _ hs
  have hd := applySingleProfile_dims trig s.1 s.2 name
  exact ⟨⟨hd.1.trans hs.1.1, hd.2.trans hs.1.2⟩,
    applySingleProfile_startSealed trig s.1 s.2 name hs.2 (by rw [hs.1.1]; omega)
      (by rw [hs.1.2]; omega)⟩

theorem profileFold_rings {σ : Type} [RandomSource σ] (trig : Trig) (n : Nat)
    (hn : 10 ≤ n) (hbig : n < 2 ^ 32) (names : List String) (hr : "rings" ∈ names) :
    ∀ s : Grid Bool × σ, s.1.width = n → s.1.height = n →
      StartSealed (names.foldl (fun (s : Grid Bool × σ) profileName =>
        applySingleProfile trig s.1 s.2 profileName) s).1 := by
  induction names with
  | nil => exact absurd hr (List.not_mem_nil _)
  | cons name rest ih =>
    intro s hw hh
    rw [List.foldl_cons]
    have hd := applySingleProfile_dims trig s.1 s.2 name
    by_cases hname : name = "rings"
    · apply profileFold_startSealed trig n hn rest _ (hd.1.trans hw) (hd.2.trans hh)
      rw [hname]
      exact applySingleProfile_rings trig s.1 s.2 n hw hh hn hbig
    · have hr2 : "rings" ∈ rest := by
        rcases List.mem_cons.mp hr with h | h
        · exact absurd h.symm hname
        · exact h
      exact ih hr2 _ (hd.1.trans hw) (hd.2.trans hh)

/-- After the sculptors of a profile list that contains `rings`, both
neighbours of the start cell are closed. -/
theorem applyProfileFeatures_startSealed {σ : Type} [RandomSource σ] (trig : Trig)
    (g : Grid Bool) (rng : σ) (config : Config) (n : Nat) (hw : g.width = n)
    (hh : g.height = n) (hn : 10 ≤ n) (hbig : n < 2 ^ 32)
    (hr : "rings" ∈ profileList config) :
    StartSealed (applyProfileFeatures trig g rng config).1 :=
  profileFold_rings trig n hn hbig (profileList config) hr (g, rng) hw hh

/-- When both neighbours of the start cell are closed, a walk of the sealed
grid never leaves the start cell. -/
theorem reach_of_startSealed (g : Grid Bool) (h : StartSealed g) (hw : 4 ≤ g.width)
    (hh : 4 ≤ g.height) {k : Nat} {c : Cell}
    (hr : Reach (normalizeBorders g) ⟨1, 1⟩ k c) : c = ⟨1, 1⟩ := by
  induction hr with
  | start => rfl
  | @step m a b _ hab hwb ih =>
    exfalso
    obtain ⟨d, hd, hx, hy⟩ := hab
    rw [ih] at hx hy
    simp only [] at hx hy
    obtain ⟨hint, hopen⟩ := hwb
    unfold Grid.Interior at hint
    rw [(normalizeBorders_dims g).1, (normalizeBorders_dims g).2] at hint
    rw [normalizeBorders_get] at hopen
    unfold DIRS at hd
    simp only [List.mem_cons, List.mem_singleton, List.not_mem_nil, or_false] at hd
    rcases hd with hd | hd | hd | hd
    all_goals rw [hd] at hx hy
    all_goals simp only [] at hx hy
    · rw [hx, hy, if_neg (by omega), if_neg (by omega)] at hopen
      have := h.1
      norm_num at hopen
      rw [this] at hopen
      exact absurd hopen (by decide)
    · omega
    · rw [hx, hy, if_neg (by omega), if_neg (by omega)] at hopen
      have := h.2
      norm_num at hopen
      rw [this] at hopen
      exact absurd hopen (by decide)
    · omega

/-- When both neighbours of the start cell are closed, the first search sets
the distance of the start cell only, and the pruned grid has the start cell
as its only open cell. -/
theorem sealAndSearch_of_startSealed (g : Grid Bool) (h : StartSealed g) (hw : 4 ≤ g.width)
    (hh : 4 ≤ g.height) :
    (∀ x y : Int, g.Has x y →
      ((bfs (normalizeBorders g) ⟨1, 1⟩).1.get x y ≠ -1 ↔ (x = 1 ∧ y = 1))) ∧
    (∀ x y : Int, (sealAndSearch g).1.get x y = true ↔ (x = 1 ∧ y = 1)) := by
  have hs := normalizeBorders_has_start g (by omega) (by omega)
  have hd0 := normalizeBorders_dims g
  have hdist : ∀ x y : Int, g.Has x y →
      ((bfs (normalizeBorders g) ⟨1, 1⟩).1.get x y ≠ -1 ↔ (x = 1 ∧ y = 1)) := by
    intro x y hxy
    constructor
    · intro hne
      have hHas : (normalizeBorders g).Has (⟨x, y⟩ : Cell).x (⟨x, y⟩ : Cell).y := by
        unfold Grid.Has at hxy ⊢
        rw [hd0.1, hd0.2]
        exact hxy
      obtain ⟨k, _, hr⟩ := bfs_reach_of_dist (normalizeBorders g) ⟨1, 1⟩ hs ⟨x, y⟩ hHas hne
      have := reach_of_startSealed g h hw hh hr
      cases this
      exact ⟨rfl, rfl⟩
    · rintro ⟨rfl, rfl⟩
      have := bfs_dist_start (normalizeBorders g) ⟨1, 1⟩ hs
      simp only [] at this
      rw [this]
      decide
  refine ⟨hdist, ?_⟩
  intro x y
  constructor
  · intro hopen
    rw [sealAndSearch_get] at hopen
    by_cases hint : g.Interior x y
    · rw [if_pos hint, Bool.and_eq_true] at hopen
      apply (hdist x y (g.has_of_interior x y hint)).1
      intro hm
      rw [hm] at hopen
      simp at hopen
    · rw [if_neg hint, normalizeBorders_get] at hopen
      by_cases h11 : x = 1 ∧ y = 1 ∧ g.Has 1 1
      · exact ⟨h11.1, h11.2.1⟩
      · rw [if_neg h11] at hopen
        by_cases hb : x = 0 ∨ x = (g.width : Int) - 1 ∨ y = 0 ∨ y = (g.height : Int) - 1
        · rw [if_pos hb] at hopen
          exact absurd hopen (by decide)
        · rw [if_neg hb] at hopen
          have hno : ¬ g.Has x y := by
            unfold Grid.Interior at hint
            unfold Grid.Has
            omega
          rw [g.get_false_of_not_has x y hno] at hopen
          exact absurd hopen (by decide)
  · rintro ⟨rfl, rfl⟩
    exact sealAndSearch_start g (by omega) (by omega)

theorem attemptSculpted_dims (trig : Trig) (config : Config) (attempt : Nat) :
    (attemptSculpted trig config attempt).1.width = gridSize config ∧
      (attemptSculpted trig config attempt).1.height = gridSize config := by
  unfold attemptSculpted
  simp only []
  constructor
  · rw [(applyProfileFeatures_dims _ _ _ _).1, (addLoops_dims _ _ _).1]
    exact (carveWith_dims _ _ _ _).1
  · rw [(applyProfileFeatures_dims _ _ _ _).2, (addLoops_dims _ _ _).2]
    exact (carveWith_dims _ _ _ _).2

/-- C27: for a config of grid side `n >= 10` (and below `2 ^ 32`, the bound of
an array length) whose profile list contains `rings`, in every attempt the
cells `(2, 1)` and `(1, 2)` are closed after `applyProfileFeatures`; the first
`bfs` after `normalizeBorders` sets the distance of the start cell only; the
pruned grid has `(1, 1)` as its only open cell; `findGoalNearRight` finds no
goal; the attempt is rejected; and `generateQualifiedLayout` returns the
fallback layout. -/
theorem rings_always_fallback (trig : Trig) (config : Config)
    (hn : 10 ≤ gridSize config) (hbig : gridSize config < 2 ^ 32)
    (hr : "rings" ∈ profileList config) :
    (∀ attempt : Nat,
      attemptSearch trig config attempt
        = sealAndSearch (attemptSculpted trig config attempt).1 ∧
      ((attemptSculpted trig config attempt).1.get 2 1 = false ∧
        (attemptSculpted trig config attempt).1.get 1 2 = false) ∧
      (∀ x y : Int, (attemptSculpted trig config attempt).1.Has x y →
        ((bfs (normalizeBorders (attemptSculpted trig config attempt).1) ⟨1, 1⟩).1.get x y ≠ -1
          ↔ (x = 1 ∧ y = 1))) ∧
      (∀ x y : Int, (attemptSearch trig config attempt).1.get x y = true ↔ (x = 1 ∧ y = 1)) ∧
      findGoalNearRight (attemptSearch trig config attempt).1
        (attemptSearch trig config attempt).2.1 = none ∧
      attemptLayout trig config attempt = none) ∧
    generateQualifiedLayout trig config = fallbackLayout config := by
  have hall : ∀ attempt : Nat,
      attemptSearch trig config attempt
        = sealAndSearch (attemptSculpted trig config attempt).1 ∧
      ((attemptSculpted trig config attempt).1.get 2 1 = false ∧
        (attemptSculpted trig config attempt).1.get 1 2 = false) ∧
      (∀ x y : Int, (attemptSculpted trig config attempt).1.Has x y →
        ((bfs (normalizeBorders (attemptSculpted trig config attempt).1) ⟨1, 1⟩).1.get x y ≠ -1
          ↔ (x = 1 ∧ y = 1))) ∧
      (∀ x y : Int, (attemptSearch trig config attempt).1.get x y = true ↔ (x = 1 ∧ y = 1)) ∧
      findGoalNearRight (attemptSearch trig config attempt).1
        (attemptSearch trig config attempt).2.1 = none ∧
      attemptLayout trig config attempt = none := by
    intro attempt
    have heq : attemptSearch trig config attempt
        = sealAndSearch (attemptSculpted trig config attempt).1 := rfl
    have hd := attemptSculpted_dims trig config attempt
    have hsealed : StartSealed (attemptSculpted trig config attempt).1 := by
      unfold attemptSculpted
      simp only []
      apply applyProfileFeatures_startSealed trig _ _ config (gridSize config) _ _ hn hbig hr
      · rw [(addLoops_dims _ _ _).1]
        exact (carveWith_dims _ _ _ _).1
      · rw [(addLoops_dims _ _ _).2]
        exact (carveWith_dims _ _ _ _).2
    obtain ⟨h1, h2⟩ := sealAndSearch_of_startSealed (attemptSculpted trig config attempt).1
      hsealed (by rw [hd.1]; omega) (by rw [hd.2]; omega)
    have hgoal : findGoalNearRight (attemptSearch trig config attempt).1
        (attemptSearch trig config attempt).2.1 = none := by
      apply findGoalNearRight_none_of_rightClosed
      intro x y hx
      rw [heq, (sealAndSearch_dims _).1, hd.1] at hx
      rw [heq]
      cases hv : (sealAndSearch (attemptSculpted trig config attempt).1).1.get x y with
      | false => rfl
      | true =>
        have := (h2 x y).1 hv
        omega
    refine ⟨heq, hsealed, h1, ?_, hgoal, ?_⟩
    · rw [heq]
      exact h2
    · unfold attemptLayout
      try simp only []
      rw [hgoal]
  exact ⟨hall, generateQualifiedLayout_of_none trig config (fun k _ => (hall k).2.2.2.2.2)⟩

/-- The ninth level of the catalog, of grid side 45 with the profile `rings`:
every attempt is rejected and the fallback layout is returned. -/
theorem rings_always_fallback_witness :
    (10 ≤ gridSize levelCrownOfRelics ∧ gridSize levelCrownOfRelics < 2 ^ 32 ∧
      "rings" ∈ profileList levelCrownOfRelics) ∧
    ((∀ attempt : Nat,
      attemptSearch flatTrig levelCrownOfRelics attempt
        = sealAndSearch (attemptSculpted flatTrig levelCrownOfRelics attempt).1 ∧
      ((attemptSculpted flatTrig levelCrownOfRelics attempt).1.get 2 1 = false ∧
        (attemptSculpted flatTrig levelCrownOfRelics attempt).1.get 1 2 = false) ∧
      (∀ x y : Int, (attemptSculpted flatTrig levelCrownOfRelics attempt).1.Has x y →
        ((bfs (normalizeBorders (attemptSculpted flatTrig levelCrownOfRelics attempt).1)
            ⟨1, 1⟩).1.get x y ≠ -1
          ↔ (x = 1 ∧ y = 1))) ∧
      (∀ x y : Int, (attemptSearch flatTrig levelCrownOfRelics attempt).1.get x y = true
        ↔ (x = 1 ∧ y = 1)) ∧
      findGoalNearRight (attemptSearch flatTrig levelCrownOfRelics attempt).1
        (attemptSearch flatTrig levelCrownOfRelics attempt).2.1 = none ∧
      attemptLayout flatTrig levelCrownOfRelics attempt = none) ∧
    generateQualifiedLayout flatTrig levelCrownOfRelics = fallbackLayout levelCrownOfRelics) :=
  ⟨⟨by decide, by decide, List.mem_singleton.2 rfl⟩,
    rings_always_fallback flatTrig levelCrownOfRelics (by decide) (by decide)
      (List.mem_singleton.2 rfl)⟩

/-! ## The carver builds a tree -/

theorem sign_two_mul (d : Int) (hd : d = 1 ∨ d = -1 ∨ d = 0) : Int.sign (2 * d) = d := by
  rcases hd with h | h | h <;> rw [h] <;> rfl

theorem dir_cases (d : Dir) (hd : d ∈ DIRS) :
    (d.dx = 1 ∧ d.dy = 0) ∨ (d.dx = -1 ∧ d.dy = 0) ∨ (d.dx = 0 ∧ d.dy = 1) ∨
      (d.dx = 0 ∧ d.dy = -1) := by
  simp only [DIRS, List.mem_cons, List.mem_singleton, List.not_mem_nil, or_false] at hd
  rcases hd with h | h | h | h <;> rw [h] <;> simp

theorem openCount_createGrid (w h : Nat) : openCount (createGrid w h false) = 0 := by
  unfold openCount
  rw [Finset.card_eq_zero, Finset.filter_eq_empty_iff]
  intro q _
  rw [createGrid_get]
  split_ifs <;> simp

theorem unvisitedCount_createGrid (w h : Nat) :
    unvisitedCount (createGrid w h false) = w * h := by
  unfold unvisitedCount
  rw [Finset.filter_true_of_mem]
  · rw [Finset.card_product, Int.card_Ico, Int.card_Ico]
    show ((w : Int) - 0).toNat * ((h : Int) - 0).toNat = w * h
    simp
  · intro q _
    rw [createGrid_get]
    split_ifs <;> rfl

/-- A grid whose only open cell is `(1, 1)` has the shape of a tree. -/
theorem MazeShape.single (g : Grid Bool)
    (h : ∀ x y : Int, g.get x y = true ↔ (x = 1 ∧ y = 1)) : MazeShape g := by
  refine ⟨?_, ?_, ?_, ?_⟩
  · intro x y hxy
    have := (h x y).1 hxy
    omega
  · intro x y hxy hx
    have := (h x y).1 hxy
    omega
  · intro x y hxy hy
    have := (h x y).1 hxy
    omega
  · intro a b ha hb
    have ha1 : a = ⟨1, 1⟩ := cell_ext _ _ ((h a.x a.y).1 ha).1 ((h a.x a.y).1 ha).2
    have hb1 : b = ⟨1, 1⟩ := cell_ext _ _ ((h b.x b.y).1 hb).1 ((h b.x b.y).1 hb).2
    rw [hb1, ← ha1]
    exact ⟨[a], simplePath_singleton g a ha, fun p hp => hp.eq_singleton⟩

theorem carveInit_inv {σ : Type} (w h : Nat) (rng : σ) (hw : 3 ≤ w) (hh : 3 ≤ h) :
    CarveInv w h ((w - 1) / 2) ((h - 1) / 2) (carveInit w h rng) := by
  have hW : 1 ≤ (w - 1) / 2 := by omega
  have hH : 1 ≤ (h - 1) / 2 := by omega
  have hg11 : (createGrid w h false).Has 1 1 := by
    unfold Grid.Has
    show (0 : Int) ≤ 1 ∧ (1 : Int) < (w : Int) ∧ (0 : Int) ≤ 1 ∧ (1 : Int) < (h : Int)
    omega
  have hv00 : (createGrid ((w - 1) / 2) ((h - 1) / 2) false).Has 0 0 := by
    unfold Grid.Has
    show (0 : Int) ≤ 0 ∧ (0 : Int) < (((w - 1) / 2 : Nat) : Int) ∧
      (0 : Int) ≤ 0 ∧ (0 : Int) < (((h - 1) / 2 : Nat) : Int)
    omega
  have hcg : ∀ (a b : Nat) (x y : Int), (createGrid a b false).get x y = false := by
    intro a b x y
    rw [createGrid_get]
    split_ifs <;> rfl
  have hgget : ∀ x y : Int, ((createGrid w h false).set 1 1 true).get x y = true ↔
      (x = 1 ∧ y = 1) := by
    intro x y
    rw [Grid.get_set_true _ _ _ _ _ hg11, hcg]
    simp
  have hvget : ∀ x y : Int,
      ((createGrid ((w - 1) / 2) ((h - 1) / 2) false).set 0 0 true).get x y = true ↔
      (x = 0 ∧ y = 0) := by
    intro x y
    rw [Grid.get_set_true _ _ _ _ _ hv00, hcg]
    simp
  unfold carveInit
  simp only []
  refine ⟨by rw [Grid.set_width]; rfl, by rw [Grid.set_height]; rfl,
    by rw [Grid.set_width]; rfl, by rw [Grid.set_height]; rfl, ?_, ?_,
    MazeShape.single _ hgget, ?_, ?_, (hvget 0 0).2 ⟨rfl, rfl⟩, ?_⟩
  · intro i j _ _ _ _
    rw [hvget, hgget]
    omega
  · intro x y hxy
    have := (hgget x y).1 hxy
    omega
  · intro nd hnd
    rw [List.mem_singleton] at hnd
    rw [hnd]
    simp only []
    exact ⟨by omega, (hvget 0 0).2 ⟨rfl, rfl⟩⟩
  · intro i j hij
    left
    exact ⟨⟨0, 0, none⟩, List.mem_singleton.2 rfl, ((hvget i j).1 hij).1.symm,
      ((hvget i j).1 hij).2.symm⟩
  · have h1 := openCount_set (createGrid w h false) 1 1 hg11 (hcg _ _ _ _)
    have h2 := unvisitedCount_set (createGrid ((w - 1) / 2) ((h - 1) / 2) false) 0 0 hv00
      (hcg _ _ _ _)
    rw [openCount_createGrid] at h1
    rw [unvisitedCount_createGrid] at h2
    show openCount ((createGrid w h false).set 1 1 true)
      + 2 * unvisitedCount ((createGrid ((w - 1) / 2) ((h - 1) / 2) false).set 0 0 true) + 1
      = 2 * ((w - 1) / 2 * ((h - 1) / 2))
    rw [h1]
    omega

/-- Popping a node without options keeps the invariant of the carver. -/
theorem carveInv_pop {σ : Type} (w h nodesW nodesH : Nat) (profile : Profile)
    (st : CarveState σ) (current : Node) (rest : List Node) (hst : st.stack = current :: rest)
    (hempty : (carveOptions st.visited nodesW nodesH profile current).isEmpty = true)
    (inv : CarveInv w h nodesW nodesH st) :
    CarveInv w h nodesW nodesH ⟨st.grid, st.visited, rest, st.rng⟩ := by
  have hnil : carveOptions st.visited nodesW nodesH profile current = [] :=
    List.isEmpty_iff.1 hempty
  unfold carveOptions at hnil
  rw [List.filterMap_eq_nil_iff] at hnil
  refine ⟨inv.gridW, inv.gridH, inv.visW, inv.visH, inv.node, inv.range, inv.shape, ?_, ?_,
    inv.origin, inv.count⟩
  · intro nd hnd
    exact inv.stack nd (by rw [hst]; exact List.mem_cons_of_mem _ hnd)
  · intro i j hij
    rcases inv.finished i j hij with ⟨nd, hnd, hx, hy⟩ | hall
    · rw [hst] at hnd
      rcases List.mem_cons.1 hnd with heq | hin
      · right
        intro d hd h1 h2 h3 h4
        have := hnil d hd
        simp only [] at this
        rw [heq] at hx hy
        rw [hx, hy] at this
        rw [if_neg (by omega)] at this
        by_contra hv
        rw [if_neg hv] at this
        exact Option.noConfusion this
      · exact Or.inl ⟨nd, hin, hx, hy⟩
    · exact Or.inr hall

/-- Advancing to a chosen option keeps the invariant of the carver. -/
theorem carveInv_advance {σ : Type} (w h nodesW nodesH : Nat) (hW : 2 * nodesW + 1 ≤ w)
    (hH : 2 * nodesH + 1 ≤ h) (profile : Profile) (st : CarveState σ) (current : Node)
    (rest : List Node) (hst : st.stack = current :: rest) (chosen : CarveOption)
    (hmem : chosen ∈ carveOptions st.visited nodesW nodesH profile current) (rng : σ)
    (inv : CarveInv w h nodesW nodesH st) :
    CarveInv w h nodesW nodesH (carveAdvance st current chosen rng) := by
  obtain ⟨hin, hv, hdir, hnx, hny⟩ := carveOptions_mem _ _ _ _ _ _ hmem
  obtain ⟨hcin, hcv⟩ := inv.stack current (by rw [hst]; exact List.mem_cons_self _ _)
  have hd4 := dir_cases chosen.dir hdir
  have hsx : Int.sign (1 + chosen.nx * 2 - (1 + current.x * 2)) = chosen.dir.dx := by
    rw [show 1 + chosen.nx * 2 - (1 + current.x * 2) = 2 * chosen.dir.dx by omega]
    exact sign_two_mul _ (by omega)
  have hsy : Int.sign (1 + chosen.ny * 2 - (1 + current.y * 2)) = chosen.dir.dy := by
    rw [show 1 + chosen.ny * 2 - (1 + current.y * 2) = 2 * chosen.dir.dy by omega]
    exact sign_two_mul _ (by omega)
  have hadv : carveAdvance st current chosen rng
      = ⟨(st.grid.set (1 + current.x * 2 + chosen.dir.dx) (1 + current.y * 2 + chosen.dir.dy)
            true).set (1 + chosen.nx * 2) (1 + chosen.ny * 2) true,
          st.visited.set chosen.nx chosen.ny true,
          ⟨chosen.nx, chosen.ny, some chosen.dir⟩ :: st.stack, rng⟩ := by
    unfold carveAdvance
    simp only []
    rw [hsx, hsy]
  rw [hadv]
  have hc : st.grid.get (1 + current.x * 2) (1 + current.y * 2) = true :=
    (inv.node current.x current.y hcin.1 hcin.2.1 hcin.2.2.1 hcin.2.2.2).1 hcv
  have ht : st.grid.get (1 + chosen.nx * 2) (1 + chosen.ny * 2) = false := by
    cases hval : st.grid.get (1 + chosen.nx * 2) (1 + chosen.ny * 2) with
    | false => rfl
    | true =>
      have := (inv.node chosen.nx chosen.ny hin.1 hin.2.1 hin.2.2.1 hin.2.2.2).2 hval
      rw [hv] at this
      exact absurd this (by decide)
  have hp : st.grid.Has (1 + current.x * 2 + chosen.dir.dx)
      (1 + current.y * 2 + chosen.dir.dy) := by
    unfold Grid.Has
    rw [inv.gridW, inv.gridH]
    omega
  have hT : st.grid.Has (1 + chosen.nx * 2) (1 + chosen.ny * 2) := by
    unfold Grid.Has
    rw [inv.gridW, inv.gridH]
    omega
  obtain ⟨hpc, hshape⟩ := inv.shape.open_passage (1 + current.x * 2) (1 + current.y * 2)
    chosen.dir.dx chosen.dir.dy (1 + current.x * 2 + chosen.dir.dx)
    (1 + current.y * 2 + chosen.dir.dy) (1 + chosen.nx * 2) (1 + chosen.ny * 2)
    hd4 rfl rfl (by omega) (by omega) (by omega) (by omega) hc ht hp hT
  have hT1 : (st.grid.set (1 + current.x * 2 + chosen.dir.dx)
      (1 + current.y * 2 + chosen.dir.dy) true).Has (1 + chosen.nx * 2) (1 + chosen.ny * 2) :=
    (Grid.has_congr st.grid _ (Grid.set_width _ _ _ _) (Grid.set_height _ _ _ _) _ _).2 hT
  have hget : ∀ x y : Int,
      ((st.grid.set (1 + current.x * 2 + chosen.dir.dx) (1 + current.y * 2 + chosen.dir.dy)
        true).set (1 + chosen.nx * 2) (1 + chosen.ny * 2) true).get x y = true ↔
      (st.grid.get x y = true ∨
        (x = 1 + current.x * 2 + chosen.dir.dx ∧ y = 1 + current.y * 2 + chosen.dir.dy) ∨
        (x = 1 + chosen.nx * 2 ∧ y = 1 + chosen.ny * 2)) := by
    intro x y
    rw [Grid.get_set_true _ _ _ _ _ hT1, Grid.get_set_true _ _ _ _ _ hp, or_assoc]
  have hvin : st.visited.Has chosen.nx chosen.ny := by
    unfold Grid.Has
    rw [inv.visW, inv.visH]
    exact hin
  have hvget : ∀ i j : Int, (st.visited.set chosen.nx chosen.ny true).get i j = true ↔
      (st.visited.get i j = true ∨ (i = chosen.nx ∧ j = chosen.ny)) :=
    fun i j => Grid.get_set_true _ _ _ _ _ hvin
  refine ⟨?_, ?_, ?_, ?_, ?_, ?_, hshape, ?_, ?_, ?_, ?_⟩
  · show (Grid.set _ _ _ _).width = w
    rw [Grid.set_width, Grid.set_width]; exact inv.gridW
  · show (Grid.set _ _ _ _).height = h
    rw [Grid.set_height, Grid.set_height]; exact inv.gridH
  · show (Grid.set _ _ _ _).width = nodesW
    rw [Grid.set_width]; exact inv.visW
  · show (Grid.set _ _ _ _).height = nodesH
    rw [Grid.set_height]; exact inv.visH
  · intro i j h1 h2 h3 h4
    show (st.visited.set chosen.nx chosen.ny true).get i j = true ↔ _
    rw [hvget]
    simp only []
    rw [hget]
    have := inv.node i j h1 h2 h3 h4
    constructor
    · rintro (hh | hh)
      · exact Or.inl (this.1 hh)
      · right; right; omega
    · rintro (hh | hh | hh)
      · exact Or.inl (this.2 hh)
      · exfalso; omega
      · right; omega
  · intro x y hxy
    simp only [] at hxy
    rcases (hget x y).1 hxy with hh | hh | hh
    · exact inv.range x y hh
    · omega
    · omega
  · intro nd hnd
    simp only [] at hnd ⊢
    rcases List.mem_cons.1 hnd with heq | hin2
    · rw [heq]
      exact ⟨hin, (hvget _ _).2 (Or.inr ⟨rfl, rfl⟩)⟩
    · exact ⟨(inv.stack nd hin2).1, (hvget _ _).2 (Or.inl (inv.stack nd hin2).2)⟩
  · intro i j hij
    simp only [] at hij ⊢
    rcases (hvget i j).1 hij with hh | hh
    · rcases inv.finished i j hh with ⟨nd, hnd, hx, hy⟩ | hall
      · exact Or.inl ⟨nd, List.mem_cons_of_mem _ hnd, hx, hy⟩
      · right
        intro d hd h1 h2 h3 h4
        exact (hvget _ _).2 (Or.inl (hall d hd h1 h2 h3 h4))
    · exact Or.inl ⟨⟨chosen.nx, chosen.ny, some chosen.dir⟩, List.mem_cons_self _ _,
        hh.1.symm, hh.2.symm⟩
  · exact (hvget 0 0).2 (Or.inl inv.origin)
  · simp only []
    have hpt : (st.grid.set (1 + current.x * 2 + chosen.dir.dx)
        (1 + current.y * 2 + chosen.dir.dy) true).get (1 + chosen.nx * 2) (1 + chosen.ny * 2)
        = false := by
      rw [Grid.get_set, if_neg (by omega)]
      exact ht
    rw [openCount_set _ _ _ hT1 hpt, openCount_set _ _ _ hp hpc]
    have h2 := unvisitedCount_set st.visited chosen.nx chosen.ny hvin hv
    have h3 := inv.count
    omega

theorem carveLoop_inv {σ : Type} [RandomSource σ] (w h nodesW nodesH : Nat)
    (hW : 2 * nodesW + 1 ≤ w) (hH : 2 * nodesH + 1 ≤ h) (profile : Profile) (fuel : Nat)
    (st : CarveState σ) (inv : CarveInv w h nodesW nodesH st) :
    CarveInv w h nodesW nodesH (carveLoop nodesW nodesH profile fuel st) := by
  induction fuel generalizing st with
  | zero => exact inv
  | succ fuel ih =>
    unfold carveLoop
    cases hst : st.stack with
    | nil => exact inv
    | cons current rest =>
      simp only []
      split_ifs with hempty
      · exact ih _ (carveInv_pop w h nodesW nodesH profile st current rest hst hempty inv)
      · cases hpick : pickWeighted CarveOption.weight
            (carveOptions st.visited nodesW nodesH profile current) st.rng with
        | mk c rng =>
          cases c with
          | none => exact inv
          | some chosen =>
            simp only []
            have hmem := pickWeighted_mem CarveOption.weight _ st.rng chosen
              (by rw [hpick])
            exact ih _ (carveInv_advance w h nodesW nodesH hW hH profile st current rest hst
              chosen hmem rng inv)

/-- When the carver has ended, every node of the lattice is marked. -/
theorem CarveInv.all_visited {σ : Type} {w h nodesW nodesH : Nat} {st : CarveState σ}
    (inv : CarveInv w h nodesW nodesH st) (hdone : st.stack = []) (i j : Int)
    (hi : 0 ≤ i) (hi2 : i < (nodesW : Int)) (hj : 0 ≤ j) (hj2 : j < (nodesH : Int)) :
    st.visited.get i j = true := by
  have hnb : ∀ a b : Int, st.visited.get a b = true → ∀ d ∈ DIRS, 0 ≤ a + d.dx →
      a + d.dx < (nodesW : Int) → 0 ≤ b + d.dy → b + d.dy < (nodesH : Int) →
      st.visited.get (a + d.dx) (b + d.dy) = true := by
    intro a b hab
    rcases inv.finished a b hab with ⟨nd, hnd, _⟩ | hall
    · rw [hdone] at hnd
      exact absurd hnd (List.not_mem_nil _)
    · exact hall
  have hrow : ∀ a : Nat, (a : Int) < (nodesW : Int) → st.visited.get (a : Int) 0 = true := by
    intro a
    induction a with
    | zero => intro _; exact inv.origin
    | succ a ih =>
      intro ha
      have h1 := hnb (a : Int) 0 (ih (by push_cast at ha; omega)) ⟨1, 0, 'R'⟩ (by decide)
        (by simp only []; omega) (by simp only []; push_cast at ha; omega)
        (by simp only []; omega) (by simp only []; omega)
      simp only [add_zero] at h1
      push_cast
      exact h1
  have hcol : ∀ b : Nat, (b : Int) < (nodesH : Int) → st.visited.get i (b : Int) = true := by
    intro b
    induction b with
    | zero =>
      intro _
      have := hrow i.toNat (by rw [Int.toNat_of_nonneg hi]; exact hi2)
      rw [Int.toNat_of_nonneg hi] at this
      exact this
    | succ b ih =>
      intro hb
      have h1 := hnb i (b : Int) (ih (by push_cast at hb; omega)) ⟨0, 1, 'D'⟩ (by decide)
        (by simp only []; omega) (by simp only []; omega)
        (by simp only []; omega) (by simp only []; push_cast at hb; omega)
      simp only [add_zero] at h1
      push_cast
      exact h1
  have := hcol j.toNat (by rw [Int.toNat_of_nonneg hj]; exact hj2)
  rw [Int.toNat_of_nonneg hj] at this
  exact this

/-- The state in which `carveWith` leaves its loop satisfies the invariant and
has an empty stack. -/
theorem carveWith_inv {σ : Type} [RandomSource σ] (w h : Nat) (rng : σ) (profile : Profile)
    (hw : 3 ≤ w) (hh : 3 ≤ h) :
    CarveInv w h ((w - 1) / 2) ((h - 1) / 2)
      (carveLoop ((w - 1) / 2) ((h - 1) / 2) profile (2 * ((w - 1) / 2 * ((h - 1) / 2)))
        (carveInit w h rng)) :=
  carveLoop_inv w h _ _ (by omega) (by omega) profile _ _ (carveInit_inv w h rng hw hh)

/-- In a grid whose open cells form a tree no simple path of three cells or
more ends next to its beginning. -/
theorem UniquePaths.no_cycle {g : Grid Bool} (ht : UniquePaths g) (p : List Cell)
    (hlen : 3 ≤ p.length) (hopen : ∀ c ∈ p, g.cell c = true) (hchain : StepChain p)
    (hnd : p.Nodup) (a b : Cell) (ha : p.head? = some a) (hb : p.getLast? = some b) :
    ¬ Adjacent b a := by
  intro hadj
  have hp : SimplePath g a b p := ⟨ha, hb, hopen, hchain, hnd⟩
  have haO : g.cell a = true := hopen a (List.mem_of_mem_head? ha)
  have hbO : g.cell b = true := hopen b (List.mem_of_getLast?_eq_some hb)
  have hne : a ≠ b := by
    intro heq
    rw [← heq] at hp
    have := hp.eq_singleton
    rw [this] at hlen
    simp at hlen
  have h2 : SimplePath g a b [a, b] := by
    refine ⟨rfl, rfl, ?_, ⟨hadj.symm, trivial⟩, ?_⟩
    · intro c hc
      simp only [List.mem_cons, List.mem_singleton, List.not_mem_nil, or_false] at hc
      rcases hc with h | h <;> rw [h] <;> assumption
    · simp [hne]
  obtain ⟨q, _, huniq⟩ := ht a b haO hbO
  have e1 := huniq p hp
  have e2 := huniq [a, b] h2
  rw [e1, ← e2] at hlen
  simp at hlen

/-- C18: on a grid at least three cells wide and high, for every profile and
every sample source, `carvePerfectMaze` returns a grid whose open cells form a
tree under 4-adjacency. The grid keeps its shape; the fine cell
`(1 + 2 x, 1 + 2 y)` of every lattice node is open; every open cell lies
strictly inside the border and is the end of a path of open cells from
`(1, 1)`; between any two open cells there is exactly one simple path; there
are `2 * nodesW * nodesH - 1` open cells; and no simple path of three cells or
more ends next to its beginning. -/
theorem carveWith_tree {σ : Type} [RandomSource σ] (w h : Nat) (rng : σ) (profile : Profile)
    (hw : 3 ≤ w) (hh : 3 ≤ h) :
    ((carveWith w h rng profile).1.width = w ∧ (carveWith w h rng profile).1.height = h) ∧
    (∀ x y : Int, 0 ≤ x → x < (((w - 1) / 2 : Nat) : Int) → 0 ≤ y →
      y < (((h - 1) / 2 : Nat) : Int) →
      (carveWith w h rng profile).1.get (1 + 2 * x) (1 + 2 * y) = true) ∧
    (∀ c : Cell, (carveWith w h rng profile).1.cell c = true →
      (carveWith w h rng profile).1.Interior c.x c.y ∧
      ∃ p : List Cell, SimplePath (carveWith w h rng profile).1 ⟨1, 1⟩ c p) ∧
    UniquePaths (carveWith w h rng profile).1 ∧
    openCount (carveWith w h rng profile).1 + 1 = 2 * ((w - 1) / 2 * ((h - 1) / 2)) ∧
    (∀ p : List Cell, 3 ≤ p.length →
      (∀ c ∈ p, (carveWith w h rng profile).1.cell c = true) → StepChain p → p.Nodup →
      ∀ a b : Cell, p.head? = some a → p.getLast? = some b → ¬ Adjacent b a) := by
  have inv := carveWith_inv w h rng profile hw hh
  have hdone := carveWith_terminates w h rng profile hw hh
  have hg : (carveWith w h rng profile).1
      = (carveLoop ((w - 1) / 2) ((h - 1) / 2) profile (2 * ((w - 1) / 2 * ((h - 1) / 2)))
        (carveInit w h rng)).grid := rfl
  rw [hg]
  generalize carveLoop ((w - 1) / 2) ((h - 1) / 2) profile (2 * ((w - 1) / 2 * ((h - 1) / 2)))
    (carveInit w h rng) = st at *
  have hvis := inv.all_visited hdone
  have hnode : ∀ x y : Int, 0 ≤ x → x < (((w - 1) / 2 : Nat) : Int) → 0 ≤ y →
      y < (((h - 1) / 2 : Nat) : Int) → st.grid.get (1 + 2 * x) (1 + 2 * y) = true := by
    intro x y h1 h2 h3 h4
    have := (inv.node x y h1 h2 h3 h4).1 (hvis x y h1 h2 h3 h4)
    rw [mul_comm 2 x, mul_comm 2 y]
    exact this
  have hstart : st.grid.cell ⟨1, 1⟩ = true := by
    have := hnode 0 0 (le_refl _) (by omega) (le_refl _) (by omega)
    exact this
  have hunv : unvisitedCount st.visited = 0 := by
    unfold unvisitedCount
    rw [Finset.card_eq_zero, Finset.filter_eq_empty_iff]
    intro q hq
    simp only [Finset.mem_product, Finset.mem_Ico] at hq
    rw [inv.visW, inv.visH] at hq
    rw [hvis q.1 q.2 hq.1.1 hq.1.2 hq.2.1 hq.2.2]
    decide
  have hcount := inv.count
  rw [hunv] at hcount
  refine ⟨⟨inv.gridW, inv.gridH⟩, hnode, ?_, inv.shape.tree, by omega,
    inv.shape.tree.no_cycle⟩
  intro c hc
  have hr := inv.range c.x c.y hc
  refine ⟨?_, ?_⟩
  · unfold Grid.Interior
    rw [inv.gridW, inv.gridH]
    omega
  · obtain ⟨p, hp, _⟩ := inv.shape.tree ⟨1, 1⟩ c hstart hc
    exact ⟨p, hp⟩

/-- The carver on the grid of side five with seed 1401 and the biases of the
first level. -/
theorem carveWith_tree_witness :
    (3 ≤ 5) ∧
    (((carvePerfectMaze 5 5 1401 ⟨F64.ofRat 12 10, F64.ofRat 108 100, F64.ofRat 11 10⟩).1.width
        = 5 ∧
      (carvePerfectMaze 5 5 1401 ⟨F64.ofRat 12 10, F64.ofRat 108 100, F64.ofRat 11 10⟩).1.height
        = 5) ∧
    (∀ x y : Int, 0 ≤ x → x < (((5 - 1) / 2 : Nat) : Int) → 0 ≤ y →
      y < (((5 - 1) / 2 : Nat) : Int) →
      (carvePerfectMaze 5 5 1401
        ⟨F64.ofRat 12 10, F64.ofRat 108 100, F64.ofRat 11 10⟩).1.get (1 + 2 * x) (1 + 2 * y)
        = true) ∧
    (∀ c : Cell, (carvePerfectMaze 5 5 1401
        ⟨F64.ofRat 12 10, F64.ofRat 108 100, F64.ofRat 11 10⟩).1.cell c = true →
      (carvePerfectMaze 5 5 1401
        ⟨F64.ofRat 12 10, F64.ofRat 108 100, F64.ofRat 11 10⟩).1.Interior c.x c.y ∧
      ∃ p : List Cell, SimplePath (carvePerfectMaze 5 5 1401
        ⟨F64.ofRat 12 10, F64.ofRat 108 100, F64.ofRat 11 10⟩).1 ⟨1, 1⟩ c p) ∧
    UniquePaths (carvePerfectMaze 5 5 1401
      ⟨F64.ofRat 12 10, F64.ofRat 108 100, F64.ofRat 11 10⟩).1 ∧
    openCount (carvePerfectMaze 5 5 1401
      ⟨F64.ofRat 12 10, F64.ofRat 108 100, F64.ofRat 11 10⟩).1 + 1
      = 2 * ((5 - 1) / 2 * ((5 - 1) / 2)) ∧
    (∀ p : List Cell, 3 ≤ p.length →
      (∀ c ∈ p, (carvePerfectMaze 5 5 1401
        ⟨F64.ofRat 12 10, F64.ofRat 108 100, F64.ofRat 11 10⟩).1.cell c = true) →
      StepChain p → p.Nodup →
      ∀ a b : Cell, p.head? = some a → p.getLast? = some b → ¬ Adjacent b a)) :=
  ⟨by decide, carveWith_tree 5 5 (seededRandom 1401)
    ⟨F64.ofRat 12 10, F64.ofRat 108 100, F64.ofRat 11 10⟩ (by decide) (by decide)⟩

/-! ## A tie of the exact goal scores -/

set_option maxRecDepth 1000000 in
/-- C13, as stated, fails on a tie of the exact scores: in the grid of height
`45` whose column `width - 2` is open in the rows `22` and `43` with distances
`1` and `8`, both rows have the exact score `33 / 40`, the greatest there is,
so the claim names row `22`; the code computes `1 - 0.5 * 0.35` as
`7430939385161318 * 2 ^ -53` and `8 - 20.5 * 0.35` as the greater
`928867423145165 * 2 ^ -50`, and returns row `43`. -/
theorem findGoalNearRight_tie_counterexample :
    (3 ≤ tieGrid.width ∧ 3 ≤ tieGrid.height ∧ tieDist.width = tieGrid.width ∧
      tieDist.height = tieGrid.height) ∧
    (GoalRow tieGrid tieDist 22 ∧ GoalRow tieGrid tieDist 43 ∧
      ∀ y : Int, GoalRow tieGrid tieDist y → y = 22 ∨ y = 43) ∧
    ((tieDist.get ((tieGrid.width : Int) - 2) 22 : ℚ)
        - 35 / 100 * |(22 : ℚ) - (tieGrid.height : ℚ) / 2| = 33 / 40 ∧
      (tieDist.get ((tieGrid.width : Int) - 2) 43 : ℚ)
        - 35 / 100 * |(43 : ℚ) - (tieGrid.height : ℚ) / 2| = 33 / 40) ∧
    (goalScore tieGrid tieDist 22 = F64.fin 7430939385161318 (-53) ∧
      goalScore tieGrid tieDist 43 = F64.fin 928867423145165 (-50) ∧
      F64.lt (goalScore tieGrid tieDist 22) (goalScore tieGrid tieDist 43) = true) ∧
    findGoalNearRight tieGrid tieDist = some ⟨1, 43, F64.fin 928867423145165 (-50), 8⟩ := by
  have hget : ∀ x y : Int, tieGrid.get x y = true ↔ (x = 1 ∧ (y = 22 ∨ y = 43)) := by
    intro x y
    have h1 : (createGrid 3 45 false).Has 1 22 := by decide
    have h2 : ((createGrid 3 45 false).set 1 22 true).Has 1 43 := by decide
    unfold tieGrid
    rw [Grid.get_set_true _ _ _ _ _ h2, Grid.get_set_true _ _ _ _ _ h1, createGrid_get]
    constructor
    · rintro ((h | h) | h)
      · split_ifs at h
      · exact ⟨h.1, Or.inl h.2⟩
      · exact ⟨h.1, Or.inr h.2⟩
    · rintro ⟨hx, hy | hy⟩
      · exact Or.inl (Or.inr ⟨hx, hy⟩)
      · exact Or.inr ⟨hx, hy⟩
  have hd22 : tieDist.get ((tieGrid.width : Int) - 2) 22 = 1 := by decide
  have hd43 : tieDist.get ((tieGrid.width : Int) - 2) 43 = 8 := by decide
  have hh : tieGrid.height = 45 := by decide
  refine ⟨⟨by decide, by decide, by decide, by decide⟩,
    ⟨⟨by decide, by decide⟩, ⟨by decide, by decide⟩, ?_⟩, ⟨?_, ?_⟩,
    ⟨by decide!, by decide!, by decide!⟩, by decide!⟩
  · intro y hy
    exact ((hget _ y).1 hy.1).2
  · rw [hd22, hh]
    norm_num [abs_of_neg]
  · rw [hd43, hh]
    norm_num [abs_of_pos]

end Labyrinth
